import Mathlib

/-!
# Verification of the jsonbuilder packed tree storage engine

A shallow embedding of the core of `microsoft/jsonbuilder`
(`src/JsonBuilder.cpp`, `src/PodVector.cpp`, `include/jsonbuilder/JsonBuilder.h`).

The arena (`PodVector<StoragePod>` with `StoragePod = uint32`) is modelled as a
`List Nat` of pods, each pod holding a 32-bit value.  A node at index `i`
occupies pods starting at `i`:

* pod `i`   : `m_nextIndex`
* pod `i+1` : `m_cchName` (low 24 bits) plus `m_type` (high 8 bits)
* pod `i+2` : `m_cbData` / `m_lastChildIndex` (union; absent for sentinels)
* pods `i+3 ..` : name bytes (little-endian packed), padding, data bytes, padding

C++ exceptions are modelled by an `Err` inductive; `std::terminate` on a
contract violation is `Err.fatalContract`.  Loops that follow `m_nextIndex`
links may diverge on corrupt data, so they take explicit fuel and return
`Option`/`Err.fuelOut` when the fuel is exhausted.  Uninitialized memory
obtained from `PodVector::resize` is modelled as zero-filled; no claim below
reads a byte that the C++ code leaves uninitialized, except for the padding
bytes inside a pod, which no claim observes.  Reads through a dangling pointer
into a freed (relocated) buffer are modelled by an explicit `garbage`
function, universally quantified in the theorems that touch it.
-/

namespace JsonBuilderModel

/-- `sizeof(JsonValue::StoragePod)` in bytes. -/
def storageSize : Nat := 4

/-- `JsonType` numeric values (enum in JsonBuilder.h; `JsonTypeBuiltIn = 244`). -/
def jsonUtf8 : Nat := 245

def jsonUInt : Nat := 246

def jsonInt : Nat := 247

def jsonFloat : Nat := 248

def jsonBool : Nat := 249

def jsonTime : Nat := 250

def jsonUuid : Nat := 251

def jsonNull : Nat := 252

def jsonHidden : Nat := 253

def jsonArray : Nat := 254

def jsonObject : Nat := 255

/-- `IS_COMPOSITE_TYPE(type)`: `JsonArray <= type`. -/
def isCompositeType (t : Nat) : Bool := 254 ≤ t

/-- `IS_NORMAL_TYPE(type)`: `type < JsonHidden`. -/
def isNormalType (t : Nat) : Bool := t < 253

/-- `IS_SPECIAL_TYPE(type)`: `JsonHidden <= type`. -/
def isSpecialType (t : Nat) : Bool := 253 ≤ t

/-- `DATA_OFFSET(cchName) = (cchName + sizeof(JsonValue) + (StorageSize-1)) / StorageSize`,
i.e. `(cchName + 12 + 3) / 4`, in pods. -/
def dataOffsetOf (cchName : Nat) : Nat := (cchName + 12 + 3) / 4

/-- `DataMax = 0xf0000000`: ceiling for `m_cbData`. -/
def dataMax : Nat := 0xf0000000

/-- Name-length ceiling: `m_cchName` is a 24-bit field, limit `0xffffff`. -/
def nameMax : Nat := 0xffffff

/-- `PodVector<StoragePod>::max_size()` on a 64-bit system:
`min(SIZE_MAX / 4, 0xFFFFFFFE) = 0xFFFFFFFE`. -/
def maxSize : Nat := 0xfffffffe

/-- The arena contents: a list of pods, each a 32-bit value. -/
abbrev Storage := List Nat

/-- Read pod `i` (reads are total here; bounds questions are handled where
the C++ code handles them, e.g. in the instrumented validator). -/
def podAt (s : Storage) (i : Nat) : Nat := s.getD i 0

/-- Write pod `i`. -/
def setPod (s : Storage) (i v : Nat) : Storage := s.set i v

/-- `m_nextIndex` of the node at index `i`. -/
def nextIdx (s : Storage) (i : Nat) : Nat := podAt s i

/-- `m_cchName` of the node at index `i` (low 24 bits of pod `i+1`). -/
def cchNameAt (s : Storage) (i : Nat) : Nat := podAt s (i + 1) % 2 ^ 24

/-- `m_type` of the node at index `i` (high 8 bits of pod `i+1`). -/
def typeAt (s : Storage) (i : Nat) : Nat := podAt s (i + 1) / 2 ^ 24 % 2 ^ 8

/-- `m_cbData` / `m_lastChildIndex` of the node at index `i` (pod `i+2`). -/
def auxAt (s : Storage) (i : Nat) : Nat := podAt s (i + 2)

/-- Write `m_nextIndex`. -/
def setNext (s : Storage) (i v : Nat) : Storage := setPod s i (v % 2 ^ 32)

/-- Write both bit-fields of pod `i+1` (`m_cchName` and `m_type`). -/
def setNameType (s : Storage) (i cch ty : Nat) : Storage :=
  setPod s (i + 1) (cch % 2 ^ 24 + ty % 2 ^ 8 * 2 ^ 24)

/-- Write only the `m_type` bit-field, preserving `m_cchName`
(this is what `value.m_type = JsonHidden;` compiles to). -/
def setType (s : Storage) (i ty : Nat) : Storage :=
  setPod s (i + 1) (podAt s (i + 1) % 2 ^ 24 + ty % 2 ^ 8 * 2 ^ 24)

/-- Write `m_cbData` / `m_lastChildIndex`. -/
def setAux (s : Storage) (i v : Nat) : Storage := setPod s (i + 2) (v % 2 ^ 32)

/-- `JsonValue::FirstChild`: `index + DATA_OFFSET(cchName)`. -/
def firstChild (s : Storage) (i : Nat) : Nat := i + dataOffsetOf (cchNameAt s i)

/-- `JsonBuilder::LastChild`: the parent's `m_lastChildIndex`. -/
def lastChild (s : Storage) (i : Nat) : Nat := auxAt s i

/-- Pack a little-endian 4-byte group into one pod (missing bytes are zero,
matching the zero-filled model of uninitialized padding). -/
def podOfBytes (bs : List Nat) : Nat :=
  bs.getD 0 0 % 256 + bs.getD 1 0 % 256 * 2 ^ 8 + bs.getD 2 0 % 256 * 2 ^ 16 +
    bs.getD 3 0 % 256 * 2 ^ 24

/-- Pack a byte string into pods (the layout of name/data regions). -/
def podsOfBytes (bs : List Nat) : List Nat :=
  match bs with
  | [] => []
  | b0 :: t0 =>
    match t0 with
    | [] => [podOfBytes [b0]]
    | b1 :: t1 =>
      match t1 with
      | [] => [podOfBytes [b0, b1]]
      | b2 :: t2 =>
        match t2 with
        | [] => [podOfBytes [b0, b1, b2]]
        | b3 :: t3 => podOfBytes [b0, b1, b2, b3] :: podsOfBytes t3

/-- Unpack one pod into its 4 little-endian bytes. -/
def bytesOfPod (p : Nat) : List Nat :=
  [p % 256, p / 2 ^ 8 % 256, p / 2 ^ 16 % 256, p / 2 ^ 24 % 256]

/-- The byte string stored in a pod list. -/
def bytesOfPods (ps : List Nat) : List Nat := ps.flatMap bytesOfPod

/-- Read `len` bytes starting at byte offset `off` of the storage. -/
def byteSlice (s : Storage) (off len : Nat) : List Nat :=
  ((bytesOfPods s).drop off).take len

/-- The name bytes of the node at index `i` (`JsonValue::Name`). -/
def nameBytes (s : Storage) (i : Nat) : List Nat :=
  byteSlice s (4 * i + 12) (cchNameAt s i)

/-- The payload bytes of the node at index `i` (`JsonValue::Data`). -/
def dataBytes (s : Storage) (i : Nat) : List Nat :=
  byteSlice s (4 * (i + dataOffsetOf (cchNameAt s i))) (auxAt s i)

/-- Overwrite pods starting at index `i` with `ps` (used for the `memcpy`
of name/data bytes into the freshly reserved region). -/
def overwriteAt (s : Storage) (i : Nat) (ps : List Nat) : Storage :=
  s.take i ++ ps ++ s.drop (i + ps.length)

/-- The error/abort conditions of the engine.  Comments give the C++ behavior:
exception type and `what()` message, or `std::terminate`. -/
inductive Err where
  /-- `std::invalid_argument "JsonBuilder - cchName too large"` -/
  | nameTooLarge
  /-- `std::invalid_argument "JsonBuilder - cbValue too large"` -/
  | valueTooLarge
  /-- `std::invalid_argument "JsonBuilder - too much data"` -/
  | tooMuchData
  /-- `std::length_error "JsonVector - exceeded maximum capacity"` -/
  | lengthError
  /-- `std::bad_alloc` -/
  | badAlloc
  /-- `std::invalid_argument "JsonBuilder - corrupt data"` -/
  | corruptData
  /-- `std::terminate()` after a failed assertion (programmer contract violation) -/
  | fatalContract
  /-- `std::invalid_argument "cbRawData invalid"` -/
  | rawDataInvalid
  /-- model artifact: an out-of-bounds storage read (the instrumented validator
  uses this; the theorems prove it is unreachable) -/
  | oobRead
  /-- model artifact: loop fuel exhausted (a `m_nextIndex` walk did not
  terminate within the fuel bound) -/
  | fuelOut
deriving DecidableEq, Repr

/-- The C++ exception classes used to surface the conditions in `Err`. -/
inductive ExcClass where
  | invalidArgument
  | lengthErrorExc
  | badAllocExc
  | terminateAbort
  | modelArtifact
deriving DecidableEq, Repr

/-- Which C++ exception class each condition surfaces as. -/
def excClassOf : Err → ExcClass
  | .nameTooLarge => .invalidArgument
  | .valueTooLarge => .invalidArgument
  | .tooMuchData => .invalidArgument
  | .lengthError => .lengthErrorExc
  | .badAlloc => .badAllocExc
  | .corruptData => .invalidArgument
  | .rawDataInvalid => .invalidArgument
  | .fatalContract => .terminateAbort
  | .oobRead => .modelArtifact
  | .fuelOut => .modelArtifact

def msgNameTooLarge : String := "JsonBuilder - cchName too large"

def msgValueTooLarge : String := "JsonBuilder - cbValue too large"

def msgTooMuchData : String := "JsonBuilder - too much data"

def msgCorruptData : String := "JsonBuilder - corrupt data"

def msgLengthError : String := "JsonVector - exceeded maximum capacity"

def msgRawDataInvalid : String := "cbRawData invalid"

def msgNone : String := ""

/-- The `what()` message carried by the thrown exception. -/
def excMsgOf : Err → String
  | .nameTooLarge => msgNameTooLarge
  | .valueTooLarge => msgValueTooLarge
  | .tooMuchData => msgTooMuchData
  | .lengthError => msgLengthError
  | .corruptData => msgCorruptData
  | .rawDataInvalid => msgRawDataInvalid
  | _ => msgNone

/-- The builder state: arena contents plus current capacity (in pods).
The capacity matters only for deciding whether a `resize` relocates. -/
structure Builder where
  pods : Storage
  cap : Nat
deriving DecidableEq, Repr

/-- The empty builder (`JsonBuilder()`). -/
def emptyBuilder : Builder := { pods := [], cap := 0 }

/-- The portable-fallback loop of `GetNewCapacity` for `minCapacity > 15`:
`cap = 31; while (cap < minCapacity) cap += cap + 1;`.  The `__builtin_clz`
and `_BitScanReverse` paths of PodVector.cpp compute the same value,
`0xFFFFFFFF >> clz(minCapacity)`, the smallest `2^N - 1 >= minCapacity`.
The C++ loop needs no fuel because `minCapacity` is a 32-bit value; the fuel
64 here covers every `minCapacity < 2^69`. -/
def growCap (minCapacity : Nat) : Nat → Nat → Nat
  | 0, cap => cap
  | fuel + 1, cap =>
    if cap < minCapacity then growCap minCapacity fuel (cap + cap + 1) else cap

/-- `PodVectorBase::GetNewCapacity(minCapacity, maxCapacity)` from
PodVector.cpp. -/
def getNewCapacity (minCapacity maxCapacity : Nat) : Except Err Nat :=
  let cap := if minCapacity ≤ 15 then 15 else growCap minCapacity 64 31
  if maxCapacity < cap then
    if maxCapacity < minCapacity then .error .lengthError
    else .ok maxCapacity
  else .ok cap

/-- `PodVector::resize(newSize)` (only ever called with `newSize >= size` here).
Returns the new builder and whether the buffer was reallocated (relocated).
New pods are uninitialized in C++; modelled as zeros. -/
def vecResize (b : Builder) (newSize : Nat) : Except Err (Builder × Bool) :=
  if b.cap < newSize then
    match getNewCapacity newSize maxSize with
    | .error e => .error e
    | .ok newCap =>
      .ok ({ pods := b.pods ++ List.replicate (newSize - b.pods.length) 0,
             cap := newCap }, true)
  else
    .ok ({ b with pods := b.pods ++ List.replicate (newSize - b.pods.length) 0 },
         false)

/-- A caller-supplied byte source: either bytes external to the arena, or a
pointer aliasing into the arena at a given byte offset (`base + off`). -/
inductive Src where
  | ext (bs : List Nat)
  | arena (off : Nat)
deriving DecidableEq, Repr

/-- Pad or truncate a byte string to exactly `len` bytes (a `memcpy` copies
exactly `len` bytes; bytes read beyond the tracked region are uninitialized,
modelled as zero). -/
def padTo (len : Nat) (bs : List Nat) : List Nat :=
  bs.take len ++ List.replicate (len - bs.length) 0

/-- Resolve a source to `len` bytes, after the resize has happened.
`oldBytesLen = valueIndex * StorageSize` is the extent of the old buffer that
the C++ aliasing check compares against (`pOldStorageData < p &&
p < pOldStorageData + valueIndex*StorageSize`, both strict).  If the buffer
relocated and the pointer falls inside that open interval, the pointer is
re-based onto the new buffer (whose prefix equals the old contents); if it
relocated and the pointer is not re-based, the read goes through a dangling
pointer into freed memory, modelled by `garbage`. -/
def resolveSrc (cur : Storage) (oldBytesLen : Nat) (relocated : Bool)
    (garbage : Nat → Nat) (len : Nat) : Src → List Nat
  | .ext bs => padTo len bs
  | .arena off =>
    if relocated then
      if 0 < off ∧ off < oldBytesLen then padTo len (byteSlice cur off len)
      else (List.range len).map fun k => garbage (off + k)
    else padTo len (byteSlice cur off len)

/-- `JsonBuilder::CreateValue(name, type, cbData, pbData)`.

Returns the result (new node's index, or the thrown error) together with the
builder state at that point — on a throw the C++ object keeps whatever
mutations already happened (here: none, since all throws precede the resize
or happen inside it before any mutation). -/
def createValue (b : Builder) (name : Src) (cchNm : Nat) (ty : Nat)
    (cbData0 : Nat) (data : Option Src) (garbage : Nat → Nat) :
    Except Err Nat × Builder :=
  if nameMax < cchNm then (.error .nameTooLarge, b)
  else if dataMax < cbData0 then (.error .valueTooLarge, b)
  else
    let tyb := ty % 2 ^ 8
    let cbData := if isCompositeType tyb then 8 else cbData0
    let valueIndex := b.pods.length
    let dataIndex := (valueIndex + dataOffsetOf cchNm) % 2 ^ 32
    let newStorageSize := (dataIndex + (cbData + 3) / 4) % 2 ^ 32
    if newStorageSize ≤ valueIndex then (.error .tooMuchData, b)
    else
      match vecResize b newStorageSize with
      | .error e => (.error e, b)
      | .ok (b1, relocated) =>
        let s1 := setNameType (setNext b1.pods valueIndex 0) valueIndex cchNm tyb
        let nm := resolveSrc s1 (4 * valueIndex) relocated garbage cchNm name
        let s2 := overwriteAt s1 (valueIndex + 3) (podsOfBytes nm)
        if isCompositeType tyb then
          let s3 := setAux s2 valueIndex dataIndex
          let s4 := setNext s3 dataIndex (nextIdx s3 0)
          let s5 := setNameType s4 dataIndex 0 jsonHidden
          let s6 := setNext s5 0 dataIndex
          (.ok valueIndex, { b1 with pods := s6 })
        else
          let s3 := setAux s2 valueIndex cbData
          match data with
          | none => (.ok valueIndex, { b1 with pods := s3 })
          | some d =>
            let db := resolveSrc s3 (4 * valueIndex) relocated garbage cbData d
            let s4 := overwriteAt s3 dataIndex (podsOfBytes db)
            (.ok valueIndex, { b1 with pods := s4 })

/-- `JsonBuilder::EnsureRootExists()`. -/
def ensureRootExists (b : Builder) (garbage : Nat → Nat) :
    Except Err Unit × Builder :=
  if b.pods.isEmpty then
    match createValue b (.ext []) 0 jsonObject 0 none garbage with
    | (.ok _, b1) => (.ok (), b1)
    | (.error e, b1) => (.error e, b1)
  else (.ok (), b)

/-- `JsonBuilder::AddValue(front, itParent, name, type, cbData, pbData)`.
`ValidateIterator` is a container-identity check plus a debug assert and has no
release-mode effect for a same-container iterator; `ValidateParentIterator`
calls `std::terminate()` when the parent is not composite. -/
def addValue (b : Builder) (front : Bool) (parentIdx : Nat) (name : Src)
    (cchNm : Nat) (ty cb : Nat) (data : Option Src) (garbage : Nat → Nat) :
    Except Err Nat × Builder :=
  match ensureRootExists b garbage with
  | (.error e, b1) => (.error e, b1)
  | (.ok _, b1) =>
    if ¬ isCompositeType (typeAt b1.pods parentIdx) then (.error .fatalContract, b1)
    else
      match createValue b1 name cchNm ty cb data garbage with
      | (.error e, b2) => (.error e, b2)
      | (.ok newIndex, b2) =>
        let s := b2.pods
        let firstC := firstChild s parentIdx
        let lastC := auxAt s parentIdx
        let sp :=
          if front then
            if firstC = lastC then (setAux s parentIdx newIndex, firstC)
            else (s, firstC)
          else (setAux s parentIdx newIndex, lastC)
        let s1 := sp.1
        let prevIndex := sp.2
        let s2 := setNext s1 newIndex (nextIdx s1 prevIndex)
        let s3 := setNext s2 prevIndex newIndex
        (.ok newIndex, { b2 with pods := s3 })

/-- `JsonBuilder::clear()` (keeps the allocated capacity). -/
def clearB (b : Builder) : Builder := { b with pods := [] }

/-- Single-node `JsonBuilder::erase(itValue)` (the storage effect;
the returned `itValue+1` iterator is `nextVisible` below). -/
def eraseAt (b : Builder) (i : Nat) : Except Err Unit × Builder :=
  if i = 0 then (.error .fatalContract, b)
  else (.ok (), { b with pods := setType b.pods i jsonHidden })

/-- Range `JsonBuilder::erase(itBegin, itEnd)`: hide every node from `i`
up to (not including) `j`, following `m_nextIndex`. -/
def eraseRange (b : Builder) (fuel : Nat) (i j : Nat) :
    Except Err Unit × Builder :=
  match fuel with
  | 0 => (.error .fuelOut, b)
  | fuel + 1 =>
    if i = j then (.ok (), b)
    else if i = 0 then (.error .fatalContract, b)
    else
      let s := setType b.pods i jsonHidden
      eraseRange { b with pods := s } fuel (nextIdx s i) j

/-- `JsonBuilder::NextIndex`: follow `m_nextIndex`, skipping Hidden nodes. -/
def nextVisible (s : Storage) : Nat → Nat → Option Nat
  | 0, _ => none
  | fuel + 1, i =>
    let j := nextIdx s i
    if typeAt s j ≠ jsonHidden then some j else nextVisible s fuel j

/-- Skip-Hidden loop of `cbegin()`: starting AT `i`, find the first
non-Hidden node. -/
def skipHidden (s : Storage) : Nat → Nat → Option Nat
  | 0, _ => none
  | fuel + 1, i =>
    if typeAt s i ≠ jsonHidden then some i else skipHidden s fuel (nextIdx s i)

/-- `JsonBuilder::cbegin()`: index 0 when empty, else the first non-Hidden
node after the root. -/
def cbeginIdx (s : Storage) : Option Nat :=
  if s.isEmpty then some 0 else skipHidden s (s.length + 1) (nextIdx s 0)

/-- The whole-tree iteration sequence: indices of the visible nodes visited by
`begin() .. end()` in order.  This is the observable node order. -/
def iterFrom (s : Storage) : Nat → Nat → Option (List Nat)
  | 0, _ => none
  | fuel + 1, i =>
    if i = 0 then some []
    else
      match nextVisible s (s.length + 1) i with
      | none => none
      | some j => (iterFrom s fuel j).map fun l => i :: l

def iterSeq (s : Storage) : Option (List Nat) :=
  (cbeginIdx s).bind (iterFrom s (s.length + 1))

/-- `JsonBuilder::CanIterateOver`. -/
def canIterateOver (s : Storage) (i : Nat) : Bool :=
  ¬ s.isEmpty ∧ isCompositeType (typeAt s i)

/-- Inner loop of `JsonBuilder::count`: walk from `index` to `lastIdx`
(inclusive), counting non-Hidden nodes. -/
def countLoop (s : Storage) (lastIdx : Nat) : Nat → Nat → Nat → Option Nat
  | 0, _, _ => none
  | fuel + 1, index, acc =>
    let acc2 := if typeAt s index ≠ jsonHidden then acc + 1 else acc
    if index = lastIdx then some acc2
    else countLoop s lastIdx fuel (nextIdx s index) acc2

/-- `JsonBuilder::count(itParent)`. -/
def countB (b : Builder) (parentIdx : Nat) : Option Nat :=
  if canIterateOver b.pods parentIdx then
    let firstC := firstChild b.pods parentIdx
    let lastC := lastChild b.pods parentIdx
    if firstC = lastC then some 0
    else countLoop b.pods lastC (b.pods.length + 1) (nextIdx b.pods firstC) 0
  else some 0

/-- Inner loop of `JsonBuilder::FindImpl`: `some 0` means "no match". -/
def findLoop (s : Storage) (nm : List Nat) (lastIdx : Nat) :
    Nat → Nat → Option Nat
  | 0, _ => none
  | fuel + 1, index =>
    if typeAt s index ≠ jsonHidden ∧ nameBytes s index = nm then some index
    else if index = lastIdx then some 0
    else findLoop s nm lastIdx fuel (nextIdx s index)

/-- `JsonBuilder::FindImpl(parentIndex, name)`. -/
def findImpl (s : Storage) (parentIdx : Nat) (nm : List Nat) : Option Nat :=
  if ¬ s.isEmpty ∧ isCompositeType (typeAt s parentIdx) then
    let firstC := firstChild s parentIdx
    let lastC := lastChild s parentIdx
    if firstC = lastC then some 0
    else findLoop s nm lastC (s.length + 1) (nextIdx s firstC)
  else some 0

/-- The variadic `JsonBuilder::Find(parentIndex, firstName, ...)`:
`Find(parent) = parent`; `Find(parent, n, rest...) = let c = FindImpl(parent, n);
c != 0 ? Find(c, rest...) : 0`. -/
def findPath (s : Storage) (parentIdx : Nat) : List (List Nat) → Option Nat
  | [] => some parentIdx
  | nm :: rest =>
    match findImpl s parentIdx nm with
    | none => none
    | some c => if c ≠ 0 then findPath s c rest else some 0

/-! ## Splice (JsonBuilder.h, `JsonBuilder::Splice`)

During the loop, `pTailIndex` points either at the local `headIndex` variable
or at the `m_nextIndex` field of the last moved node; this is modelled by
`Option Nat` (`none` = the local variable, `some t` = node `t`'s field). -/

/-- Read `*pTailIndex`. -/
def readTail (s : Storage) (headIndex : Nat) : Option Nat → Nat
  | none => headIndex
  | some t => nextIdx s t

/-- The `for(;;)` loop of `Splice`.  State: storage, `prevIndex`, `headIndex`,
tail location.  Returns the state after `break`.  The `AssertNotEnd` on
`currentIndex` is a debug assert only, so index 0 is processed like any other
node; divergence is cut by fuel. -/
def spliceLoop (pred : Storage → Nat → Bool) (lastIndex oldParentIdx : Nat) :
    Nat → Storage → Nat → Nat → Option Nat →
    Option (Storage × Nat × Option Nat)
  | 0, _, _, _, _ => none
  | fuel + 1, s, prevIndex, headIndex, tailLoc =>
    let currentIndex := nextIdx s prevIndex
    if typeAt s currentIndex ≠ jsonHidden ∧ pred s currentIndex then
      let s1 := setNext s prevIndex (nextIdx s currentIndex)
      let st2 :=
        match tailLoc with
        | none => (s1, currentIndex)
        | some t => (setNext s1 t currentIndex, headIndex)
      let s3 := setNext st2.1 currentIndex currentIndex
      if currentIndex = lastIndex then
        some (setAux s3 oldParentIdx prevIndex, st2.2, some currentIndex)
      else
        spliceLoop pred lastIndex oldParentIdx fuel s3 prevIndex st2.2
          (some currentIndex)
    else
      if currentIndex = lastIndex then some (s, headIndex, tailLoc)
      else spliceLoop pred lastIndex oldParentIdx fuel s currentIndex headIndex
        tailLoc

/-- `JsonBuilder::Splice(front, itOldParent, itNewParent, pred)`. -/
def splice (b : Builder) (front : Bool) (oldP newP : Nat)
    (pred : Storage → Nat → Bool) : Except Err Builder :=
  if canIterateOver b.pods oldP then
    if ¬ isCompositeType (typeAt b.pods newP) then .error .fatalContract
    else
      let s := b.pods
      let prevIndex0 := firstChild s oldP
      let lastIndex := auxAt s oldP
      if prevIndex0 ≠ lastIndex then
        match spliceLoop pred lastIndex oldP (s.length + 1) s prevIndex0 0 none with
        | none => .error .fuelOut
        | some (s1, headIndex, tailLoc) =>
          if headIndex ≠ 0 then
            let sp :=
              if front then
                let p2 := firstChild s1 newP
                if p2 = auxAt s1 newP then
                  (setAux s1 newP (readTail s1 headIndex tailLoc), p2)
                else (s1, p2)
              else
                (setAux s1 newP (readTail s1 headIndex tailLoc), auxAt s1 newP)
            let s2 := sp.1
            let prev2 := sp.2
            let s3 :=
              match tailLoc with
              | none => s2
              | some t => setNext s2 t (nextIdx s2 prev2)
            let s4 := setNext s3 prev2 headIndex
            .ok { b with pods := s4 }
          else .ok { b with pods := s1 }
      else .ok b
  else .ok b

/-- `splice_front(itOldParent, itNewParent)` with the always-true predicate. -/
def spliceFront (b : Builder) (oldP newP : Nat) : Except Err Builder :=
  splice b true oldP newP fun _ _ => true

/-- `splice_back(itOldParent, itNewParent, pred)`. -/
def spliceBack (b : Builder) (oldP newP : Nat) (pred : Storage → Nat → Bool) :
    Except Err Builder :=
  splice b false oldP newP pred

/-! ## Validator (JsonBuilder.cpp, `JsonBuilder::Validator`)

The 2-bit-per-pod map is modelled with one list entry per pod (values 0..3);
the C++ packs four entries per byte, which is an addressing detail.  Storage
reads are instrumented: they go through `readPod` which fails with
`Err.oobRead` if the index is out of bounds, so "the validator never reads
out of bounds" is the theorem `validate s ≠ .error .oobRead`. -/

/-- `ValidationState` values. -/
def valNone : Nat := 0

def valTail : Nat := 1

def valHead : Nat := 2

def valReached : Nat := 3

/-- Instrumented storage read. -/
def readPod (s : Storage) (i : Nat) : Except Err Nat :=
  if i < s.length then .ok (podAt s i) else .error .oobRead

/-- `Validator::UpdateMap(index, expectedVal, newVal)`.  The C++ checks
`m_size <= index` before touching the map (short-circuit `||`). -/
def updateMap (sz : Nat) (m : List Nat) (index expectedVal newVal : Nat) :
    Except Err (List Nat) :=
  if sz ≤ index then .error .corruptData
  else if m.getD index 0 ≠ expectedVal then .error .corruptData
  else .ok (m.set index (m.getD index 0 ||| newVal))

/-- Mark pods `base + a .. base + b - 1` as Tail. -/
def markTails (sz : Nat) (m : List Nat) (base a b : Nat) :
    Except Err (List Nat) :=
  (List.range' a (b - a)).foldlM (fun mm i => updateMap sz mm (base + i) valNone valTail) m

/-- Pass 1 of `Validator::Validate`: the do-while loop over the flat linked
list starting at index 0. -/
def pass1 (s : Storage) (sz : Nat) : Nat → List Nat → Nat → Except Err (List Nat)
  | 0, _, _ => .error .fuelOut
  | fuel + 1, m, index => do
    let m1 ← updateMap sz m index valNone valHead
    let m2 ← updateMap sz m1 (index + 1) valNone valTail
    let hdr ← readPod s (index + 1)
    let ty := hdr / 2 ^ 24 % 2 ^ 8
    let cch := hdr % 2 ^ 24
    let m3 ←
      if ty ≠ jsonHidden then do
        let nameEnd := dataOffsetOf cch
        let m3a ← markTails sz m2 index 2 nameEnd
        if isNormalType ty then do
          let cb ← readPod s (index + 2)
          if dataMax < cb then throw .corruptData
          else markTails sz m3a index nameEnd (nameEnd + (cb + 3) / 4)
        else pure m3a
      else pure m2
    let nxt ← readPod s index
    if nxt = 0 then pure m3 else pass1 s sz fuel m3 nxt

mutual

/-- `Validator::ValidateRecurse(parent)`: validate the sentinel first child,
then walk the sibling chain up to `m_lastChildIndex`. -/
def pass2 (s : Storage) (sz : Nat) : Nat → List Nat → Nat → Except Err (List Nat)
  | 0, _, _ => .error .fuelOut
  | fuel + 1, m, parent => do
    let hdrP ← readPod s (parent + 1)
    let lastC ← readPod s (parent + 2)
    let child := parent + dataOffsetOf (hdrP % 2 ^ 24)
    let m1 ← updateMap sz m child valHead valReached
    let hdrC ← readPod s (child + 1)
    if hdrC / 2 ^ 24 % 2 ^ 8 ≠ jsonHidden then throw .corruptData
    else pass2Loop s sz fuel m1 child lastC

/-- The `while (child != pParent->m_lastChildIndex)` loop of
`ValidateRecurse`. -/
def pass2Loop (s : Storage) (sz : Nat) :
    Nat → List Nat → Nat → Nat → Except Err (List Nat)
  | 0, _, _, _ => .error .fuelOut
  | fuel + 1, m, child, lastC =>
    if child = lastC then pure m
    else do
      let nxt ← readPod s child
      let m1 ← updateMap sz m nxt valHead valReached
      let hdrC ← readPod s (nxt + 1)
      let m2 ←
        if isCompositeType (hdrC / 2 ^ 24 % 2 ^ 8) then pass2 s sz fuel m1 nxt
        else pure m1
      pass2Loop s sz fuel m2 nxt lastC

end

/-- `Validator::Validate()` on a non-empty storage. -/
def validate (s : Storage) : Except Err Unit := do
  let sz := s.length
  let m0 := List.replicate sz 0
  let m1 ← pass1 s sz (sz + 2) m0 0
  let m2 ← updateMap sz m1 0 valHead valReached
  let hdr0 ← readPod s 1
  if hdr0 % 2 ^ 24 ≠ 0 ∨ hdr0 / 2 ^ 24 % 2 ^ 8 ≠ jsonObject then
    throw .corruptData
  else do
    let _ ← pass2 s sz (sz + 2) m2 0
    pure ()

/-- `JsonBuilder::ValidateData()`: validate only when non-empty. -/
def validateData (s : Storage) : Except Err Unit :=
  if s.isEmpty then .ok () else validate s

/-- The buffer-loading constructor
`JsonBuilder(pbRawData, cbRawData, validateData)`, consuming the bytes
produced by `buffer_data()`/`buffer_size()` (which are exactly the pods).
`cbRawData` is `4 * ps.length`, so the `% StorageSize` check always passes;
the `max_size` check is kept. -/
def fromRawData (ps : Storage) (doValidate : Bool) : Except Err Builder :=
  if ps.length > maxSize then .error .rawDataInvalid
  else if doValidate then
    match validateData ps with
    | .error e => .error e
    | .ok _ => .ok { pods := ps, cap := ps.length }
  else .ok { pods := ps, cap := ps.length }

/-! ## JsonImplementType conversions (JsonBuilder.cpp, `ConvertTo` family)

A leaf value, as seen by the accessors, is its type tag plus payload bytes.
`float`/`double` payloads are modelled exactly: a floating-point value is
either a rational (every finite IEEE value is one), an infinity, or NaN. -/

/-- A value handed to `GetUnchecked` / `ConvertTo`: type tag plus payload. -/
structure JVal where
  ty : Nat
  data : List Nat
deriving DecidableEq, Repr

/-- `JsonValue::DataSize()`. -/
def dataSizeJ (v : JVal) : Nat := v.data.length

/-- Little-endian value of a byte list. -/
def leNat (bs : List Nat) : Nat := bs.foldr (fun b acc => b % 256 + 256 * acc) 0

/-- Two's-complement interpretation at width `w` bits. -/
def toSigned (u w : Nat) : Int :=
  if u % 2 ^ w < 2 ^ (w - 1) then (u % 2 ^ w : Int)
  else (u % 2 ^ w : Int) - 2 ^ w

/-- An IEEE floating-point value, exactly. -/
inductive FloatVal where
  | finite (q : ℚ)
  | inf (neg : Bool)
  | nan
deriving DecidableEq, Repr

/-- Decode an IEEE binary64 from 8 little-endian bytes. -/
def decodeF64 (bs : List Nat) : FloatVal :=
  let u : Nat := leNat (bs.take 8)
  let sign : Nat := u / 2 ^ 63 % 2
  let ex : Nat := u / 2 ^ 52 % 2 ^ 11
  let man : Nat := u % 2 ^ 52
  if ex = 2047 then if man = 0 then .inf (sign = 1) else .nan
  else
    let mag : ℚ :=
      if ex = 0 then (man : ℚ) / 2 ^ 1074
      else ((2 ^ 52 + man : Nat) : ℚ) * 2 ^ ex / 2 ^ 1075
    .finite (if sign = 1 then -mag else mag)

/-- Decode an IEEE binary32 from 4 little-endian bytes (conversion of a
`float` to `double` is exact, so the result is the same `FloatVal`). -/
def decodeF32 (bs : List Nat) : FloatVal :=
  let u : Nat := leNat (bs.take 4)
  let sign : Nat := u / 2 ^ 31 % 2
  let ex : Nat := u / 2 ^ 23 % 2 ^ 8
  let man : Nat := u % 2 ^ 23
  if ex = 255 then if man = 0 then .inf (sign = 1) else .nan
  else
    let mag : ℚ :=
      if ex = 0 then (man : ℚ) / 2 ^ 149
      else ((2 ^ 23 + man : Nat) : ℚ) * 2 ^ ex / 2 ^ 150
    .finite (if sign = 1 then -mag else mag)

/-- `2 ^ e` as a rational, for integer `e`. -/
def qpow2 (e : Int) : ℚ :=
  if 0 ≤ e then ((2 : ℚ) ^ e.toNat) else 1 / (2 : ℚ) ^ (-e).toNat

/-- Round `n / d` (with `d > 0`) to the nearest integer, ties to even. -/
def rneNat (n d : Nat) : Nat :=
  let k := n / d
  let r := n % d
  if 2 * r < d then k
  else if d < 2 * r then k + 1
  else if k % 2 = 0 then k else k + 1

/-- Floor of `log2` of a positive rational. -/
def ratLog2 (q : ℚ) : Int :=
  let e0 : Int := (Nat.log2 q.num.toNat : Int) - (Nat.log2 q.den : Int)
  if q < qpow2 e0 then e0 - 1 else e0

/-- Round a rational to an IEEE format (`prec` significand bits, minimum
normal exponent `emin`, maximum exponent `emax`), round-to-nearest-even,
overflowing to infinity.  This is what a C++ cast to `float`/`double` does. -/
def roundToFormat (prec : Nat) (emin emax : Int) (q : ℚ) : FloatVal :=
  if q = 0 then .finite 0
  else
    let neg := q < 0
    let a := |q|
    let e := ratLog2 a
    let t : Int := max (e - (prec - 1 : Nat)) (emin - (prec - 1 : Nat))
    let scaled := a / qpow2 t
    let m := rneNat scaled.num.toNat scaled.den
    if m = 0 then .finite 0
    else
      let val : ℚ := (m : ℚ) * qpow2 t
      if qpow2 (emax + 1) ≤ val then .inf neg
      else .finite (if neg then -val else val)

/-- `static_cast<double>` of a `uint64`. -/
def castU64ToDouble (n : Nat) : FloatVal := roundToFormat 53 (-1022) 1023 (n : ℚ)

/-- `static_cast<double>` of an `int64`. -/
def castI64ToDouble (i : Int) : FloatVal := roundToFormat 53 (-1022) 1023 (i : ℚ)

/-- `static_cast<float>` of a `double`. -/
def castDoubleToFloat : FloatVal → FloatVal
  | .finite q => roundToFormat 24 (-126) 127 q
  | .inf b => .inf b
  | .nan => .nan

/-- `q ≤ f` for a double `f` and an exact constant `q`. -/
def fvGE (q : ℚ) : FloatVal → Bool
  | .finite x => q ≤ x
  | .inf neg => ¬ neg
  | .nan => false

/-- `f < q` for a double `f` and an exact constant `q`. -/
def fvLT (q : ℚ) : FloatVal → Bool
  | .finite x => x < q
  | .inf neg => neg
  | .nan => false

/-- Truncation (`static_cast` to an integer type) of a nonnegative in-range
double. -/
def fvTruncNat : FloatVal → Nat
  | .finite q => q.floor.toNat
  | _ => 0

/-- Truncation toward zero of an in-range double. -/
def fvTruncInt : FloatVal → Int
  | .finite q => if 0 ≤ q then q.floor else -((-q).floor)
  | _ => 0

/-- `JsonImplementType<bool>::GetUnchecked`. -/
def getUncheckedBool (v : JVal) : Bool :=
  match dataSizeJ v with
  | 1 => leNat (v.data.take 1) ≠ 0
  | 4 => leNat (v.data.take 4) ≠ 0
  | _ => false

/-- `GetUncheckedJsonUInt`. -/
def getUncheckedUInt (v : JVal) : Nat :=
  match dataSizeJ v with
  | 1 => leNat (v.data.take 1)
  | 2 => leNat (v.data.take 2)
  | 4 => leNat (v.data.take 4)
  | 8 => leNat (v.data.take 8)
  | _ => 0

/-- `GetUncheckedJsonInt`. -/
def getUncheckedInt (v : JVal) : Int :=
  match dataSizeJ v with
  | 1 => toSigned (leNat (v.data.take 1)) 8
  | 2 => toSigned (leNat (v.data.take 2)) 16
  | 4 => toSigned (leNat (v.data.take 4)) 32
  | 8 => toSigned (leNat (v.data.take 8)) 64
  | _ => 0

/-- `JsonImplementType<double>::GetUnchecked`. -/
def getUncheckedFloat (v : JVal) : FloatVal :=
  match dataSizeJ v with
  | 4 => decodeF32 v.data
  | 8 => decodeF64 v.data
  | _ => .finite 0

/-- `JsonImplementType<bool>::ConvertTo`: `(success, result)`. -/
def convertToBool (v : JVal) : Bool × Bool :=
  if v.ty = jsonBool then (true, getUncheckedBool v) else (false, false)

/-- `JsonImplementType<unsigned long long>::ConvertTo`.
`UnsignedHuge = 18446744073709551616.0 = 2^64` exactly. -/
def convertToU64 (v : JVal) : Bool × Nat :=
  if v.ty = jsonUInt then (true, getUncheckedUInt v)
  else if v.ty = jsonInt then
    let u := (getUncheckedInt v).emod (2 ^ 64) |>.toNat
    if u < 2 ^ 63 then (true, u) else (false, 0)
  else if v.ty = jsonFloat then
    let f := getUncheckedFloat v
    if fvGE 0 f ∧ fvLT (2 ^ 64) f then (true, fvTruncNat f) else (false, 0)
  else (false, 0)

/-- `JsonImplementType<signed long long>::ConvertTo`.
`SignedHuge = 9223372036854775808.0 = 2^63` exactly. -/
def convertToI64 (v : JVal) : Bool × Int :=
  if v.ty = jsonInt then (true, getUncheckedInt v)
  else if v.ty = jsonUInt then
    let i := toSigned (getUncheckedUInt v) 64
    if 0 ≤ i then (true, i) else (false, 0)
  else if v.ty = jsonFloat then
    let f := getUncheckedFloat v
    if fvGE (-(2 ^ 63)) f ∧ fvLT (2 ^ 63) f then (true, fvTruncInt f)
    else (false, 0)
  else (false, 0)

/-- The `ConvertToJsonUInt<T>` template, for `T` of byte width `w`:
succeed iff the 64-bit conversion succeeds and the value fits in `w` bytes. -/
def convertToUIntW (w : Nat) (v : JVal) : Bool × Nat :=
  let r := convertToU64 v
  if r.1 ∧ r.2 ≤ 2 ^ (8 * w) - 1 then (true, r.2) else (false, 0)

/-- The `ConvertToJsonInt<T>` template, for `T` of byte width `w`. -/
def convertToIntW (w : Nat) (v : JVal) : Bool × Int :=
  let r := convertToI64 v
  if r.1 ∧ (w = 8 ∨ (r.2 < 2 ^ (8 * w - 1) ∧ -(2 ^ (8 * w - 1) : Int) ≤ r.2))
  then (true, r.2) else (false, 0)

/-- `JsonImplementType<double>::ConvertTo`. -/
def convertToDouble (v : JVal) : Bool × FloatVal :=
  if v.ty = jsonUInt then (true, castU64ToDouble (getUncheckedUInt v))
  else if v.ty = jsonInt then (true, castI64ToDouble (getUncheckedInt v))
  else if v.ty = jsonFloat then (true, getUncheckedFloat v)
  else (false, .finite 0)

/-- The `ConvertToJsonFloat<float>` template:
`result = static_cast<float>(implResult)` regardless of success. -/
def convertToFloat32 (v : JVal) : Bool × FloatVal :=
  let r := convertToDouble v
  (r.1, castDoubleToFloat r.2)

/-- `JsonImplementType<string_view>::ConvertTo`. -/
def convertToStringView (v : JVal) : Bool × List Nat :=
  if v.ty = jsonUtf8 then (true, v.data) else (false, [])

/-- `JsonImplementType<time_point>::ConvertTo`; a time point is its
`int64` tick count, `time_point{}` is 0. -/
def convertToTimePoint (v : JVal) : Bool × Int :=
  if v.ty = jsonTime then
    (true, if dataSizeJ v = 8 then toSigned (leNat (v.data.take 8)) 64 else 0)
  else (false, 0)

/-- `JsonImplementType<UuidStruct>::ConvertTo`; the C++ copies 16 payload
bytes (reading past a shorter payload is modelled as zeros);
`k_emptyUuid` is all-zero. -/
def convertToUuid (v : JVal) : Bool × List Nat :=
  if v.ty = jsonUuid then
    (true, v.data.take 16 ++ List.replicate (16 - v.data.length) 0)
  else (false, List.replicate 16 0)

/-- `JsonImplementType<TimeStruct>::ConvertTo` (present in the second
revision of JsonBuilder.cpp in this repository); a `TimeStruct` is its
64-bit `Value()`, `TimeStruct()` is 0. -/
def convertToTimeStruct (v : JVal) : Bool × Nat :=
  if v.ty = jsonTime then (true, leNat (v.data.take 8)) else (false, 0)

/-! ## Chain walking (specification helpers)

`walkTo` follows `m_nextIndex` from `cur` until it reaches `stop`, returning
the visited nodes (including both endpoints); this is the walk performed by
`count`, `FindImpl`, `erase(begin,end)`, `Splice` and pass 2 of the
validator. -/

def walkTo (s : Storage) : Nat → Nat → Nat → Option (List Nat)
  | 0, _, _ => none
  | fuel + 1, cur, stop =>
    if cur = stop then some [cur]
    else (walkTo s fuel (nextIdx s cur) stop).map fun l => cur :: l

/-- The linked-list children of composite `p`: the chain from the node after
the sentinel through `m_lastChildIndex`, or `[]` when the parent's only
linked child is its sentinel. -/
def childChain (s : Storage) (p : Nat) : Option (List Nat) :=
  if firstChild s p = lastChild s p then some []
  else walkTo s (s.length + 1) (nextIdx s (firstChild s p)) (lastChild s p)

/-- The visible (non-Hidden) children of composite `p`, in order. -/
def visChildren (s : Storage) (p : Nat) : Option (List Nat) :=
  (childChain s p).map fun l => l.filter fun i => typeAt s i ≠ jsonHidden

/-- Pairwise separation of node indices: any two of them are at least 2 pods
apart, so no node's header pod overlaps another's first two pods. -/
def NodesSep (ns : List Nat) : Prop :=
  ns.Pairwise fun a b => a + 2 ≤ b ∨ b + 2 ≤ a

instance (ns : List Nat) : Decidable (NodesSep ns) :=
  inferInstanceAs (Decidable (ns.Pairwise fun a b => a + 2 ≤ b ∨ b + 2 ≤ a))

/-! ## Example states (used by witnesses and counterexamples)

All of these are reachable from the empty builder via the public
operations. -/

/-- A fixed "freed memory" read function for examples. -/
def gzero : Nat → Nat := fun _ => 0

/-- Root with one Utf8 leaf named "y" (byte 121) with payload `[1, 2]`;
the leaf is at index 5. -/
def exYBuilder : Builder :=
  (addValue emptyBuilder false 0 (.ext [121]) 1 jsonUtf8 2 (some (.ext [1, 2]))
    gzero).2

/-- `exYBuilder` with its only child erased. -/
def exErased : Builder := (eraseAt exYBuilder 5).2

/-- Just the lazily-created root object. -/
def exRootOnly : Builder := (ensureRootExists emptyBuilder gzero).2

/-! ## C9: the arena growth policy -/

theorem growCap_least (minC : Nat) :
    ∀ (fuel j : Nat), 0 < j → minC ≤ 2 ^ (j + fuel) - 1 →
      ∃ N, growCap minC fuel (2 ^ j - 1) = 2 ^ N - 1 ∧ minC ≤ 2 ^ N - 1 ∧
        j ≤ N ∧ (∀ M, j ≤ M → minC ≤ 2 ^ M - 1 → N ≤ M) := by
  intro fuel
  induction fuel with
  | zero =>
    intro j hj hle
    exact ⟨j, rfl, by simpa using hle, le_refl j, fun M hjM _ => hjM⟩
  | succ fuel ih =>
    intro j hj hle
    by_cases hlt : 2 ^ j - 1 < minC
    · unfold growCap
      rw [if_pos hlt]
      have hp : 0 < 2 ^ j := Nat.pos_pow_of_pos j (by norm_num)
      have h2 : 2 ^ j - 1 + (2 ^ j - 1) + 1 = 2 ^ (j + 1) - 1 := by
        have : 2 ^ (j + 1) = 2 ^ j * 2 := pow_succ 2 j
        omega
      rw [h2]
      have hle2 : minC ≤ 2 ^ (j + 1 + fuel) - 1 := by
        have : j + (fuel + 1) = j + 1 + fuel := by omega
        rwa [this] at hle
      obtain ⟨N, hN, hNle, hjN, hmin⟩ := ih (j + 1) (by omega) hle2
      refine ⟨N, hN, hNle, by omega, ?_⟩
      intro M hjM hMle
      rcases Nat.eq_or_lt_of_le hjM with heq | hMgt
      · subst heq
        omega
      · exact hmin M (by omega) hMle
    · unfold growCap
      rw [if_neg hlt]
      exact ⟨j, rfl, by omega, le_refl j, fun M hjM _ => hjM⟩

/-- C9: for `minCapacity ≤ maxCapacity` with `15 ≤ maxCapacity` (and
`minCapacity` in the 32-bit domain of `size_type`), `GetNewCapacity` returns
15 when `minCapacity ≤ 15` and otherwise the smallest value of the form
`2^N - 1` that is at least `minCapacity`, in all cases capped at
`maxCapacity`; when `maxCapacity < minCapacity` it raises the length error
instead of returning. -/
theorem getNewCapacity_spec (minC maxC : Nat) (hsize : minC < 2 ^ 32) :
    (minC ≤ maxC → 15 ≤ maxC →
      ∃ N, getNewCapacity minC maxC = .ok (min (2 ^ N - 1) maxC) ∧
        minC ≤ 2 ^ N - 1 ∧ (minC ≤ 15 → 2 ^ N - 1 = 15) ∧
        (15 < minC → ∀ M, minC ≤ 2 ^ M - 1 → N ≤ M)) ∧
    (maxC < minC → getNewCapacity minC maxC = .error .lengthError) := by
  have hfuel : minC ≤ 2 ^ (5 + 64) - 1 := by
    have : (2 : Nat) ^ 32 ≤ 2 ^ 69 :=
      Nat.pow_le_pow_right (by norm_num) (by norm_num)
    omega
  constructor
  · intro h1 h2
    by_cases hle : minC ≤ 15
    · refine ⟨4, ?_, by omega, fun _ => by norm_num,
        fun h15 => absurd hle (by omega)⟩
      unfold getNewCapacity
      simp only [hle, if_true]
      rw [if_neg (by omega), Nat.min_eq_left (by omega)]
      norm_num
    · obtain ⟨N, hN, hNle, hjN, hmin⟩ := growCap_least minC 64 5 (by omega) hfuel
      have hN31 : growCap minC 64 31 = 2 ^ N - 1 := by
        have h31 : (31 : Nat) = 2 ^ 5 - 1 := by norm_num
        rw [h31, hN]
      refine ⟨N, ?_, hNle, fun h => absurd h hle, ?_⟩
      · unfold getNewCapacity
        simp only [hle, if_false]
        rw [hN31]
        by_cases hc : maxC < 2 ^ N - 1
        · rw [if_pos hc, if_neg (by omega), Nat.min_eq_right (by omega)]
        · rw [if_neg hc, Nat.min_eq_left (by omega)]
      · intro _ M hM
        have h5M : 5 ≤ M := by
          by_contra hM5
          have hM4 : M ≤ 4 := by omega
          have : (2 : Nat) ^ M ≤ 2 ^ 4 :=
            Nat.pow_le_pow_right (by norm_num) hM4
          omega
        exact hmin M h5M hM
  · intro h
    unfold getNewCapacity
    by_cases hle : minC ≤ 15
    · simp only [hle, if_true]
      rw [if_pos (by omega), if_pos h]
    · obtain ⟨N, hN, hNle, hjN, hmin⟩ := growCap_least minC 64 5 (by omega) hfuel
      have hN31 : growCap minC 64 31 = 2 ^ N - 1 := by
        have h31 : (31 : Nat) = 2 ^ 5 - 1 := by norm_num
        rw [h31, hN]
      simp only [hle, if_false]
      rw [hN31, if_pos (by omega), if_pos h]

/-- Witness for C9 at concrete inputs. -/
theorem getNewCapacity_spec_witness :
    (∃ N, getNewCapacity 20 1000 = .ok (min (2 ^ N - 1) 1000)) ∧
      getNewCapacity 20 10 = .error .lengthError := by
  constructor
  · obtain ⟨N, hN, -⟩ :=
      (getNewCapacity_spec 20 1000 (by norm_num)).1 (by norm_num) (by norm_num)
    exact ⟨N, hN⟩
  · exact (getNewCapacity_spec 20 10 (by norm_num)).2 (by norm_num)

/-! ## C7: FirstChild = LastChild versus emptiness -/

/-- C7 (amended): in every builder state and for every parent,
`FirstChild(parent) = LastChild(parent)` implies that the parent has no
visible children (`count(parent) = 0`).  The converse direction of the
original claim is refuted by `count_firstChild_counterexample`: after erasing
all of a parent's children, `count` is 0 but `lastChildIndex` still points at
the (hidden) last child, not at the sentinel. -/
theorem firstChild_eq_lastChild_count_zero (b : Builder) (p : Nat)
    (h : firstChild b.pods p = lastChild b.pods p) : countB b p = some 0 := by
  unfold countB
  split
  · simp [h]
  · rfl

/-- Witness for the amended C7 on the lazily-created root. -/
theorem firstChild_eq_lastChild_count_zero_witness :
    countB exRootOnly 0 = some 0 :=
  firstChild_eq_lastChild_count_zero exRootOnly 0 (by decide)

/-- C7 counterexample: a state reachable by insert + erase in which
`count(root) = 0` yet `FirstChild(root) ≠ LastChild(root)`, refuting the
claimed equivalence. -/
theorem count_firstChild_counterexample :
    countB exErased 0 = some 0 ∧
      firstChild exErased.pods 0 ≠ lastChild exErased.pods 0 := by decide

/-! ## C6: path find -/

/-- C6 (amended): `find(root, x, y)` agrees with `find(find(root, x), y)`
whenever the first segment matches (`FindImpl(root, x)` is not the no-match
answer 0), and the variadic find returns the no-match value `end()` (index 0)
whenever either path segment is absent.  When the first segment is absent,
the two sides genuinely differ (`findPath_restart_counterexample`): the inner
find returns `end()`, whose index is the root again, so the outer find
restarts at the root. -/
theorem findPath_spec (s : Storage) (x y : List Nat) :
    (findImpl s 0 x ≠ some 0 →
      findPath s 0 [x, y] =
        (findPath s 0 [x]).bind fun c => findPath s c [y]) ∧
    (findImpl s 0 x = some 0 → findPath s 0 [x, y] = some 0) ∧
    (∀ c, findImpl s 0 x = some c → findImpl s c y = some 0 →
      findPath s 0 [x, y] = some 0) := by
  refine ⟨?_, ?_, ?_⟩
  · intro h
    cases hfi : findImpl s 0 x with
    | none => simp [findPath, hfi]
    | some c =>
      have hc : c ≠ 0 := fun h0 => h (h0 ▸ hfi)
      cases hy : findImpl s c y with
      | none => simp [findPath, hfi, hc, hy]
      | some c2 =>
        by_cases h2 : c2 = 0 <;> simp [findPath, hfi, hc, hy, h2]
  · intro h
    unfold findPath
    simp [h]
  · intro c h1 h2
    by_cases hc : c = 0
    · simp [findPath, h1, hc]
    · simp [findPath, h1, hc, h2]

/-- Witness for the amended C6 on a tree containing `{"y": ...}`:
the segment "y" (121) is present, so the two-step and one-step finds agree. -/
theorem findPath_spec_witness :
    findPath exYBuilder.pods 0 [[121], [120]] =
      (findPath exYBuilder.pods 0 [[121]]).bind
        fun c => findPath exYBuilder.pods c [[120]] :=
  (findPath_spec exYBuilder.pods [121] [120]).1 (by decide)

/-- C6 counterexample: in the tree `{"y": ...}` with x = "x" (120),
y = "y" (121), `find(root, x, y)` is `end()` but `find(find(root, x), y)`
finds the node at index 5, because the inner no-match `end()` re-roots the
outer search.  This refutes the unconditional equality. -/
theorem findPath_restart_counterexample :
    findPath exYBuilder.pods 0 [[120], [121]] = some 0 ∧
      ((findPath exYBuilder.pods 0 [[120]]).bind
        fun c => findPath exYBuilder.pods c [[121]]) = some 5 ∧
      (0 : Nat) ≠ 5 := by decide

/-! ## C8: size-limit failures are distinct conditions and leave the
observable state unchanged -/

/-- The five pods of the lazily-created root object:
`[next = 3 (sentinel), cch 0 | Object, lastChild = 3, sentinel next = 0,
sentinel cch 0 | Hidden]`. -/
def rootPods : Storage := [3, 255 * 2 ^ 24, 3, 0, 253 * 2 ^ 24]

theorem ensureRoot_empty (cap : Nat) (g : Nat → Nat) :
    ensureRootExists ⟨[], cap⟩ g =
      (.ok (), ⟨rootPods, if cap < 5 then 15 else cap⟩) := by
  by_cases hc : cap < 5 <;>
    simp [ensureRootExists, createValue, vecResize, getNewCapacity, maxSize,
      dataOffsetOf, isCompositeType, jsonObject, jsonHidden, nameMax, dataMax,
      setNameType, setNext, setAux, setPod, podAt, nextIdx, overwriteAt,
      resolveSrc, podsOfBytes, rootPods, hc]

theorem ensureRoot_nonempty (b : Builder) (g : Nat → Nat) (h : b.pods ≠ []) :
    ensureRootExists b g = (.ok (), b) := by
  unfold ensureRootExists
  rw [if_neg (by simpa [List.isEmpty_iff] using h)]

theorem createValue_nameTooLarge (b : Builder) (name : Src) (cch ty cb : Nat)
    (data : Option Src) (g : Nat → Nat) (h : nameMax < cch) :
    createValue b name cch ty cb data g = (.error .nameTooLarge, b) := by
  simp [createValue, h]

theorem createValue_valueTooLarge (b : Builder) (name : Src) (cch ty cb : Nat)
    (data : Option Src) (g : Nat → Nat) (h1 : ¬ nameMax < cch)
    (h2 : dataMax < cb) :
    createValue b name cch ty cb data g = (.error .valueTooLarge, b) := by
  simp [createValue, h1, h2]

/-- C8: an insertion whose name exceeds 16,777,215 bytes fails with the
"cchName too large" condition, one whose payload exceeds 0xF0000000 bytes
fails with the "cbValue too large" condition; both are `invalid_argument`
conditions whose messages differ from the corrupt-data message and which are
distinct from out-of-memory (`bad_alloc`); and the failed insertion leaves
the observable state unchanged — for a non-empty builder the state is exactly
the old one, and for an empty builder only the (observationally empty) lazy
root object has been materialized, so iteration still sees no nodes. -/
theorem addValue_size_limit_spec (b : Builder) (front : Bool) (p : Nat)
    (name : Src) (cch ty cb : Nat) (data : Option Src) (g : Nat → Nat)
    (hpar : isCompositeType (typeAt ((ensureRootExists b g).2).pods p)) :
    (nameMax < cch →
      addValue b front p name cch ty cb data g =
        (.error .nameTooLarge, (ensureRootExists b g).2)) ∧
    (cch ≤ nameMax → dataMax < cb →
      addValue b front p name cch ty cb data g =
        (.error .valueTooLarge, (ensureRootExists b g).2)) ∧
    (b.pods ≠ [] → (ensureRootExists b g).2 = b) ∧
    (b.pods = [] → ((ensureRootExists b g).2).pods = rootPods) ∧
    iterSeq rootPods = some [] ∧
    excClassOf .nameTooLarge = .invalidArgument ∧
    excClassOf .valueTooLarge = .invalidArgument ∧
    excClassOf .badAlloc ≠ .invalidArgument ∧
    Err.nameTooLarge ≠ Err.badAlloc ∧ Err.valueTooLarge ≠ Err.badAlloc ∧
    Err.nameTooLarge ≠ Err.corruptData ∧ Err.valueTooLarge ≠ Err.corruptData ∧
    excMsgOf Err.nameTooLarge ≠ excMsgOf Err.corruptData ∧
    excMsgOf Err.valueTooLarge ≠ excMsgOf Err.corruptData := by
  have hroot : (ensureRootExists b g).1 = .ok () := by
    rcases b with ⟨pods, cap⟩
    cases pods with
    | nil => rw [ensureRoot_empty]
    | cons a t => rw [ensureRoot_nonempty _ g (by simp)]
  refine ⟨?_, ?_, ?_, ?_, by decide, by decide, by decide, by decide,
    by decide, by decide, by decide, by decide, by decide, by decide⟩
  · intro h
    unfold addValue
    rcases hE : ensureRootExists b g with ⟨r1, b1⟩
    cases r1 with
    | error e => exact absurd (congrArg Prod.fst hE ▸ hroot) (by simp)
    | ok u =>
      rw [hE] at hpar
      simp only at hpar
      simp [hpar, createValue_nameTooLarge b1 name cch ty cb data g h]
  · intro h1 h2
    unfold addValue
    rcases hE : ensureRootExists b g with ⟨r1, b1⟩
    cases r1 with
    | error e => exact absurd (congrArg Prod.fst hE ▸ hroot) (by simp)
    | ok u =>
      rw [hE] at hpar
      simp only at hpar
      simp [hpar, createValue_valueTooLarge b1 name cch ty cb data g (by omega) h2]
  · intro h
    rw [ensureRoot_nonempty b g h]
  · intro h
    rcases b with ⟨pods, cap⟩
    simp only at h
    subst h
    rw [ensureRoot_empty]

/-- Witness for C8: an insertion with a 0x1000000-byte name into the empty
builder fails with the name-size condition and leaves iteration empty. -/
theorem addValue_size_limit_spec_witness :
    addValue emptyBuilder false 0 (.ext []) (2 ^ 24) jsonUtf8 0 none gzero =
      (.error .nameTooLarge, (ensureRootExists emptyBuilder gzero).2) ∧
    iterSeq ((ensureRootExists emptyBuilder gzero).2).pods = some [] := by
  constructor
  · exact (addValue_size_limit_spec emptyBuilder false 0 (.ext []) (2 ^ 24)
      jsonUtf8 0 none gzero (by decide)).1 (by norm_num [nameMax])
  · have h := (addValue_size_limit_spec emptyBuilder false 0 (.ext []) (2 ^ 24)
      jsonUtf8 0 none gzero (by decide))
    rw [h.2.2.2.1 rfl]
    exact h.2.2.2.2.1

/-! ## C10: failed conversions set the default value -/

theorem convertToDouble_default (v : JVal)
    (h : (convertToDouble v).1 = false) : (convertToDouble v).2 = .finite 0 := by
  unfold convertToDouble at h ⊢
  split_ifs at h ⊢ <;> simp_all

/-- C10: for every value and every supported target type, a failed
`ConvertTo` sets the result to the default value of the target type —
numeric zero, `false`, the empty string view, a zero-filled UUID, or the
default time point — never leaving stale data behind. -/
theorem convertTo_default_on_failure (v : JVal) :
    ((convertToBool v).1 = false → (convertToBool v).2 = false) ∧
    ((convertToU64 v).1 = false → (convertToU64 v).2 = 0) ∧
    ((convertToI64 v).1 = false → (convertToI64 v).2 = 0) ∧
    (∀ w, (convertToUIntW w v).1 = false → (convertToUIntW w v).2 = 0) ∧
    (∀ w, (convertToIntW w v).1 = false → (convertToIntW w v).2 = 0) ∧
    ((convertToDouble v).1 = false → (convertToDouble v).2 = .finite 0) ∧
    ((convertToFloat32 v).1 = false → (convertToFloat32 v).2 = .finite 0) ∧
    ((convertToStringView v).1 = false → (convertToStringView v).2 = []) ∧
    ((convertToTimePoint v).1 = false → (convertToTimePoint v).2 = 0) ∧
    ((convertToUuid v).1 = false →
      (convertToUuid v).2 = List.replicate 16 0) ∧
    ((convertToTimeStruct v).1 = false → (convertToTimeStruct v).2 = 0) := by
  refine ⟨?_, ?_, ?_, ?_, ?_, convertToDouble_default v, ?_, ?_, ?_, ?_, ?_⟩
  · unfold convertToBool
    split_ifs <;> simp
  · unfold convertToU64
    dsimp only
    split_ifs <;> simp
  · unfold convertToI64
    dsimp only
    split_ifs <;> simp
  · intro w
    unfold convertToUIntW
    dsimp only
    split_ifs <;> simp
  · intro w
    unfold convertToIntW
    dsimp only
    split_ifs <;> simp
  · intro h
    unfold convertToFloat32 at h ⊢
    simp only at h ⊢
    rw [convertToDouble_default v h]
    simp [castDoubleToFloat, roundToFormat]
  · unfold convertToStringView
    split_ifs <;> simp
  · unfold convertToTimePoint
    split_ifs <;> simp
  · unfold convertToUuid
    split_ifs <;> simp
  · unfold convertToTimeStruct
    split_ifs <;> simp

/-- Witness for C10: converting a Null value to each target fails and yields
the default. -/
theorem convertTo_default_on_failure_witness :
    (convertToBool ⟨jsonNull, []⟩).2 = false ∧
    (convertToU64 ⟨jsonNull, []⟩).2 = 0 ∧
    (convertToUIntW 4 ⟨jsonNull, []⟩).2 = 0 ∧
    (convertToStringView ⟨jsonNull, []⟩).2 = [] ∧
    (convertToUuid ⟨jsonNull, []⟩).2 = List.replicate 16 0 := by
  have h := convertTo_default_on_failure ⟨jsonNull, []⟩
  exact ⟨h.1 (by decide), h.2.1 (by decide), h.2.2.2.1 4 (by decide),
    h.2.2.2.2.2.2.2.1 (by decide), h.2.2.2.2.2.2.2.2.2.1 (by decide)⟩

/-! ## Frame lemmas for single-pod writes -/

theorem length_setPod (s : Storage) (i v : Nat) :
    (setPod s i v).length = s.length := by
  simp [setPod]

theorem podAt_setPod_ne (s : Storage) {i j : Nat} (v : Nat) (h : i ≠ j) :
    podAt (setPod s i v) j = podAt s j := by
  simp [podAt, setPod, List.getD_eq_getElem?_getD, List.getElem?_set_ne h]

theorem podAt_setPod_self (s : Storage) {i : Nat} (v : Nat)
    (h : i < s.length) : podAt (setPod s i v) i = v := by
  simp [podAt, setPod, List.getD_eq_getElem?_getD,
    List.getElem?_set_eq_of_lt v h]

theorem length_setType (s : Storage) (k ty : Nat) :
    (setType s k ty).length = s.length := length_setPod ..

theorem podAt_setType_ne (s : Storage) {k j : Nat} (ty : Nat)
    (h : j ≠ k + 1) : podAt (setType s k ty) j = podAt s j :=
  podAt_setPod_ne s _ (fun he => h he.symm)

theorem nextIdx_setType (s : Storage) {k i : Nat} (ty : Nat)
    (h : i ≠ k + 1) : nextIdx (setType s k ty) i = nextIdx s i :=
  podAt_setType_ne s ty h

theorem typeAt_setType_ne (s : Storage) {k m : Nat} (ty : Nat)
    (h : m ≠ k) : typeAt (setType s k ty) m = typeAt s m := by
  unfold typeAt
  rw [podAt_setType_ne s ty (by omega)]

theorem cchNameAt_setType_ne (s : Storage) {k m : Nat} (ty : Nat)
    (h : m ≠ k) : cchNameAt (setType s k ty) m = cchNameAt s m := by
  unfold cchNameAt
  rw [podAt_setType_ne s ty (by omega)]

theorem auxAt_setType_ne (s : Storage) {k m : Nat} (ty : Nat)
    (h : m + 1 ≠ k) : auxAt (setType s k ty) m = auxAt s m := by
  unfold auxAt
  rw [podAt_setType_ne s ty (by omega)]

theorem addmul_field_extract (a b : Nat) (ha : a < 2 ^ 24) (hb : b < 2 ^ 8) :
    (a + b * 2 ^ 24) / 2 ^ 24 % 2 ^ 8 = b ∧ (a + b * 2 ^ 24) % 2 ^ 24 = a := by
  constructor
  · rw [Nat.add_mul_div_right _ _ (by norm_num : 0 < 2 ^ 24),
      Nat.div_eq_of_lt ha, Nat.zero_add, Nat.mod_eq_of_lt hb]
  · rw [Nat.add_mul_mod_self_right, Nat.mod_eq_of_lt ha]

theorem typeAt_setType_self (s : Storage) {k : Nat} (ty : Nat)
    (h : k + 1 < s.length) : typeAt (setType s k ty) k = ty % 2 ^ 8 := by
  unfold typeAt setType
  rw [podAt_setPod_self s _ h]
  exact (addmul_field_extract _ _ (Nat.mod_lt _ (by norm_num))
    (Nat.mod_lt _ (by norm_num))).1

theorem cchNameAt_setType_self (s : Storage) {k : Nat} (ty : Nat)
    (h : k + 1 < s.length) : cchNameAt (setType s k ty) k = cchNameAt s k := by
  unfold cchNameAt setType
  rw [podAt_setPod_self s _ h]
  rw [(addmul_field_extract _ _ (Nat.mod_lt _ (by norm_num))
    (Nat.mod_lt _ (by norm_num))).2]

theorem firstChild_setType (s : Storage) {k p : Nat} (ty : Nat)
    (h : p ≠ k) : firstChild (setType s k ty) p = firstChild s p := by
  unfold firstChild
  rw [cchNameAt_setType_ne s ty h]

theorem isEmpty_setType (s : Storage) (k ty : Nat) :
    (setType s k ty).isEmpty = s.isEmpty := by
  rcases s with _ | ⟨x, t⟩
  · rfl
  · rfl

theorem canIterateOver_setType (s : Storage) {k p : Nat} (ty : Nat)
    (h : p ≠ k) : canIterateOver (setType s k ty) p = canIterateOver s p := by
  unfold canIterateOver
  rw [typeAt_setType_ne s ty h, isEmpty_setType]

/-! ## walkTo / childChain under type flips -/

theorem walkTo_setType (s : Storage) (k ty : Nat) :
    ∀ (f cur stop : Nat) (L : List Nat), walkTo s f cur stop = some L →
      (∀ m ∈ L, m ≠ k + 1) →
      walkTo (setType s k ty) f cur stop = some L := by
  intro f
  induction f with
  | zero => intro cur stop L h; simp [walkTo] at h
  | succ f ih =>
    intro cur stop L h hm
    unfold walkTo at h ⊢
    by_cases he : cur = stop
    · rw [if_pos he] at h ⊢
      exact h
    · rw [if_neg he] at h ⊢
      rcases hrec : walkTo s f (nextIdx s cur) stop with _ | L2
      · rw [hrec] at h
        simp at h
      · rw [hrec] at h
        simp only [Option.map_some', Option.some.injEq] at h
        have hcur : cur ≠ k + 1 := by
          apply hm
          rw [← h]
          exact List.mem_cons_self ..
        rw [nextIdx_setType s ty hcur, ih _ _ L2 hrec]
        · rw [← h]
          rfl
        · intro m hmem
          apply hm
          rw [← h]
          exact List.mem_cons_of_mem _ hmem

theorem childChain_setType (s : Storage) {p k : Nat} (ty : Nat) (L : List Nat)
    (hchain : childChain s p = some L)
    (hkp : k ≠ p ∧ k ≠ p + 1)
    (hkf : k + 1 ≠ firstChild s p)
    (hkL : ∀ m ∈ L, m ≠ k + 1) :
    childChain (setType s k ty) p = some L := by
  unfold childChain at hchain ⊢
  rw [firstChild_setType s ty (by omega)]
  have hlast : lastChild (setType s k ty) p = lastChild s p :=
    auxAt_setType_ne s ty (by omega)
  rw [hlast]
  by_cases he : firstChild s p = lastChild s p
  · rw [if_pos he] at hchain ⊢
    exact hchain
  · rw [if_neg he] at hchain ⊢
    rw [length_setType, nextIdx_setType s ty (Ne.symm hkf)]
    exact walkTo_setType s k ty _ _ _ L hchain hkL

/-! ## count over a chain -/

theorem countLoop_eq_walkTo (s : Storage) (stop : Nat) :
    ∀ (f cur acc : Nat) (L : List Nat), walkTo s f cur stop = some L →
      countLoop s stop f cur acc =
        some (acc + (L.filter fun m => typeAt s m ≠ jsonHidden).length) := by
  intro f
  induction f with
  | zero => intro cur acc L h; simp [walkTo] at h
  | succ f ih =>
    intro cur acc L h
    unfold walkTo at h
    unfold countLoop
    dsimp only
    by_cases he : cur = stop
    · subst he
      rw [if_pos rfl] at h
      rw [if_pos rfl]
      cases h
      by_cases hv : typeAt s cur ≠ jsonHidden <;>
        simp [hv, List.filter_cons]
    · rw [if_neg he] at h
      rw [if_neg he]
      rcases hrec : walkTo s f (nextIdx s cur) stop with _ | L2
      · rw [hrec] at h; simp at h
      · rw [hrec] at h
        simp only [Option.map_some', Option.some.injEq] at h
        rw [← h]
        rw [ih _ _ L2 hrec]
        by_cases hv : typeAt s cur ≠ jsonHidden <;>
          simp only [hv, if_true, if_false, List.filter_cons, List.length_cons,
            decide_not] <;>
          simp [hv] <;>
          omega

theorem countB_of_chain (b : Builder) (p : Nat) (L : List Nat)
    (hIter : canIterateOver b.pods p = true)
    (hchain : childChain b.pods p = some L) :
    countB b p =
      some ((L.filter fun m => typeAt b.pods m ≠ jsonHidden).length) := by
  unfold countB
  unfold childChain at hchain
  rw [hIter]
  by_cases he : firstChild b.pods p = lastChild b.pods p
  · rw [if_pos he] at hchain
    rw [if_pos he]
    cases hchain
    simp
  · rw [if_neg he] at hchain
    rw [if_neg he]
    simpa using countLoop_eq_walkTo b.pods _ _ _ 0 L hchain

theorem filter_length_flip :
    ∀ (L : List Nat), L.Nodup → ∀ k, k ∈ L → ∀ (q : Nat → Bool), q k = true →
      (L.filter fun m => if m = k then false else q m).length + 1 =
        (L.filter q).length := by
  intro L
  induction L with
  | nil => intro _ k hk; cases hk
  | cons a t ih =>
    intro hnd k hk q hq
    rcases List.nodup_cons.mp hnd with ⟨hat, hndt⟩
    by_cases hak : a = k
    · subst hak
      have ht : ∀ m ∈ t, (if m = a then false else q m) = q m := by
        intro m hm
        rw [if_neg]
        rintro rfl
        exact hat hm
      rw [List.filter_cons, List.filter_cons, List.filter_congr ht]
      simp [hq]
    · have hkt : k ∈ t := by
        rcases List.mem_cons.mp hk with h | h
        · exact absurd h.symm hak
        · exact h
      have hres := ih hndt k hkt q hq
      rw [List.filter_cons, List.filter_cons, if_neg hak]
      by_cases hqa : q a = true <;>
        simp only [hqa, if_true, if_false, Bool.false_eq_true,
          List.length_cons] <;>
        omega

/-! ## C4: erase is a pure tombstone flip -/

/-- The result of erasing each index in `K` in order. -/
def eraseFold (b : Builder) (K : List Nat) : Builder :=
  K.foldl (fun bb k => (eraseAt bb k).2) b

theorem nodesSep_nodup {L : List Nat} (h : NodesSep L) : L.Nodup :=
  h.imp (fun hr => by omega)

theorem countB_after_erases (p : Nat) (L : List Nat) :
    ∀ (K : List Nat) (s : Storage) (cap : Nat),
      canIterateOver s p = true →
      childChain s p = some L →
      NodesSep (p :: firstChild s p :: L) →
      (∀ k ∈ L, k + 1 < s.length) →
      K.Nodup →
      (∀ k ∈ K, k ∈ L ∧ typeAt s k ≠ jsonHidden ∧ k ≠ 0) →
      countB (eraseFold ⟨s, cap⟩ K) p =
        some ((L.filter fun m => typeAt s m ≠ jsonHidden).length - K.length) := by
  intro K
  induction K with
  | nil =>
    intro s cap hIter hchain hsep hlen hnd hK
    simpa [eraseFold] using countB_of_chain ⟨s, cap⟩ p L hIter hchain
  | cons k K ih =>
    intro s cap hIter hchain hsep hlen hnd hK
    obtain ⟨hkL, hkvis, hk0⟩ := hK k (List.mem_cons_self ..)
    -- separate out the pairwise facts we need
    have hsep1 := List.pairwise_cons.mp hsep
    have hsep2 := List.pairwise_cons.mp hsep1.2
    have hRpk : p + 2 ≤ k ∨ k + 2 ≤ p := hsep1.1 k (List.mem_cons_of_mem _ hkL)
    have hRfk : firstChild s p + 2 ≤ k ∨ k + 2 ≤ firstChild s p :=
      hsep2.1 k hkL
    have hLpair : L.Pairwise fun a b => a + 2 ≤ b ∨ b + 2 ≤ a := hsep2.2
    have hLnd : L.Nodup := nodesSep_nodup hLpair
    have hkp2 : k ≠ p ∧ k ≠ p + 1 ∧ p ≠ k ∧ k + 1 ≠ firstChild s p := by
      rcases hRpk with h | h <;> rcases hRfk with h2 | h2 <;>
        refine ⟨by omega, by omega, by omega, by omega⟩
    have hkLne : ∀ m ∈ L, m ≠ k + 1 := by
      intro m hm
      by_cases hmk : m = k
      · omega
      · have hrel := List.Pairwise.forall (fun a b h => h.symm) hLpair hm hkL hmk
        rcases hrel with h | h
        · omega
        · omega
    have hflip : ∀ m ∈ L, typeAt (setType s k jsonHidden) m =
        if m = k then jsonHidden else typeAt s m := by
      intro m hm
      by_cases hmk : m = k
      · subst hmk
        rw [typeAt_setType_self s _ (hlen m hm)]
        simp [jsonHidden]
      · rw [typeAt_setType_ne s _ hmk, if_neg hmk]
    have hstep : eraseFold ⟨s, cap⟩ (k :: K) =
        eraseFold ⟨setType s k jsonHidden, cap⟩ K := by
      simp [eraseFold, eraseAt, hk0]
    rw [hstep]
    have hchain2 : childChain (setType s k jsonHidden) p = some L :=
      childChain_setType s _ L hchain ⟨hkp2.1, hkp2.2.1⟩ hkp2.2.2.2 hkLne
    have hfc : firstChild (setType s k jsonHidden) p = firstChild s p :=
      firstChild_setType s _ hkp2.2.2.1
    rw [ih (setType s k jsonHidden) cap
      (by rw [canIterateOver_setType s _ hkp2.2.2.1]; exact hIter)
      hchain2 (by rw [hfc]; exact hsep)
      (by intro m hm; rw [length_setType]; exact hlen m hm)
      (List.nodup_cons.mp hnd).2
      ?_]
    · have hcount : (L.filter fun m =>
          typeAt (setType s k jsonHidden) m ≠ jsonHidden).length + 1 =
          (L.filter fun m => typeAt s m ≠ jsonHidden).length := by
        have hcg : (L.filter fun m =>
            typeAt (setType s k jsonHidden) m ≠ jsonHidden) =
            L.filter fun m =>
              if m = k then false else decide (typeAt s m ≠ jsonHidden) := by
          apply List.filter_congr
          intro m hm
          rw [hflip m hm]
          by_cases hmk : m = k <;> simp [hmk]
        rw [hcg]
        exact filter_length_flip L hLnd k hkL _ (by simpa using hkvis)
      rw [← hcount]
      simp only [List.length_cons, Option.some.injEq]
      omega
    · intro m hm
      obtain ⟨hmL, hmvis, hm0⟩ := hK m (List.mem_cons_of_mem _ hm)
      refine ⟨hmL, ?_, hm0⟩
      rw [hflip m hmL, if_neg ?_]
      · exact hmvis
      · rintro rfl
        exact (List.nodup_cons.mp hnd).1 hm

theorem setPod_setPod (s : Storage) (i v w : Nat) :
    setPod (setPod s i v) i w = setPod s i w := by
  simp [setPod, List.set_set]

theorem setType_setType (s : Storage) (i ty : Nat) :
    setType (setType s i ty) i ty = setType s i ty := by
  unfold setType
  rw [setPod_setPod]
  by_cases hlen : i + 1 < s.length
  · rw [podAt_setPod_self s _ hlen]
    congr 2
    rw [(addmul_field_extract _ _ (Nat.mod_lt _ (by norm_num))
      (Nat.mod_lt _ (by norm_num))).2]
  · have hnop : ∀ v, setPod s (i + 1) v = s := by
      intro v
      simp [setPod, List.set_eq_of_length_le (by omega : s.length ≤ i + 1)]
    simp only [hnop]

theorem walkTo_ne_nil (s : Storage) :
    ∀ (f cur stop : Nat) (L : List Nat), walkTo s f cur stop = some L →
      L ≠ [] := by
  intro f
  induction f with
  | zero => intro cur stop L h; simp [walkTo] at h
  | succ f ih =>
    intro cur stop L h
    unfold walkTo at h
    by_cases he : cur = stop
    · rw [if_pos he] at h
      cases h
      simp
    · rw [if_neg he] at h
      rcases hrec : walkTo s f (nextIdx s cur) stop with _ | L2
      · rw [hrec] at h; simp at h
      · rw [hrec] at h
        simp only [Option.map_some', Option.some.injEq] at h
        rw [← h]
        simp

/-- Range erase along a chain is exactly a type flip on every node of the
range except the (excluded) end node. -/
theorem eraseRange_eq_fold :
    ∀ (f : Nat) (b : Builder) (i j : Nat) (L : List Nat),
      walkTo b.pods f i j = some L →
      NodesSep L → (∀ m ∈ L, m ≠ 0) →
      eraseRange b f i j =
        (.ok (), { b with
          pods := L.dropLast.foldl (fun s k => setType s k jsonHidden) b.pods }) := by
  intro f
  induction f with
  | zero => intro b i j L h; simp [walkTo] at h
  | succ f ih =>
    intro b i j L h hsep hne
    unfold walkTo at h
    unfold eraseRange
    by_cases he : i = j
    · rw [if_pos he] at h
      rw [if_pos he]
      cases h
      simp
    · rw [if_neg he] at h
      rw [if_neg he]
      rcases hrec : walkTo b.pods f (nextIdx b.pods i) j with _ | L2
      · rw [hrec] at h; simp at h
      · rw [hrec] at h
        simp only [Option.map_some', Option.some.injEq] at h
        have hi0 : i ≠ 0 := by
          apply hne
          rw [← h]
          exact List.mem_cons_self ..
        rw [if_neg hi0]
        have hL2ne : L2 ≠ [] := walkTo_ne_nil b.pods f _ j L2 hrec
        subst h
        rcases List.pairwise_cons.mp hsep with ⟨hiL2, hsep2⟩
        have hnewalk : walkTo (setType b.pods i jsonHidden) f
            (nextIdx b.pods i) j = some L2 := by
          apply walkTo_setType b.pods i jsonHidden f _ j L2 hrec
          intro m hm
          have := hiL2 m hm
          omega
        have hnext : nextIdx (setType b.pods i jsonHidden) i =
            nextIdx b.pods i := nextIdx_setType b.pods _ (by omega)
        dsimp only
        rw [hnext]
        rw [ih { b with pods := setType b.pods i jsonHidden }
          (nextIdx b.pods i) j L2 hnewalk hsep2
          (fun m hm => hne m (List.mem_cons_of_mem _ hm))]
        rcases L2 with _ | ⟨x, t⟩
        · exact absurd rfl hL2ne
        · simp [List.dropLast]

/-- C4: `erase` only flips the erased node's `m_type` field to Hidden:
the arena size, every other pod — hence every node's `nextIndex` link, every
other node's kind, and all name and payload bytes — are unchanged, and even
in the erased node's header pod the name length is preserved.  Erasing an
already-erased node again via a stale-but-still-in-range iterator leaves the
builder bit-for-bit unchanged.  A range erase performs exactly this flip on
each node of the range.  Consequently, after erasing a duplicate-free set `K`
of `k` visible children of a parent with `n` visible children, `count`
returns `n - k`. -/
theorem erase_spec :
    (∀ (b : Builder) (i : Nat), i ≠ 0 →
      eraseAt b i = (.ok (), { b with pods := setType b.pods i jsonHidden }) ∧
      (setType b.pods i jsonHidden).length = b.pods.length ∧
      (∀ j, j ≠ i + 1 →
        podAt (setType b.pods i jsonHidden) j = podAt b.pods j) ∧
      (i + 1 < b.pods.length →
        cchNameAt (setType b.pods i jsonHidden) i = cchNameAt b.pods i ∧
        typeAt (setType b.pods i jsonHidden) i = jsonHidden)) ∧
    (∀ (b : Builder) (i : Nat), eraseAt (eraseAt b i).2 i = eraseAt b i) ∧
    (∀ (f : Nat) (b : Builder) (i j : Nat) (L : List Nat),
      walkTo b.pods f i j = some L →
      NodesSep L → (∀ m ∈ L, m ≠ 0) →
      eraseRange b f i j =
        (.ok (), { b with
          pods := L.dropLast.foldl (fun s k => setType s k jsonHidden) b.pods })) ∧
    (∀ (p : Nat) (L : List Nat) (K : List Nat) (s : Storage) (cap : Nat),
      canIterateOver s p = true →
      childChain s p = some L →
      NodesSep (p :: firstChild s p :: L) →
      (∀ k ∈ L, k + 1 < s.length) →
      K.Nodup →
      (∀ k ∈ K, k ∈ L ∧ typeAt s k ≠ jsonHidden ∧ k ≠ 0) →
      countB ⟨s, cap⟩ p =
        some ((L.filter fun m => typeAt s m ≠ jsonHidden).length) ∧
      countB (eraseFold ⟨s, cap⟩ K) p =
        some ((L.filter fun m => typeAt s m ≠ jsonHidden).length - K.length)) := by
  refine ⟨?_, ?_, eraseRange_eq_fold, ?_⟩
  · intro b i h0
    refine ⟨by simp [eraseAt, h0], length_setType .., ?_, ?_⟩
    · intro j hj
      exact podAt_setType_ne b.pods _ hj
    · intro hlen
      refine ⟨cchNameAt_setType_self b.pods _ hlen, ?_⟩
      rw [typeAt_setType_self b.pods _ hlen]
      decide
  · intro b i
    by_cases h0 : i = 0
    · simp [eraseAt, h0]
    · simp only [eraseAt, h0, if_false]
      rw [setType_setType]
  · intro p L K s cap hIter hchain hsep hlen hnd hK
    exact ⟨countB_of_chain ⟨s, cap⟩ p L hIter hchain,
      countB_after_erases p L K s cap hIter hchain hsep hlen hnd hK⟩

/-- A builder constructed with an initial capacity (`JsonBuilder(124)`
reserves 31 pods). -/
def emptyReserved : Builder := { pods := [], cap := 31 }

/-- Builder with root and three visible Null children at 5, 9, 13. -/
def exThree : Builder :=
  (addValue
    ((addValue
      ((addValue emptyReserved false 0 (.ext [97]) 1 jsonNull 0 none gzero).2)
      false 0 (.ext [98]) 1 jsonNull 0 none gzero).2)
    false 0 (.ext [99]) 1 jsonNull 0 none gzero).2

/-- Witness for C4: erasing children 5 and 13 of a 3-child root leaves
`count(root) = 1`, and the single-erase equation holds concretely. -/
theorem erase_spec_witness :
    eraseAt exThree 5 =
      (.ok (), { exThree with pods := setType exThree.pods 5 jsonHidden }) ∧
    eraseRange exThree 18 5 13 =
      (.ok (), { exThree with
        pods := [5, 9].foldl (fun s k => setType s k jsonHidden) exThree.pods }) ∧
    countB (eraseFold exThree [5, 13]) 0 = some 1 := by
  refine ⟨?_, ?_, ?_⟩
  · exact (erase_spec.1 exThree 5 (by decide)).1
  · have h := erase_spec.2.2.1 18 exThree 5 13 [5, 9, 13]
      (by decide) (by decide) (by decide)
    simpa using h
  · have h := erase_spec.2.2.2 0 [5, 9, 13] [5, 13] exThree.pods exThree.cap
      (by decide) (by decide) (by decide) (by decide) (by decide) (by decide)
    exact h.2

/-! ## Byte-packing and storage-layout toolkit -/

theorem bytesOfPods_append (a b : List Nat) :
    bytesOfPods (a ++ b) = bytesOfPods a ++ bytesOfPods b := by
  simp [bytesOfPods]

theorem length_bytesOfPods (ps : List Nat) :
    (bytesOfPods ps).length = 4 * ps.length := by
  induction ps with
  | nil => rfl
  | cons p t ih =>
    simp only [bytesOfPods, List.flatMap_cons] at ih ⊢
    simp [bytesOfPod] at ih ⊢
    omega

theorem length_podsOfBytes : ∀ bs : List Nat,
    (podsOfBytes bs).length = (bs.length + 3) / 4
  | [] => rfl
  | [_] => by simp [podsOfBytes]
  | [_, _] => by simp [podsOfBytes]
  | [_, _, _] => by simp [podsOfBytes]
  | b0 :: b1 :: b2 :: b3 :: t => by
    show (podsOfBytes (b0 :: b1 :: b2 :: b3 :: t)).length = _
    rw [show podsOfBytes (b0 :: b1 :: b2 :: b3 :: t) =
      podOfBytes [b0, b1, b2, b3] :: podsOfBytes t from rfl]
    rw [List.length_cons, length_podsOfBytes t]
    simp only [List.length_cons]
    omega

theorem bytesOfPod_podOfBytes (b0 b1 b2 b3 : Nat) (h0 : b0 < 256)
    (h1 : b1 < 256) (h2 : b2 < 256) (h3 : b3 < 256) :
    bytesOfPod (podOfBytes [b0, b1, b2, b3]) = [b0, b1, b2, b3] := by
  simp only [bytesOfPod, podOfBytes, List.getD_cons_zero, List.getD_cons_succ]
  refine List.ext_getElem (by simp) ?_
  intro i hi1 hi2
  have hi : i < 4 := by simpa using hi2
  interval_cases i <;> simp <;> omega

theorem take_bytesOfPods_podsOfBytes :
    ∀ bs : List Nat, (∀ x ∈ bs, x < 256) →
      (bytesOfPods (podsOfBytes bs)).take bs.length = bs
  | [], _ => rfl
  | [b0], h => by
    have h0 : b0 < 256 := h b0 (by simp)
    show (bytesOfPods [podOfBytes [b0]]).take 1 = [b0]
    have : podOfBytes [b0] = podOfBytes [b0, 0, 0, 0] := rfl
    rw [this]
    simp [bytesOfPods, bytesOfPod_podOfBytes b0 0 0 0 h0 (by norm_num)
      (by norm_num) (by norm_num)]
  | [b0, b1], h => by
    have h0 : b0 < 256 := h b0 (by simp)
    have h1 : b1 < 256 := h b1 (by simp)
    show (bytesOfPods [podOfBytes [b0, b1]]).take 2 = [b0, b1]
    have : podOfBytes [b0, b1] = podOfBytes [b0, b1, 0, 0] := rfl
    rw [this]
    simp [bytesOfPods, bytesOfPod_podOfBytes b0 b1 0 0 h0 h1 (by norm_num)
      (by norm_num)]
  | [b0, b1, b2], h => by
    have h0 : b0 < 256 := h b0 (by simp)
    have h1 : b1 < 256 := h b1 (by simp)
    have h2 : b2 < 256 := h b2 (by simp)
    show (bytesOfPods [podOfBytes [b0, b1, b2]]).take 3 = [b0, b1, b2]
    have : podOfBytes [b0, b1, b2] = podOfBytes [b0, b1, b2, 0] := rfl
    rw [this]
    simp [bytesOfPods, bytesOfPod_podOfBytes b0 b1 b2 0 h0 h1 h2 (by norm_num)]
  | b0 :: b1 :: b2 :: b3 :: t, h => by
    have h0 : b0 < 256 := h b0 (by simp)
    have h1 : b1 < 256 := h b1 (by simp)
    have h2 : b2 < 256 := h b2 (by simp)
    have h3 : b3 < 256 := h b3 (by simp)
    have ht : ∀ x ∈ t, x < 256 := fun x hx => h x (by simp [hx])
    show (bytesOfPods (podOfBytes [b0, b1, b2, b3] :: podsOfBytes t)).take
      (b0 :: b1 :: b2 :: b3 :: t).length = _
    rw [show bytesOfPods (podOfBytes [b0, b1, b2, b3] :: podsOfBytes t) =
      bytesOfPod (podOfBytes [b0, b1, b2, b3]) ++ bytesOfPods (podsOfBytes t)
      from rfl]
    rw [bytesOfPod_podOfBytes b0 b1 b2 b3 h0 h1 h2 h3]
    simp only [List.length_cons]
    rw [show t.length + 1 + 1 + 1 + 1 = 4 + t.length by omega]
    rw [show (4 : Nat) + t.length = ([b0, b1, b2, b3] : List Nat).length + t.length
      from by simp]
    rw [List.take_append]
    rw [take_bytesOfPods_podsOfBytes t ht]
    simp

theorem mem_bytesOfPods_lt (ps : List Nat) : ∀ x ∈ bytesOfPods ps, x < 256 := by
  intro x hx
  unfold bytesOfPods at hx
  rcases List.mem_flatMap.mp hx with ⟨p, _, hxp⟩
  simp only [bytesOfPod, List.mem_cons, List.not_mem_nil, or_false] at hxp
  rcases hxp with rfl | rfl | rfl | rfl <;> exact Nat.mod_lt _ (by norm_num)

theorem byteSlice_lt256 (s : Storage) (off len : Nat) :
    ∀ x ∈ byteSlice s off len, x < 256 := by
  intro x hx
  exact mem_bytesOfPods_lt s x
    (List.mem_of_mem_drop (List.mem_of_mem_take hx))

theorem length_byteSlice_of_le (s : Storage) (off len : Nat)
    (h : off + len ≤ 4 * s.length) : (byteSlice s off len).length = len := by
  unfold byteSlice
  rw [List.length_take, List.length_drop, length_bytesOfPods]
  omega

theorem padTo_eq_self (len : Nat) (bs : List Nat) (h : bs.length = len) :
    padTo len bs = bs := by
  unfold padTo
  rw [h]
  simp [List.take_of_length_le (le_of_eq h)]

theorem podAt_append_left (a r : Storage) (t : Nat) (h : t < a.length) :
    podAt (a ++ r) t = podAt a t := by
  unfold podAt
  rw [List.getD_eq_getElem?_getD, List.getD_eq_getElem?_getD,
    List.getElem?_append, if_pos h]

theorem setPod_append_right (a r : Storage) (i v : Nat) (h : a.length ≤ i) :
    setPod (a ++ r) i v = a ++ setPod r (i - a.length) v := by
  unfold setPod
  rw [List.set_append]
  rw [if_neg (by omega)]

theorem setPod_append_left (a r : Storage) (i v : Nat) (h : i < a.length) :
    setPod (a ++ r) i v = setPod a i v ++ r := by
  unfold setPod
  rw [List.set_append]
  rw [if_pos h]

theorem overwriteAt_append_right (a r : Storage) (i : Nat) (ps : List Nat)
    (h : a.length ≤ i) :
    overwriteAt (a ++ r) i ps = a ++ overwriteAt r (i - a.length) ps := by
  unfold overwriteAt
  rw [List.take_append_eq_append_take, List.drop_append_eq_append_drop]
  rw [List.take_of_length_le (by omega), List.drop_eq_nil_of_le (by omega)]
  rw [show i + ps.length - a.length = i - a.length + ps.length from by omega]
  simp

theorem byteSlice_append_low (a r : Storage) (off len : Nat)
    (h : off + len ≤ 4 * a.length) :
    byteSlice (a ++ r) off len = byteSlice a off len := by
  unfold byteSlice
  rw [bytesOfPods_append, List.drop_append_eq_append_drop,
    List.take_append_eq_append_take]
  rw [show len - ((bytesOfPods a).drop off).length = 0 from by
    rw [List.length_drop, length_bytesOfPods]; omega]
  rw [List.take_zero, List.append_nil]

/-! ## C5: aliasing re-base across arena growth -/

theorem podAt_append_right (a r : Storage) (k : Nat) :
    podAt (a ++ r) (a.length + k) = podAt r k := by
  unfold podAt
  rw [List.getD_eq_getElem?_getD, List.getD_eq_getElem?_getD,
    List.getElem?_append_right (by omega),
    show a.length + k - a.length = k from by omega]

theorem auxAt_append_left (a r : Storage) (i : Nat) (h : i + 2 < a.length) :
    auxAt (a ++ r) i = auxAt a i := podAt_append_left a r (i + 2) h

theorem byteSlice_append_offset (a r : Storage) (off len : Nat) :
    byteSlice (a ++ r) (4 * a.length + off) len = byteSlice r off len := by
  unfold byteSlice
  rw [bytesOfPods_append, List.drop_append_eq_append_drop,
    List.drop_eq_nil_of_le (by rw [length_bytesOfPods]; omega), List.nil_append,
    show 4 * a.length + off - (bytesOfPods a).length = off from by
      rw [length_bytesOfPods]; omega]

theorem setPod_cons_zero (a v : Nat) (l : List Nat) :
    setPod (a :: l) 0 v = v :: l := rfl

/-- `CreateValue`'s aliasing resolution: a pointer strictly inside the old
arena (`pOldStorageData < p && p < pOldStorageData + valueIndex*StorageSize`)
reads the current buffer contents whether or not the buffer relocated. -/
theorem resolveSrc_arena (cur : Storage) (obl : Nat) (rel : Bool)
    (g : Nat → Nat) (len off : Nat) (h0 : 0 < off) (hlt : off < obl) :
    resolveSrc cur obl rel g len (.arena off) =
      padTo len (byteSlice cur off len) := by
  unfold resolveSrc
  cases rel
  · simp
  · simp [h0, hlt]

/-- The three header pods and the packed name/data regions written by
`CreateValue` into the freshly reserved tail of the arena. -/
theorem overwrite_layout (hdr x2 cb : Nat) (rest pN pD : List Nat)
    (hrest : rest.length = pN.length + pD.length) :
    overwriteAt (setPod (overwriteAt (0 :: hdr :: x2 :: rest) 3 pN) 2 cb)
        (3 + pN.length) pD
      = 0 :: hdr :: cb :: (pN ++ pD) := by
  have h1 : overwriteAt (0 :: hdr :: x2 :: rest) 3 pN
      = 0 :: hdr :: x2 :: (pN ++ rest.drop pN.length) := by
    unfold overwriteAt
    rw [show (3 : Nat) + pN.length = pN.length + 3 from by omega]
    rfl
  rw [h1]
  have h2 : setPod (0 :: hdr :: x2 :: (pN ++ rest.drop pN.length)) 2 cb
      = 0 :: hdr :: cb :: (pN ++ rest.drop pN.length) := rfl
  rw [h2]
  unfold overwriteAt
  have htake : (0 :: hdr :: cb :: (pN ++ rest.drop pN.length)).take
      (3 + pN.length) = 0 :: hdr :: cb :: pN := by
    rw [show (3 : Nat) + pN.length = pN.length + 3 from by omega]
    show 0 :: hdr :: cb :: ((pN ++ rest.drop pN.length).take pN.length) = _
    rw [List.take_left]
  have hdrop : (0 :: hdr :: cb :: (pN ++ rest.drop pN.length)).drop
      (3 + pN.length + pD.length) = [] := by
    apply List.drop_eq_nil_of_le
    simp only [List.length_cons, List.length_append, List.length_drop]
    omega
  rw [htake, hdrop, List.append_nil]
  simp

/-- The full storage effect of the non-composite branch of `CreateValue`
after a resize by `DATA_OFFSET(cchName) + (cbData+3)/4` pods, when both the
name and the payload are pointers strictly inside the old arena: independent
of whether the buffer relocated (`rel`) and of what dangling reads would
return (`g`), the new node's region is the header followed by the packed old
bytes. -/
theorem commitPods (B rep : Storage) (cchNm tyb cb offN offD : Nat)
    (rel : Bool) (g : Nat → Nat)
    (hrep : rep.length = dataOffsetOf cchNm + (cb + 3) / 4)
    (hN0 : 0 < offN) (hNlt : offN < 4 * B.length)
    (hNle : offN + cchNm ≤ 4 * B.length)
    (hD0 : 0 < offD) (hDlt : offD < 4 * B.length)
    (hDle : offD + cb ≤ 4 * B.length)
    (hcch : cchNm < 2 ^ 24) (htyb : tyb < 2 ^ 8) (hcb : cb < 2 ^ 32) :
    (let valueIndex := B.length
     let s1 := setNameType (setNext (B ++ rep) valueIndex 0) valueIndex cchNm tyb
     let nm := resolveSrc s1 (4 * valueIndex) rel g cchNm (.arena offN)
     let s2 := overwriteAt s1 (valueIndex + 3) (podsOfBytes nm)
     let s3 := setAux s2 valueIndex cb
     let db := resolveSrc s3 (4 * valueIndex) rel g cb (.arena offD)
     overwriteAt s3 (valueIndex + dataOffsetOf cchNm) (podsOfBytes db))
    = B ++ (0 :: (cchNm + tyb * 2 ^ 24) :: cb ::
        (podsOfBytes (byteSlice B offN cchNm)
          ++ podsOfBytes (byteSlice B offD cb))) := by
  have hD3 : 3 ≤ dataOffsetOf cchNm := by unfold dataOffsetOf; omega
  have hDsplit : dataOffsetOf cchNm = 3 + (cchNm + 3) / 4 := by
    unfold dataOffsetOf; omega
  rcases rep with _ | ⟨x0, _ | ⟨x1, _ | ⟨x2, rest⟩⟩⟩
  · exfalso; simp only [List.length_nil] at hrep; omega
  · exfalso; simp only [List.length_cons, List.length_nil] at hrep; omega
  · exfalso; simp only [List.length_cons, List.length_nil] at hrep; omega
  simp only [List.length_cons] at hrep
  dsimp only
  have hmod1 : cchNm % 2 ^ 24 = cchNm := Nat.mod_eq_of_lt hcch
  have hmod2 : tyb % 2 ^ 8 = tyb := Nat.mod_eq_of_lt htyb
  have hmod3 : cb % 2 ^ 32 = cb := Nat.mod_eq_of_lt hcb
  have hs1 : setNameType (setNext (B ++ x0 :: x1 :: x2 :: rest) B.length 0)
      B.length cchNm tyb
      = B ++ 0 :: (cchNm + tyb * 2 ^ 24) :: x2 :: rest := by
    unfold setNext setNameType
    rw [Nat.zero_mod, hmod1, hmod2]
    rw [setPod_append_right B (x0 :: x1 :: x2 :: rest) B.length 0 (le_refl _),
      Nat.sub_self]
    rw [setPod_append_right B _ (B.length + 1) _ (by omega),
      show B.length + 1 - B.length = 1 from by omega]
    rfl
  rw [hs1]
  rw [resolveSrc_arena _ _ _ _ _ _ hN0 hNlt]
  rw [byteSlice_append_low _ _ _ _ hNle]
  rw [padTo_eq_self _ _ (length_byteSlice_of_le _ _ _ hNle)]
  rw [overwriteAt_append_right B _ (B.length + 3) _ (by omega),
    show B.length + 3 - B.length = 3 from by omega]
  unfold setAux
  rw [hmod3]
  rw [setPod_append_right B _ (B.length + 2) _ (by omega),
    show B.length + 2 - B.length = 2 from by omega]
  rw [resolveSrc_arena _ _ _ _ _ _ hD0 hDlt]
  rw [byteSlice_append_low _ _ _ _ hDle]
  rw [padTo_eq_self _ _ (length_byteSlice_of_le _ _ _ hDle)]
  rw [overwriteAt_append_right B _ (B.length + dataOffsetOf cchNm) _ (by omega),
    show B.length + dataOffsetOf cchNm - B.length = dataOffsetOf cchNm from by
      omega]
  congr 1
  have hlNM : (byteSlice B offN cchNm).length = cchNm :=
    length_byteSlice_of_le _ _ _ hNle
  have hlDB : (byteSlice B offD cb).length = cb :=
    length_byteSlice_of_le _ _ _ hDle
  have hlpN : (podsOfBytes (byteSlice B offN cchNm)).length = (cchNm + 3) / 4 := by
    rw [length_podsOfBytes, hlNM]
  have hlpD : (podsOfBytes (byteSlice B offD cb)).length = (cb + 3) / 4 := by
    rw [length_podsOfBytes, hlDB]
  rw [show dataOffsetOf cchNm
      = 3 + (podsOfBytes (byteSlice B offN cchNm)).length from by
    rw [hlpN]; omega]
  exact overwrite_layout _ _ _ _ _ _ (by rw [hlpN, hlpD]; omega)

/-- `CreateValue` with both sources strictly inside the old arena, a
non-composite type and in-range sizes: it succeeds and appends exactly the
header plus the packed pre-growth bytes, for every relocation outcome and
every content of freed memory. -/
theorem createValue_arena_canonical (b : Builder) (offN offD cchNm ty cb : Nat)
    (g : Nat → Nat)
    (hN0 : 0 < offN) (hNlt : offN < 4 * b.pods.length)
    (hNle : offN + cchNm ≤ 4 * b.pods.length)
    (hD0 : 0 < offD) (hDlt : offD < 4 * b.pods.length)
    (hDle : offD + cb ≤ 4 * b.pods.length)
    (hname : cchNm ≤ nameMax) (hdata : cb ≤ dataMax)
    (hty : isCompositeType (ty % 2 ^ 8) = false)
    (hsz : b.pods.length + dataOffsetOf cchNm + (cb + 3) / 4 ≤ maxSize) :
    ∃ c : Nat,
      createValue b (.arena offN) cchNm ty cb (some (.arena offD)) g
        = (.ok b.pods.length,
           { pods := b.pods ++ (0 :: (cchNm + ty % 2 ^ 8 * 2 ^ 24) :: cb ::
               (podsOfBytes (byteSlice b.pods offN cchNm)
                 ++ podsOfBytes (byteSlice b.pods offD cb))),
             cap := c }) := by
  have hD3 : 3 ≤ dataOffsetOf cchNm := by unfold dataOffsetOf; omega
  have hmax : maxSize = 4294967294 := rfl
  have h32 : (2 : Nat) ^ 32 = 4294967296 := by norm_num
  have hcch : cchNm < 2 ^ 24 := lt_of_le_of_lt hname (by norm_num [nameMax])
  have hcb : cb < 2 ^ 32 := lt_of_le_of_lt hdata (by norm_num [dataMax])
  have htyb : ty % 2 ^ 8 < 2 ^ 8 := Nat.mod_lt _ (by norm_num)
  unfold createValue
  rw [if_neg (not_lt.mpr hname), if_neg (not_lt.mpr hdata)]
  dsimp only
  simp only [hty, Bool.false_eq_true, if_false]
  have e1 : (b.pods.length + dataOffsetOf cchNm) % 2 ^ 32
      = b.pods.length + dataOffsetOf cchNm := Nat.mod_eq_of_lt (by omega)
  rw [e1]
  have e2 : (b.pods.length + dataOffsetOf cchNm + (cb + 3) / 4) % 2 ^ 32
      = b.pods.length + dataOffsetOf cchNm + (cb + 3) / 4 :=
    Nat.mod_eq_of_lt (by omega)
  rw [e2]
  rw [if_neg (by omega :
    ¬ b.pods.length + dataOffsetOf cchNm + (cb + 3) / 4 ≤ b.pods.length)]
  have hrep : (List.replicate
      (b.pods.length + dataOffsetOf cchNm + (cb + 3) / 4 - b.pods.length)
      (0 : Nat)).length = dataOffsetOf cchNm + (cb + 3) / 4 := by
    rw [List.length_replicate]; omega
  by_cases hgrow : b.cap < b.pods.length + dataOffsetOf cchNm + (cb + 3) / 4
  · obtain ⟨cN, hgc⟩ : ∃ cN,
        getNewCapacity (b.pods.length + dataOffsetOf cchNm + (cb + 3) / 4)
          maxSize = .ok cN := by
      unfold getNewCapacity
      dsimp only
      split_ifs
      all_goals first
        | exact ⟨_, rfl⟩
        | exact absurd hsz (by omega)
    have hvr : vecResize b
        (b.pods.length + dataOffsetOf cchNm + (cb + 3) / 4)
        = .ok ({ pods := b.pods ++
                  List.replicate
                    (b.pods.length + dataOffsetOf cchNm + (cb + 3) / 4
                      - b.pods.length) 0,
                 cap := cN }, true) := by
      unfold vecResize
      rw [if_pos hgrow, hgc]
    rw [hvr]
    refine ⟨cN, ?_⟩
    have hpods := commitPods b.pods
      (List.replicate
        (b.pods.length + dataOffsetOf cchNm + (cb + 3) / 4 - b.pods.length) 0)
      cchNm (ty % 2 ^ 8) cb offN offD true g hrep hN0 hNlt hNle hD0 hDlt hDle
      hcch htyb hcb
    dsimp only at hpods ⊢
    rw [hpods]
  · have hvr : vecResize b
        (b.pods.length + dataOffsetOf cchNm + (cb + 3) / 4)
        = .ok ({ pods := b.pods ++
                  List.replicate
                    (b.pods.length + dataOffsetOf cchNm + (cb + 3) / 4
                      - b.pods.length) 0,
                 cap := b.cap }, false) := by
      unfold vecResize
      rw [if_neg hgrow]
    rw [hvr]
    refine ⟨b.cap, ?_⟩
    have hpods := commitPods b.pods
      (List.replicate
        (b.pods.length + dataOffsetOf cchNm + (cb + 3) / 4 - b.pods.length) 0)
      cchNm (ty % 2 ^ 8) cb offN offD false g hrep hN0 hNlt hNle hD0 hDlt hDle
      hcch htyb hcb
    dsimp only at hpods ⊢
    rw [hpods]

theorem cchNameAt_layout (A : Storage) (h0 cchNm tyb cb : Nat) (X : List Nat)
    (hcch : cchNm < 2 ^ 24) :
    cchNameAt (A ++ (h0 :: (cchNm + tyb * 2 ^ 24) :: cb :: X)) A.length
      = cchNm := by
  unfold cchNameAt
  rw [podAt_append_right A _ 1]
  show (cchNm + tyb * 2 ^ 24) % 2 ^ 24 = cchNm
  rw [Nat.add_mul_mod_self_right]
  exact Nat.mod_eq_of_lt hcch

theorem auxAt_layout (A : Storage) (h0 h1 cb : Nat) (X : List Nat) :
    auxAt (A ++ (h0 :: h1 :: cb :: X)) A.length = cb :=
  podAt_append_right A (h0 :: h1 :: cb :: X) 2

/-- Reading the committed name back out of the canonical node layout. -/
theorem nameBytes_layout (A : Storage) (h0 cchNm tyb cb : Nat)
    (NM DB : List Nat) (hNM : NM.length = cchNm) (hNM256 : ∀ x ∈ NM, x < 256)
    (hcch : cchNm < 2 ^ 24) :
    nameBytes (A ++ (h0 :: (cchNm + tyb * 2 ^ 24) :: cb ::
        (podsOfBytes NM ++ podsOfBytes DB))) A.length = NM := by
  unfold nameBytes
  rw [cchNameAt_layout A h0 cchNm tyb cb _ hcch]
  rw [byteSlice_append_offset A _ 12 cchNm]
  have h12 : byteSlice (h0 :: (cchNm + tyb * 2 ^ 24) :: cb ::
      (podsOfBytes NM ++ podsOfBytes DB)) 12 cchNm
      = (bytesOfPods (podsOfBytes NM ++ podsOfBytes DB)).take cchNm := rfl
  rw [h12, bytesOfPods_append, List.take_append_eq_append_take]
  rw [show cchNm - (bytesOfPods (podsOfBytes NM)).length = 0 from by
    rw [length_bytesOfPods, length_podsOfBytes, hNM]; omega]
  rw [List.take_zero, List.append_nil, ← hNM]
  exact take_bytesOfPods_podsOfBytes NM hNM256

/-- Reading the committed payload back out of the canonical node layout. -/
theorem dataBytes_layout (A : Storage) (h0 cchNm tyb cb : Nat)
    (NM DB : List Nat) (hNM : NM.length = cchNm) (hDB : DB.length = cb)
    (hDB256 : ∀ x ∈ DB, x < 256) (hcch : cchNm < 2 ^ 24) :
    dataBytes (A ++ (h0 :: (cchNm + tyb * 2 ^ 24) :: cb ::
        (podsOfBytes NM ++ podsOfBytes DB))) A.length = DB := by
  unfold dataBytes
  rw [cchNameAt_layout A h0 cchNm tyb cb _ hcch]
  rw [auxAt_layout]
  rw [show 4 * (A.length + dataOffsetOf cchNm)
      = 4 * A.length + 4 * dataOffsetOf cchNm from by ring]
  rw [byteSlice_append_offset]
  rw [show 4 * dataOffsetOf cchNm = 4 * (podsOfBytes NM).length + 12 from by
    rw [length_podsOfBytes, hNM]; unfold dataOffsetOf; omega]
  unfold byteSlice
  have hdrop12 : (bytesOfPods (h0 :: (cchNm + tyb * 2 ^ 24) :: cb ::
      (podsOfBytes NM ++ podsOfBytes DB))).drop
        (4 * (podsOfBytes NM).length + 12)
      = (bytesOfPods (podsOfBytes NM ++ podsOfBytes DB)).drop
        (4 * (podsOfBytes NM).length) := rfl
  rw [hdrop12, bytesOfPods_append]
  rw [show 4 * (podsOfBytes NM).length
      = (bytesOfPods (podsOfBytes NM)).length from
    (length_bytesOfPods _).symm]
  rw [List.drop_left, ← hDB]
  exact take_bytesOfPods_podsOfBytes DB hDB256

/-- A builder at exactly full capacity: the lazily created root plus two
small leaves occupy 15 pods with capacity 15, so the next insertion
relocates the arena. -/
def cexB : Builder :=
  (addValue ((addValue emptyBuilder false 0 (.ext [65]) 1 jsonUtf8 2
      (some (.ext [1, 2])) gzero).2) false 0 (.ext [66]) 1 jsonUtf8 2
    (some (.ext [3, 4])) gzero).2

/-- C5 counterexample: the re-base check `pOldStorageData < pbValue` is
strict, so a name pointer equal to the old arena's base address (byte offset
0, e.g. `buffer_data()`) is not re-based when the insertion relocates the
arena.  On `cexB` (full at capacity 15) the insertion succeeds, relocates,
and commits whatever the freed buffer now holds (here the freed-memory model
`fun _ => 171`) instead of the original bytes `[3, 0, 0, 0]`. -/
theorem addValue_alias_zero_offset_counterexample :
    (addValue cexB false 0 (.arena 0) 4 jsonUtf8 0 none (fun _ => 171)).1
        = .ok 15
      ∧ nameBytes (addValue cexB false 0 (.arena 0) 4 jsonUtf8 0 none
          (fun _ => 171)).2.pods 15 = [171, 171, 171, 171]
      ∧ byteSlice cexB.pods 0 4 = [3, 0, 0, 0]
      ∧ nameBytes (addValue cexB false 0 (.arena 0) 4 jsonUtf8 0 none
          (fun _ => 171)).2.pods 15 ≠ byteSlice cexB.pods 0 4 :=
  ⟨rfl, by decide, by decide, by decide⟩

/-! ## C2: the validator never reads out of bounds; what success guarantees -/

theorem ebind_ok {α β : Type} (a : α) (f : α → Except Err β) :
    (Except.ok a >>= f) = f a := rfl

theorem ebind_error {α β : Type} (e : Err) (f : α → Except Err β) :
    ((Except.error e : Except Err α) >>= f) = .error e := rfl

theorem epure {α : Type} (a : α) : (pure a : Except Err α) = .ok a := rfl

theorem ethrow {α : Type} (e : Err) : (throw e : Except Err α) = .error e := rfl

theorem getD_set_eq (m : List Nat) (i v : Nat) (h : i < m.length) :
    (m.set i v).getD i 0 = v := by
  rw [List.getD_eq_getElem?_getD, List.getElem?_set_self h]
  rfl

theorem getD_set_ne (m : List Nat) (i v j : Nat) (h : j ≠ i) :
    (m.set i v).getD j 0 = m.getD j 0 := by
  rw [List.getD_eq_getElem?_getD, List.getD_eq_getElem?_getD,
    List.getElem?_set_ne (by omega)]

/-- Success inversion for `Validator::UpdateMap`. -/
theorem updateMap_ok (sz : Nat) (m : List Nat) (i exp nv : Nat)
    (m2 : List Nat) (h : updateMap sz m i exp nv = .ok m2) :
    i < sz ∧ m.getD i 0 = exp ∧ m2 = m.set i (exp ||| nv) := by
  unfold updateMap at h
  by_cases h1 : sz ≤ i
  · rw [if_pos h1] at h; exact absurd h (by simp)
  · rw [if_neg h1] at h
    by_cases h2 : m.getD i 0 ≠ exp
    · rw [if_pos h2] at h; exact absurd h (by simp)
    · rw [if_neg h2] at h
      have h2e : m.getD i 0 = exp := not_not.mp h2
      refine ⟨by omega, h2e, ?_⟩
      simp only [Except.ok.injEq] at h
      rw [← h, h2e]

/-- `UpdateMap` only ever throws the corrupt-data error. -/
theorem updateMap_error (sz : Nat) (m : List Nat) (i exp nv : Nat) (e : Err)
    (h : updateMap sz m i exp nv = .error e) : e = .corruptData := by
  unfold updateMap at h
  by_cases h1 : sz ≤ i
  · rw [if_pos h1] at h
    simpa [eq_comm] using h
  · rw [if_neg h1] at h
    by_cases h2 : m.getD i 0 ≠ exp
    · rw [if_pos h2] at h
      simpa [eq_comm] using h
    · rw [if_neg h2] at h
      exact absurd h (by simp)

theorem readPod_ok (s : Storage) (i : Nat) (h : i < s.length) :
    readPod s i = .ok (podAt s i) := by
  unfold readPod
  rw [if_pos h]

/-- The pods claimed by the node at `i` in pass 1 of the validator: the
`JsonValueBase` header, then (unless Hidden) the `m_cbData` pod and the name
pods, then (for normal types) the data pods. -/
def extentPods (s : Storage) (i : Nat) : List Nat :=
  i :: (i + 1) ::
    (if typeAt s i ≠ jsonHidden then
      (List.range' 2 (dataOffsetOf (cchNameAt s i) - 2)).map (fun k => i + k) ++
        (if isNormalType (typeAt s i) then
          (List.range' (dataOffsetOf (cchNameAt s i)) ((auxAt s i + 3) / 4)).map
            (fun k => i + k)
        else [])
    else [])

/-- The list is a run of the flat linked list: consecutive elements are
linked by `m_nextIndex` and the last element links to 0. -/
def chainLinks (s : Storage) : List Nat → Prop
  | [] => True
  | [v] => nextIdx s v = 0
  | v :: w :: t => nextIdx s v = w ∧ chainLinks s (w :: t)

/-- The bounds facts the validator's 2-bit map encodes: every cell marked
Head or Reached is a node whose header was successfully claimed, so the pods
the second pass dereferences for it are in bounds. -/
def Safe (s : Storage) (m : List Nat) : Prop :=
  ∀ i, (m.getD i 0 = valHead ∨ m.getD i 0 = valReached) →
    i + 1 < s.length ∧ (typeAt s i ≠ jsonHidden → i + 2 < s.length)

/-- What a successful tail-marking fold guarantees. -/
theorem tailsFold_spec (sz base : Nat) :
    ∀ (L : List Nat) (m m2 : List Nat), m.length = sz →
      L.foldlM (fun mm k => updateMap sz mm (base + k) valNone valTail) m
        = .ok m2 →
      m2.length = sz ∧
      (∀ k ∈ L, base + k < sz ∧ m.getD (base + k) 0 = valNone ∧
        m2.getD (base + k) 0 = valTail) ∧
      (∀ j, m2.getD j 0 = m.getD j 0 ∨ m2.getD j 0 = valTail) := by
  intro L
  induction L with
  | nil =>
    intro m m2 hm h
    simp only [List.foldlM_nil] at h
    have : m = m2 := by simpa [epure, Except.ok.injEq] using h
    subst this
    exact ⟨hm, by simp, fun j => Or.inl rfl⟩
  | cons k0 rest ih =>
    intro m m2 hm h
    rw [show (k0 :: rest).foldlM
        (fun mm k => updateMap sz mm (base + k) valNone valTail) m
        = updateMap sz m (base + k0) valNone valTail >>= fun mm =>
            rest.foldlM (fun mm k => updateMap sz mm (base + k) valNone valTail)
              mm from rfl] at h
    cases hu : updateMap sz m (base + k0) valNone valTail with
    | error e => rw [hu, ebind_error] at h; exact absurd h (by simp)
    | ok m1 =>
      rw [hu, ebind_ok] at h
      obtain ⟨hlt, hnone, hm1⟩ := updateMap_ok _ _ _ _ _ _ hu
      have hm1len : m1.length = sz := by rw [hm1, List.length_set, hm]
      obtain ⟨hlen2, hmem, hmono⟩ := ih m1 m2 hm1len h
      refine ⟨hlen2, ?_, ?_⟩
      · intro k hk
        rcases List.mem_cons.mp hk with rfl | hk
        · refine ⟨hlt, hnone, ?_⟩
          rcases hmono (base + k) with heq | ht
          · rw [heq, hm1, getD_set_eq _ _ _ (by omega)]
            decide
          · exact ht
        · obtain ⟨hlt2, hnone2, hval2⟩ := hmem k hk
          refine ⟨hlt2, ?_, hval2⟩
          by_cases hkk : base + k = base + k0
          · exfalso
            rw [hkk, hm1, getD_set_eq _ _ _ (by omega)] at hnone2
            simp [valNone, valTail] at hnone2
          · rw [hm1, getD_set_ne _ _ _ _ hkk] at hnone2
            exact hnone2
      · intro j
        rcases hmono j with heq | ht
        · by_cases hj : j = base + k0
          · subst hj
            rw [heq, hm1, getD_set_eq _ _ _ (by omega)]
            right
            simp [valNone, valTail]
          · rw [heq, hm1, getD_set_ne _ _ _ _ hj]
            left; rfl
        · exact Or.inr ht

/-- A failing tail-marking fold fails with the corrupt-data error. -/
theorem tailsFold_error (sz base : Nat) :
    ∀ (L : List Nat) (m : List Nat) (e : Err),
      L.foldlM (fun mm k => updateMap sz mm (base + k) valNone valTail) m
        = .error e →
      e = .corruptData := by
  intro L
  induction L with
  | nil =>
    intro m e h
    simp only [List.foldlM_nil] at h
    exact absurd h (by simp [epure])
  | cons k0 rest ih =>
    intro m e h
    rw [show (k0 :: rest).foldlM
        (fun mm k => updateMap sz mm (base + k) valNone valTail) m
        = updateMap sz m (base + k0) valNone valTail >>= fun mm =>
            rest.foldlM (fun mm k => updateMap sz mm (base + k) valNone valTail)
              mm from rfl] at h
    cases hu : updateMap sz m (base + k0) valNone valTail with
    | error e2 =>
      rw [hu, ebind_error] at h
      have : e2 = e := by simpa using h
      subst this
      exact updateMap_error _ _ _ _ _ _ hu
    | ok m1 =>
      rw [hu, ebind_ok] at h
      exact ih m1 e h

/-- Outcome of pass 1 from node `idx` with cells `C` already claimed: either
a corrupt-data throw, or fuel exhaustion, or success together with the chain
of visited nodes, whose extents are in bounds, disjoint from `C` and from
each other, and all claimed in the final map. -/
def P1Out (s : Storage) (C : List Nat) (idx : Nat)
    (r : Except Err (List Nat)) : Prop :=
  r = .error .corruptData ∨ r = .error .fuelOut ∨
  ∃ mf visited, r = .ok mf ∧ mf.length = s.length ∧ Safe s mf ∧
    visited.head? = some idx ∧ chainLinks s visited ∧
    (∀ v ∈ visited, ∀ c ∈ extentPods s v, c < s.length ∧ c ∉ C) ∧
    visited.Pairwise (fun a b => ∀ c ∈ extentPods s a, c ∉ extentPods s b) ∧
    (∀ c, (c ∈ C ∨ ∃ v ∈ visited, c ∈ extentPods s v) → mf.getD c 0 ≠ valNone)

/-- The last two steps of a pass-1 iteration (read `m_nextIndex`, stop or
recurse), given the facts established by the marking steps. -/
theorem pass1_tail_spec (s : Storage) (fuel : Nat) (idx : Nat)
    (C m m3 : List Nat)
    (ih : ∀ (m : List Nat) (idx : Nat) (C : List Nat),
      m.length = s.length → (∀ c ∈ C, m.getD c 0 ≠ valNone) → Safe s m →
      P1Out s C idx (pass1 s s.length fuel m idx))
    (hm3 : m3.length = s.length) (hS3 : Safe s m3)
    (hCm : ∀ c ∈ C, m.getD c 0 ≠ valNone)
    (hext_lt : ∀ c ∈ extentPods s idx, c < s.length)
    (hext_none : ∀ c ∈ extentPods s idx, m.getD c 0 = valNone)
    (hC3 : ∀ c ∈ C, m3.getD c 0 ≠ valNone)
    (hext3 : ∀ c ∈ extentPods s idx, m3.getD c 0 ≠ valNone) :
    P1Out s C idx (readPod s idx >>= fun nxt =>
      if nxt = 0 then pure m3 else pass1 s s.length fuel m3 nxt) := by
  have hidx_lt : idx < s.length := hext_lt idx (by simp [extentPods])
  unfold P1Out
  rw [readPod_ok _ _ hidx_lt, ebind_ok]
  by_cases hz : podAt s idx = 0
  · rw [if_pos hz, epure]
    right; right
    refine ⟨m3, [idx], rfl, hm3, hS3, rfl, hz, ?_, ?_, ?_⟩
    · intro v hv c hc
      have hv2 := List.mem_singleton.mp hv
      subst hv2
      exact ⟨hext_lt c hc, fun hcC => (hCm c hcC) (hext_none c hc)⟩
    · exact List.pairwise_singleton _ _
    · intro c hcc
      rcases hcc with hcC | ⟨v, hv, hcv⟩
      · exact hC3 c hcC
      · have hv2 := List.mem_singleton.mp hv
        subst hv2
        exact hext3 c hcv
  · rw [if_neg hz]
    have hres := ih m3 (podAt s idx) (C ++ extentPods s idx) hm3 ?hc3 hS3
    case hc3 =>
      intro c hc
      rcases List.mem_append.mp hc with h | h
      · exact hC3 c h
      · exact hext3 c h
    rcases hres with h | h |
      ⟨mf, visited, hok, hlenf, hSf, hhead, hchain, hcells, hpw, hclaimed⟩
    · exact Or.inl h
    · exact Or.inr (Or.inl h)
    · right; right
      cases visited with
      | nil => simp at hhead
      | cons w t =>
        have hw : w = podAt s idx := by simpa using hhead
        subst hw
        refine ⟨mf, idx :: podAt s idx :: t, hok, hlenf, hSf, rfl,
          ⟨rfl, hchain⟩, ?_, ?_, ?_⟩
        · intro v hv c hc
          rcases List.mem_cons.mp hv with rfl | hv2
          · exact ⟨hext_lt c hc, fun hcC => (hCm c hcC) (hext_none c hc)⟩
          · obtain ⟨hlt2, hnC⟩ := hcells v hv2 c hc
            exact ⟨hlt2, fun hcC => hnC (List.mem_append_left _ hcC)⟩
        · rw [List.pairwise_cons]
          refine ⟨?_, hpw⟩
          intro b hb c hcidx hcb
          exact (hcells b hb c hcb).2 (List.mem_append_right _ hcidx)
        · intro c hcc
          rcases hcc with hcC | ⟨v, hv, hcv⟩
          · exact hclaimed c (Or.inl (List.mem_append_left _ hcC))
          · rcases List.mem_cons.mp hv with rfl | hv2
            · exact hclaimed c (Or.inl (List.mem_append_right _ hcv))
            · exact hclaimed c (Or.inr ⟨v, hv2, hcv⟩)

/-- Pass 1 never reads out of bounds and, on success, yields the flat chain
with in-bounds, pairwise-disjoint node extents. -/
theorem pass1_spec (s : Storage) :
    ∀ (fuel : Nat) (m : List Nat) (idx : Nat) (C : List Nat),
      m.length = s.length →
      (∀ c ∈ C, m.getD c 0 ≠ valNone) →
      Safe s m →
      P1Out s C idx (pass1 s s.length fuel m idx) := by
  intro fuel
  induction fuel with
  | zero =>
    intro m idx C hm hC hS
    exact Or.inr (Or.inl rfl)
  | succ fuel ih =>
    intro m idx C hm hC hS
    unfold P1Out
    simp only [pass1]
    cases hu1 : updateMap s.length m idx valNone valHead with
    | error e =>
      rw [ebind_error, updateMap_error _ _ _ _ _ _ hu1]
      exact Or.inl rfl
    | ok m1 =>
      rw [ebind_ok]
      obtain ⟨hidx, hidxN, hm1⟩ := updateMap_ok _ _ _ _ _ _ hu1
      cases hu2 : updateMap s.length m1 (idx + 1) valNone valTail with
      | error e =>
        rw [ebind_error, updateMap_error _ _ _ _ _ _ hu2]
        exact Or.inl rfl
      | ok m2 =>
        rw [ebind_ok]
        obtain ⟨hidx1, hidx1N, hm2⟩ := updateMap_ok _ _ _ _ _ _ hu2
        rw [readPod_ok _ _ (by omega), ebind_ok]
        rw [show podAt s (idx + 1) / 2 ^ 24 % 2 ^ 8 = typeAt s idx from rfl,
          show podAt s (idx + 1) % 2 ^ 24 = cchNameAt s idx from rfl]
        have hm1len : m1.length = s.length := by
          rw [hm1, List.length_set, hm]
        have hm2len : m2.length = s.length := by
          rw [hm2, List.length_set, hm1len]
        have hmNidx1 : m.getD (idx + 1) 0 = valNone := by
          rw [hm1, getD_set_ne _ _ _ _ (by omega)] at hidx1N
          exact hidx1N
        have hm2idx : m2.getD idx 0 = valHead := by
          rw [hm2, getD_set_ne _ _ _ _ (by omega), hm1,
            getD_set_eq _ _ _ (by omega)]
          decide
        have hm2idx1 : m2.getD (idx + 1) 0 = valTail := by
          rw [hm2, getD_set_eq _ _ _ (by rw [hm1, List.length_set]; omega)]
          decide
        have hm2other : ∀ j, j ≠ idx → j ≠ idx + 1 →
            m2.getD j 0 = m.getD j 0 := by
          intro j h1 h2
          rw [hm2, getD_set_ne _ _ _ _ h2, hm1, getD_set_ne _ _ _ _ h1]
        have hD3 : 3 ≤ dataOffsetOf (cchNameAt s idx) := by
          unfold dataOffsetOf; omega
        by_cases hty : typeAt s idx ≠ jsonHidden
        case neg =>
          rw [if_neg hty, epure, ebind_ok]
          have hextEq : extentPods s idx = [idx, idx + 1] := by
            unfold extentPods
            rw [if_neg hty]
          have hmem2 : ∀ c ∈ extentPods s idx, c = idx ∨ c = idx + 1 := by
            intro c hc
            rw [hextEq] at hc
            simpa using hc
          have hS2 : Safe s m2 := by
            intro j hj
            by_cases hji : j = idx
            · subst hji
              exact ⟨by omega, fun hcon => absurd (not_not.mp hty) hcon⟩
            · by_cases hji1 : j = idx + 1
              · subst hji1
                rw [hm2idx1] at hj
                rcases hj with h | h <;> simp [valTail, valHead, valReached] at h
              · rw [hm2other j hji hji1] at hj
                exact hS j hj
          refine pass1_tail_spec s fuel idx C m m2 ih hm2len hS2 hC ?_ ?_ ?_ ?_
          · intro c hc
            rcases hmem2 c hc with rfl | rfl <;> omega
          · intro c hc
            rcases hmem2 c hc with rfl | rfl
            · exact hidxN
            · exact hmNidx1
          · intro c hcC
            by_cases h1 : c = idx
            · subst h1; rw [hm2idx]; decide
            · by_cases h2 : c = idx + 1
              · subst h2; rw [hm2idx1]; decide
              · rw [hm2other c h1 h2]; exact hC c hcC
          · intro c hc
            rcases hmem2 c hc with rfl | rfl
            · rw [hm2idx]; decide
            · rw [hm2idx1]; decide
        case pos =>
          rw [if_pos hty]
          cases hmt : markTails s.length m2 idx 2
              (dataOffsetOf (cchNameAt s idx)) with
          | error e =>
            rw [ebind_error]
            unfold markTails at hmt
            rw [tailsFold_error _ _ _ _ _ hmt]
            exact Or.inl rfl
          | ok m3a =>
            rw [ebind_ok]
            unfold markTails at hmt
            obtain ⟨hm3alen, hcells1, hmono1⟩ :=
              tailsFold_spec s.length idx _ _ _ hm2len hmt
            have h2mem : (2 : Nat) ∈
                List.range' 2 (dataOffsetOf (cchNameAt s idx) - 2) := by
              rw [List.mem_range'_1]
              omega
            have hidx2 : idx + 2 < s.length := (hcells1 2 h2mem).1
            have hS3a : Safe s m3a := by
              intro j hj
              rcases hmono1 j with heq | h1
              · rw [heq] at hj
                by_cases hji : j = idx
                · subst hji
                  exact ⟨by omega, fun _ => hidx2⟩
                · by_cases hji1 : j = idx + 1
                  · subst hji1
                    rw [hm2idx1] at hj
                    rcases hj with h | h <;>
                      simp [valTail, valHead, valReached] at h
                  · rw [hm2other j hji hji1] at hj
                    exact hS j hj
              · rw [h1] at hj
                rcases hj with h | h <;> simp [valTail, valHead, valReached] at h
            have hne13 : ∀ j, m2.getD j 0 ≠ valNone → m3a.getD j 0 ≠ valNone := by
              intro j hne
              rcases hmono1 j with heq | h1
              · rw [heq]; exact hne
              · rw [h1]; decide
            by_cases hnorm : isNormalType (typeAt s idx) = true
            case neg =>
              rw [if_neg hnorm, epure, ebind_ok]
              have hextEq : extentPods s idx = idx :: (idx + 1) ::
                  ((List.range' 2 (dataOffsetOf (cchNameAt s idx) - 2)).map
                    (fun k => idx + k) ++ []) := by
                unfold extentPods
                rw [if_pos hty, if_neg hnorm]
              have hmem2 : ∀ c ∈ extentPods s idx, c = idx ∨ c = idx + 1 ∨
                  ∃ k ∈ List.range' 2 (dataOffsetOf (cchNameAt s idx) - 2),
                    c = idx + k := by
                intro c hc
                rw [hextEq] at hc
                simp only [List.append_nil, List.mem_cons, List.mem_map] at hc
                rcases hc with rfl | rfl | ⟨k, hk, rfl⟩
                · exact Or.inl rfl
                · exact Or.inr (Or.inl rfl)
                · exact Or.inr (Or.inr ⟨k, hk, rfl⟩)
              refine pass1_tail_spec s fuel idx C m m3a ih hm3alen hS3a hC
                ?_ ?_ ?_ ?_
              · intro c hc
                rcases hmem2 c hc with rfl | rfl | ⟨k, hk, rfl⟩
                · omega
                · omega
                · exact (hcells1 k hk).1
              · intro c hc
                rcases hmem2 c hc with rfl | rfl | ⟨k, hk, rfl⟩
                · exact hidxN
                · exact hmNidx1
                · have hk2 : 2 ≤ k := by
                    rw [List.mem_range'_1] at hk
                    omega
                  have := (hcells1 k hk).2.1
                  rw [hm2other (idx + k) (by omega) (by omega)] at this
                  exact this
              · intro c hcC
                apply hne13
                by_cases h1 : c = idx
                · subst h1; rw [hm2idx]; decide
                · by_cases h2 : c = idx + 1
                  · subst h2; rw [hm2idx1]; decide
                  · rw [hm2other c h1 h2]; exact hC c hcC
              · intro c hc
                rcases hmem2 c hc with rfl | rfl | ⟨k, hk, rfl⟩
                · apply hne13; rw [hm2idx]; decide
                · apply hne13; rw [hm2idx1]; decide
                · rw [(hcells1 k hk).2.2]; decide
            case pos =>
              rw [if_pos hnorm]
              rw [readPod_ok _ _ hidx2, ebind_ok]
              rw [show podAt s (idx + 2) = auxAt s idx from rfl]
              by_cases hdm : dataMax < auxAt s idx
              · rw [if_pos hdm, ethrow, ebind_error]
                exact Or.inl rfl
              · rw [if_neg hdm]
                cases hmt2 : markTails s.length m3a idx
                    (dataOffsetOf (cchNameAt s idx))
                    (dataOffsetOf (cchNameAt s idx) + (auxAt s idx + 3) / 4) with
                | error e =>
                  rw [ebind_error]
                  unfold markTails at hmt2
                  rw [tailsFold_error _ _ _ _ _ hmt2]
                  exact Or.inl rfl
                | ok m3 =>
                  rw [ebind_ok]
                  unfold markTails at hmt2
                  rw [Nat.add_sub_cancel_left] at hmt2
                  obtain ⟨hm3len, hcells2, hmono2⟩ :=
                    tailsFold_spec s.length idx _ _ _ hm3alen hmt2
                  have hS3 : Safe s m3 := by
                    intro j hj
                    rcases hmono2 j with heq | h1
                    · rw [heq] at hj
                      exact hS3a j hj
                    · rw [h1] at hj
                      rcases hj with h | h <;>
                        simp [valTail, valHead, valReached] at h
                  have hne23 : ∀ j, m3a.getD j 0 ≠ valNone →
                      m3.getD j 0 ≠ valNone := by
                    intro j hne
                    rcases hmono2 j with heq | h1
                    · rw [heq]; exact hne
                    · rw [h1]; decide
                  have hextEq : extentPods s idx = idx :: (idx + 1) ::
                      ((List.range' 2 (dataOffsetOf (cchNameAt s idx) - 2)).map
                        (fun k => idx + k) ++
                       (List.range' (dataOffsetOf (cchNameAt s idx))
                         ((auxAt s idx + 3) / 4)).map (fun k => idx + k)) := by
                    unfold extentPods
                    rw [if_pos hty, if_pos hnorm]
                  have hmem2 : ∀ c ∈ extentPods s idx, c = idx ∨ c = idx + 1 ∨
                      (∃ k ∈ List.range' 2 (dataOffsetOf (cchNameAt s idx) - 2),
                        c = idx + k) ∨
                      (∃ k ∈ List.range' (dataOffsetOf (cchNameAt s idx))
                          ((auxAt s idx + 3) / 4), c = idx + k) := by
                    intro c hc
                    rw [hextEq] at hc
                    simp only [List.mem_cons, List.mem_append, List.mem_map] at hc
                    rcases hc with rfl | rfl | ⟨k, hk, rfl⟩ | ⟨k, hk, rfl⟩
                    · exact Or.inl rfl
                    · exact Or.inr (Or.inl rfl)
                    · exact Or.inr (Or.inr (Or.inl ⟨k, hk, rfl⟩))
                    · exact Or.inr (Or.inr (Or.inr ⟨k, hk, rfl⟩))
                  refine pass1_tail_spec s fuel idx C m m3 ih hm3len hS3 hC
                    ?_ ?_ ?_ ?_
                  · intro c hc
                    rcases hmem2 c hc with rfl | rfl | ⟨k, hk, rfl⟩ | ⟨k, hk, rfl⟩
                    · omega
                    · omega
                    · exact (hcells1 k hk).1
                    · exact (hcells2 k hk).1
                  · intro c hc
                    rcases hmem2 c hc with rfl | rfl | ⟨k, hk, rfl⟩ | ⟨k, hk, rfl⟩
                    · exact hidxN
                    · exact hmNidx1
                    · have hk2 : 2 ≤ k := by
                        rw [List.mem_range'_1] at hk
                        omega
                      have := (hcells1 k hk).2.1
                      rw [hm2other (idx + k) (by omega) (by omega)] at this
                      exact this
                    · have hk3 : 3 ≤ k := by
                        rw [List.mem_range'_1] at hk
                        omega
                      have h0 := (hcells2 k hk).2.1
                      rcases hmono1 (idx + k) with heq | h1
                      · rw [heq] at h0
                        rw [hm2other (idx + k) (by omega) (by omega)] at h0
                        exact h0
                      · rw [h1] at h0
                        exact absurd h0 (by decide)
                  · intro c hcC
                    apply hne23
                    apply hne13
                    by_cases h1 : c = idx
                    · subst h1; rw [hm2idx]; decide
                    · by_cases h2 : c = idx + 1
                      · subst h2; rw [hm2idx1]; decide
                      · rw [hm2other c h1 h2]; exact hC c hcC
                  · intro c hc
                    rcases hmem2 c hc with rfl | rfl | ⟨k, hk, rfl⟩ | ⟨k, hk, rfl⟩
                    · apply hne23; apply hne13; rw [hm2idx]; decide
                    · apply hne23; apply hne13; rw [hm2idx1]; decide
                    · apply hne23; rw [(hcells1 k hk).2.2]; decide
                    · rw [(hcells2 k hk).2.2]; decide

/-- Outcome of the second validator pass from a map `m`: a corrupt-data
throw, fuel exhaustion, or success with a map that still satisfies the
bounds facts and keeps every Reached cell Reached. -/
def P2Out (s : Storage) (m : List Nat) (r : Except Err (List Nat)) : Prop :=
  r = .error .corruptData ∨ r = .error .fuelOut ∨
  ∃ m2, r = .ok m2 ∧ m2.length = s.length ∧ Safe s m2 ∧
    (∀ j, m.getD j 0 = valReached → m2.getD j 0 = valReached)

theorem safe_set_reached (s : Storage) (m : List Nat) (i : Nat)
    (hS : Safe s m) (hHead : m.getD i 0 = valHead) :
    Safe s (m.set i (valHead ||| valReached)) := by
  intro j hj
  by_cases hji : j = i
  · subst hji
    exact hS j (Or.inl hHead)
  · rw [getD_set_ne _ _ _ _ hji] at hj
    exact hS j hj

theorem reached_set (m : List Nat) (i : Nat) :
    ∀ j, m.getD j 0 = valReached →
      (m.set i (valHead ||| valReached)).getD j 0 = valReached := by
  intro j hj
  by_cases hji : j = i
  · subst hji
    by_cases hlen : j < m.length
    · rw [getD_set_eq _ _ _ hlen]; decide
    · rw [List.set_eq_of_length_le (by omega)]; exact hj
  · rw [getD_set_ne _ _ _ _ hji]; exact hj

/-- Pass 2 (the recursive tree walk) never reads out of bounds given the
bounds facts of the pass-1 map, preserves them, and only upgrades map
cells from Head to Reached. -/
theorem pass2_spec (s : Storage) :
    ∀ fuel : Nat,
      (∀ (m : List Nat) (parent : Nat),
        m.length = s.length → Safe s m →
        (m.getD parent 0 = valHead ∨ m.getD parent 0 = valReached) →
        typeAt s parent ≠ jsonHidden →
        P2Out s m (pass2 s s.length fuel m parent)) ∧
      (∀ (m : List Nat) (child lastC : Nat),
        m.length = s.length → Safe s m →
        (m.getD child 0 = valHead ∨ m.getD child 0 = valReached) →
        P2Out s m (pass2Loop s s.length fuel m child lastC)) := by
  intro fuel
  induction fuel with
  | zero =>
    exact ⟨fun m parent _ _ _ _ => Or.inr (Or.inl rfl),
      fun m child lastC _ _ _ => Or.inr (Or.inl rfl)⟩
  | succ fuel ih =>
    obtain ⟨ihP, ihQ⟩ := ih
    constructor
    · intro m parent hm hS hpar hty
      unfold P2Out
      simp only [pass2]
      have hp1 : parent + 1 < s.length := (hS parent hpar).1
      have hp2 : parent + 2 < s.length := (hS parent hpar).2 hty
      rw [readPod_ok _ _ hp1, ebind_ok, readPod_ok _ _ hp2, ebind_ok]
      cases hum : updateMap s.length m
          (parent + dataOffsetOf (podAt s (parent + 1) % 2 ^ 24))
          valHead valReached with
      | error e =>
        rw [ebind_error, updateMap_error _ _ _ _ _ _ hum]
        exact Or.inl rfl
      | ok m1 =>
        rw [ebind_ok]
        obtain ⟨hclt, hcHead, hm1⟩ := updateMap_ok _ _ _ _ _ _ hum
        have hch1 : parent + dataOffsetOf (podAt s (parent + 1) % 2 ^ 24) + 1
            < s.length :=
          (hS _ (Or.inl hcHead)).1
        rw [readPod_ok _ _ hch1, ebind_ok]
        by_cases hcty : podAt s
            (parent + dataOffsetOf (podAt s (parent + 1) % 2 ^ 24) + 1)
            / 2 ^ 24 % 2 ^ 8 ≠ jsonHidden
        · rw [if_pos hcty, ethrow]
          exact Or.inl rfl
        · rw [if_neg hcty]
          have hm1len : m1.length = s.length := by
            rw [hm1, List.length_set, hm]
          have hS1 : Safe s m1 := hm1 ▸ safe_set_reached s m _ hS hcHead
          have hm1c : m1.getD
              (parent + dataOffsetOf (podAt s (parent + 1) % 2 ^ 24)) 0
              = valReached := by
            rw [hm1, getD_set_eq _ _ _ (by omega)]
            decide
          rcases ihQ m1 _ (podAt s (parent + 2)) hm1len hS1 (Or.inr hm1c) with
            h | h | ⟨m2, hok, hl2, hS2, hmon⟩
          · rw [h]; exact Or.inl rfl
          · rw [h]; exact Or.inr (Or.inl rfl)
          · rw [hok]
            right; right
            refine ⟨m2, rfl, hl2, hS2, ?_⟩
            intro j hj
            exact hmon j (hm1 ▸ reached_set m _ j hj)
    · intro m child lastC hm hS hch
      unfold P2Out
      simp only [pass2Loop]
      by_cases heq : child = lastC
      · rw [if_pos heq, epure]
        exact Or.inr (Or.inr ⟨m, rfl, hm, hS, fun j h => h⟩)
      · rw [if_neg heq]
        have hch1 : child + 1 < s.length := (hS child hch).1
        rw [readPod_ok _ _ (by omega), ebind_ok]
        cases hum : updateMap s.length m (podAt s child)
            valHead valReached with
        | error e =>
          rw [ebind_error, updateMap_error _ _ _ _ _ _ hum]
          exact Or.inl rfl
        | ok m1 =>
          rw [ebind_ok]
          obtain ⟨hnlt, hnHead, hm1⟩ := updateMap_ok _ _ _ _ _ _ hum
          have hn1 : podAt s child + 1 < s.length := (hS _ (Or.inl hnHead)).1
          rw [readPod_ok _ _ hn1, ebind_ok]
          have hm1len : m1.length = s.length := by
            rw [hm1, List.length_set, hm]
          have hS1 : Safe s m1 := hm1 ▸ safe_set_reached s m _ hS hnHead
          have hm1n : m1.getD (podAt s child) 0 = valReached := by
            rw [hm1, getD_set_eq _ _ _ (by omega)]
            decide
          by_cases hcomp : isCompositeType
              (podAt s (podAt s child + 1) / 2 ^ 24 % 2 ^ 8) = true
          · rw [if_pos hcomp]
            have htyn : typeAt s (podAt s child) ≠ jsonHidden := by
              have h254 : 254 ≤ podAt s (podAt s child + 1) / 2 ^ 24 % 2 ^ 8 :=
                of_decide_eq_true hcomp
              show podAt s (podAt s child + 1) / 2 ^ 24 % 2 ^ 8 ≠ jsonHidden
              unfold jsonHidden
              omega
            rcases ihP m1 (podAt s child) hm1len hS1 (Or.inr hm1n) htyn with
              h | h | ⟨m2, hok, hl2, hS2, hmon⟩
            · rw [h, ebind_error]; exact Or.inl rfl
            · rw [h, ebind_error]; exact Or.inr (Or.inl rfl)
            · rw [hok, ebind_ok]
              rcases ihQ m2 (podAt s child) lastC hl2 hS2
                  (Or.inr (hmon _ hm1n)) with
                h | h | ⟨m3, hok3, hl3, hS3, hmon3⟩
              · rw [h]; exact Or.inl rfl
              · rw [h]; exact Or.inr (Or.inl rfl)
              · rw [hok3]
                right; right
                refine ⟨m3, rfl, hl3, hS3, ?_⟩
                intro j hj
                exact hmon3 j (hmon j (hm1 ▸ reached_set m _ j hj))
          · rw [if_neg hcomp, epure, ebind_ok]
            rcases ihQ m1 (podAt s child) lastC hm1len hS1 (Or.inr hm1n) with
              h | h | ⟨m3, hok3, hl3, hS3, hmon3⟩
            · rw [h]; exact Or.inl rfl
            · rw [h]; exact Or.inr (Or.inl rfl)
            · rw [hok3]
              right; right
              refine ⟨m3, rfl, hl3, hS3, ?_⟩
              intro j hj
              exact hmon3 j (hm1 ▸ reached_set m _ j hj)

theorem readPod_ok_inv (s : Storage) (i v : Nat) (h : readPod s i = .ok v) :
    v = podAt s i := by
  unfold readPod at h
  by_cases hlt : i < s.length
  · rw [if_pos hlt] at h
    simp only [Except.ok.injEq] at h
    exact h.symm
  · rw [if_neg hlt] at h
    exact absurd h (by simp)

/-- If the recursive pass succeeds on the root, the root's declared first
child (its sentinel) is a Hidden node — the check `pChild->m_type !=
JsonHidden` was passed. -/
theorem pass2_ok_sentinel (s : Storage) (fuel : Nat) (m mf : List Nat)
    (h : pass2 s s.length (fuel + 1) m 0 = .ok mf) :
    typeAt s (firstChild s 0) = jsonHidden := by
  simp only [pass2] at h
  cases hr1 : readPod s (0 + 1) with
  | error e => rw [hr1, ebind_error] at h; exact absurd h (by simp)
  | ok hdrP =>
    have hP := readPod_ok_inv _ _ _ hr1
    subst hP
    rw [hr1, ebind_ok] at h
    cases hr2 : readPod s (0 + 2) with
    | error e => rw [hr2, ebind_error] at h; exact absurd h (by simp)
    | ok lastC =>
      rw [hr2, ebind_ok] at h
      cases hum : updateMap s.length m
          (0 + dataOffsetOf (podAt s (0 + 1) % 2 ^ 24)) valHead valReached with
      | error e => rw [hum, ebind_error] at h; exact absurd h (by simp)
      | ok m1 =>
        rw [hum, ebind_ok] at h
        cases hr3 : readPod s
            (0 + dataOffsetOf (podAt s (0 + 1) % 2 ^ 24) + 1) with
        | error e => rw [hr3, ebind_error] at h; exact absurd h (by simp)
        | ok hdrC =>
          have hCv := readPod_ok_inv _ _ _ hr3
          subst hCv
          rw [hr3, ebind_ok] at h
          by_cases hcty : podAt s
              (0 + dataOffsetOf (podAt s (0 + 1) % 2 ^ 24) + 1)
              / 2 ^ 24 % 2 ^ 8 ≠ jsonHidden
          · rw [if_pos hcty, ethrow] at h
            exact absurd h (by simp)
          · exact not_not.mp hcty

/-- C2: bounds-instrumented validation never reads out of bounds (for every
input buffer every storage read is preceded by the `m_size <= index` check in
`UpdateMap`), and on success the buffer's flat linked list starts at the
root, every visited node's claimed pods are in bounds and pairwise disjoint,
the root is an Object with an empty name, and the root's declared first
child is Hidden.  The Hidden-first-child check is only applied to composite
nodes reached by the recursive tree walk: a composite node that sits in the
flat list but is unreachable from the root tree is NOT checked (see the
counterexample). -/
theorem validator_spec (s : Storage) :
    validate s ≠ .error .oobRead
  ∧ (validate s = .ok () →
      cchNameAt s 0 = 0 ∧ typeAt s 0 = jsonObject
        ∧ typeAt s (firstChild s 0) = jsonHidden
        ∧ ∃ visited : List Nat,
            visited.head? = some 0 ∧ chainLinks s visited
              ∧ (∀ v ∈ visited, ∀ c ∈ extentPods s v, c < s.length)
              ∧ visited.Pairwise
                  (fun a b => ∀ c ∈ extentPods s a, c ∉ extentPods s b)) := by
  have hrep0 : ∀ i : Nat, (List.replicate s.length (0 : Nat)).getD i 0 = 0 := by
    intro i
    rw [List.getD_eq_getElem?_getD, List.getElem?_replicate]
    split <;> rfl
  have hS0 : Safe s (List.replicate s.length 0) := by
    intro i hi
    rw [hrep0] at hi
    rcases hi with h | h <;> simp [valHead, valReached] at h
  have hp1 := pass1_spec s (s.length + 2) (List.replicate s.length 0) 0 []
    (by simp) (by simp) hS0
  have hveq : validate s
      = pass1 s s.length (s.length + 2) (List.replicate s.length 0) 0 >>=
          fun m1 => updateMap s.length m1 0 valHead valReached >>= fun m2 =>
            readPod s 1 >>= fun hdr0 =>
              if hdr0 % 2 ^ 24 ≠ 0 ∨ hdr0 / 2 ^ 24 % 2 ^ 8 ≠ jsonObject then
                throw .corruptData
              else pass2 s s.length (s.length + 2) m2 0 >>= fun _ => pure () :=
    rfl
  have hmain : validate s = .error .corruptData ∨
      validate s = .error .fuelOut ∨
      (validate s = .ok () ∧ cchNameAt s 0 = 0 ∧ typeAt s 0 = jsonObject ∧
        typeAt s (firstChild s 0) = jsonHidden ∧
        ∃ visited : List Nat, visited.head? = some 0 ∧ chainLinks s visited ∧
          (∀ v ∈ visited, ∀ c ∈ extentPods s v, c < s.length) ∧
          visited.Pairwise
            (fun a b => ∀ c ∈ extentPods s a, c ∉ extentPods s b)) := by
    rw [hveq]
    unfold P1Out at hp1
    rcases hp1 with h | h |
      ⟨mf, visited, hok1, hlen1, hS1, hhead1, hchain1, hcells1, hpw1, hclaimed1⟩
    · rw [h, ebind_error]; exact Or.inl rfl
    · rw [h, ebind_error]; exact Or.inr (Or.inl rfl)
    · rw [hok1, ebind_ok]
      cases hum : updateMap s.length mf 0 valHead valReached with
      | error e =>
        rw [ebind_error, updateMap_error _ _ _ _ _ _ hum]
        exact Or.inl rfl
      | ok m2 =>
        rw [ebind_ok]
        obtain ⟨h0lt, h0Head, hm2⟩ := updateMap_ok _ _ _ _ _ _ hum
        have h1lt : 1 < s.length := by
          have := (hS1 0 (Or.inl h0Head)).1
          omega
        rw [readPod_ok _ _ h1lt, ebind_ok]
        by_cases hroot : podAt s 1 % 2 ^ 24 ≠ 0 ∨
            podAt s 1 / 2 ^ 24 % 2 ^ 8 ≠ jsonObject
        · rw [if_pos hroot, ethrow]
          exact Or.inl rfl
        · rw [if_neg hroot]
          push_neg at hroot
          obtain ⟨hcch0, hty0⟩ := hroot
          have hty0ne : typeAt s 0 ≠ jsonHidden := by
            show podAt s (0 + 1) / 2 ^ 24 % 2 ^ 8 ≠ jsonHidden
            rw [show (0 : Nat) + 1 = 1 from rfl, hty0]
            unfold jsonObject jsonHidden
            omega
          have hm2len : m2.length = s.length := by
            rw [hm2, List.length_set, hlen1]
          have hS2 : Safe s m2 := hm2 ▸ safe_set_reached s mf _ hS1 h0Head
          have hm20 : m2.getD 0 0 = valReached := by
            rw [hm2, getD_set_eq _ _ _ (by omega)]
            decide
          rcases (pass2_spec s (s.length + 2)).1 m2 0 hm2len hS2
              (Or.inr hm20) hty0ne with h | h | ⟨m3, hok3, hl3, hS3, hmon3⟩
          · rw [h, ebind_error]; exact Or.inl rfl
          · rw [h, ebind_error]; exact Or.inr (Or.inl rfl)
          · rw [hok3, ebind_ok, epure]
            right; right
            refine ⟨rfl, hcch0, hty0,
              pass2_ok_sentinel s (s.length + 1) m2 m3 hok3,
              visited, hhead1, hchain1, ?_, hpw1⟩
            intro v hv c hc
            exact (hcells1 v hv c hc).1
  constructor
  · intro hbad
    rcases hmain with h | h | ⟨h, _⟩ <;> rw [hbad] at h <;> simp at h
  · intro hok
    rcases hmain with h | h | ⟨_, hrest⟩
    · rw [hok] at h; exact absurd h (by simp)
    · rw [hok] at h; exact absurd h (by simp)
    · exact hrest

/-- A buffer whose flat list is root (0) → sentinel (3) → composite node (5)
→ Null node (8), where the root has no tree children (its lastChildIndex is
its own sentinel 3), so the composite at 5 is never reached by the tree walk
even though its declared first child (8) is not Hidden. -/
def ex2 : Storage :=
  [3, 255 * 2 ^ 24, 3, 5, 253 * 2 ^ 24, 8, 254 * 2 ^ 24, 8, 0, 252 * 2 ^ 24, 0]

/-- C2 counterexample: validation accepts `ex2` although it contains a
composite node (index 5, in the flat linked list) whose declared first child
is not Hidden — the Hidden-first-child rejection does not apply to every
composite node in the buffer, only to tree-reachable ones. -/
theorem validator_unreachable_composite_counterexample :
    validate ex2 = .ok ()
      ∧ chainLinks ex2 [0, 3, 5, 8]
      ∧ isCompositeType (typeAt ex2 5) = true
      ∧ typeAt ex2 (firstChild ex2 5) ≠ jsonHidden :=
  ⟨rfl, ⟨rfl, rfl, rfl, rfl⟩, by decide, by decide⟩

/-- Witness for C2 at a concrete accepted buffer. -/
theorem validator_spec_witness :
    validate ex2 = .ok () ∧
    (cchNameAt ex2 0 = 0 ∧ typeAt ex2 0 = jsonObject
      ∧ typeAt ex2 (firstChild ex2 0) = jsonHidden
      ∧ ∃ visited : List Nat,
          visited.head? = some 0 ∧ chainLinks ex2 visited
            ∧ (∀ v ∈ visited, ∀ c ∈ extentPods ex2 v, c < ex2.length)
            ∧ visited.Pairwise
                (fun a b => ∀ c ∈ extentPods ex2 a, c ∉ extentPods ex2 b)) :=
  ⟨rfl, (validator_spec ex2).2 rfl⟩

/-! ## C3: splice -/

theorem length_setNext (s : Storage) (i v : Nat) :
    (setNext s i v).length = s.length := length_setPod ..

theorem length_setAux (s : Storage) (i v : Nat) :
    (setAux s i v).length = s.length := length_setPod ..

theorem nextIdx_setNext_ne (s : Storage) (i v j : Nat) (h : j ≠ i) :
    nextIdx (setNext s i v) j = nextIdx s j :=
  podAt_setPod_ne s _ (fun he => h he.symm)

theorem nextIdx_setNext_self (s : Storage) (i v : Nat) (h : i < s.length)
    (h32 : v < 2 ^ 32) : nextIdx (setNext s i v) i = v := by
  unfold nextIdx setNext
  rw [podAt_setPod_self s _ h]
  exact Nat.mod_eq_of_lt h32

theorem nextIdx_setAux (s : Storage) (i v j : Nat) (h : j ≠ i + 2) :
    nextIdx (setAux s i v) j = nextIdx s j :=
  podAt_setPod_ne s _ (fun he => h he.symm)

theorem typeAt_setNext (s : Storage) (i v m : Nat) (h : m + 1 ≠ i) :
    typeAt (setNext s i v) m = typeAt s m := by
  unfold typeAt setNext
  rw [podAt_setPod_ne s _ (fun he => h he.symm)]

theorem cchNameAt_setNext (s : Storage) (i v m : Nat) (h : m + 1 ≠ i) :
    cchNameAt (setNext s i v) m = cchNameAt s m := by
  unfold cchNameAt setNext
  rw [podAt_setPod_ne s _ (fun he => h he.symm)]

theorem firstChild_setNext (s : Storage) (i v m : Nat) (h : m + 1 ≠ i) :
    firstChild (setNext s i v) m = firstChild s m := by
  unfold firstChild
  rw [cchNameAt_setNext s i v m h]

theorem auxAt_setNext (s : Storage) (i v m : Nat) (h : m + 2 ≠ i) :
    auxAt (setNext s i v) m = auxAt s m :=
  podAt_setPod_ne s _ (fun he => h he.symm)

theorem typeAt_setAux (s : Storage) (i v m : Nat) (h : m + 1 ≠ i + 2) :
    typeAt (setAux s i v) m = typeAt s m := by
  unfold typeAt setAux
  rw [podAt_setPod_ne s _ (fun he => h he.symm)]

theorem cchNameAt_setAux (s : Storage) (i v m : Nat) (h : m + 1 ≠ i + 2) :
    cchNameAt (setAux s i v) m = cchNameAt s m := by
  unfold cchNameAt setAux
  rw [podAt_setPod_ne s _ (fun he => h he.symm)]

theorem firstChild_setAux (s : Storage) (i v m : Nat) (h : m + 1 ≠ i + 2) :
    firstChild (setAux s i v) m = firstChild s m := by
  unfold firstChild
  rw [cchNameAt_setAux s i v m h]

theorem auxAt_setAux_ne (s : Storage) (i v m : Nat) (h : m ≠ i) :
    auxAt (setAux s i v) m = auxAt s m :=
  podAt_setPod_ne s _ (fun he => h (by omega))

theorem auxAt_setAux_self (s : Storage) (i v : Nat) (h : i + 2 < s.length)
    (h32 : v < 2 ^ 32) : auxAt (setAux s i v) i = v := by
  unfold auxAt setAux
  rw [podAt_setPod_self s _ h]
  exact Nat.mod_eq_of_lt h32

theorem isEmpty_setPod (s : Storage) (i v : Nat) :
    (setPod s i v).isEmpty = s.isEmpty := by
  rcases s with _ | ⟨x, t⟩
  · rfl
  · rcases i with _ | i <;> rfl

theorem walkTo_stop (s : Storage) (fuel stop : Nat) :
    walkTo s (fuel + 1) stop stop = some [stop] := by
  simp [walkTo]

theorem walkTo_step (s : Storage) (fuel cur stop : Nat) (h : cur ≠ stop) :
    walkTo s (fuel + 1) cur stop
      = (walkTo s fuel (nextIdx s cur) stop).map (fun l => cur :: l) := by
  simp only [walkTo]
  rw [if_neg h]

/-- One selected iteration of the `Splice` loop with the tail pointer still
at the local `headIndex` variable. -/
theorem spliceLoop_sel_none (pred : Storage → Nat → Bool) (last P1 fuel : Nat)
    (s : Storage) (prev head : Nat)
    (hvis : typeAt s (nextIdx s prev) ≠ jsonHidden)
    (hsel : pred s (nextIdx s prev) = true)
    (hne : nextIdx s prev ≠ last) :
    spliceLoop pred last P1 (fuel + 1) s prev head none
      = spliceLoop pred last P1 fuel
          (setNext (setNext s prev (nextIdx s (nextIdx s prev)))
            (nextIdx s prev) (nextIdx s prev))
          prev (nextIdx s prev) (some (nextIdx s prev)) := by
  simp only [spliceLoop]
  rw [if_pos ⟨hvis, hsel⟩, if_neg hne]

/-- One selected iteration with the tail pointer at moved node `t`. -/
theorem spliceLoop_sel_some (pred : Storage → Nat → Bool) (last P1 fuel : Nat)
    (s : Storage) (prev head t : Nat)
    (hvis : typeAt s (nextIdx s prev) ≠ jsonHidden)
    (hsel : pred s (nextIdx s prev) = true)
    (hne : nextIdx s prev ≠ last) :
    spliceLoop pred last P1 (fuel + 1) s prev head (some t)
      = spliceLoop pred last P1 fuel
          (setNext (setNext (setNext s prev (nextIdx s (nextIdx s prev))) t
            (nextIdx s prev)) (nextIdx s prev) (nextIdx s prev))
          prev head (some (nextIdx s prev)) := by
  simp only [spliceLoop]
  rw [if_pos ⟨hvis, hsel⟩, if_neg hne]

/-- The final selected iteration: the current node is the old parent's
`m_lastChildIndex`, so the loop breaks after updating it. -/
theorem spliceLoop_sel_last (pred : Storage → Nat → Bool) (last P1 fuel : Nat)
    (s : Storage) (prev head t : Nat)
    (hvis : typeAt s (nextIdx s prev) ≠ jsonHidden)
    (hsel : pred s (nextIdx s prev) = true)
    (hlast : nextIdx s prev = last) :
    spliceLoop pred last P1 (fuel + 1) s prev head (some t)
      = some (setAux
          (setNext (setNext (setNext s prev (nextIdx s (nextIdx s prev))) t
            (nextIdx s prev)) (nextIdx s prev) (nextIdx s prev))
          P1 prev, head, some (nextIdx s prev)) := by
  simp only [spliceLoop]
  rw [if_pos ⟨hvis, hsel⟩, if_pos hlast]

/-- A skipped iteration (hidden node or predicate false, not the last). -/
theorem spliceLoop_skip (pred : Storage → Nat → Bool) (last P1 fuel : Nat)
    (s : Storage) (prev head : Nat) (tail : Option Nat)
    (hnot : ¬(typeAt s (nextIdx s prev) ≠ jsonHidden ∧
      pred s (nextIdx s prev) = true))
    (hne : nextIdx s prev ≠ last) :
    spliceLoop pred last P1 (fuel + 1) s prev head tail
      = spliceLoop pred last P1 fuel s (nextIdx s prev) head tail := by
  simp only [spliceLoop]
  rw [if_neg hnot, if_neg hne]


/-- Shifted disequalities that follow from two node indices being at least
three pods apart; proved once so the splice proofs never call omega in a
large context. -/
theorem sep_facts (a b : Nat) (h : a + 3 ≤ b ∨ b + 3 ≤ a) :
    a ≠ b ∧ b ≠ a ∧ a + 1 ≠ b ∧ a + 2 ≠ b ∧ b + 1 ≠ a ∧ b + 2 ≠ a ∧
      a + 1 ≠ b + 2 ∧ b + 1 ≠ a + 2 := by
  rcases h with h | h <;>
    exact ⟨by omega, by omega, by omega, by omega, by omega, by omega,
      by omega, by omega⟩

theorem plus1_ne_plus2 (a : Nat) : a + 1 ≠ a + 2 := by omega

theorem plus1_ne_self (a : Nat) : a + 1 ≠ a := by omega

theorem plus2_ne_self (a : Nat) : a + 2 ≠ a := by omega

set_option maxHeartbeats 2000000 in
/-- Splice run: the always-true predicate moves all four visible children of P1 to the empty P2, in order. -/
theorem splice_front_run (b : Builder) (P1 P2 sent1 sent2 x1 x2 x3 x4 : Nat)
    (hne : b.pods ≠ [])
    (hP1 : isCompositeType (typeAt b.pods P1) = true)
    (hP2 : isCompositeType (typeAt b.pods P2) = true)
    (hf1 : firstChild b.pods P1 = sent1)
    (hl1 : auxAt b.pods P1 = x4)
    (hf2 : firstChild b.pods P2 = sent2)
    (hl2 : auxAt b.pods P2 = sent2)
    (hn0 : nextIdx b.pods sent1 = x1)
    (hn1 : nextIdx b.pods x1 = x2)
    (hn2 : nextIdx b.pods x2 = x3)
    (hn3 : nextIdx b.pods x3 = x4)
    (hv1 : typeAt b.pods x1 ≠ jsonHidden)
    (hv2 : typeAt b.pods x2 ≠ jsonHidden)
    (hv3 : typeAt b.pods x3 ≠ jsonHidden)
    (hv4 : typeAt b.pods x4 ≠ jsonHidden)
    (hb : ∀ i ∈ [sent1, sent2, x1, x2, x3, x4],
      i < b.pods.length ∧ 0 < i ∧ i < 2 ^ 32)
    (hPb : P1 + 2 < b.pods.length ∧ P2 + 2 < b.pods.length)
    (hsep : List.Pairwise (fun u v => u + 3 ≤ v ∨ v + 3 ≤ u)
      [P1, P2, sent1, sent2, x1, x2, x3, x4]) :
    ∃ b2, spliceFront b P1 P2 = .ok b2
      ∧ visChildren b2.pods P1 = some []
      ∧ visChildren b2.pods P2 = some [x1, x2, x3, x4]
      ∧ auxAt b2.pods P1 = sent1 ∧ auxAt b2.pods P2 = x4 := by
  simp only [List.pairwise_cons] at hsep
  obtain ⟨hg1, hg2, hg3, hg4, hg5, hg6, hg7, -⟩ := hsep
  obtain ⟨q_P1_P2_0, q_P2_P1_0, q_P1_P2_1, q_P1_P2_2, q_P2_P1_1,
    q_P2_P1_2, q_P1_P2_12, q_P2_P1_12⟩ :=
    sep_facts P1 P2 (hg1 P2 (by simp))
  obtain ⟨q_P1_sent1_0, q_sent1_P1_0, q_P1_sent1_1, q_P1_sent1_2, q_sent1_P1_1,
    q_sent1_P1_2, q_P1_sent1_12, q_sent1_P1_12⟩ :=
    sep_facts P1 sent1 (hg1 sent1 (by simp))
  obtain ⟨q_P1_sent2_0, q_sent2_P1_0, q_P1_sent2_1, q_P1_sent2_2, q_sent2_P1_1,
    q_sent2_P1_2, q_P1_sent2_12, q_sent2_P1_12⟩ :=
    sep_facts P1 sent2 (hg1 sent2 (by simp))
  obtain ⟨q_P1_x1_0, q_x1_P1_0, q_P1_x1_1, q_P1_x1_2, q_x1_P1_1,
    q_x1_P1_2, q_P1_x1_12, q_x1_P1_12⟩ :=
    sep_facts P1 x1 (hg1 x1 (by simp))
  obtain ⟨q_P1_x2_0, q_x2_P1_0, q_P1_x2_1, q_P1_x2_2, q_x2_P1_1,
    q_x2_P1_2, q_P1_x2_12, q_x2_P1_12⟩ :=
    sep_facts P1 x2 (hg1 x2 (by simp))
  obtain ⟨q_P1_x3_0, q_x3_P1_0, q_P1_x3_1, q_P1_x3_2, q_x3_P1_1,
    q_x3_P1_2, q_P1_x3_12, q_x3_P1_12⟩ :=
    sep_facts P1 x3 (hg1 x3 (by simp))
  obtain ⟨q_P1_x4_0, q_x4_P1_0, q_P1_x4_1, q_P1_x4_2, q_x4_P1_1,
    q_x4_P1_2, q_P1_x4_12, q_x4_P1_12⟩ :=
    sep_facts P1 x4 (hg1 x4 (by simp))
  obtain ⟨q_P2_sent1_0, q_sent1_P2_0, q_P2_sent1_1, q_P2_sent1_2, q_sent1_P2_1,
    q_sent1_P2_2, q_P2_sent1_12, q_sent1_P2_12⟩ :=
    sep_facts P2 sent1 (hg2 sent1 (by simp))
  obtain ⟨q_P2_sent2_0, q_sent2_P2_0, q_P2_sent2_1, q_P2_sent2_2, q_sent2_P2_1,
    q_sent2_P2_2, q_P2_sent2_12, q_sent2_P2_12⟩ :=
    sep_facts P2 sent2 (hg2 sent2 (by simp))
  obtain ⟨q_P2_x1_0, q_x1_P2_0, q_P2_x1_1, q_P2_x1_2, q_x1_P2_1,
    q_x1_P2_2, q_P2_x1_12, q_x1_P2_12⟩ :=
    sep_facts P2 x1 (hg2 x1 (by simp))
  obtain ⟨q_P2_x2_0, q_x2_P2_0, q_P2_x2_1, q_P2_x2_2, q_x2_P2_1,
    q_x2_P2_2, q_P2_x2_12, q_x2_P2_12⟩ :=
    sep_facts P2 x2 (hg2 x2 (by simp))
  obtain ⟨q_P2_x3_0, q_x3_P2_0, q_P2_x3_1, q_P2_x3_2, q_x3_P2_1,
    q_x3_P2_2, q_P2_x3_12, q_x3_P2_12⟩ :=
    sep_facts P2 x3 (hg2 x3 (by simp))
  obtain ⟨q_P2_x4_0, q_x4_P2_0, q_P2_x4_1, q_P2_x4_2, q_x4_P2_1,
    q_x4_P2_2, q_P2_x4_12, q_x4_P2_12⟩ :=
    sep_facts P2 x4 (hg2 x4 (by simp))
  obtain ⟨q_sent1_sent2_0, q_sent2_sent1_0, q_sent1_sent2_1, q_sent1_sent2_2, q_sent2_sent1_1,
    q_sent2_sent1_2, q_sent1_sent2_12, q_sent2_sent1_12⟩ :=
    sep_facts sent1 sent2 (hg3 sent2 (by simp))
  obtain ⟨q_sent1_x1_0, q_x1_sent1_0, q_sent1_x1_1, q_sent1_x1_2, q_x1_sent1_1,
    q_x1_sent1_2, q_sent1_x1_12, q_x1_sent1_12⟩ :=
    sep_facts sent1 x1 (hg3 x1 (by simp))
  obtain ⟨q_sent1_x2_0, q_x2_sent1_0, q_sent1_x2_1, q_sent1_x2_2, q_x2_sent1_1,
    q_x2_sent1_2, q_sent1_x2_12, q_x2_sent1_12⟩ :=
    sep_facts sent1 x2 (hg3 x2 (by simp))
  obtain ⟨q_sent1_x3_0, q_x3_sent1_0, q_sent1_x3_1, q_sent1_x3_2, q_x3_sent1_1,
    q_x3_sent1_2, q_sent1_x3_12, q_x3_sent1_12⟩ :=
    sep_facts sent1 x3 (hg3 x3 (by simp))
  obtain ⟨q_sent1_x4_0, q_x4_sent1_0, q_sent1_x4_1, q_sent1_x4_2, q_x4_sent1_1,
    q_x4_sent1_2, q_sent1_x4_12, q_x4_sent1_12⟩ :=
    sep_facts sent1 x4 (hg3 x4 (by simp))
  obtain ⟨q_sent2_x1_0, q_x1_sent2_0, q_sent2_x1_1, q_sent2_x1_2, q_x1_sent2_1,
    q_x1_sent2_2, q_sent2_x1_12, q_x1_sent2_12⟩ :=
    sep_facts sent2 x1 (hg4 x1 (by simp))
  obtain ⟨q_sent2_x2_0, q_x2_sent2_0, q_sent2_x2_1, q_sent2_x2_2, q_x2_sent2_1,
    q_x2_sent2_2, q_sent2_x2_12, q_x2_sent2_12⟩ :=
    sep_facts sent2 x2 (hg4 x2 (by simp))
  obtain ⟨q_sent2_x3_0, q_x3_sent2_0, q_sent2_x3_1, q_sent2_x3_2, q_x3_sent2_1,
    q_x3_sent2_2, q_sent2_x3_12, q_x3_sent2_12⟩ :=
    sep_facts sent2 x3 (hg4 x3 (by simp))
  obtain ⟨q_sent2_x4_0, q_x4_sent2_0, q_sent2_x4_1, q_sent2_x4_2, q_x4_sent2_1,
    q_x4_sent2_2, q_sent2_x4_12, q_x4_sent2_12⟩ :=
    sep_facts sent2 x4 (hg4 x4 (by simp))
  obtain ⟨q_x1_x2_0, q_x2_x1_0, q_x1_x2_1, q_x1_x2_2, q_x2_x1_1,
    q_x2_x1_2, q_x1_x2_12, q_x2_x1_12⟩ :=
    sep_facts x1 x2 (hg5 x2 (by simp))
  obtain ⟨q_x1_x3_0, q_x3_x1_0, q_x1_x3_1, q_x1_x3_2, q_x3_x1_1,
    q_x3_x1_2, q_x1_x3_12, q_x3_x1_12⟩ :=
    sep_facts x1 x3 (hg5 x3 (by simp))
  obtain ⟨q_x1_x4_0, q_x4_x1_0, q_x1_x4_1, q_x1_x4_2, q_x4_x1_1,
    q_x4_x1_2, q_x1_x4_12, q_x4_x1_12⟩ :=
    sep_facts x1 x4 (hg5 x4 (by simp))
  obtain ⟨q_x2_x3_0, q_x3_x2_0, q_x2_x3_1, q_x2_x3_2, q_x3_x2_1,
    q_x3_x2_2, q_x2_x3_12, q_x3_x2_12⟩ :=
    sep_facts x2 x3 (hg6 x3 (by simp))
  obtain ⟨q_x2_x4_0, q_x4_x2_0, q_x2_x4_1, q_x2_x4_2, q_x4_x2_1,
    q_x4_x2_2, q_x2_x4_12, q_x4_x2_12⟩ :=
    sep_facts x2 x4 (hg6 x4 (by simp))
  obtain ⟨q_x3_x4_0, q_x4_x3_0, q_x3_x4_1, q_x3_x4_2, q_x4_x3_1,
    q_x4_x3_2, q_x3_x4_12, q_x4_x3_12⟩ :=
    sep_facts x3 x4 (hg7 x4 (by simp))
  obtain ⟨hs1lt, hs1pos, hs1w⟩ := hb sent1 (by simp)
  obtain ⟨hs2lt, hs2pos, hs2w⟩ := hb sent2 (by simp)
  obtain ⟨hx1lt, hx1pos, hx1w⟩ := hb x1 (by simp)
  obtain ⟨hx2lt, hx2pos, hx2w⟩ := hb x2 (by simp)
  obtain ⟨hx3lt, hx3pos, hx3w⟩ := hb x3 (by simp)
  obtain ⟨hx4lt, hx4pos, hx4w⟩ := hb x4 (by simp)
  obtain ⟨hP1b, hP2b⟩ := hPb
  have hx1nz : x1 ≠ 0 := Nat.pos_iff_ne_zero.mp hx1pos
  have hx2nz : x2 ≠ 0 := Nat.pos_iff_ne_zero.mp hx2pos
  obtain ⟨k0, hk0⟩ : ∃ k0, b.pods.length = k0 + 4 :=
    ⟨b.pods.length - 4, by omega⟩
  have hCan : canIterateOver b.pods P1 = true := by
    unfold canIterateOver
    exact decide_eq_true
      ⟨fun h => hne (by simpa [List.isEmpty_iff] using h), hP1⟩
  unfold spliceFront splice
  rw [if_pos hCan, if_neg (not_not_intro hP2)]
  dsimp only
  rw [hf1, hl1]
  rw [if_pos (show sent1 ≠ x4 from q_sent1_x4_0)]
  rw [hk0]
  rw [spliceLoop_sel_none (fun _ _ => true) x4 P1 _ _ sent1 0
    (by rw [hn0]; exact hv1) rfl (by rw [hn0]; exact q_x1_x4_0)]
  rw [hn0, hn1]
  rw [spliceLoop_sel_some (fun _ _ => true) x4 P1 _ _ sent1 x1 x1
    (by
      rw [nextIdx_setNext_ne _ x1 _ sent1 q_sent1_x1_0,
        nextIdx_setNext_self _ sent1 _ (by (try simp only [length_setNext, length_setAux]); exact hs1lt) (by exact hx2w),
        typeAt_setNext _ x1 _ x2 q_x2_x1_1,
        typeAt_setNext _ sent1 _ x2 q_x2_sent1_1]
      exact hv2)
    rfl
    (by
      rw [nextIdx_setNext_ne _ x1 _ sent1 q_sent1_x1_0,
        nextIdx_setNext_self _ sent1 _ (by (try simp only [length_setNext, length_setAux]); exact hs1lt) (by exact hx2w)]
      exact q_x2_x4_0)]
  rw [nextIdx_setNext_ne _ x1 _ sent1 q_sent1_x1_0,
    nextIdx_setNext_self _ sent1 _ (by (try simp only [length_setNext, length_setAux]); exact hs1lt) (by exact hx2w)]
  rw [nextIdx_setNext_ne _ x1 _ x2 q_x2_x1_0,
    nextIdx_setNext_ne _ sent1 _ x2 q_x2_sent1_0]
  rw [hn2]
  rw [spliceLoop_sel_some (fun _ _ => true) x4 P1 _ _ sent1 x1 x2
    (by
      rw [nextIdx_setNext_ne _ x2 _ sent1 q_sent1_x2_0,
        nextIdx_setNext_ne _ x1 _ sent1 q_sent1_x1_0,
        nextIdx_setNext_self _ sent1 _ (by (try simp only [length_setNext, length_setAux]); exact hs1lt) (by exact hx3w),
        typeAt_setNext _ x2 _ x3 q_x3_x2_1,
        typeAt_setNext _ x1 _ x3 q_x3_x1_1,
        typeAt_setNext _ sent1 _ x3 q_x3_sent1_1,
        typeAt_setNext _ x1 _ x3 q_x3_x1_1,
        typeAt_setNext _ sent1 _ x3 q_x3_sent1_1]
      exact hv3)
    rfl
    (by
      rw [nextIdx_setNext_ne _ x2 _ sent1 q_sent1_x2_0,
        nextIdx_setNext_ne _ x1 _ sent1 q_sent1_x1_0,
        nextIdx_setNext_self _ sent1 _ (by (try simp only [length_setNext, length_setAux]); exact hs1lt) (by exact hx3w)]
      exact q_x3_x4_0)]
  rw [nextIdx_setNext_ne _ x2 _ sent1 q_sent1_x2_0,
    nextIdx_setNext_ne _ x1 _ sent1 q_sent1_x1_0,
    nextIdx_setNext_self _ sent1 _ (by (try simp only [length_setNext, length_setAux]); exact hs1lt) (by exact hx3w)]
  rw [nextIdx_setNext_ne _ x2 _ x3 q_x3_x2_0,
    nextIdx_setNext_ne _ x1 _ x3 q_x3_x1_0,
    nextIdx_setNext_ne _ sent1 _ x3 q_x3_sent1_0,
    nextIdx_setNext_ne _ x1 _ x3 q_x3_x1_0,
    nextIdx_setNext_ne _ sent1 _ x3 q_x3_sent1_0]
  rw [hn3]
  rw [spliceLoop_sel_last (fun _ _ => true) x4 P1 _ _ sent1 x1 x3
    (by
      rw [nextIdx_setNext_ne _ x3 _ sent1 q_sent1_x3_0,
        nextIdx_setNext_ne _ x2 _ sent1 q_sent1_x2_0,
        nextIdx_setNext_self _ sent1 _ (by (try simp only [length_setNext, length_setAux]); exact hs1lt) (by exact hx4w),
        typeAt_setNext _ x3 _ x4 q_x4_x3_1,
        typeAt_setNext _ x2 _ x4 q_x4_x2_1,
        typeAt_setNext _ sent1 _ x4 q_x4_sent1_1,
        typeAt_setNext _ x2 _ x4 q_x4_x2_1,
        typeAt_setNext _ x1 _ x4 q_x4_x1_1,
        typeAt_setNext _ sent1 _ x4 q_x4_sent1_1,
        typeAt_setNext _ x1 _ x4 q_x4_x1_1,
        typeAt_setNext _ sent1 _ x4 q_x4_sent1_1]
      exact hv4)
    rfl
    (by
      rw [nextIdx_setNext_ne _ x3 _ sent1 q_sent1_x3_0,
        nextIdx_setNext_ne _ x2 _ sent1 q_sent1_x2_0,
        nextIdx_setNext_self _ sent1 _ (by (try simp only [length_setNext, length_setAux]); exact hs1lt) (by exact hx4w)]
      )]
  rw [nextIdx_setNext_ne _ x3 _ sent1 q_sent1_x3_0,
    nextIdx_setNext_ne _ x2 _ sent1 q_sent1_x2_0,
    nextIdx_setNext_self _ sent1 _ (by (try simp only [length_setNext, length_setAux]); exact hs1lt) (by exact hx4w)]
  rw [nextIdx_setNext_ne _ x3 _ x4 q_x4_x3_0,
    nextIdx_setNext_ne _ x2 _ x4 q_x4_x2_0,
    nextIdx_setNext_ne _ sent1 _ x4 q_x4_sent1_0,
    nextIdx_setNext_ne _ x2 _ x4 q_x4_x2_0,
    nextIdx_setNext_ne _ x1 _ x4 q_x4_x1_0,
    nextIdx_setNext_ne _ sent1 _ x4 q_x4_sent1_0,
    nextIdx_setNext_ne _ x1 _ x4 q_x4_x1_0,
    nextIdx_setNext_ne _ sent1 _ x4 q_x4_sent1_0]
  dsimp only
  rw [if_pos hx1nz]
  rw [if_pos rfl]
  rw [firstChild_setAux _ P1 _ P2 q_P2_P1_12,
    firstChild_setNext _ x4 _ P2 q_P2_x4_1,
    firstChild_setNext _ x3 _ P2 q_P2_x3_1,
    firstChild_setNext _ sent1 _ P2 q_P2_sent1_1,
    firstChild_setNext _ x3 _ P2 q_P2_x3_1,
    firstChild_setNext _ x2 _ P2 q_P2_x2_1,
    firstChild_setNext _ sent1 _ P2 q_P2_sent1_1,
    firstChild_setNext _ x2 _ P2 q_P2_x2_1,
    firstChild_setNext _ x1 _ P2 q_P2_x1_1,
    firstChild_setNext _ sent1 _ P2 q_P2_sent1_1,
    firstChild_setNext _ x1 _ P2 q_P2_x1_1,
    firstChild_setNext _ sent1 _ P2 q_P2_sent1_1]
  rw [hf2]
  rw [auxAt_setAux_ne _ P1 _ P2 q_P2_P1_0,
    auxAt_setNext _ x4 _ P2 q_P2_x4_2,
    auxAt_setNext _ x3 _ P2 q_P2_x3_2,
    auxAt_setNext _ sent1 _ P2 q_P2_sent1_2,
    auxAt_setNext _ x3 _ P2 q_P2_x3_2,
    auxAt_setNext _ x2 _ P2 q_P2_x2_2,
    auxAt_setNext _ sent1 _ P2 q_P2_sent1_2,
    auxAt_setNext _ x2 _ P2 q_P2_x2_2,
    auxAt_setNext _ x1 _ P2 q_P2_x1_2,
    auxAt_setNext _ sent1 _ P2 q_P2_sent1_2,
    auxAt_setNext _ x1 _ P2 q_P2_x1_2,
    auxAt_setNext _ sent1 _ P2 q_P2_sent1_2]
  rw [hl2]
  rw [if_pos rfl]
  dsimp only
  simp only [readTail]
  rw [nextIdx_setAux _ P1 _ x4 (q_P1_x4_2).symm,
    nextIdx_setNext_self _ x4 _ (by (try simp only [length_setNext, length_setAux]); exact hx4lt) (by exact hx4w)]
  rw [nextIdx_setAux _ P2 _ sent2 (q_P2_sent2_2).symm,
    nextIdx_setAux _ P1 _ sent2 (q_P1_sent2_2).symm,
    nextIdx_setNext_ne _ x4 _ sent2 q_sent2_x4_0,
    nextIdx_setNext_ne _ x3 _ sent2 q_sent2_x3_0,
    nextIdx_setNext_ne _ sent1 _ sent2 q_sent2_sent1_0,
    nextIdx_setNext_ne _ x3 _ sent2 q_sent2_x3_0,
    nextIdx_setNext_ne _ x2 _ sent2 q_sent2_x2_0,
    nextIdx_setNext_ne _ sent1 _ sent2 q_sent2_sent1_0,
    nextIdx_setNext_ne _ x2 _ sent2 q_sent2_x2_0,
    nextIdx_setNext_ne _ x1 _ sent2 q_sent2_x1_0,
    nextIdx_setNext_ne _ sent1 _ sent2 q_sent2_sent1_0,
    nextIdx_setNext_ne _ x1 _ sent2 q_sent2_x1_0,
    nextIdx_setNext_ne _ sent1 _ sent2 q_sent2_sent1_0]
  refine ⟨_, rfl, ?_, ?_, ?_, ?_⟩
  · dsimp only
    unfold visChildren childChain lastChild
    rw [firstChild_setNext _ sent2 _ P1 q_P1_sent2_1,
      firstChild_setNext _ x4 _ P1 q_P1_x4_1,
      firstChild_setAux _ P2 _ P1 q_P1_P2_12,
      firstChild_setAux _ P1 _ P1 (plus1_ne_plus2 P1),
      firstChild_setNext _ x4 _ P1 q_P1_x4_1,
      firstChild_setNext _ x3 _ P1 q_P1_x3_1,
      firstChild_setNext _ sent1 _ P1 q_P1_sent1_1,
      firstChild_setNext _ x3 _ P1 q_P1_x3_1,
      firstChild_setNext _ x2 _ P1 q_P1_x2_1,
      firstChild_setNext _ sent1 _ P1 q_P1_sent1_1,
      firstChild_setNext _ x2 _ P1 q_P1_x2_1,
      firstChild_setNext _ x1 _ P1 q_P1_x1_1,
      firstChild_setNext _ sent1 _ P1 q_P1_sent1_1,
      firstChild_setNext _ x1 _ P1 q_P1_x1_1,
      firstChild_setNext _ sent1 _ P1 q_P1_sent1_1]
    rw [hf1]
    rw [auxAt_setNext _ sent2 _ P1 q_P1_sent2_2,
      auxAt_setNext _ x4 _ P1 q_P1_x4_2,
      auxAt_setAux_ne _ P2 _ P1 q_P1_P2_0,
      auxAt_setAux_self _ P1 _ (by (try simp only [length_setNext, length_setAux]); exact hP1b) (by exact hs1w)]
    rw [if_pos rfl]
    simp
  · dsimp only
    unfold visChildren childChain lastChild
    rw [firstChild_setNext _ sent2 _ P2 q_P2_sent2_1,
      firstChild_setNext _ x4 _ P2 q_P2_x4_1,
      firstChild_setAux _ P2 _ P2 (plus1_ne_plus2 P2),
      firstChild_setAux _ P1 _ P2 q_P2_P1_12,
      firstChild_setNext _ x4 _ P2 q_P2_x4_1,
      firstChild_setNext _ x3 _ P2 q_P2_x3_1,
      firstChild_setNext _ sent1 _ P2 q_P2_sent1_1,
      firstChild_setNext _ x3 _ P2 q_P2_x3_1,
      firstChild_setNext _ x2 _ P2 q_P2_x2_1,
      firstChild_setNext _ sent1 _ P2 q_P2_sent1_1,
      firstChild_setNext _ x2 _ P2 q_P2_x2_1,
      firstChild_setNext _ x1 _ P2 q_P2_x1_1,
      firstChild_setNext _ sent1 _ P2 q_P2_sent1_1,
      firstChild_setNext _ x1 _ P2 q_P2_x1_1,
      firstChild_setNext _ sent1 _ P2 q_P2_sent1_1]
    rw [hf2]
    rw [auxAt_setNext _ sent2 _ P2 q_P2_sent2_2,
      auxAt_setNext _ x4 _ P2 q_P2_x4_2,
      auxAt_setAux_self _ P2 _ (by (try simp only [length_setNext, length_setAux]); exact hP2b) (by exact hx4w)]
    rw [if_neg q_sent2_x4_0]
    simp only [length_setNext, length_setAux]
    rw [hk0]
    rw [nextIdx_setNext_self _ sent2 _ (by (try simp only [length_setNext, length_setAux]); exact hs2lt) (by exact hx1w)]
    rw [walkTo_step _ _ x1 x4 q_x1_x4_0]
    rw [nextIdx_setNext_ne _ sent2 _ x1 q_x1_sent2_0,
      nextIdx_setNext_ne _ x4 _ x1 q_x1_x4_0,
      nextIdx_setAux _ P2 _ x1 (q_P2_x1_2).symm,
      nextIdx_setAux _ P1 _ x1 (q_P1_x1_2).symm,
      nextIdx_setNext_ne _ x4 _ x1 q_x1_x4_0,
      nextIdx_setNext_ne _ x3 _ x1 q_x1_x3_0,
      nextIdx_setNext_ne _ sent1 _ x1 q_x1_sent1_0,
      nextIdx_setNext_ne _ x3 _ x1 q_x1_x3_0,
      nextIdx_setNext_ne _ x2 _ x1 q_x1_x2_0,
      nextIdx_setNext_ne _ sent1 _ x1 q_x1_sent1_0,
      nextIdx_setNext_ne _ x2 _ x1 q_x1_x2_0,
      nextIdx_setNext_self _ x1 _ (by (try simp only [length_setNext, length_setAux]); exact hx1lt) (by exact hx2w)]
    rw [walkTo_step _ _ x2 x4 q_x2_x4_0]
    rw [nextIdx_setNext_ne _ sent2 _ x2 q_x2_sent2_0,
      nextIdx_setNext_ne _ x4 _ x2 q_x2_x4_0,
      nextIdx_setAux _ P2 _ x2 (q_P2_x2_2).symm,
      nextIdx_setAux _ P1 _ x2 (q_P1_x2_2).symm,
      nextIdx_setNext_ne _ x4 _ x2 q_x2_x4_0,
      nextIdx_setNext_ne _ x3 _ x2 q_x2_x3_0,
      nextIdx_setNext_ne _ sent1 _ x2 q_x2_sent1_0,
      nextIdx_setNext_ne _ x3 _ x2 q_x2_x3_0,
      nextIdx_setNext_self _ x2 _ (by (try simp only [length_setNext, length_setAux]); exact hx2lt) (by exact hx3w)]
    rw [walkTo_step _ _ x3 x4 q_x3_x4_0]
    rw [nextIdx_setNext_ne _ sent2 _ x3 q_x3_sent2_0,
      nextIdx_setNext_ne _ x4 _ x3 q_x3_x4_0,
      nextIdx_setAux _ P2 _ x3 (q_P2_x3_2).symm,
      nextIdx_setAux _ P1 _ x3 (q_P1_x3_2).symm,
      nextIdx_setNext_ne _ x4 _ x3 q_x3_x4_0,
      nextIdx_setNext_self _ x3 _ (by (try simp only [length_setNext, length_setAux]); exact hx3lt) (by exact hx4w)]
    rw [walkTo_stop]
    simp only [Option.map_some', Option.some.injEq]
    refine List.filter_eq_self.mpr ?_
    intro a ha
    simp only [List.mem_cons, List.not_mem_nil, or_false] at ha
    rcases ha with h | h | h | h
    · rw [h]
      simp only [decide_eq_true_eq]
      rw [typeAt_setNext _ sent2 _ x1 q_x1_sent2_1,
        typeAt_setNext _ x4 _ x1 q_x1_x4_1,
        typeAt_setAux _ P2 _ x1 q_x1_P2_12,
        typeAt_setAux _ P1 _ x1 q_x1_P1_12,
        typeAt_setNext _ x4 _ x1 q_x1_x4_1,
        typeAt_setNext _ x3 _ x1 q_x1_x3_1,
        typeAt_setNext _ sent1 _ x1 q_x1_sent1_1,
        typeAt_setNext _ x3 _ x1 q_x1_x3_1,
        typeAt_setNext _ x2 _ x1 q_x1_x2_1,
        typeAt_setNext _ sent1 _ x1 q_x1_sent1_1,
        typeAt_setNext _ x2 _ x1 q_x1_x2_1,
        typeAt_setNext _ x1 _ x1 (plus1_ne_self x1),
        typeAt_setNext _ sent1 _ x1 q_x1_sent1_1,
        typeAt_setNext _ x1 _ x1 (plus1_ne_self x1),
        typeAt_setNext _ sent1 _ x1 q_x1_sent1_1]
      exact hv1
    · rw [h]
      simp only [decide_eq_true_eq]
      rw [typeAt_setNext _ sent2 _ x2 q_x2_sent2_1,
        typeAt_setNext _ x4 _ x2 q_x2_x4_1,
        typeAt_setAux _ P2 _ x2 q_x2_P2_12,
        typeAt_setAux _ P1 _ x2 q_x2_P1_12,
        typeAt_setNext _ x4 _ x2 q_x2_x4_1,
        typeAt_setNext _ x3 _ x2 q_x2_x3_1,
        typeAt_setNext _ sent1 _ x2 q_x2_sent1_1,
        typeAt_setNext _ x3 _ x2 q_x2_x3_1,
        typeAt_setNext _ x2 _ x2 (plus1_ne_self x2),
        typeAt_setNext _ sent1 _ x2 q_x2_sent1_1,
        typeAt_setNext _ x2 _ x2 (plus1_ne_self x2),
        typeAt_setNext _ x1 _ x2 q_x2_x1_1,
        typeAt_setNext _ sent1 _ x2 q_x2_sent1_1,
        typeAt_setNext _ x1 _ x2 q_x2_x1_1,
        typeAt_setNext _ sent1 _ x2 q_x2_sent1_1]
      exact hv2
    · rw [h]
      simp only [decide_eq_true_eq]
      rw [typeAt_setNext _ sent2 _ x3 q_x3_sent2_1,
        typeAt_setNext _ x4 _ x3 q_x3_x4_1,
        typeAt_setAux _ P2 _ x3 q_x3_P2_12,
        typeAt_setAux _ P1 _ x3 q_x3_P1_12,
        typeAt_setNext _ x4 _ x3 q_x3_x4_1,
        typeAt_setNext _ x3 _ x3 (plus1_ne_self x3),
        typeAt_setNext _ sent1 _ x3 q_x3_sent1_1,
        typeAt_setNext _ x3 _ x3 (plus1_ne_self x3),
        typeAt_setNext _ x2 _ x3 q_x3_x2_1,
        typeAt_setNext _ sent1 _ x3 q_x3_sent1_1,
        typeAt_setNext _ x2 _ x3 q_x3_x2_1,
        typeAt_setNext _ x1 _ x3 q_x3_x1_1,
        typeAt_setNext _ sent1 _ x3 q_x3_sent1_1,
        typeAt_setNext _ x1 _ x3 q_x3_x1_1,
        typeAt_setNext _ sent1 _ x3 q_x3_sent1_1]
      exact hv3
    · rw [h]
      simp only [decide_eq_true_eq]
      rw [typeAt_setNext _ sent2 _ x4 q_x4_sent2_1,
        typeAt_setNext _ x4 _ x4 (plus1_ne_self x4),
        typeAt_setAux _ P2 _ x4 q_x4_P2_12,
        typeAt_setAux _ P1 _ x4 q_x4_P1_12,
        typeAt_setNext _ x4 _ x4 (plus1_ne_self x4),
        typeAt_setNext _ x3 _ x4 q_x4_x3_1,
        typeAt_setNext _ sent1 _ x4 q_x4_sent1_1,
        typeAt_setNext _ x3 _ x4 q_x4_x3_1,
        typeAt_setNext _ x2 _ x4 q_x4_x2_1,
        typeAt_setNext _ sent1 _ x4 q_x4_sent1_1,
        typeAt_setNext _ x2 _ x4 q_x4_x2_1,
        typeAt_setNext _ x1 _ x4 q_x4_x1_1,
        typeAt_setNext _ sent1 _ x4 q_x4_sent1_1,
        typeAt_setNext _ x1 _ x4 q_x4_x1_1,
        typeAt_setNext _ sent1 _ x4 q_x4_sent1_1]
      exact hv4
  · dsimp only
    rw [auxAt_setNext _ sent2 _ P1 q_P1_sent2_2,
      auxAt_setNext _ x4 _ P1 q_P1_x4_2,
      auxAt_setAux_ne _ P2 _ P1 q_P1_P2_0,
      auxAt_setAux_self _ P1 _ (by (try simp only [length_setNext, length_setAux]); exact hP1b) (by exact hs1w)]
  · dsimp only
    rw [auxAt_setNext _ sent2 _ P2 q_P2_sent2_2,
      auxAt_setNext _ x4 _ P2 q_P2_x4_2,
      auxAt_setAux_self _ P2 _ (by (try simp only [length_setNext, length_setAux]); exact hP2b) (by exact hx4w)]

set_option maxHeartbeats 2000000 in
/-- Splice run: a predicate selecting exactly the second and fourth children moves them to the empty P2, leaving P1 with the first and third. -/
theorem splice_back_run (b : Builder) (P1 P2 sent1 sent2 x1 x2 x3 x4 : Nat)
    (hne : b.pods ≠ [])
    (hP1 : isCompositeType (typeAt b.pods P1) = true)
    (hP2 : isCompositeType (typeAt b.pods P2) = true)
    (hf1 : firstChild b.pods P1 = sent1)
    (hl1 : auxAt b.pods P1 = x4)
    (hf2 : firstChild b.pods P2 = sent2)
    (hl2 : auxAt b.pods P2 = sent2)
    (hn0 : nextIdx b.pods sent1 = x1)
    (hn1 : nextIdx b.pods x1 = x2)
    (hn2 : nextIdx b.pods x2 = x3)
    (hn3 : nextIdx b.pods x3 = x4)
    (hv1 : typeAt b.pods x1 ≠ jsonHidden)
    (hv2 : typeAt b.pods x2 ≠ jsonHidden)
    (hv3 : typeAt b.pods x3 ≠ jsonHidden)
    (hv4 : typeAt b.pods x4 ≠ jsonHidden)
    (hb : ∀ i ∈ [sent1, sent2, x1, x2, x3, x4],
      i < b.pods.length ∧ 0 < i ∧ i < 2 ^ 32)
    (hPb : P1 + 2 < b.pods.length ∧ P2 + 2 < b.pods.length)
    (hsep : List.Pairwise (fun u v => u + 3 ≤ v ∨ v + 3 ≤ u)
      [P1, P2, sent1, sent2, x1, x2, x3, x4]) :
    ∃ b2, spliceBack b P1 P2 (fun _ i => decide (i = x2 ∨ i = x4)) = .ok b2
      ∧ visChildren b2.pods P1 = some [x1, x3]
      ∧ visChildren b2.pods P2 = some [x2, x4]
      ∧ auxAt b2.pods P1 = x3 ∧ auxAt b2.pods P2 = x4 := by
  simp only [List.pairwise_cons] at hsep
  obtain ⟨hg1, hg2, hg3, hg4, hg5, hg6, hg7, -⟩ := hsep
  obtain ⟨q_P1_P2_0, q_P2_P1_0, q_P1_P2_1, q_P1_P2_2, q_P2_P1_1,
    q_P2_P1_2, q_P1_P2_12, q_P2_P1_12⟩ :=
    sep_facts P1 P2 (hg1 P2 (by simp))
  obtain ⟨q_P1_sent1_0, q_sent1_P1_0, q_P1_sent1_1, q_P1_sent1_2, q_sent1_P1_1,
    q_sent1_P1_2, q_P1_sent1_12, q_sent1_P1_12⟩ :=
    sep_facts P1 sent1 (hg1 sent1 (by simp))
  obtain ⟨q_P1_sent2_0, q_sent2_P1_0, q_P1_sent2_1, q_P1_sent2_2, q_sent2_P1_1,
    q_sent2_P1_2, q_P1_sent2_12, q_sent2_P1_12⟩ :=
    sep_facts P1 sent2 (hg1 sent2 (by simp))
  obtain ⟨q_P1_x1_0, q_x1_P1_0, q_P1_x1_1, q_P1_x1_2, q_x1_P1_1,
    q_x1_P1_2, q_P1_x1_12, q_x1_P1_12⟩ :=
    sep_facts P1 x1 (hg1 x1 (by simp))
  obtain ⟨q_P1_x2_0, q_x2_P1_0, q_P1_x2_1, q_P1_x2_2, q_x2_P1_1,
    q_x2_P1_2, q_P1_x2_12, q_x2_P1_12⟩ :=
    sep_facts P1 x2 (hg1 x2 (by simp))
  obtain ⟨q_P1_x3_0, q_x3_P1_0, q_P1_x3_1, q_P1_x3_2, q_x3_P1_1,
    q_x3_P1_2, q_P1_x3_12, q_x3_P1_12⟩ :=
    sep_facts P1 x3 (hg1 x3 (by simp))
  obtain ⟨q_P1_x4_0, q_x4_P1_0, q_P1_x4_1, q_P1_x4_2, q_x4_P1_1,
    q_x4_P1_2, q_P1_x4_12, q_x4_P1_12⟩ :=
    sep_facts P1 x4 (hg1 x4 (by simp))
  obtain ⟨q_P2_sent1_0, q_sent1_P2_0, q_P2_sent1_1, q_P2_sent1_2, q_sent1_P2_1,
    q_sent1_P2_2, q_P2_sent1_12, q_sent1_P2_12⟩ :=
    sep_facts P2 sent1 (hg2 sent1 (by simp))
  obtain ⟨q_P2_sent2_0, q_sent2_P2_0, q_P2_sent2_1, q_P2_sent2_2, q_sent2_P2_1,
    q_sent2_P2_2, q_P2_sent2_12, q_sent2_P2_12⟩ :=
    sep_facts P2 sent2 (hg2 sent2 (by simp))
  obtain ⟨q_P2_x1_0, q_x1_P2_0, q_P2_x1_1, q_P2_x1_2, q_x1_P2_1,
    q_x1_P2_2, q_P2_x1_12, q_x1_P2_12⟩ :=
    sep_facts P2 x1 (hg2 x1 (by simp))
  obtain ⟨q_P2_x2_0, q_x2_P2_0, q_P2_x2_1, q_P2_x2_2, q_x2_P2_1,
    q_x2_P2_2, q_P2_x2_12, q_x2_P2_12⟩ :=
    sep_facts P2 x2 (hg2 x2 (by simp))
  obtain ⟨q_P2_x3_0, q_x3_P2_0, q_P2_x3_1, q_P2_x3_2, q_x3_P2_1,
    q_x3_P2_2, q_P2_x3_12, q_x3_P2_12⟩ :=
    sep_facts P2 x3 (hg2 x3 (by simp))
  obtain ⟨q_P2_x4_0, q_x4_P2_0, q_P2_x4_1, q_P2_x4_2, q_x4_P2_1,
    q_x4_P2_2, q_P2_x4_12, q_x4_P2_12⟩ :=
    sep_facts P2 x4 (hg2 x4 (by simp))
  obtain ⟨q_sent1_sent2_0, q_sent2_sent1_0, q_sent1_sent2_1, q_sent1_sent2_2, q_sent2_sent1_1,
    q_sent2_sent1_2, q_sent1_sent2_12, q_sent2_sent1_12⟩ :=
    sep_facts sent1 sent2 (hg3 sent2 (by simp))
  obtain ⟨q_sent1_x1_0, q_x1_sent1_0, q_sent1_x1_1, q_sent1_x1_2, q_x1_sent1_1,
    q_x1_sent1_2, q_sent1_x1_12, q_x1_sent1_12⟩ :=
    sep_facts sent1 x1 (hg3 x1 (by simp))
  obtain ⟨q_sent1_x2_0, q_x2_sent1_0, q_sent1_x2_1, q_sent1_x2_2, q_x2_sent1_1,
    q_x2_sent1_2, q_sent1_x2_12, q_x2_sent1_12⟩ :=
    sep_facts sent1 x2 (hg3 x2 (by simp))
  obtain ⟨q_sent1_x3_0, q_x3_sent1_0, q_sent1_x3_1, q_sent1_x3_2, q_x3_sent1_1,
    q_x3_sent1_2, q_sent1_x3_12, q_x3_sent1_12⟩ :=
    sep_facts sent1 x3 (hg3 x3 (by simp))
  obtain ⟨q_sent1_x4_0, q_x4_sent1_0, q_sent1_x4_1, q_sent1_x4_2, q_x4_sent1_1,
    q_x4_sent1_2, q_sent1_x4_12, q_x4_sent1_12⟩ :=
    sep_facts sent1 x4 (hg3 x4 (by simp))
  obtain ⟨q_sent2_x1_0, q_x1_sent2_0, q_sent2_x1_1, q_sent2_x1_2, q_x1_sent2_1,
    q_x1_sent2_2, q_sent2_x1_12, q_x1_sent2_12⟩ :=
    sep_facts sent2 x1 (hg4 x1 (by simp))
  obtain ⟨q_sent2_x2_0, q_x2_sent2_0, q_sent2_x2_1, q_sent2_x2_2, q_x2_sent2_1,
    q_x2_sent2_2, q_sent2_x2_12, q_x2_sent2_12⟩ :=
    sep_facts sent2 x2 (hg4 x2 (by simp))
  obtain ⟨q_sent2_x3_0, q_x3_sent2_0, q_sent2_x3_1, q_sent2_x3_2, q_x3_sent2_1,
    q_x3_sent2_2, q_sent2_x3_12, q_x3_sent2_12⟩ :=
    sep_facts sent2 x3 (hg4 x3 (by simp))
  obtain ⟨q_sent2_x4_0, q_x4_sent2_0, q_sent2_x4_1, q_sent2_x4_2, q_x4_sent2_1,
    q_x4_sent2_2, q_sent2_x4_12, q_x4_sent2_12⟩ :=
    sep_facts sent2 x4 (hg4 x4 (by simp))
  obtain ⟨q_x1_x2_0, q_x2_x1_0, q_x1_x2_1, q_x1_x2_2, q_x2_x1_1,
    q_x2_x1_2, q_x1_x2_12, q_x2_x1_12⟩ :=
    sep_facts x1 x2 (hg5 x2 (by simp))
  obtain ⟨q_x1_x3_0, q_x3_x1_0, q_x1_x3_1, q_x1_x3_2, q_x3_x1_1,
    q_x3_x1_2, q_x1_x3_12, q_x3_x1_12⟩ :=
    sep_facts x1 x3 (hg5 x3 (by simp))
  obtain ⟨q_x1_x4_0, q_x4_x1_0, q_x1_x4_1, q_x1_x4_2, q_x4_x1_1,
    q_x4_x1_2, q_x1_x4_12, q_x4_x1_12⟩ :=
    sep_facts x1 x4 (hg5 x4 (by simp))
  obtain ⟨q_x2_x3_0, q_x3_x2_0, q_x2_x3_1, q_x2_x3_2, q_x3_x2_1,
    q_x3_x2_2, q_x2_x3_12, q_x3_x2_12⟩ :=
    sep_facts x2 x3 (hg6 x3 (by simp))
  obtain ⟨q_x2_x4_0, q_x4_x2_0, q_x2_x4_1, q_x2_x4_2, q_x4_x2_1,
    q_x4_x2_2, q_x2_x4_12, q_x4_x2_12⟩ :=
    sep_facts x2 x4 (hg6 x4 (by simp))
  obtain ⟨q_x3_x4_0, q_x4_x3_0, q_x3_x4_1, q_x3_x4_2, q_x4_x3_1,
    q_x4_x3_2, q_x3_x4_12, q_x4_x3_12⟩ :=
    sep_facts x3 x4 (hg7 x4 (by simp))
  obtain ⟨hs1lt, hs1pos, hs1w⟩ := hb sent1 (by simp)
  obtain ⟨hs2lt, hs2pos, hs2w⟩ := hb sent2 (by simp)
  obtain ⟨hx1lt, hx1pos, hx1w⟩ := hb x1 (by simp)
  obtain ⟨hx2lt, hx2pos, hx2w⟩ := hb x2 (by simp)
  obtain ⟨hx3lt, hx3pos, hx3w⟩ := hb x3 (by simp)
  obtain ⟨hx4lt, hx4pos, hx4w⟩ := hb x4 (by simp)
  obtain ⟨hP1b, hP2b⟩ := hPb
  have hx1nz : x1 ≠ 0 := Nat.pos_iff_ne_zero.mp hx1pos
  have hx2nz : x2 ≠ 0 := Nat.pos_iff_ne_zero.mp hx2pos
  obtain ⟨k0, hk0⟩ : ∃ k0, b.pods.length = k0 + 4 :=
    ⟨b.pods.length - 4, by omega⟩
  have hCan : canIterateOver b.pods P1 = true := by
    unfold canIterateOver
    exact decide_eq_true
      ⟨fun h => hne (by simpa [List.isEmpty_iff] using h), hP1⟩
  unfold spliceBack splice
  rw [if_pos hCan, if_neg (not_not_intro hP2)]
  dsimp only
  rw [hf1, hl1]
  rw [if_pos (show sent1 ≠ x4 from q_sent1_x4_0)]
  rw [hk0]
  rw [spliceLoop_skip (fun _ i => decide (i = x2 ∨ i = x4)) x4 P1 _ _ sent1 0 none
    (by
      rw [hn0]
      exact fun hcon =>
        (of_decide_eq_true hcon.2).elim q_x1_x2_0 q_x1_x4_0)
    (by rw [hn0]; exact q_x1_x4_0)]
  rw [hn0]
  rw [spliceLoop_sel_none (fun _ i => decide (i = x2 ∨ i = x4)) x4 P1 _ _ x1 0
    (by rw [hn1]; exact hv2)
    (by rw [hn1]; exact decide_eq_true (Or.inl rfl))
    (by rw [hn1]; exact q_x2_x4_0)]
  rw [hn1, hn2]
  rw [spliceLoop_skip (fun _ i => decide (i = x2 ∨ i = x4)) x4 P1 _ _ x1 x2 (some x2)
    (by
      rw [nextIdx_setNext_ne _ x2 _ x1 q_x1_x2_0,
        nextIdx_setNext_self _ x1 _ (by (try simp only [length_setNext, length_setAux]); exact hx1lt) (by exact hx3w)]
      exact fun hcon =>
        (of_decide_eq_true hcon.2).elim q_x3_x2_0 q_x3_x4_0)
    (by
      rw [nextIdx_setNext_ne _ x2 _ x1 q_x1_x2_0,
        nextIdx_setNext_self _ x1 _ (by (try simp only [length_setNext, length_setAux]); exact hx1lt) (by exact hx3w)]
      exact q_x3_x4_0)]
  rw [nextIdx_setNext_ne _ x2 _ x1 q_x1_x2_0,
    nextIdx_setNext_self _ x1 _ (by (try simp only [length_setNext, length_setAux]); exact hx1lt) (by exact hx3w)]
  rw [spliceLoop_sel_last (fun _ i => decide (i = x2 ∨ i = x4)) x4 P1 _ _ x3 x2 x2
    (by
      rw [nextIdx_setNext_ne _ x2 _ x3 q_x3_x2_0,
        nextIdx_setNext_ne _ x1 _ x3 q_x3_x1_0]
      rw [hn3]
      rw [typeAt_setNext _ x2 _ x4 q_x4_x2_1,
        typeAt_setNext _ x1 _ x4 q_x4_x1_1]
      exact hv4)
    (by
      rw [nextIdx_setNext_ne _ x2 _ x3 q_x3_x2_0,
        nextIdx_setNext_ne _ x1 _ x3 q_x3_x1_0]
      rw [hn3]
      exact decide_eq_true (Or.inr rfl))
    (by
      rw [nextIdx_setNext_ne _ x2 _ x3 q_x3_x2_0,
        nextIdx_setNext_ne _ x1 _ x3 q_x3_x1_0]
      rw [hn3])]
  rw [nextIdx_setNext_ne _ x2 _ x3 q_x3_x2_0,
    nextIdx_setNext_ne _ x1 _ x3 q_x3_x1_0]
  rw [hn3]
  rw [nextIdx_setNext_ne _ x2 _ x4 q_x4_x2_0,
    nextIdx_setNext_ne _ x1 _ x4 q_x4_x1_0]
  dsimp only
  rw [if_pos hx2nz]
  rw [if_neg Bool.false_ne_true]
  rw [auxAt_setAux_ne _ P1 _ P2 q_P2_P1_0,
    auxAt_setNext _ x4 _ P2 q_P2_x4_2,
    auxAt_setNext _ x2 _ P2 q_P2_x2_2,
    auxAt_setNext _ x3 _ P2 q_P2_x3_2,
    auxAt_setNext _ x2 _ P2 q_P2_x2_2,
    auxAt_setNext _ x1 _ P2 q_P2_x1_2]
  rw [hl2]
  dsimp only
  simp only [readTail]
  rw [nextIdx_setAux _ P1 _ x4 (q_P1_x4_2).symm,
    nextIdx_setNext_self _ x4 _ (by (try simp only [length_setNext, length_setAux]); exact hx4lt) (by exact hx4w)]
  rw [nextIdx_setAux _ P2 _ sent2 (q_P2_sent2_2).symm,
    nextIdx_setAux _ P1 _ sent2 (q_P1_sent2_2).symm,
    nextIdx_setNext_ne _ x4 _ sent2 q_sent2_x4_0,
    nextIdx_setNext_ne _ x2 _ sent2 q_sent2_x2_0,
    nextIdx_setNext_ne _ x3 _ sent2 q_sent2_x3_0,
    nextIdx_setNext_ne _ x2 _ sent2 q_sent2_x2_0,
    nextIdx_setNext_ne _ x1 _ sent2 q_sent2_x1_0]
  refine ⟨_, rfl, ?_, ?_, ?_, ?_⟩
  · dsimp only
    unfold visChildren childChain lastChild
    rw [firstChild_setNext _ sent2 _ P1 q_P1_sent2_1,
      firstChild_setNext _ x4 _ P1 q_P1_x4_1,
      firstChild_setAux _ P2 _ P1 q_P1_P2_12,
      firstChild_setAux _ P1 _ P1 (plus1_ne_plus2 P1),
      firstChild_setNext _ x4 _ P1 q_P1_x4_1,
      firstChild_setNext _ x2 _ P1 q_P1_x2_1,
      firstChild_setNext _ x3 _ P1 q_P1_x3_1,
      firstChild_setNext _ x2 _ P1 q_P1_x2_1,
      firstChild_setNext _ x1 _ P1 q_P1_x1_1]
    rw [hf1]
    rw [auxAt_setNext _ sent2 _ P1 q_P1_sent2_2,
      auxAt_setNext _ x4 _ P1 q_P1_x4_2,
      auxAt_setAux_ne _ P2 _ P1 q_P1_P2_0,
      auxAt_setAux_self _ P1 _ (by (try simp only [length_setNext, length_setAux]); exact hP1b) (by exact hx3w)]
    rw [if_neg q_sent1_x3_0]
    simp only [length_setNext, length_setAux]
    rw [hk0]
    rw [nextIdx_setNext_ne _ sent2 _ sent1 q_sent1_sent2_0,
      nextIdx_setNext_ne _ x4 _ sent1 q_sent1_x4_0,
      nextIdx_setAux _ P2 _ sent1 (q_P2_sent1_2).symm,
      nextIdx_setAux _ P1 _ sent1 (q_P1_sent1_2).symm,
      nextIdx_setNext_ne _ x4 _ sent1 q_sent1_x4_0,
      nextIdx_setNext_ne _ x2 _ sent1 q_sent1_x2_0,
      nextIdx_setNext_ne _ x3 _ sent1 q_sent1_x3_0,
      nextIdx_setNext_ne _ x2 _ sent1 q_sent1_x2_0,
      nextIdx_setNext_ne _ x1 _ sent1 q_sent1_x1_0]
    rw [hn0]
    rw [walkTo_step _ _ x1 x3 q_x1_x3_0]
    rw [nextIdx_setNext_ne _ sent2 _ x1 q_x1_sent2_0,
      nextIdx_setNext_ne _ x4 _ x1 q_x1_x4_0,
      nextIdx_setAux _ P2 _ x1 (q_P2_x1_2).symm,
      nextIdx_setAux _ P1 _ x1 (q_P1_x1_2).symm,
      nextIdx_setNext_ne _ x4 _ x1 q_x1_x4_0,
      nextIdx_setNext_ne _ x2 _ x1 q_x1_x2_0,
      nextIdx_setNext_ne _ x3 _ x1 q_x1_x3_0,
      nextIdx_setNext_ne _ x2 _ x1 q_x1_x2_0,
      nextIdx_setNext_self _ x1 _ (by (try simp only [length_setNext, length_setAux]); exact hx1lt) (by exact hx3w)]
    rw [walkTo_stop]
    simp only [Option.map_some', Option.some.injEq]
    refine List.filter_eq_self.mpr ?_
    intro a ha
    simp only [List.mem_cons, List.not_mem_nil, or_false] at ha
    rcases ha with h | h
    · rw [h]
      simp only [decide_eq_true_eq]
      rw [typeAt_setNext _ sent2 _ x1 q_x1_sent2_1,
        typeAt_setNext _ x4 _ x1 q_x1_x4_1,
        typeAt_setAux _ P2 _ x1 q_x1_P2_12,
        typeAt_setAux _ P1 _ x1 q_x1_P1_12,
        typeAt_setNext _ x4 _ x1 q_x1_x4_1,
        typeAt_setNext _ x2 _ x1 q_x1_x2_1,
        typeAt_setNext _ x3 _ x1 q_x1_x3_1,
        typeAt_setNext _ x2 _ x1 q_x1_x2_1,
        typeAt_setNext _ x1 _ x1 (plus1_ne_self x1)]
      exact hv1
    · rw [h]
      simp only [decide_eq_true_eq]
      rw [typeAt_setNext _ sent2 _ x3 q_x3_sent2_1,
        typeAt_setNext _ x4 _ x3 q_x3_x4_1,
        typeAt_setAux _ P2 _ x3 q_x3_P2_12,
        typeAt_setAux _ P1 _ x3 q_x3_P1_12,
        typeAt_setNext _ x4 _ x3 q_x3_x4_1,
        typeAt_setNext _ x2 _ x3 q_x3_x2_1,
        typeAt_setNext _ x3 _ x3 (plus1_ne_self x3),
        typeAt_setNext _ x2 _ x3 q_x3_x2_1,
        typeAt_setNext _ x1 _ x3 q_x3_x1_1]
      exact hv3
  · dsimp only
    unfold visChildren childChain lastChild
    rw [firstChild_setNext _ sent2 _ P2 q_P2_sent2_1,
      firstChild_setNext _ x4 _ P2 q_P2_x4_1,
      firstChild_setAux _ P2 _ P2 (plus1_ne_plus2 P2),
      firstChild_setAux _ P1 _ P2 q_P2_P1_12,
      firstChild_setNext _ x4 _ P2 q_P2_x4_1,
      firstChild_setNext _ x2 _ P2 q_P2_x2_1,
      firstChild_setNext _ x3 _ P2 q_P2_x3_1,
      firstChild_setNext _ x2 _ P2 q_P2_x2_1,
      firstChild_setNext _ x1 _ P2 q_P2_x1_1]
    rw [hf2]
    rw [auxAt_setNext _ sent2 _ P2 q_P2_sent2_2,
      auxAt_setNext _ x4 _ P2 q_P2_x4_2,
      auxAt_setAux_self _ P2 _ (by (try simp only [length_setNext, length_setAux]); exact hP2b) (by exact hx4w)]
    rw [if_neg q_sent2_x4_0]
    simp only [length_setNext, length_setAux]
    rw [hk0]
    rw [nextIdx_setNext_self _ sent2 _ (by (try simp only [length_setNext, length_setAux]); exact hs2lt) (by exact hx2w)]
    rw [walkTo_step _ _ x2 x4 q_x2_x4_0]
    rw [nextIdx_setNext_ne _ sent2 _ x2 q_x2_sent2_0,
      nextIdx_setNext_ne _ x4 _ x2 q_x2_x4_0,
      nextIdx_setAux _ P2 _ x2 (q_P2_x2_2).symm,
      nextIdx_setAux _ P1 _ x2 (q_P1_x2_2).symm,
      nextIdx_setNext_ne _ x4 _ x2 q_x2_x4_0,
      nextIdx_setNext_self _ x2 _ (by (try simp only [length_setNext, length_setAux]); exact hx2lt) (by exact hx4w)]
    rw [walkTo_stop]
    simp only [Option.map_some', Option.some.injEq]
    refine List.filter_eq_self.mpr ?_
    intro a ha
    simp only [List.mem_cons, List.not_mem_nil, or_false] at ha
    rcases ha with h | h
    · rw [h]
      simp only [decide_eq_true_eq]
      rw [typeAt_setNext _ sent2 _ x2 q_x2_sent2_1,
        typeAt_setNext _ x4 _ x2 q_x2_x4_1,
        typeAt_setAux _ P2 _ x2 q_x2_P2_12,
        typeAt_setAux _ P1 _ x2 q_x2_P1_12,
        typeAt_setNext _ x4 _ x2 q_x2_x4_1,
        typeAt_setNext _ x2 _ x2 (plus1_ne_self x2),
        typeAt_setNext _ x3 _ x2 q_x2_x3_1,
        typeAt_setNext _ x2 _ x2 (plus1_ne_self x2),
        typeAt_setNext _ x1 _ x2 q_x2_x1_1]
      exact hv2
    · rw [h]
      simp only [decide_eq_true_eq]
      rw [typeAt_setNext _ sent2 _ x4 q_x4_sent2_1,
        typeAt_setNext _ x4 _ x4 (plus1_ne_self x4),
        typeAt_setAux _ P2 _ x4 q_x4_P2_12,
        typeAt_setAux _ P1 _ x4 q_x4_P1_12,
        typeAt_setNext _ x4 _ x4 (plus1_ne_self x4),
        typeAt_setNext _ x2 _ x4 q_x4_x2_1,
        typeAt_setNext _ x3 _ x4 q_x4_x3_1,
        typeAt_setNext _ x2 _ x4 q_x4_x2_1,
        typeAt_setNext _ x1 _ x4 q_x4_x1_1]
      exact hv4
  · dsimp only
    rw [auxAt_setNext _ sent2 _ P1 q_P1_sent2_2,
      auxAt_setNext _ x4 _ P1 q_P1_x4_2,
      auxAt_setAux_ne _ P2 _ P1 q_P1_P2_0,
      auxAt_setAux_self _ P1 _ (by (try simp only [length_setNext, length_setAux]); exact hP1b) (by exact hx3w)]
  · dsimp only
    rw [auxAt_setNext _ sent2 _ P2 q_P2_sent2_2,
      auxAt_setNext _ x4 _ P2 q_P2_x4_2,
      auxAt_setAux_self _ P2 _ (by (try simp only [length_setNext, length_setAux]); exact hP2b) (by exact hx4w)]

/-- Concrete 25-pod storage: composite parent at 1 (sentinel 4,
children 13, 16, 19, 22), empty composite parent at 7 (sentinel 10). -/
def spliceExPods : Storage :=
  [0, 0, 255 * 2 ^ 24, 22, 13, 253 * 2 ^ 24, 0, 0, 255 * 2 ^ 24, 10,
   0, 253 * 2 ^ 24, 0, 16, 245 * 2 ^ 24, 0, 19, 245 * 2 ^ 24, 0, 22,
   245 * 2 ^ 24, 0, 0, 245 * 2 ^ 24, 0]

def spliceExB : Builder := { pods := spliceExPods, cap := 25 }

/-- C3: in every builder whose composite parent P1 has exactly the visible
children x1, x2, x3, x4 (linked behind its Hidden sentinel sent1, with
m_lastChildIndex = x4) and whose composite parent P2 has no children at all
(its first child is its own Hidden sentinel sent2 and m_lastChildIndex is
sent2), splice_front(P1, P2) succeeds, leaves P1 with no visible children,
and makes P2's visible children exactly [x1, x2, x3, x4] in the original
order; and splice_back(P1, P2, pred) with a predicate selecting exactly
indices x2 and x4 succeeds, leaves P1's visible children [x1, x3], and makes
P2's visible children [x2, x4]; in each case both parents' m_lastChildIndex
fields are left internally consistent, pointing at the last node of their
new child lists (P1's own sentinel when P1 is emptied). -/
theorem splice_spec (b : Builder) (P1 P2 sent1 sent2 x1 x2 x3 x4 : Nat)
    (hne : b.pods ≠ [])
    (hP1 : isCompositeType (typeAt b.pods P1) = true)
    (hP2 : isCompositeType (typeAt b.pods P2) = true)
    (hf1 : firstChild b.pods P1 = sent1)
    (hl1 : auxAt b.pods P1 = x4)
    (hf2 : firstChild b.pods P2 = sent2)
    (hl2 : auxAt b.pods P2 = sent2)
    (hn0 : nextIdx b.pods sent1 = x1)
    (hn1 : nextIdx b.pods x1 = x2)
    (hn2 : nextIdx b.pods x2 = x3)
    (hn3 : nextIdx b.pods x3 = x4)
    (hv1 : typeAt b.pods x1 ≠ jsonHidden)
    (hv2 : typeAt b.pods x2 ≠ jsonHidden)
    (hv3 : typeAt b.pods x3 ≠ jsonHidden)
    (hv4 : typeAt b.pods x4 ≠ jsonHidden)
    (hb : ∀ i ∈ [sent1, sent2, x1, x2, x3, x4],
      i < b.pods.length ∧ 0 < i ∧ i < 2 ^ 32)
    (hPb : P1 + 2 < b.pods.length ∧ P2 + 2 < b.pods.length)
    (hsep : List.Pairwise (fun u v => u + 3 ≤ v ∨ v + 3 ≤ u)
      [P1, P2, sent1, sent2, x1, x2, x3, x4]) :
    (∃ b2, spliceFront b P1 P2 = .ok b2
      ∧ visChildren b2.pods P1 = some []
      ∧ visChildren b2.pods P2 = some [x1, x2, x3, x4]
      ∧ auxAt b2.pods P1 = sent1 ∧ auxAt b2.pods P2 = x4)
    ∧ (∃ b2, spliceBack b P1 P2 (fun _ i => decide (i = x2 ∨ i = x4)) = .ok b2
      ∧ visChildren b2.pods P1 = some [x1, x3]
      ∧ visChildren b2.pods P2 = some [x2, x4]
      ∧ auxAt b2.pods P1 = x3 ∧ auxAt b2.pods P2 = x4) :=
  ⟨splice_front_run b P1 P2 sent1 sent2 x1 x2 x3 x4 hne hP1 hP2 hf1 hl1 hf2
    hl2 hn0 hn1 hn2 hn3 hv1 hv2 hv3 hv4 hb hPb hsep,
   splice_back_run b P1 P2 sent1 sent2 x1 x2 x3 x4 hne hP1 hP2 hf1 hl1 hf2
    hl2 hn0 hn1 hn2 hn3 hv1 hv2 hv3 hv4 hb hPb hsep⟩

/-- Witness: the concrete builder spliceExB satisfies every hypothesis of
splice_spec, and the two splices produce the stated child lists. -/
theorem splice_spec_witness :
    (∃ b2, spliceFront spliceExB 1 7 = .ok b2
      ∧ visChildren b2.pods 1 = some []
      ∧ visChildren b2.pods 7 = some [13, 16, 19, 22]
      ∧ auxAt b2.pods 1 = 4 ∧ auxAt b2.pods 7 = 22)
    ∧ (∃ b2, spliceBack spliceExB 1 7
        (fun _ i => decide (i = 16 ∨ i = 22)) = .ok b2
      ∧ visChildren b2.pods 1 = some [13, 19]
      ∧ visChildren b2.pods 7 = some [16, 22]
      ∧ auxAt b2.pods 1 = 19 ∧ auxAt b2.pods 7 = 22) :=
  splice_spec spliceExB 1 7 4 10 13 16 19 22 (by decide) (by decide)
    (by decide) (by decide) (by decide) (by decide) (by decide) (by decide)
    (by decide) (by decide) (by decide) (by decide) (by decide) (by decide)
    (by decide) (by decide) (by decide) (by decide)

end JsonBuilderModel

namespace JsonBuilderModel

/-! ## C1 chunk 1: the validator's pass 1 accepts a well-formed flat chain -/

theorem updateMap_runs (sz : Nat) (m : List Nat) (i exp nv : Nat)
    (h1 : i < sz) (h2 : m.getD i 0 = exp) :
    updateMap sz m i exp nv = .ok (m.set i (exp ||| nv)) := by
  unfold updateMap
  rw [if_neg (by omega), if_neg (not_not_intro h2), h2]

/-- A tail-marking fold over fresh distinct cells succeeds and only touches
those cells. -/
theorem tailsFold_runs (sz base : Nat) :
    ∀ (L : List Nat) (m : List Nat), m.length = sz → L.Nodup →
      (∀ k ∈ L, base + k < sz ∧ m.getD (base + k) 0 = valNone) →
      ∃ m2,
        L.foldlM (fun mm k => updateMap sz mm (base + k) valNone valTail) m
          = .ok m2 ∧
        m2.length = sz ∧
        (∀ j, (∀ k ∈ L, j ≠ base + k) → m2.getD j 0 = m.getD j 0) := by
  intro L
  induction L with
  | nil =>
    intro m hm _ _
    exact ⟨m, rfl, hm, fun j _ => rfl⟩
  | cons k0 rest ih =>
    intro m hm hnd hc
    obtain ⟨hlt0, hn0⟩ := hc k0 (by simp)
    rw [show (k0 :: rest).foldlM
        (fun mm k => updateMap sz mm (base + k) valNone valTail) m
        = updateMap sz m (base + k0) valNone valTail >>= fun mm =>
            rest.foldlM (fun mm k => updateMap sz mm (base + k) valNone valTail)
              mm from rfl]
    rw [updateMap_runs sz m (base + k0) valNone valTail hlt0 hn0, ebind_ok]
    have hnd2 := List.nodup_cons.mp hnd
    have hrest : ∀ k ∈ rest,
        base + k < sz ∧
          (m.set (base + k0) (valNone ||| valTail)).getD (base + k) 0
            = valNone := by
      intro k hk
      obtain ⟨hlt, hn⟩ := hc k (by simp [hk])
      have hkk : k ≠ k0 := fun he2 => hnd2.1 (he2 ▸ hk)
      rw [getD_set_ne _ _ _ _ (by omega)]
      exact ⟨hlt, hn⟩
    obtain ⟨m2, hrun, hlen, hframe⟩ :=
      ih (m.set (base + k0) (valNone ||| valTail))
        (by rw [List.length_set, hm]) hnd2.2 hrest
    refine ⟨m2, hrun, hlen, ?_⟩
    intro j hj
    rw [hframe j (fun k hk => hj k (by simp [hk])),
      getD_set_ne _ _ _ _ (hj k0 (by simp))]

end JsonBuilderModel

namespace JsonBuilderModel

theorem extent_self (s : Storage) (i : Nat) : i ∈ extentPods s i := by
  simp [extentPods]

theorem extent_self1 (s : Storage) (i : Nat) : i + 1 ∈ extentPods s i := by
  simp [extentPods]

theorem extent_name (s : Storage) (i k : Nat) (hty : typeAt s i ≠ jsonHidden)
    (hk : k ∈ List.range' 2 (dataOffsetOf (cchNameAt s i) - 2)) :
    i + k ∈ extentPods s i := by
  unfold extentPods
  rw [if_pos hty]
  exact List.mem_cons.2 (Or.inr (List.mem_cons.2 (Or.inr
    (List.mem_append_left _ (List.mem_map.2 ⟨k, hk, rfl⟩)))))

theorem extent_data (s : Storage) (i k : Nat) (hty : typeAt s i ≠ jsonHidden)
    (hnorm : isNormalType (typeAt s i) = true)
    (hk : k ∈ List.range' (dataOffsetOf (cchNameAt s i)) ((auxAt s i + 3) / 4)) :
    i + k ∈ extentPods s i := by
  unfold extentPods
  rw [if_pos hty, if_pos hnorm]
  exact List.mem_cons.2 (Or.inr (List.mem_cons.2 (Or.inr
    (List.mem_append_right _ (List.mem_map.2 ⟨k, hk, rfl⟩)))))

/-- The last two steps of a pass-1 iteration in the success run. -/
theorem pass1_runs_tail (s : Storage) (rest : List Nat) (v fuel : Nat)
    (m m3 : List Nat)
    (ih : ∀ (fuel : Nat) (m : List Nat) (idx : Nat),
      rest.head? = some idx →
      chainLinks s rest →
      (∀ u ∈ rest.tail, u ≠ 0) →
      (∀ u ∈ rest, ∀ c ∈ extentPods s u, c < s.length) →
      (∀ u ∈ rest, isNormalType (typeAt s u) = true → auxAt s u ≤ dataMax) →
      rest.Pairwise (fun a b => ∀ c ∈ extentPods s a, c ∉ extentPods s b) →
      (∀ u ∈ rest, ∀ c ∈ extentPods s u, m.getD c 0 = valNone) →
      m.length = s.length →
      rest.length < fuel →
      ∃ mf, pass1 s s.length fuel m idx = .ok mf ∧ mf.length = s.length ∧
        (∀ u ∈ rest, mf.getD u 0 = valHead) ∧
        (∀ j, (∀ u ∈ rest, j ∉ extentPods s u) → mf.getD j 0 = m.getD j 0))
    (hchain : chainLinks s (v :: rest))
    (htail0 : ∀ u ∈ (v :: rest).tail, u ≠ 0)
    (hext : ∀ u ∈ v :: rest, ∀ c ∈ extentPods s u, c < s.length)
    (hnorm : ∀ u ∈ v :: rest, isNormalType (typeAt s u) = true →
      auxAt s u ≤ dataMax)
    (hpw : (v :: rest).Pairwise
      (fun a b => ∀ c ∈ extentPods s a, c ∉ extentPods s b))
    (hnone : ∀ u ∈ v :: rest, ∀ c ∈ extentPods s u, m.getD c 0 = valNone)
    (hm3len : m3.length = s.length)
    (hm3v : m3.getD v 0 = valHead)
    (hm3frame : ∀ j, j ∉ extentPods s v → m3.getD j 0 = m.getD j 0)
    (hfuel : rest.length < fuel) :
    ∃ mf, (readPod s v >>= fun nxt =>
        if nxt = 0 then pure m3 else pass1 s s.length fuel m3 nxt)
        = .ok mf ∧
      mf.length = s.length ∧
      (∀ u ∈ v :: rest, mf.getD u 0 = valHead) ∧
      (∀ j, (∀ u ∈ v :: rest, j ∉ extentPods s u) →
        mf.getD j 0 = m.getD j 0) := by
  have hvlt : v < s.length := hext v (by simp) v (extent_self s v)
  rw [readPod_ok _ _ hvlt, ebind_ok]
  cases rest with
  | nil =>
    have hz : podAt s v = 0 := hchain
    rw [if_pos hz, epure]
    refine ⟨m3, rfl, hm3len, ?_, ?_⟩
    · intro u hu
      rcases List.mem_singleton.mp hu with rfl
      exact hm3v
    · intro j hj
      exact hm3frame j (hj v (by simp))
  | cons w t =>
    obtain ⟨hnw, hchain2⟩ := hchain
    have hwne : (podAt s v : Nat) ≠ 0 := by
      rw [show (podAt s v : Nat) = nextIdx s v from rfl, hnw]
      exact htail0 w (by simp)
    rw [if_neg hwne, show (podAt s v : Nat) = w from hnw]
    have hpw2 := List.pairwise_cons.mp hpw
    obtain ⟨mf, hrun, hlenf, hheads, hframe⟩ :=
      ih fuel m3 w rfl hchain2
        (fun u hu => htail0 u (List.mem_cons_of_mem w (by simpa using hu)))
        (fun u hu c hc => hext u (by simp [hu]) c hc)
        (fun u hu hn => hnorm u (by simp [hu]) hn)
        hpw2.2
        (fun u hu c hc => by
          rw [hm3frame c (fun hcv => (hpw2.1 u hu c hcv) hc)]
          exact hnone u (by simp [hu]) c hc)
        hm3len hfuel
    refine ⟨mf, hrun, hlenf, ?_, ?_⟩
    · intro u hu
      rcases List.mem_cons.mp hu with he | hu2
      · rw [he, hframe v (fun u2 hu2 => hpw2.1 u2 hu2 v (extent_self s v))]
        exact hm3v
      · exact hheads u hu2
    · intro j hj
      rw [hframe j (fun u hu => hj u (by simp [hu])),
        hm3frame j (hj v (by simp))]

/-- Pass 1 accepts any flat chain of nodes with in-bounds, pairwise-disjoint
extents and valid data sizes, marking every visited node Head. -/
theorem pass1_runs (s : Storage) :
    ∀ (ns : List Nat) (fuel : Nat) (m : List Nat) (idx : Nat),
      ns.head? = some idx →
      chainLinks s ns →
      (∀ v ∈ ns.tail, v ≠ 0) →
      (∀ v ∈ ns, ∀ c ∈ extentPods s v, c < s.length) →
      (∀ v ∈ ns, isNormalType (typeAt s v) = true → auxAt s v ≤ dataMax) →
      ns.Pairwise (fun a b => ∀ c ∈ extentPods s a, c ∉ extentPods s b) →
      (∀ v ∈ ns, ∀ c ∈ extentPods s v, m.getD c 0 = valNone) →
      m.length = s.length →
      ns.length < fuel →
      ∃ mf, pass1 s s.length fuel m idx = .ok mf ∧ mf.length = s.length ∧
        (∀ v ∈ ns, mf.getD v 0 = valHead) ∧
        (∀ j, (∀ v ∈ ns, j ∉ extentPods s v) → mf.getD j 0 = m.getD j 0) := by
  intro ns
  induction ns with
  | nil =>
    intro fuel m idx hhead
    simp at hhead
  | cons v rest ih =>
    intro fuel m idx hhead hchain htail0 hext hnorm hpw hnone hm hfuel
    have hv : v = idx := by simpa using hhead
    subst hv
    cases fuel with
    | zero => omega
    | succ fuel =>
    simp only [pass1]
    have hvlt : v < s.length := hext v (by simp) v (extent_self s v)
    have hv1lt : v + 1 < s.length := hext v (by simp) (v + 1) (extent_self1 s v)
    have hvN : m.getD v 0 = valNone := hnone v (by simp) v (extent_self s v)
    have hv1N : m.getD (v + 1) 0 = valNone :=
      hnone v (by simp) (v + 1) (extent_self1 s v)
    rw [updateMap_runs _ _ _ _ _ hvlt hvN, ebind_ok,
      updateMap_runs _ _ _ _ _ (by omega)
        (by rw [getD_set_ne _ _ _ _ (by omega)]; exact hv1N), ebind_ok,
      readPod_ok _ _ (by omega), ebind_ok]
    rw [show podAt s (v + 1) / 2 ^ 24 % 2 ^ 8 = typeAt s v from rfl,
      show podAt s (v + 1) % 2 ^ 24 = cchNameAt s v from rfl]
    set m2 : List Nat :=
      ((m.set v (valNone ||| valHead)).set (v + 1) (valNone ||| valTail))
      with hm2def
    have hm2len : m2.length = s.length := by
      rw [hm2def, List.length_set, List.length_set, hm]
    have hm2v : m2.getD v 0 = valHead := by
      rw [hm2def, getD_set_ne _ _ _ _ (by omega),
        getD_set_eq _ _ _ (by rw [hm]; omega)]
      decide
    have hm2other : ∀ j, j ≠ v → j ≠ v + 1 → m2.getD j 0 = m.getD j 0 := by
      intro j h1 h2
      rw [hm2def, getD_set_ne _ _ _ _ h2, getD_set_ne _ _ _ _ h1]
    have hD3 : 3 ≤ dataOffsetOf (cchNameAt s v) := by
      unfold dataOffsetOf; omega
    have hfuel2 : rest.length < fuel := by
      simp only [List.length_cons] at hfuel; omega
    by_cases hty : typeAt s v ≠ jsonHidden
    case neg =>
      rw [if_neg hty, epure, ebind_ok]
      refine pass1_runs_tail s rest v fuel m m2 ih hchain htail0 hext hnorm
        hpw hnone hm2len hm2v ?_ hfuel2
      intro j hj
      have h1 : j ≠ v := fun he => hj (he ▸ extent_self s v)
      have h2 : j ≠ v + 1 := fun he => hj (he ▸ extent_self1 s v)
      exact hm2other j h1 h2
    case pos =>
      rw [if_pos hty]
      have hcells1 : ∀ k ∈ List.range' 2 (dataOffsetOf (cchNameAt s v) - 2),
          v + k < s.length ∧ m2.getD (v + k) 0 = valNone := by
        intro k hk
        have hkr := List.mem_range'_1.mp hk
        refine ⟨hext v (by simp) (v + k) (extent_name s v k hty hk), ?_⟩
        rw [hm2other (v + k) (by omega) (by omega)]
        exact hnone v (by simp) (v + k) (extent_name s v k hty hk)
      obtain ⟨m3a, hrun1, hlen1, hframe1⟩ :=
        tailsFold_runs s.length v
          (List.range' 2 (dataOffsetOf (cchNameAt s v) - 2)) m2 hm2len
          (List.nodup_range' _ _ 1 (by decide)) hcells1
      unfold markTails
      rw [hrun1, ebind_ok]
      have hm3av : m3a.getD v 0 = valHead := by
        rw [hframe1 v ?_, hm2v]
        intro k hk
        have := List.mem_range'_1.mp hk
        omega
      have hm3aframe : ∀ j, j ∉ extentPods s v →
          m3a.getD j 0 = m.getD j 0 := by
        intro j hj
        have h1 : j ≠ v := fun he => hj (he ▸ extent_self s v)
        have h2 : j ≠ v + 1 := fun he => hj (he ▸ extent_self1 s v)
        rw [hframe1 j ?_, hm2other j h1 h2]
        intro k hk he
        exact hj (he ▸ extent_name s v k hty hk)
      by_cases hno : isNormalType (typeAt s v) = true
      case neg =>
        rw [if_neg hno, epure, ebind_ok]
        exact pass1_runs_tail s rest v fuel m m3a ih hchain htail0 hext hnorm
          hpw hnone hlen1 hm3av hm3aframe hfuel2
      case pos =>
        rw [if_pos hno]
        have hv2lt : v + 2 < s.length :=
          hext v (by simp) (v + 2)
            (extent_name s v 2 hty (by rw [List.mem_range'_1]; omega))
        rw [readPod_ok _ _ hv2lt, ebind_ok,
          show podAt s (v + 2) = auxAt s v from rfl]
        rw [if_neg (by have := hnorm v (by simp) hno; omega)]
        have hcells2 : ∀ k ∈ List.range' (dataOffsetOf (cchNameAt s v))
            ((auxAt s v + 3) / 4),
            v + k < s.length ∧ m3a.getD (v + k) 0 = valNone := by
          intro k hk
          have hkr := List.mem_range'_1.mp hk
          refine ⟨hext v (by simp) (v + k) (extent_data s v k hty hno hk), ?_⟩
          rw [hframe1 (v + k)
              (by intro k2 hk2; have := List.mem_range'_1.mp hk2; omega),
            hm2other (v + k) (by omega) (by omega)]
          exact hnone v (by simp) (v + k) (extent_data s v k hty hno hk)
        obtain ⟨m4, hrun2, hlen2, hframe2⟩ :=
          tailsFold_runs s.length v
            (List.range' (dataOffsetOf (cchNameAt s v)) ((auxAt s v + 3) / 4))
            m3a hlen1 (List.nodup_range' _ _ 1 (by decide)) hcells2
        rw [show dataOffsetOf (cchNameAt s v) + (auxAt s v + 3) / 4
            - dataOffsetOf (cchNameAt s v) = (auxAt s v + 3) / 4 from by omega]
        rw [hrun2, ebind_ok]
        refine pass1_runs_tail s rest v fuel m m4 ih hchain htail0 hext hnorm
          hpw hnone hlen2 ?_ ?_ hfuel2
        · rw [hframe2 v ?_, hm3av]
          intro k hk
          have := List.mem_range'_1.mp hk
          omega
        · intro j hj
          rw [hframe2 j ?_, hm3aframe j hj]
          intro k hk he
          exact hj (he ▸ extent_data s v k hty hno hk)

end JsonBuilderModel

namespace JsonBuilderModel

/-! ## C1 chunk 2: the tree structure pass 2 walks, and its acceptance -/

mutual
/-- A composite node of an insert-built tree: its index, its Hidden sentinel
first child's index, and its children. -/
inductive PTree : Type where
  | node : Nat → Nat → PForest → PTree
/-- The children of a composite node, in sibling-chain order. -/
inductive PForest : Type where
  | fnil : PForest
  | fleaf : Nat → PForest → PForest
  | fcomp : PTree → PForest → PForest
end

def troot : PTree → Nat
  | .node p _ _ => p

mutual
/-- All node indices of the tree below (not including) its root: the
sentinel and the children with their subtrees. -/
def tnodes : PTree → List Nat
  | .node _ c0 fr => c0 :: fnodes fr
def fnodes : PForest → List Nat
  | .fnil => []
  | .fleaf c fr => c :: fnodes fr
  | .fcomp t fr => troot t :: (tnodes t ++ fnodes fr)
end

mutual
/-- Fuel bound for `ValidateRecurse` on this subtree. -/
def ptSize : PTree → Nat
  | .node _ _ fr => 1 + fsize fr
def fsize : PForest → Nat
  | .fnil => 1
  | .fleaf _ fr => 1 + fsize fr
  | .fcomp t fr => 1 + ptSize t + fsize fr
end

/-- The last linked child (`m_lastChildIndex`): the sentinel when there are
no children. -/
def flast : Nat → PForest → Nat
  | c0, .fnil => c0
  | _, .fleaf c fr => flast c fr
  | _, .fcomp t fr => flast (troot t) fr

mutual
/-- The storage facts `ValidateRecurse` checks on this subtree. -/
def TreeWF (s : Storage) : PTree → Prop
  | .node p c0 fr =>
    c0 = firstChild s p ∧ typeAt s c0 = jsonHidden ∧
      auxAt s p = flast c0 fr ∧ ForestWF s c0 fr
/-- The sibling chain from the node after `cur`. -/
def ForestWF (s : Storage) (cur : Nat) : PForest → Prop
  | .fnil => True
  | .fleaf c fr => nextIdx s cur = c ∧ isCompositeType (typeAt s c) = false ∧
      ForestWF s c fr
  | .fcomp t fr => nextIdx s cur = troot t ∧
      isCompositeType (typeAt s (troot t)) = true ∧ TreeWF s t ∧
      ForestWF s (troot t) fr
end

theorem flast_mem : ∀ (fr : PForest) (c : Nat), fr ≠ .fnil →
    flast c fr ∈ fnodes fr
  | .fleaf c2 fr2, c, _ => by
    unfold flast fnodes
    by_cases h2 : fr2 = .fnil
    · subst h2
      simp [flast]
    · exact List.mem_cons_of_mem _ (flast_mem fr2 c2 h2)
  | .fcomp t2 fr2, c, _ => by
    unfold flast fnodes
    by_cases h2 : fr2 = .fnil
    · subst h2
      simp [flast]
    · exact List.mem_cons_of_mem _
        (List.mem_append_right _ (flast_mem fr2 (troot t2) h2))

theorem fsize_pos (fr : PForest) : 1 ≤ fsize fr := by
  cases fr <;> simp [fsize] <;> omega

theorem ptSize_pos (t : PTree) : 1 ≤ ptSize t := by
  cases t
  simp [ptSize]

end JsonBuilderModel

namespace JsonBuilderModel

/-- Pass 2 accepts a well-formed subtree whose nodes are all marked Head,
and touches only the map cells of that subtree. -/
theorem pass2_runs (s : Storage) :
    ∀ fuel : Nat,
      (∀ (t : PTree) (m : List Nat),
        TreeWF s t →
        troot t + 2 < s.length →
        (∀ v ∈ tnodes t, v + 1 < s.length) →
        (∀ v ∈ tnodes t, isCompositeType (typeAt s v) = true →
          v + 2 < s.length) →
        (∀ v ∈ tnodes t, m.getD v 0 = valHead) →
        (tnodes t).Nodup →
        m.length = s.length →
        ptSize t < fuel →
        ∃ mf, pass2 s s.length fuel m (troot t) = .ok mf ∧
          mf.length = s.length ∧
          (∀ j, j ∉ tnodes t → mf.getD j 0 = m.getD j 0))
      ∧
      (∀ (fr : PForest) (cur last : Nat) (m : List Nat),
        ForestWF s cur fr →
        last = flast cur fr →
        (∀ v ∈ fnodes fr, v + 1 < s.length) →
        (∀ v ∈ fnodes fr, isCompositeType (typeAt s v) = true →
          v + 2 < s.length) →
        (∀ v ∈ fnodes fr, m.getD v 0 = valHead) →
        (cur :: fnodes fr).Nodup →
        cur < s.length →
        m.length = s.length →
        fsize fr < fuel →
        ∃ mf, pass2Loop s s.length fuel m cur last = .ok mf ∧
          mf.length = s.length ∧
          (∀ j, j ∉ fnodes fr → mf.getD j 0 = m.getD j 0)) := by
  intro fuel
  induction fuel with
  | zero =>
    constructor
    · intro t m _ _ _ _ _ _ _ hf
      exact absurd hf (by omega)
    · intro fr cur last m _ _ _ _ _ _ _ _ hf
      have := fsize_pos fr
      omega
  | succ fuel ih =>
    obtain ⟨ihT, ihF⟩ := ih
    constructor
    · -- pass2 on a tree node
      intro t m hwf hrb hb1 hb2 hmap hnd hm hfuel
      obtain ⟨p, c0, fr⟩ := t
      obtain ⟨hc0, hhid, haux, hforest⟩ := hwf
      simp only [troot] at hrb ⊢
      simp only [tnodes] at hb1 hb2 hmap hnd ⊢
      simp only [ptSize] at hfuel
      have hc01 : c0 + 1 < s.length := hb1 c0 (by simp)
      simp only [pass2]
      rw [readPod_ok _ _ (by omega), ebind_ok,
        readPod_ok _ _ hrb, ebind_ok,
        show podAt s (p + 1) % 2 ^ 24 = cchNameAt s p from rfl,
        show p + dataOffsetOf (cchNameAt s p) = firstChild s p from rfl,
        ← hc0]
      rw [updateMap_runs _ _ _ _ _ (by omega) (hmap c0 (by simp)), ebind_ok,
        readPod_ok _ _ hc01, ebind_ok,
        show podAt s (c0 + 1) / 2 ^ 24 % 2 ^ 8 = typeAt s c0 from rfl]
      rw [if_neg (not_not_intro hhid)]
      rw [show podAt s (p + 2) = auxAt s p from rfl, haux]
      have hnd2 := List.nodup_cons.mp hnd
      obtain ⟨mf, hrun, hlen, hframe⟩ :=
        ihF fr c0 (flast c0 fr) (m.set c0 (valHead ||| valReached))
          hforest rfl
          (fun v hv => hb1 v (by simp [hv]))
          (fun v hv hc => hb2 v (by simp [hv]) hc)
          (fun v hv => by
            rw [getD_set_ne _ c0 _ v (fun he => hnd2.1 (he ▸ hv))]
            exact hmap v (by simp [hv]))
          hnd (by omega)
          (by rw [List.length_set, hm])
          (by omega)
      refine ⟨mf, hrun, hlen, ?_⟩
      intro j hj
      have hj0 : j ∉ fnodes fr := fun hh => hj (by simp [hh])
      have hjc : j ≠ c0 := fun he => hj (by simp [he])
      rw [hframe j hj0, getD_set_ne _ c0 _ j hjc]
    · -- pass2Loop on a forest
      intro fr cur last m hwf hlast hb1 hb2 hmap hnd hcur hm hfuel
      cases fr with
      | fnil =>
        simp only [flast] at hlast
        simp only [pass2Loop]
        rw [if_pos hlast.symm, epure]
        exact ⟨m, rfl, hm, fun j _ => rfl⟩
      | fleaf c fr2 =>
        obtain ⟨hnx, hncomp, hwf2⟩ := hwf
        simp only [fnodes] at hb1 hb2 hmap hnd ⊢
        simp only [fsize] at hfuel
        simp only [flast] at hlast
        have hnd2 := List.nodup_cons.mp hnd
        have hnd3 := List.nodup_cons.mp hnd2.2
        have hcne : cur ≠ last := by
          intro he
          by_cases h2 : fr2 = PForest.fnil
          · subst h2
            simp only [flast] at hlast
            exact hnd2.1 (by simp [hlast ▸ he])
          · have := flast_mem fr2 c h2
            rw [← hlast] at this
            exact hnd2.1 (he ▸ List.mem_cons_of_mem _ this)
        simp only [pass2Loop]
        rw [if_neg hcne]
        rw [readPod_ok _ _ hcur, ebind_ok,
          show (podAt s cur : Nat) = c from hnx]
        have hclt : c + 1 < s.length := hb1 c (by simp)
        rw [updateMap_runs _ _ _ _ _ (by omega) (hmap c (by simp)), ebind_ok,
          readPod_ok _ _ hclt, ebind_ok,
          show podAt s (c + 1) / 2 ^ 24 % 2 ^ 8 = typeAt s c from rfl]
        rw [if_neg (by simp [hncomp]), epure, ebind_ok]
        obtain ⟨mf, hrun, hlen, hframe⟩ :=
          ihF fr2 c last (m.set c (valHead ||| valReached))
            hwf2 hlast
            (fun v hv => hb1 v (by simp [hv]))
            (fun v hv hc => hb2 v (by simp [hv]) hc)
            (fun v hv => by
              rw [getD_set_ne _ c _ v (fun he => hnd3.1 (he ▸ hv))]
              exact hmap v (by simp [hv]))
            hnd2.2 (by omega)
            (by rw [List.length_set, hm])
            (by omega)
        refine ⟨mf, hrun, hlen, ?_⟩
        intro j hj
        have hj0 : j ∉ fnodes fr2 := fun hh => hj (by simp [hh])
        have hjc : j ≠ c := fun he => hj (by simp [he])
        rw [hframe j hj0, getD_set_ne _ _ _ _ hjc]
      | fcomp t2 fr2 =>
        obtain ⟨hnx, hcomp, hwf2, hwf3⟩ := hwf
        simp only [fnodes] at hb1 hb2 hmap hnd ⊢
        simp only [fsize] at hfuel
        simp only [flast] at hlast
        have hnd2 := List.nodup_cons.mp hnd
        have hnd3 := List.nodup_cons.mp hnd2.2
        have hdisj := List.disjoint_of_nodup_append hnd3.2
        have hcne : cur ≠ last := by
          intro he
          by_cases h2 : fr2 = PForest.fnil
          · subst h2
            simp only [flast] at hlast
            exact hnd2.1 (by simp [hlast ▸ he])
          · have := flast_mem fr2 (troot t2) h2
            rw [← hlast] at this
            exact hnd2.1
              (he ▸ List.mem_cons_of_mem _ (List.mem_append_right _ this))
        simp only [pass2Loop]
        rw [if_neg hcne]
        rw [readPod_ok _ _ hcur, ebind_ok,
          show (podAt s cur : Nat) = troot t2 from hnx]
        have hclt : troot t2 + 1 < s.length := hb1 (troot t2) (by simp)
        rw [updateMap_runs _ _ _ _ _ (by omega) (hmap (troot t2) (by simp)),
          ebind_ok, readPod_ok _ _ hclt, ebind_ok,
          show podAt s (troot t2 + 1) / 2 ^ 24 % 2 ^ 8 = typeAt s (troot t2)
            from rfl]
        rw [if_pos hcomp]
        obtain ⟨m2, hrun2, hlen2, hframe2⟩ :=
          ihT t2 (m.set (troot t2) (valHead ||| valReached))
            hwf2
            (hb2 (troot t2) (by simp) hcomp)
            (fun v hv => hb1 v (by simp [List.mem_append_left _ hv]))
            (fun v hv hc => hb2 v (by simp [List.mem_append_left _ hv]) hc)
            (fun v hv => by
              rw [getD_set_ne _ (troot t2) _ v (fun he => hnd3.1 (he ▸
                List.mem_append_left _ hv))]
              exact hmap v (by simp [List.mem_append_left _ hv]))
            (hnd3.2.of_append_left)
            (by rw [List.length_set, hm])
            (by omega)
        rw [hrun2, ebind_ok]
        obtain ⟨mf, hrun, hlen, hframe⟩ :=
          ihF fr2 (troot t2) last m2
            hwf3 hlast
            (fun v hv => hb1 v (by simp [List.mem_append_right _ hv]))
            (fun v hv hc => hb2 v (by simp [List.mem_append_right _ hv]) hc)
            (fun v hv => by
              rw [hframe2 v (fun hh => hdisj hh hv),
                getD_set_ne _ (troot t2) _ v (fun he => hnd3.1 (he ▸
                  List.mem_append_right _ hv))]
              exact hmap v (by simp [List.mem_append_right _ hv]))
            (by
              rw [List.nodup_cons]
              refine ⟨fun hh => hnd3.1 (List.mem_append_right _ hh), ?_⟩
              exact hnd3.2.of_append_right)
            (by omega) hlen2 (by omega)
        refine ⟨mf, hrun, hlen, ?_⟩
        intro j hj
        have hj2 : j ∉ fnodes fr2 := fun hh =>
          hj (by simp [List.mem_append_right _ hh])
        have hjt : j ∉ tnodes t2 := fun hh =>
          hj (by simp [List.mem_append_left _ hh])
        have hjr : j ≠ troot t2 := fun he => hj (by simp [he])
        rw [hframe j hj2, hframe2 j hjt, getD_set_ne _ _ _ _ hjr]

end JsonBuilderModel

namespace JsonBuilderModel

/-! ## C1 chunk 3: the insert-built storage invariant, and validator success -/

mutual
/-- The composite node indices that may receive further children. -/
def tParents : PTree → List Nat
  | .node q _ fr => q :: fParents fr
def fParents : PForest → List Nat
  | .fnil => []
  | .fleaf _ fr => fParents fr
  | .fcomp t fr => tParents t ++ fParents fr
end

theorem composite_ne_hidden {x : Nat} (h : isCompositeType x = true) :
    x ≠ jsonHidden := by
  intro he
  rw [he] at h
  exact absurd h (by decide)

theorem getD_replicate_zero (sz c : Nat) :
    (List.replicate sz (0 : Nat)).getD c 0 = 0 := by
  rw [List.getD_eq_getElem?_getD, List.getElem?_replicate]
  by_cases h : c < sz
  · rw [if_pos h]
    rfl
  · rw [if_neg h]
    rfl

/-- The invariant of every storage reachable from the empty builder through
the public insert operations: the flat chain `ns` from index 0 covers
pairwise-disjoint in-bounds node extents, the root is a name-less Object,
and the tree `t` of composites with their Hidden sentinels and sibling
chains is exactly what pass 2 of the validator walks. -/
inductive SInv (s : Storage) : Prop where
  | mk :
    ∀ (t : PTree) (ns : List Nat),
      troot t = 0 →
      TreeWF s t →
      (0 :: tnodes t).Nodup →
      tnodes t ⊆ ns →
      ns.head? = some 0 →
      chainLinks s ns →
      (∀ v ∈ ns.tail, v ≠ 0) →
      (∀ v ∈ ns, ∀ c ∈ extentPods s v, c < s.length) →
      (∀ v ∈ ns, isNormalType (typeAt s v) = true → auxAt s v ≤ dataMax) →
      ns.Pairwise (fun a b => ∀ c ∈ extentPods s a, c ∉ extentPods s b) →
      ns.length ≤ s.length →
      ptSize t + 1 ≤ s.length →
      cchNameAt s 0 = 0 →
      typeAt s 0 = jsonObject →
      (∀ v ∈ ns, v ≠ 0 → isCompositeType (typeAt s v) = true →
        v ∈ tParents t) →
      SInv s

theorem validate_of_SInv (s : Storage) (hI : SInv s) : validate s = .ok () := by
  obtain ⟨t, ns, htroot, hwf, hnd, hsub, hhead, hchain, htail0, hext, hnormcb,
    hpw, hnslen, hsize, hroot0, hrootty, -⟩ := hI
  have h0ns : 0 ∈ ns := by
    cases ns with
    | nil => simp at hhead
    | cons a l =>
      have : a = 0 := by simpa using hhead
      simp [this]
  have h1lt : 1 < s.length := by
    have := hext 0 h0ns (0 + 1) (extent_self1 s 0)
    omega
  have hrootnh : typeAt s 0 ≠ jsonHidden := by
    rw [hrootty]
    decide
  have h2lt : 2 < s.length := by
    have := hext 0 h0ns (0 + 2)
      (extent_name s 0 2 hrootnh (by
        rw [List.mem_range'_1]
        constructor
        · omega
        · have h3 : 3 ≤ dataOffsetOf (cchNameAt s 0) := by
            unfold dataOffsetOf; omega
          omega))
    omega
  obtain ⟨m1, hp1, hm1len, hm1heads, -⟩ :=
    pass1_runs s ns (s.length + 2) (List.replicate s.length 0) 0 hhead hchain
      htail0 hext hnormcb hpw
      (fun v _ c _ => getD_replicate_zero s.length c)
      (by simp) (by omega)
  have hnd2 := List.nodup_cons.mp hnd
  simp only [validate]
  rw [hp1, ebind_ok,
    updateMap_runs _ _ _ _ _ (by omega) (hm1heads 0 h0ns), ebind_ok,
    readPod_ok _ _ h1lt, ebind_ok,
    show podAt s 1 % 2 ^ 24 = cchNameAt s 0 from rfl,
    show podAt s 1 / 2 ^ 24 % 2 ^ 8 = typeAt s 0 from rfl]
  rw [if_neg (not_or.mpr ⟨not_not_intro hroot0, not_not_intro hrootty⟩)]
  obtain ⟨mf, hp2, -, -⟩ :=
    (pass2_runs s (s.length + 2)).1 t
      (m1.set 0 (valHead ||| valReached)) hwf
      (by rw [htroot]; omega)
      (fun v hv => by
        have := hext v (hsub hv) (v + 1) (extent_self1 s v)
        omega)
      (fun v hv hc => by
        have := hext v (hsub hv) (v + 2)
          (extent_name s v 2 (composite_ne_hidden hc) (by
            rw [List.mem_range'_1]
            constructor
            · omega
            · have h3 : 3 ≤ dataOffsetOf (cchNameAt s v) := by
                unfold dataOffsetOf; omega
              omega))
        omega)
      (fun v hv => by
        rw [getD_set_ne _ 0 _ v (fun he => hnd2.1 (he ▸ hv))]
        exact hm1heads v (hsub hv))
      hnd2.2
      (by rw [List.length_set, hm1len])
      (by omega)
  rw [htroot] at hp2
  rw [hp2, ebind_ok, epure]

end JsonBuilderModel

namespace JsonBuilderModel

theorem sinv_root : SInv rootPods :=
  SInv.mk (PTree.node 0 3 .fnil) [0, 3] rfl ⟨rfl, rfl, rfl, trivial⟩
    (by decide) (by decide) rfl ⟨rfl, rfl⟩ (by decide) (by decide)
    (by decide) (by decide) (by decide) (by decide) rfl rfl (by decide)

end JsonBuilderModel

namespace JsonBuilderModel

/-! ## C1 chunk 4: the storage effect of a successful insertion -/

theorem length_padTo (len : Nat) (bs : List Nat) : (padTo len bs).length = len := by
  unfold padTo
  rw [List.length_append, List.length_take, List.length_replicate]
  omega

theorem length_resolveSrc (cur : Storage) (obl : Nat) (rel : Bool)
    (g : Nat → Nat) (len : Nat) (src : Src) :
    (resolveSrc cur obl rel g len src).length = len := by
  cases src with
  | ext bs =>
    simp only [resolveSrc]
    exact length_padTo len bs
  | arena off =>
    simp only [resolveSrc]
    cases rel with
    | false =>
      rw [if_neg Bool.false_ne_true]
      exact length_padTo _ _
    | true =>
      rw [if_pos rfl]
      by_cases h : 0 < off ∧ off < obl
      · rw [if_pos h]
        exact length_padTo _ _
      · rw [if_neg h]
        simp

theorem podOfBytes_lt (bs : List Nat) : podOfBytes bs < 2 ^ 32 := by
  unfold podOfBytes
  have h0 : bs.getD 0 0 % 256 < 256 := Nat.mod_lt _ (by omega)
  have h1 : bs.getD 1 0 % 256 < 256 := Nat.mod_lt _ (by omega)
  have h2 : bs.getD 2 0 % 256 < 256 := Nat.mod_lt _ (by omega)
  have h3 : bs.getD 3 0 % 256 < 256 := Nat.mod_lt _ (by omega)
  omega

theorem podsOfBytes_lt : ∀ (bs : List Nat), ∀ x ∈ podsOfBytes bs, x < 2 ^ 32
  | [] => by simp [podsOfBytes]
  | [b0] => by
    intro x hx
    have he : podsOfBytes [b0] = [podOfBytes [b0]] := by
      simp [podsOfBytes]
    rw [he] at hx
    have hxe : x = podOfBytes [b0] := List.mem_singleton.mp hx
    rw [hxe]
    exact podOfBytes_lt _
  | [b0, b1] => by
    intro x hx
    have he : podsOfBytes [b0, b1] = [podOfBytes [b0, b1]] := by
      simp [podsOfBytes]
    rw [he] at hx
    have hxe : x = podOfBytes [b0, b1] := List.mem_singleton.mp hx
    rw [hxe]
    exact podOfBytes_lt _
  | [b0, b1, b2] => by
    intro x hx
    have he : podsOfBytes [b0, b1, b2] = [podOfBytes [b0, b1, b2]] := by
      simp [podsOfBytes]
    rw [he] at hx
    have hxe : x = podOfBytes [b0, b1, b2] := List.mem_singleton.mp hx
    rw [hxe]
    exact podOfBytes_lt _
  | b0 :: b1 :: b2 :: b3 :: t => by
    intro x hx
    rw [show podsOfBytes (b0 :: b1 :: b2 :: b3 :: t)
        = podOfBytes [b0, b1, b2, b3] :: podsOfBytes t from rfl] at hx
    rcases List.mem_cons.mp hx with he2 | hx2
    · rw [he2]
      exact podOfBytes_lt _
    · exact podsOfBytes_lt t x hx2

theorem getNewCapacity_ok (n : Nat) (hn : n ≤ maxSize) :
    ∃ c, getNewCapacity n maxSize = .ok c ∧ n ≤ c ∧ c ≤ maxSize := by
  unfold getNewCapacity
  by_cases h15 : n ≤ 15
  · rw [if_pos h15]
    by_cases hgt : maxSize < 15
    · rw [if_pos hgt, if_neg (by omega)]
      exact ⟨maxSize, rfl, hn, le_refl _⟩
    · rw [if_neg hgt]
      exact ⟨15, rfl, h15, by omega⟩
  · rw [if_neg h15]
    obtain ⟨N, hgc, hge, -, -⟩ :=
      growCap_least n 64 5 (by omega)
        (by have : maxSize = 4294967294 := rfl; omega)
    have hgc31 : growCap n 64 31 = 2 ^ N - 1 := hgc
    rw [hgc31]
    by_cases hgt : maxSize < 2 ^ N - 1
    · rw [if_pos hgt, if_neg (by omega)]
      exact ⟨maxSize, rfl, hn, le_refl _⟩
    · rw [if_neg hgt]
      exact ⟨2 ^ N - 1, rfl, hge, by omega⟩

end JsonBuilderModel

namespace JsonBuilderModel

theorem overwrite_tail (h c : Nat) (pN pD rest : List Nat)
    (hlen : rest.length = pD.length) :
    overwriteAt (0 :: h :: c :: (pN ++ rest)) (3 + pN.length) pD
      = 0 :: h :: c :: (pN ++ pD) := by
  unfold overwriteAt
  have htake : (0 :: h :: c :: (pN ++ rest)).take (3 + pN.length)
      = 0 :: h :: c :: pN := by
    rw [show 3 + pN.length = pN.length + 3 from by omega]
    show 0 :: h :: c :: ((pN ++ rest).take pN.length) = _
    rw [List.take_left]
  have hdrop : (0 :: h :: c :: (pN ++ rest)).drop
      (3 + pN.length + pD.length) = [] := by
    apply List.drop_eq_nil_of_le
    simp only [List.length_cons, List.length_append]
    omega
  rw [htake, hdrop, List.append_nil]
  simp

theorem setPod_after (h c : Nat) (pN rest : List Nat) (k v : Nat) :
    setPod (0 :: h :: c :: (pN ++ rest)) (3 + pN.length + k) v
      = 0 :: h :: c :: (pN ++ rest.set k v) := by
  unfold setPod
  rw [show 3 + pN.length + k = (pN.length + k) + 3 from by omega]
  show 0 :: h :: c :: ((pN ++ rest).set (pN.length + k) v) = _
  rw [List.set_append, if_neg (by omega),
    show pN.length + k - pN.length = k from by omega]

/-- The common prefix of `CreateValue`'s commit: reserve, write the header
pod, copy the name, write the aux pod. -/
theorem commit_s3 (B rep : Storage) (cchNm tyb auxv : Nat) (name : Src)
    (rel : Bool) (g : Nat → Nat)
    (hrep3 : 3 ≤ rep.length)
    (hcch : cchNm < 2 ^ 24) (htyb : tyb < 2 ^ 8) (hauxv : auxv < 2 ^ 32) :
    ∃ nmPods : List Nat,
      nmPods.length = (cchNm + 3) / 4 ∧
      (∀ x ∈ nmPods, x < 2 ^ 32) ∧
      (let valueIndex := B.length
       let s1 := setNameType (setNext (B ++ rep) valueIndex 0) valueIndex
         cchNm tyb
       let s2 := overwriteAt s1 (valueIndex + 3)
         (podsOfBytes (resolveSrc s1 (4 * valueIndex) rel g cchNm name))
       setAux s2 valueIndex auxv)
      = B ++ (0 :: (cchNm + tyb * 2 ^ 24) :: auxv ::
          (nmPods ++ rep.drop (3 + (cchNm + 3) / 4))) := by
  rcases rep with _ | ⟨x0, _ | ⟨x1, _ | ⟨x2, rest⟩⟩⟩
  · exfalso; simp only [List.length_nil] at hrep3; omega
  · exfalso; simp only [List.length_cons, List.length_nil] at hrep3; omega
  · exfalso; simp only [List.length_cons, List.length_nil] at hrep3; omega
  have hmod1 : cchNm % 2 ^ 24 = cchNm := Nat.mod_eq_of_lt hcch
  have hmod2 : tyb % 2 ^ 8 = tyb := Nat.mod_eq_of_lt htyb
  have hmod3 : auxv % 2 ^ 32 = auxv := Nat.mod_eq_of_lt hauxv
  have hs1 : setNameType (setNext (B ++ x0 :: x1 :: x2 :: rest) B.length 0)
      B.length cchNm tyb
      = B ++ 0 :: (cchNm + tyb * 2 ^ 24) :: x2 :: rest := by
    unfold setNext setNameType
    rw [Nat.zero_mod, hmod1, hmod2]
    rw [setPod_append_right B (x0 :: x1 :: x2 :: rest) B.length 0 (le_refl _),
      Nat.sub_self]
    rw [setPod_append_right B _ (B.length + 1) _ (by omega),
      show B.length + 1 - B.length = 1 from by omega]
    rfl
  refine ⟨podsOfBytes (resolveSrc
      (B ++ 0 :: (cchNm + tyb * 2 ^ 24) :: x2 :: rest)
      (4 * B.length) rel g cchNm name), ?_, ?_, ?_⟩
  · rw [length_podsOfBytes, length_resolveSrc]
  · exact fun x hx => podsOfBytes_lt _ x hx
  · dsimp only
    rw [hs1]
    set nmP : List Nat := podsOfBytes (resolveSrc
      (B ++ 0 :: (cchNm + tyb * 2 ^ 24) :: x2 :: rest)
      (4 * B.length) rel g cchNm name) with hnmP
    have hlen : nmP.length = (cchNm + 3) / 4 := by
      rw [hnmP, length_podsOfBytes, length_resolveSrc]
    rw [overwriteAt_append_right B _ (B.length + 3) _ (by omega),
      show B.length + 3 - B.length = 3 from by omega]
    have h1 : overwriteAt (0 :: (cchNm + tyb * 2 ^ 24) :: x2 :: rest) 3 nmP
        = 0 :: (cchNm + tyb * 2 ^ 24) :: x2 ::
          (nmP ++ rest.drop nmP.length) := by
      unfold overwriteAt
      rw [show (3 : Nat) + nmP.length = nmP.length + 3 from by omega]
      rfl
    rw [h1]
    unfold setAux
    rw [hmod3]
    rw [setPod_append_right B _ (B.length + 2) _ (by omega),
      show B.length + 2 - B.length = 2 from by omega]
    show B ++ 0 :: (cchNm + tyb * 2 ^ 24) :: auxv ::
        (nmP ++ rest.drop nmP.length) = _
    rw [hlen,
      show (3 : Nat) + (cchNm + 3) / 4 = (cchNm + 3) / 4 + 3 from by omega]
    rfl

end JsonBuilderModel

namespace JsonBuilderModel

theorem vecResize_ok (b : Builder) (n : Nat) (hn : b.pods.length ≤ n)
    (hcap : b.cap ≤ maxSize) (hmax : n ≤ maxSize) :
    ∃ c rel, vecResize b n
      = .ok ({ pods := b.pods ++ List.replicate (n - b.pods.length) 0,
               cap := c }, rel) ∧ n ≤ c ∧ c ≤ maxSize := by
  unfold vecResize
  by_cases hg : b.cap < n
  · obtain ⟨c, hgc, h1, h2⟩ := getNewCapacity_ok n hmax
    rw [if_pos hg, hgc]
    exact ⟨c, true, rfl, h1, h2⟩
  · rw [if_neg hg]
    exact ⟨b.cap, false, rfl, by omega, hcap⟩

/-- The composite tail of `CreateValue`: link the Hidden sentinel into the
flat chain right after the root. -/
theorem commit_comp (B : Storage) (hdr : Nat) (nmP : List Nat) (off : Nat)
    (hL0 : 0 < B.length) (h320 : podAt B 0 < 2 ^ 32)
    (hoffn : off = 3 + nmP.length) (hdix : B.length + off < 2 ^ 32) :
    setNext (setNameType (setNext
        (B ++ 0 :: hdr :: (B.length + off) :: (nmP ++ [0, 0]))
        (B.length + off)
        (nextIdx (B ++ 0 :: hdr :: (B.length + off) :: (nmP ++ [0, 0])) 0))
      (B.length + off) 0 jsonHidden) 0 (B.length + off)
      = (B.set 0 (B.length + off)) ++
        0 :: hdr :: (B.length + off) :: (nmP ++ [podAt B 0, jsonHidden * 2 ^ 24]) := by
  have hnx0 : nextIdx (B ++ 0 :: hdr :: (B.length + off) :: (nmP ++ [0, 0])) 0
      = podAt B 0 := podAt_append_left B _ 0 hL0
  rw [hnx0]
  unfold setNext
  rw [Nat.mod_eq_of_lt h320]
  rw [setPod_append_right B _ (B.length + off) _ (by omega),
    show B.length + off - B.length = 3 + nmP.length + 0 from by omega,
    setPod_after,
    show ([0, 0] : List Nat).set 0 (podAt B 0) = [podAt B 0, 0] from rfl]
  unfold setNameType
  rw [show (0 : Nat) % 2 ^ 24 + jsonHidden % 2 ^ 8 * 2 ^ 24
      = jsonHidden * 2 ^ 24 from by norm_num [jsonHidden]]
  rw [setPod_append_right B _ (B.length + off + 1) _ (by omega),
    show B.length + off + 1 - B.length = 3 + nmP.length + 1 from by omega,
    setPod_after,
    show ([podAt B 0, 0] : List Nat).set 1 (jsonHidden * 2 ^ 24)
      = [podAt B 0, jsonHidden * 2 ^ 24] from rfl]
  rw [Nat.mod_eq_of_lt hdix]
  rw [setPod_append_left B _ 0 _ hL0]
  rfl

/-- The full storage effect of a successful `CreateValue` call on a
non-empty builder: one new node record appended at the end of the arena,
and (for a composite) its Hidden sentinel spliced in right after node 0. -/
theorem createValue_runs (b : Builder) (name : Src) (cchNm ty cb0 : Nat)
    (data : Option Src) (g : Nat → Nat)
    (hname : cchNm ≤ nameMax) (hdata : cb0 ≤ dataMax)
    (hL0 : 0 < b.pods.length)
    (hLcap : b.pods.length ≤ b.cap) (hcap : b.cap ≤ maxSize)
    (h320 : podAt b.pods 0 < 2 ^ 32)
    (hsz : b.pods.length + dataOffsetOf cchNm
        + ((if isCompositeType (ty % 2 ^ 8) = true then 8 else cb0) + 3) / 4
      ≤ maxSize) :
    ∃ (c : Nat) (nmPods dbPods : List Nat),
      createValue b name cchNm ty cb0 data g
        = (.ok b.pods.length,
           { pods :=
               (if isCompositeType (ty % 2 ^ 8) = true
                then b.pods.set 0 (b.pods.length + dataOffsetOf cchNm)
                else b.pods) ++
               (0 :: (cchNm + ty % 2 ^ 8 * 2 ^ 24) ::
                (if isCompositeType (ty % 2 ^ 8) = true
                 then b.pods.length + dataOffsetOf cchNm
                 else cb0) ::
                (nmPods ++ dbPods)),
             cap := c }) ∧
      nmPods.length = (cchNm + 3) / 4 ∧
      dbPods.length
        = ((if isCompositeType (ty % 2 ^ 8) = true then 8 else cb0) + 3) / 4 ∧
      (isCompositeType (ty % 2 ^ 8) = true →
        dbPods = [podAt b.pods 0, jsonHidden * 2 ^ 24]) ∧
      (∀ x ∈ nmPods, x < 2 ^ 32) ∧
      (∀ x ∈ dbPods, x < 2 ^ 32) ∧
      b.pods.length + dataOffsetOf cchNm
        + ((if isCompositeType (ty % 2 ^ 8) = true then 8 else cb0) + 3) / 4
        ≤ c ∧
      c ≤ maxSize := by
  have hmax : maxSize = 4294967294 := rfl
  have h232 : (2 : Nat) ^ 32 = 4294967296 := by norm_num
  have hcch : cchNm < 2 ^ 24 := lt_of_le_of_lt hname (by norm_num [nameMax])
  have hcb : cb0 < 2 ^ 32 := lt_of_le_of_lt hdata (by norm_num [dataMax])
  have htyb : ty % 2 ^ 8 < 2 ^ 8 := Nat.mod_lt _ (by norm_num)
  have hD3 : 3 ≤ dataOffsetOf cchNm := by unfold dataOffsetOf; omega
  have hDsplit : dataOffsetOf cchNm = 3 + (cchNm + 3) / 4 := by
    unfold dataOffsetOf; omega
  unfold createValue
  rw [if_neg (not_lt.mpr hname), if_neg (not_lt.mpr hdata)]
  dsimp only
  cases hcomp : isCompositeType (ty % 2 ^ 8) with
  | false =>
    simp only [hcomp, Bool.false_eq_true, if_false] at hsz ⊢
    rw [Nat.mod_eq_of_lt (show b.pods.length + dataOffsetOf cchNm < 2 ^ 32
      from by omega)]
    rw [Nat.mod_eq_of_lt (show b.pods.length + dataOffsetOf cchNm
      + (cb0 + 3) / 4 < 2 ^ 32 from by omega)]
    rw [if_neg (by omega :
      ¬ b.pods.length + dataOffsetOf cchNm + (cb0 + 3) / 4 ≤ b.pods.length)]
    obtain ⟨c, rel, hvr, hge, hle⟩ :=
      vecResize_ok b (b.pods.length + dataOffsetOf cchNm + (cb0 + 3) / 4)
        (by omega) hcap hsz
    rw [hvr]
    dsimp only
    obtain ⟨nmP, hnml, hnmb, hs3⟩ :=
      commit_s3 b.pods
        (List.replicate
          (b.pods.length + dataOffsetOf cchNm + (cb0 + 3) / 4
            - b.pods.length) 0)
        cchNm (ty % 2 ^ 8) cb0 name rel g
        (by rw [List.length_replicate]; omega) hcch htyb hcb
    dsimp only at hs3
    rw [List.drop_replicate,
      show b.pods.length + dataOffsetOf cchNm + (cb0 + 3) / 4 - b.pods.length
        - (3 + (cchNm + 3) / 4) = (cb0 + 3) / 4 from by omega] at hs3
    cases data with
    | none =>
      refine ⟨c, nmP, List.replicate ((cb0 + 3) / 4) 0, ?_, hnml,
        List.length_replicate .., ?_, hnmb, ?_, by omega, hle⟩
      · rw [hs3]
      · exact fun hcon => hcon.elim
      · intro x hx
        rw [List.eq_of_mem_replicate hx]
        omega
    | some d =>
      dsimp only
      rw [hs3]
      set db : List Nat := podsOfBytes (resolveSrc
        (b.pods ++ 0 :: (cchNm + ty % 2 ^ 8 * 2 ^ 24) :: cb0 ::
          (nmP ++ List.replicate ((cb0 + 3) / 4) 0))
        (4 * b.pods.length) rel g cb0 d) with hdb
      have hdbl : db.length = (cb0 + 3) / 4 := by
        rw [hdb, length_podsOfBytes, length_resolveSrc]
      rw [overwriteAt_append_right b.pods _
          (b.pods.length + dataOffsetOf cchNm) _ (by omega),
        show b.pods.length + dataOffsetOf cchNm - b.pods.length
          = 3 + nmP.length from by omega]
      rw [overwrite_tail _ _ _ db _ (by rw [List.length_replicate, hdbl])]
      exact ⟨c, nmP, db, rfl, hnml, hdbl, fun hcon => hcon.elim, hnmb,
        fun x hx => podsOfBytes_lt _ x hx, by omega, hle⟩
  | true =>
    simp only [hcomp, eq_self_iff_true, if_true] at hsz ⊢
    rw [Nat.mod_eq_of_lt (show b.pods.length + dataOffsetOf cchNm < 2 ^ 32
      from by omega)]
    rw [Nat.mod_eq_of_lt (show b.pods.length + dataOffsetOf cchNm
      + (8 + 3) / 4 < 2 ^ 32 from by omega)]
    rw [if_neg (by omega :
      ¬ b.pods.length + dataOffsetOf cchNm + (8 + 3) / 4 ≤ b.pods.length)]
    obtain ⟨c, rel, hvr, hge, hle⟩ :=
      vecResize_ok b (b.pods.length + dataOffsetOf cchNm + (8 + 3) / 4)
        (by omega) hcap hsz
    rw [hvr]
    dsimp only
    obtain ⟨nmP, hnml, hnmb, hs3⟩ :=
      commit_s3 b.pods
        (List.replicate
          (b.pods.length + dataOffsetOf cchNm + (8 + 3) / 4
            - b.pods.length) 0)
        cchNm (ty % 2 ^ 8) (b.pods.length + dataOffsetOf cchNm) name rel g
        (by rw [List.length_replicate]; omega) hcch htyb (by omega)
    dsimp only at hs3
    rw [List.drop_replicate,
      show b.pods.length + dataOffsetOf cchNm + (8 + 3) / 4 - b.pods.length
        - (3 + (cchNm + 3) / 4) = 2 from by omega,
      show List.replicate 2 (0 : Nat) = [0, 0] from rfl] at hs3
    rw [hs3]
    rw [show b.pods.length + dataOffsetOf cchNm
      = b.pods.length + (3 + nmP.length) from by omega]
    rw [commit_comp b.pods (cchNm + ty % 2 ^ 8 * 2 ^ 24) nmP (3 + nmP.length)
      hL0 h320 rfl (by omega)]
    refine ⟨c, nmP, [podAt b.pods 0, jsonHidden * 2 ^ 24], rfl, hnml, rfl,
      fun _ => rfl, hnmb, ?_, by omega, hle⟩
    · intro x hx
      rcases List.mem_cons.mp hx with he | hx2
      · rw [he]; exact h320
      · rcases List.mem_singleton.mp hx2 with he
        rw [he]
        norm_num [jsonHidden]

end JsonBuilderModel

namespace JsonBuilderModel

theorem setAux_append_left (a r : Storage) (i v : Nat) (h : i + 2 < a.length)
    (hv : v < 2 ^ 32) :
    setAux (a ++ r) i v = setPod a (i + 2) v ++ r := by
  unfold setAux
  rw [Nat.mod_eq_of_lt hv]
  exact setPod_append_left a r (i + 2) v h

theorem splice_new (B rest : List Nat) (prev L : Nat) (hBL : B.length = L)
    (hpl : prev < L) (hpv : podAt B prev < 2 ^ 32) (hL32 : L < 2 ^ 32) :
    setNext (setNext (B ++ (0 :: rest)) L (nextIdx (B ++ (0 :: rest)) prev))
        prev L
      = setPod B prev L ++ (podAt B prev :: rest) := by
  subst hBL
  unfold nextIdx setNext
  rw [podAt_append_left B (0 :: rest) prev hpl]
  rw [Nat.mod_eq_of_lt hpv, Nat.mod_eq_of_lt hL32]
  rw [setPod_append_right B (0 :: rest) B.length (podAt B prev) (le_refl _),
    Nat.sub_self]
  rw [show setPod (0 :: rest) 0 (podAt B prev) = podAt B prev :: rest from rfl]
  rw [setPod_append_left B (podAt B prev :: rest) prev B.length hpl]

/-- The full storage effect of a successful `AddValue` on a non-empty
builder: the `CreateValue` block is appended (with the sentinel splice for a
composite), the parent's `m_lastChildIndex` is redirected to the new node
(unless inserting at the front of a non-empty child list), the new node's
`m_nextIndex` takes over the predecessor's, and the predecessor points at
the new node. -/
theorem addValue_runs (b : Builder) (front : Bool) (parentIdx : Nat)
    (name : Src) (cchNm ty cb0 : Nat) (data : Option Src) (g : Nat → Nat)
    (prev : Nat)
    (hname : cchNm ≤ nameMax) (hdata : cb0 ≤ dataMax)
    (hL0 : 0 < b.pods.length)
    (hLcap : b.pods.length ≤ b.cap) (hcap : b.cap ≤ maxSize)
    (h320 : podAt b.pods 0 < 2 ^ 32)
    (hsz : b.pods.length + dataOffsetOf cchNm
        + ((if isCompositeType (ty % 2 ^ 8) = true then 8 else cb0) + 3) / 4
      ≤ maxSize)
    (hpar : isCompositeType (typeAt b.pods parentIdx) = true)
    (hp2 : parentIdx + 2 < b.pods.length)
    (hprevdef : prev = if front = true then firstChild b.pods parentIdx
      else auxAt b.pods parentIdx)
    (hprev0 : 0 < prev) (hprevlt : prev < b.pods.length)
    (hprevne : prev ≠ parentIdx + 2)
    (hpv : podAt b.pods prev < 2 ^ 32) :
    ∃ (c : Nat) (nmPods dbPods : List Nat),
      addValue b front parentIdx name cchNm ty cb0 data g
        = (.ok b.pods.length,
           { pods :=
               setPod
                 (if front = true
                     ∧ ¬ firstChild b.pods parentIdx = auxAt b.pods parentIdx
                  then (if isCompositeType (ty % 2 ^ 8) = true
                        then b.pods.set 0 (b.pods.length + dataOffsetOf cchNm)
                        else b.pods)
                  else setPod
                    (if isCompositeType (ty % 2 ^ 8) = true
                     then b.pods.set 0 (b.pods.length + dataOffsetOf cchNm)
                     else b.pods)
                    (parentIdx + 2) b.pods.length)
                 prev b.pods.length ++
               (podAt b.pods prev :: (cchNm + ty % 2 ^ 8 * 2 ^ 24) ::
                (if isCompositeType (ty % 2 ^ 8) = true
                 then b.pods.length + dataOffsetOf cchNm
                 else cb0) ::
                (nmPods ++ dbPods)),
             cap := c }) ∧
      nmPods.length = (cchNm + 3) / 4 ∧
      dbPods.length
        = ((if isCompositeType (ty % 2 ^ 8) = true then 8 else cb0) + 3) / 4 ∧
      (isCompositeType (ty % 2 ^ 8) = true →
        dbPods = [podAt b.pods 0, jsonHidden * 2 ^ 24]) ∧
      (∀ x ∈ nmPods, x < 2 ^ 32) ∧
      (∀ x ∈ dbPods, x < 2 ^ 32) ∧
      b.pods.length + dataOffsetOf cchNm
        + ((if isCompositeType (ty % 2 ^ 8) = true then 8 else cb0) + 3) / 4
        ≤ c ∧
      c ≤ maxSize := by
  have hmax : maxSize = 4294967294 := rfl
  have hD3 : 3 ≤ dataOffsetOf cchNm := by unfold dataOffsetOf; omega
  have hL32 : b.pods.length < 2 ^ 32 := by omega
  unfold addValue
  rw [ensureRoot_nonempty b g (by
    intro he
    rw [he] at hL0
    exact absurd hL0 (by simp))]
  dsimp only
  rw [if_neg (not_not_intro hpar)]
  obtain ⟨c, nmP, dbP, hcv, hnml, hdbl, hdbc, hnmb, hdbb, hge, hle⟩ :=
    createValue_runs b name cchNm ty cb0 data g hname hdata hL0 hLcap hcap
      h320 hsz
  rw [hcv]
  dsimp only
  refine ⟨c, nmP, dbP, ?_, hnml, hdbl, hdbc, hnmb, hdbb, hge, hle⟩
  set S0 : Storage :=
    if isCompositeType (ty % 2 ^ 8) = true
    then b.pods.set 0 (b.pods.length + dataOffsetOf cchNm)
    else b.pods with hS0
  set rest : List Nat :=
    (cchNm + ty % 2 ^ 8 * 2 ^ 24) ::
      (if isCompositeType (ty % 2 ^ 8) = true
       then b.pods.length + dataOffsetOf cchNm
       else cb0) :: (nmP ++ dbP) with hrest
  have hS0len : S0.length = b.pods.length := by
    rw [hS0]
    cases hc2 : isCompositeType (ty % 2 ^ 8) <;> simp
  have hS0pod : ∀ j : Nat, j ≠ 0 → podAt S0 j = podAt b.pods j := by
    intro j hj
    rw [hS0]
    cases hc2 : isCompositeType (ty % 2 ^ 8)
    · simp only [hc2, Bool.false_eq_true, if_false]
    · simp only [hc2, eq_self_iff_true, if_true]
      exact getD_set_ne b.pods 0 (b.pods.length + dataOffsetOf cchNm) j hj
  have hfc : firstChild (S0 ++ (0 :: rest)) parentIdx
      = firstChild b.pods parentIdx := by
    unfold firstChild cchNameAt
    rw [podAt_append_left S0 (0 :: rest) (parentIdx + 1) (by omega),
      hS0pod (parentIdx + 1) (by omega)]
  have hlc : auxAt (S0 ++ (0 :: rest)) parentIdx = auxAt b.pods parentIdx := by
    unfold auxAt
    rw [podAt_append_left S0 (0 :: rest) (parentIdx + 2) (by omega),
      hS0pod (parentIdx + 2) (by omega)]
  have hpvS0 : podAt S0 prev = podAt b.pods prev := hS0pod prev (by omega)
  have hBL2 : (setPod S0 (parentIdx + 2) b.pods.length).length
      = b.pods.length := by
    simp only [setPod, List.length_set]
    exact hS0len
  have hpvB : podAt (setPod S0 (parentIdx + 2) b.pods.length) prev
      = podAt b.pods prev := by
    rw [show podAt (setPod S0 (parentIdx + 2) b.pods.length) prev
        = podAt S0 prev
      from getD_set_ne S0 (parentIdx + 2) b.pods.length prev hprevne]
    exact hpvS0
  have hpvB32 : podAt (setPod S0 (parentIdx + 2) b.pods.length) prev
      < 2 ^ 32 := by
    rw [hpvB]
    exact hpv
  rw [hfc, hlc]
  cases front with
  | false =>
    simp only [Bool.false_eq_true, if_false, false_and] at hprevdef ⊢
    rw [← hprevdef]
    rw [setAux_append_left S0 (0 :: rest) parentIdx b.pods.length
      (by omega) hL32]
    rw [splice_new (setPod S0 (parentIdx + 2) b.pods.length) rest prev
      b.pods.length hBL2 hprevlt hpvB32 hL32]
    rw [hpvB]
  | true =>
    simp only [eq_self_iff_true, if_true, true_and] at hprevdef ⊢
    by_cases hfl : firstChild b.pods parentIdx = auxAt b.pods parentIdx
    · rw [if_pos hfl, if_neg (not_not_intro hfl)]
      dsimp only
      rw [← hprevdef]
      rw [setAux_append_left S0 (0 :: rest) parentIdx b.pods.length
        (by omega) hL32]
      rw [splice_new (setPod S0 (parentIdx + 2) b.pods.length) rest prev
        b.pods.length hBL2 hprevlt hpvB32 hL32]
      rw [hpvB]
    · rw [if_neg hfl, if_pos hfl]
      dsimp only
      rw [← hprevdef]
      rw [splice_new S0 rest prev b.pods.length hS0len hprevlt
        (by rw [hpvS0]; exact hpv) hL32]
      rw [hpvS0]

end JsonBuilderModel

namespace JsonBuilderModel

/-! ## C1 chunk 6: chain splicing, extent framing, pairwise rebuilding -/

theorem chainLinks_cons (s : Storage) (v : Nat) (l : List Nat) :
    chainLinks s (v :: l) ↔ (nextIdx s v = l.headD 0 ∧ chainLinks s l) := by
  cases l with
  | nil => simp [chainLinks]
  | cons w t => simp [chainLinks]

theorem chainLinks_congr (s s2 : Storage) (l : List Nat)
    (h : ∀ v ∈ l, nextIdx s2 v = nextIdx s v) (hc : chainLinks s l) :
    chainLinks s2 l := by
  induction l with
  | nil => trivial
  | cons v t ih =>
    rw [chainLinks_cons] at hc ⊢
    exact ⟨(h v (by simp)).trans hc.1,
      ih (fun u hu => h u (by simp [hu])) hc.2⟩

theorem headD_append_cons (A : List Nat) (x : Nat) (l l2 : List Nat) :
    (A ++ x :: l).headD 0 = (A ++ x :: l2).headD 0 := by
  cases A <;> rfl

theorem chainLinks_splice (s s2 : Storage) (A B : List Nat) (prev L : Nat)
    (hold : chainLinks s (A ++ prev :: B))
    (hfA : ∀ v ∈ A, nextIdx s2 v = nextIdx s v)
    (hfB : ∀ v ∈ B, nextIdx s2 v = nextIdx s v)
    (hprev : nextIdx s2 prev = L)
    (hLn : nextIdx s2 L = nextIdx s prev) :
    chainLinks s2 (A ++ prev :: L :: B) := by
  induction A with
  | nil =>
    simp only [List.nil_append] at hold ⊢
    rw [chainLinks_cons] at hold
    rw [chainLinks_cons]
    refine ⟨by simpa using hprev, ?_⟩
    rw [chainLinks_cons]
    exact ⟨hLn.trans hold.1, chainLinks_congr s s2 B hfB hold.2⟩
  | cons a A2 ih =>
    simp only [List.cons_append] at hold ⊢
    rw [chainLinks_cons] at hold
    rw [chainLinks_cons]
    refine ⟨?_, ih hold.2 (fun v hv => hfA v (by simp [hv]))⟩
    rw [hfA a (by simp), hold.1]
    exact headD_append_cons A2 prev B (L :: B)

theorem chain_next_mem (s : Storage) :
    ∀ l : List Nat, chainLinks s l → ∀ v ∈ l,
      nextIdx s v = 0 ∨ nextIdx s v ∈ l := by
  intro l
  induction l with
  | nil =>
    intro _ v hv
    simp at hv
  | cons a t ih =>
    intro hc v hv
    rw [chainLinks_cons] at hc
    rcases List.mem_cons.mp hv with he | hv2
    · subst he
      cases t with
      | nil => exact Or.inl hc.1
      | cons w t2 =>
        right
        rw [hc.1]
        simp
    · rcases ih hc.2 v hv2 with h0 | hm
      · exact Or.inl h0
      · exact Or.inr (List.mem_cons_of_mem _ hm)

theorem extent_ge (s : Storage) (i c : Nat) (hc : c ∈ extentPods s i) :
    i ≤ c := by
  unfold extentPods at hc
  by_cases h1 : typeAt s i ≠ jsonHidden
  · rw [if_pos h1] at hc
    by_cases h2 : isNormalType (typeAt s i) = true
    · rw [if_pos h2] at hc
      simp only [List.mem_cons, List.mem_append, List.mem_map,
        List.mem_range'_1] at hc
      rcases hc with rfl | rfl | ⟨k, hk, rfl⟩ | ⟨k, hk, rfl⟩ <;> omega
    · rw [if_neg h2] at hc
      simp only [List.mem_cons, List.mem_append, List.mem_map,
        List.mem_range'_1, List.not_mem_nil, or_false] at hc
      rcases hc with rfl | rfl | ⟨k, hk, rfl⟩ <;> omega
  · rw [if_neg h1] at hc
    simp only [List.mem_cons, List.not_mem_nil, or_false] at hc
    rcases hc with rfl | rfl <;> omega

theorem extent_hidden (s : Storage) (i : Nat) (h : typeAt s i = jsonHidden) :
    extentPods s i = [i, i + 1] := by
  unfold extentPods
  rw [if_neg (not_not_intro h)]

theorem extent_lt (s : Storage) (i c : Nat) (hc : c ∈ extentPods s i) :
    c < i + dataOffsetOf (cchNameAt s i) +
      (if isNormalType (typeAt s i) = true then (auxAt s i + 3) / 4 else 0)
    := by
  have hD3 : 3 ≤ dataOffsetOf (cchNameAt s i) := by unfold dataOffsetOf; omega
  unfold extentPods at hc
  by_cases h1 : typeAt s i ≠ jsonHidden
  · rw [if_pos h1] at hc
    by_cases h2 : isNormalType (typeAt s i) = true
    · rw [if_pos h2] at hc
      rw [if_pos h2]
      simp only [List.mem_cons, List.mem_append, List.mem_map,
        List.mem_range'_1] at hc
      rcases hc with rfl | rfl | ⟨k, hk, rfl⟩ | ⟨k, hk, rfl⟩ <;> omega
    · rw [if_neg h2] at hc
      rw [if_neg h2]
      simp only [List.mem_cons, List.mem_append, List.mem_map,
        List.mem_range'_1, List.not_mem_nil, or_false] at hc
      rcases hc with rfl | rfl | ⟨k, hk, rfl⟩ <;> omega
  · rw [if_neg h1] at hc
    simp only [List.mem_cons, List.not_mem_nil, or_false] at hc
    by_cases h2 : isNormalType (typeAt s i) = true
    · rw [if_pos h2]
      rcases hc with rfl | rfl <;> omega
    · rw [if_neg h2]
      rcases hc with rfl | rfl <;> omega

theorem extent_congr (s s2 : Storage) (i : Nat)
    (h1 : podAt s2 (i + 1) = podAt s (i + 1))
    (h2 : isNormalType (typeAt s i) = true →
      podAt s2 (i + 2) = podAt s (i + 2)) :
    extentPods s2 i = extentPods s i := by
  have hty : typeAt s2 i = typeAt s i := by unfold typeAt; rw [h1]
  have hcch : cchNameAt s2 i = cchNameAt s i := by unfold cchNameAt; rw [h1]
  unfold extentPods
  rw [hty, hcch]
  by_cases hn : isNormalType (typeAt s i) = true
  · have haux : auxAt s2 i = auxAt s i := by unfold auxAt; rw [h2 hn]
    rw [haux]
  · rw [if_neg hn, if_neg hn]

theorem disjoint_symm_ext (s : Storage) :
    Symmetric (fun a b => ∀ c ∈ extentPods s a, c ∉ extentPods s b) := by
  intro a b h c hc hc2
  exact h c hc2 hc

theorem pairwise_disjoint_forall (s : Storage) (l : List Nat)
    (hpw : l.Pairwise (fun a b => ∀ c ∈ extentPods s a, c ∉ extentPods s b)) :
    ∀ a ∈ l, ∀ b ∈ l, a ≠ b →
      ∀ c ∈ extentPods s a, c ∉ extentPods s b := by
  intro a ha b hb hne
  exact hpw.forall (disjoint_symm_ext s) ha hb hne

theorem pairwise_of_forall_nodup (R : Nat → Nat → Prop) (l : List Nat)
    (hnd : l.Nodup) (h : ∀ a ∈ l, ∀ b ∈ l, a ≠ b → R a b) :
    l.Pairwise R := by
  induction l with
  | nil => exact List.Pairwise.nil
  | cons x t ih =>
    have hnd2 := List.nodup_cons.mp hnd
    refine List.Pairwise.cons ?_
      (ih hnd2.2 (fun a ha b hb => h a (by simp [ha]) b (by simp [hb])))
    intro b hb
    exact h x (by simp) b (by simp [hb]) (fun he => hnd2.1 (he ▸ hb))

theorem nodup_of_pairwise_ext (s : Storage) (l : List Nat)
    (hpw : l.Pairwise (fun a b => ∀ c ∈ extentPods s a, c ∉ extentPods s b)) :
    l.Nodup := by
  refine hpw.imp ?_
  intro a b h he
  subst he
  exact (h a (extent_self s a)) (extent_self s a)

theorem podAt_lt_of_mem (s : Storage) (h : ∀ x ∈ s, x < 2 ^ 32) (i : Nat) :
    podAt s i < 2 ^ 32 := by
  unfold podAt
  rcases hlt : s[i]? with _ | v
  · rw [List.getD_eq_getElem?_getD, hlt]
    norm_num
  · rw [List.getD_eq_getElem?_getD, hlt]
    exact h v (List.getElem?_mem hlt)

theorem vecResize_err (b : Builder) (n : Nat) (hcap : b.cap ≤ maxSize)
    (hn : maxSize < n) (hn2 : n ≤ 2 ^ 32) :
    vecResize b n = .error .lengthError := by
  have hmax : maxSize = 4294967294 := rfl
  unfold vecResize
  rw [if_pos (by omega : b.cap < n)]
  unfold getNewCapacity
  obtain ⟨N, hgc, hge, hjN, -⟩ := growCap_least n 64 5 (by omega) (by
    have h69 : (2 : Nat) ^ (5 + 64) = 590295810358705651712 := by norm_num
    omega)
  have hgc31 : growCap n 64 31 = 2 ^ N - 1 := hgc
  rw [if_neg (by omega : ¬ n ≤ 15)]
  dsimp only
  rw [hgc31, if_pos (by omega), if_pos (by omega)]

end JsonBuilderModel

namespace JsonBuilderModel

/-! ## C1 chunk 7: inserting one child into the pass-2 tree -/

/-- The shape of the child record `AddValue` creates: a leaf, or a composite
with its fresh Hidden sentinel. -/
inductive KidD where
  | leaf : Nat → KidD
  | comp : Nat → Nat → KidD

def kroot : KidD → Nat
  | .leaf L => L
  | .comp L _ => L

def knodes : KidD → List Nat
  | .leaf L => [L]
  | .comp L D => [L, D]

def ksz : KidD → Nat
  | .leaf _ => 1
  | .comp _ _ => 3

def kParents : KidD → List Nat
  | .leaf _ => []
  | .comp L _ => [L]

/-- The storage facts the new child record satisfies after `CreateValue`. -/
def KidWF (s2 : Storage) : KidD → Prop
  | .leaf L => isCompositeType (typeAt s2 L) = false
  | .comp L D => isCompositeType (typeAt s2 L) = true ∧ D = firstChild s2 L ∧
      typeAt s2 D = jsonHidden ∧ auxAt s2 L = D

/-- Append a child at the back of a sibling forest. -/
def snocF : PForest → KidD → PForest
  | .fnil, .leaf L => .fleaf L .fnil
  | .fnil, .comp L D => .fcomp (.node L D .fnil) .fnil
  | .fleaf c fr, k => .fleaf c (snocF fr k)
  | .fcomp t fr, k => .fcomp t (snocF fr k)

theorem fnodes_snocF (k : KidD) :
    ∀ fr : PForest, fnodes (snocF fr k) = fnodes fr ++ knodes k
  | .fnil => by cases k <;> rfl
  | .fleaf c fr => by
    simp [snocF, fnodes, fnodes_snocF k fr]
  | .fcomp t fr => by
    simp [snocF, fnodes, fnodes_snocF k fr]

theorem fParents_snocF (k : KidD) :
    ∀ fr : PForest, fParents (snocF fr k) = fParents fr ++ kParents k
  | .fnil => by cases k <;> rfl
  | .fleaf c fr => by
    simp [snocF, fParents, fParents_snocF k fr]
  | .fcomp t fr => by
    simp [snocF, fParents, fParents_snocF k fr]

theorem flast_snocF (k : KidD) :
    ∀ (fr : PForest) (c0 : Nat), flast c0 (snocF fr k) = kroot k
  | .fnil, c0 => by cases k <;> rfl
  | .fleaf c fr, c0 => by
    simp [snocF, flast, flast_snocF k fr]
  | .fcomp t fr, c0 => by
    simp [snocF, flast, flast_snocF k fr]

theorem fsize_snocF (k : KidD) :
    ∀ fr : PForest, fsize (snocF fr k) = fsize fr + ksz k
  | .fnil => by cases k <;> rfl
  | .fleaf c fr => by
    simp [snocF, fsize, fsize_snocF k fr]
    omega
  | .fcomp t fr => by
    simp [snocF, fsize, fsize_snocF k fr]
    omega

theorem flast_indep (fr : PForest) (h : fr ≠ .fnil) (a b : Nat) :
    flast a fr = flast b fr := by
  cases fr with
  | fnil => exact absurd rfl h
  | fleaf c f => rfl
  | fcomp t f => rfl

/-- The insertion position (`prev`) is a node of every subtree whose parent
list contains the target parent. -/
theorem prev_mem_all (s : Storage) (p : Nat) (front : Bool) :
    ∀ n : Nat,
      (∀ t : PTree, ptSize t < n → TreeWF s t → p ∈ tParents t →
        (if front = true then firstChild s p else auxAt s p) ∈ tnodes t)
      ∧
      (∀ (fr : PForest) (cur : Nat), fsize fr < n → ForestWF s cur fr →
        p ∈ fParents fr →
        (if front = true then firstChild s p else auxAt s p) ∈ fnodes fr)
    := by
  intro n
  induction n with
  | zero =>
    constructor
    · intro t h
      exact absurd h (Nat.not_lt_zero _)
    · intro fr cur h
      exact absurd h (Nat.not_lt_zero _)
  | succ n ih =>
    obtain ⟨ihT, ihF⟩ := ih
    constructor
    · intro t hsz hwf hp
      obtain ⟨q, c0, fr⟩ := t
      obtain ⟨hc0, hhid, haux, hfor⟩ := hwf
      simp only [tParents] at hp
      simp only [tnodes]
      simp only [ptSize] at hsz
      rcases List.mem_cons.mp hp with he | hp2
      · subst he
        cases front with
        | true =>
          simp only [eq_self_iff_true, if_true]
          rw [← hc0]
          exact List.mem_cons_self _ _
        | false =>
          simp only [Bool.false_eq_true, if_false]
          rw [haux]
          by_cases hn : fr = PForest.fnil
          · subst hn
            simp [flast]
          · exact List.mem_cons_of_mem _ (flast_mem fr c0 hn)
      · exact List.mem_cons_of_mem _ (ihF fr c0 (by omega) hfor hp2)
    · intro fr cur hsz hwf hp
      cases fr with
      | fnil => simp [fParents] at hp
      | fleaf c fr2 =>
        obtain ⟨-, -, hwf2⟩ := hwf
        simp only [fParents] at hp
        simp only [fnodes]
        simp only [fsize] at hsz
        exact List.mem_cons_of_mem _ (ihF fr2 c (by omega) hwf2 hp)
      | fcomp t2 fr2 =>
        obtain ⟨-, -, hwf2, hwf3⟩ := hwf
        simp only [fParents] at hp
        simp only [fnodes]
        simp only [fsize] at hsz
        rcases List.mem_append.mp hp with h1 | h2
        · exact List.mem_cons_of_mem _ (List.mem_append_left _
            (ihT t2 (by omega) hwf2 h1))
        · exact List.mem_cons_of_mem _ (List.mem_append_right _
            (ihF fr2 (troot t2) (by omega) hwf3 h2))

/-- Parent indices are node indices (the root, or interior nodes). -/
theorem parents_sub_all :
    ∀ n : Nat,
      (∀ t : PTree, ptSize t < n →
        ∀ x ∈ tParents t, x ∈ troot t :: tnodes t)
      ∧
      (∀ fr : PForest, fsize fr < n → ∀ x ∈ fParents fr, x ∈ fnodes fr)
    := by
  intro n
  induction n with
  | zero =>
    constructor
    · intro t h
      exact absurd h (Nat.not_lt_zero _)
    · intro fr h
      exact absurd h (Nat.not_lt_zero _)
  | succ n ih =>
    obtain ⟨ihT, ihF⟩ := ih
    constructor
    · intro t hsz x hx
      obtain ⟨q, c0, fr⟩ := t
      simp only [tParents] at hx
      simp only [troot, tnodes]
      simp only [ptSize] at hsz
      rcases List.mem_cons.mp hx with he | hx2
      · subst he
        exact List.mem_cons_self _ _
      · exact List.mem_cons_of_mem _ (List.mem_cons_of_mem _
          (ihF fr (by omega) x hx2))
    · intro fr hsz x hx
      cases fr with
      | fnil => simp [fParents] at hx
      | fleaf c fr2 =>
        simp only [fParents] at hx
        simp only [fnodes]
        simp only [fsize] at hsz
        exact List.mem_cons_of_mem _ (ihF fr2 (by omega) x hx)
      | fcomp t2 fr2 =>
        simp only [fParents] at hx
        simp only [fnodes]
        simp only [fsize] at hsz
        rcases List.mem_append.mp hx with h1 | h2
        · rcases List.mem_cons.mp (ihT t2 (by omega) x h1) with he | hm
          · subst he
            exact List.mem_cons_self _ _
          · exact List.mem_cons_of_mem _ (List.mem_append_left _ hm)
        · exact List.mem_cons_of_mem _ (List.mem_append_right _
            (ihF fr2 (by omega) x h2))

end JsonBuilderModel

namespace JsonBuilderModel

/-- A subtree whose pods are untouched keeps its well-formedness; the
sibling chain may also be re-rooted at a new predecessor with the same
`m_nextIndex` value. -/
theorem wf_frame_all (s s2 : Storage) :
    ∀ n : Nat,
      (∀ t : PTree, ptSize t < n → TreeWF s t →
        (∀ v ∈ tnodes t, podAt s2 (v + 1) = podAt s (v + 1)) →
        (∀ v ∈ tnodes t, podAt s2 v = podAt s v) →
        (∀ q ∈ tParents t, podAt s2 (q + 1) = podAt s (q + 1) ∧
          podAt s2 (q + 2) = podAt s (q + 2)) →
        TreeWF s2 t)
      ∧
      (∀ (fr : PForest) (cur cur2 : Nat), fsize fr < n → ForestWF s cur fr →
        (fr ≠ .fnil → nextIdx s2 cur2 = nextIdx s cur) →
        (∀ v ∈ fnodes fr, podAt s2 (v + 1) = podAt s (v + 1)) →
        (∀ v ∈ fnodes fr, podAt s2 v = podAt s v) →
        (∀ q ∈ fParents fr, podAt s2 (q + 1) = podAt s (q + 1) ∧
          podAt s2 (q + 2) = podAt s (q + 2)) →
        ForestWF s2 cur2 fr)
    := by
  intro n
  induction n with
  | zero =>
    constructor
    · intro t h
      exact absurd h (Nat.not_lt_zero _)
    · intro fr cur cur2 h
      exact absurd h (Nat.not_lt_zero _)
  | succ n ih =>
    obtain ⟨ihT, ihF⟩ := ih
    constructor
    · intro t hsz hwf hH hN hPar
      obtain ⟨q, c0, fr⟩ := t
      obtain ⟨hc0, hhid, haux, hfor⟩ := hwf
      simp only [tnodes] at hH hN
      simp only [tParents] at hPar
      simp only [ptSize] at hsz
      refine ⟨?_, ?_, ?_, ?_⟩
      · rw [show firstChild s2 q = firstChild s q from by
          unfold firstChild cchNameAt
          rw [(hPar q (by simp)).1]]
        exact hc0
      · rw [show typeAt s2 c0 = typeAt s c0 from by
          unfold typeAt
          rw [hH c0 (by simp)]]
        exact hhid
      · rw [show auxAt s2 q = auxAt s q from by
          unfold auxAt
          rw [(hPar q (by simp)).2]]
        exact haux
      · refine ihF fr c0 c0 (by omega) hfor ?_ ?_ ?_ ?_
        · intro _
          unfold nextIdx
          exact hN c0 (by simp)
        · intro v hv
          exact hH v (by simp [hv])
        · intro v hv
          exact hN v (by simp [hv])
        · intro u hu
          exact hPar u (by simp [hu])
    · intro fr cur cur2 hsz hwf hlink hH hN hPar
      cases fr with
      | fnil => trivial
      | fleaf c fr2 =>
        obtain ⟨hnx, hnc, hwf2⟩ := hwf
        simp only [fnodes] at hH hN
        simp only [fParents] at hPar
        simp only [fsize] at hsz
        refine ⟨?_, ?_, ?_⟩
        · rw [hlink (by intro h; exact PForest.noConfusion h)]
          exact hnx
        · rw [show typeAt s2 c = typeAt s c from by
            unfold typeAt
            rw [hH c (by simp)]]
          exact hnc
        · refine ihF fr2 c c (by omega) hwf2 ?_ ?_ ?_ hPar
          · intro _
            unfold nextIdx
            exact hN c (by simp)
          · intro v hv
            exact hH v (by simp [hv])
          · intro v hv
            exact hN v (by simp [hv])
      | fcomp t2 fr2 =>
        obtain ⟨hnx, hcm, hwf2, hwf3⟩ := hwf
        simp only [fnodes] at hH hN
        simp only [fParents] at hPar
        simp only [fsize] at hsz
        refine ⟨?_, ?_, ?_, ?_⟩
        · rw [hlink (by intro h; exact PForest.noConfusion h)]
          exact hnx
        · rw [show typeAt s2 (troot t2) = typeAt s (troot t2) from by
            unfold typeAt
            rw [hH (troot t2) (by simp)]]
          exact hcm
        · refine ihT t2 (by omega) hwf2 ?_ ?_ ?_
          · intro v hv
            exact hH v (by simp [List.mem_append_left _ hv])
          · intro v hv
            exact hN v (by simp [List.mem_append_left _ hv])
          · intro u hu
            exact hPar u (List.mem_append_left _ hu)
        · refine ihF fr2 (troot t2) (troot t2) (by omega) hwf3 ?_ ?_ ?_ ?_
          · intro _
            unfold nextIdx
            exact hN (troot t2) (by simp)
          · intro v hv
            exact hH v (by simp [List.mem_append_right _ hv])
          · intro v hv
            exact hN v (by simp [List.mem_append_right _ hv])
          · intro u hu
            exact hPar u (List.mem_append_right _ hu)

/-- Appending the new child record at the back of a sibling chain:
only the old last node's `m_nextIndex` is redirected. -/
theorem snocF_WF (s s2 : Storage) (k : KidD) (hKW : KidWF s2 k) :
    ∀ (fr : PForest) (cur : Nat),
      ForestWF s cur fr →
      (fnodes fr).Nodup →
      (fr ≠ .fnil → podAt s2 cur = podAt s cur) →
      (∀ v ∈ fnodes fr, podAt s2 (v + 1) = podAt s (v + 1)) →
      (∀ v ∈ fnodes fr, v ≠ flast cur fr → podAt s2 v = podAt s v) →
      (∀ q ∈ fParents fr, podAt s2 (q + 1) = podAt s (q + 1) ∧
        podAt s2 (q + 2) = podAt s (q + 2)) →
      podAt s2 (flast cur fr) = kroot k →
      ForestWF s2 cur (snocF fr k)
  | .fnil, cur => by
    intro _ _ _ _ _ _ hw
    cases k with
    | leaf Lk => exact ⟨hw, hKW, trivial⟩
    | comp Lk Dk =>
      obtain ⟨hkc, hkd, hkh, hka⟩ := hKW
      exact ⟨hw, hkc, ⟨hkd, hkh, hka, trivial⟩, trivial⟩
  | .fleaf c fr2, cur => by
    intro hwf hnd hcfr hH hN hPar hw
    obtain ⟨hnx, hnc, hwf2⟩ := hwf
    simp only [fnodes] at hnd hH hN
    simp only [flast] at hN hw ⊢
    have hnd2 := List.nodup_cons.mp hnd
    refine ⟨?_, ?_, ?_⟩
    · rw [show nextIdx s2 cur = podAt s2 cur from rfl,
        hcfr (by intro h; exact PForest.noConfusion h)]
      exact hnx
    · rw [show typeAt s2 c = typeAt s c from by
        unfold typeAt
        rw [hH c (by simp)]]
      exact hnc
    · refine snocF_WF s s2 k hKW fr2 c hwf2 hnd2.2 ?_ ?_ ?_ hPar hw
      · intro h2
        refine hN c (by simp) ?_
        intro he
        exact hnd2.1 (he ▸ flast_mem fr2 c h2)
      · intro v hv
        exact hH v (by simp [hv])
      · intro v hv hne
        exact hN v (by simp [hv]) hne
  | .fcomp t2 fr2, cur => by
    intro hwf hnd hcfr hH hN hPar hw
    obtain ⟨hnx, hcm, hwf2, hwf3⟩ := hwf
    simp only [fnodes] at hnd hH hN
    simp only [fParents] at hPar
    simp only [flast] at hN hw ⊢
    have hnd2 := List.nodup_cons.mp hnd
    have hdisj := List.disjoint_of_nodup_append hnd2.2
    have hflnt : ∀ v ∈ tnodes t2, v ≠ flast (troot t2) fr2 := by
      intro v hv he
      by_cases h2 : fr2 = PForest.fnil
      · subst h2
        simp only [flast] at he
        exact hnd2.1 (he ▸ List.mem_append_left _ hv)
      · exact hdisj (he ▸ hv) (flast_mem fr2 (troot t2) h2)
    refine ⟨?_, ?_, ?_, ?_⟩
    · rw [show nextIdx s2 cur = podAt s2 cur from rfl,
        hcfr (by intro h; exact PForest.noConfusion h)]
      exact hnx
    · rw [show typeAt s2 (troot t2) = typeAt s (troot t2) from by
        unfold typeAt
        rw [hH (troot t2) (by simp)]]
      exact hcm
    · refine (wf_frame_all s s2 (ptSize t2 + 1)).1 t2 (by omega) hwf2 ?_ ?_ ?_
      · intro v hv
        exact hH v (by simp [List.mem_append_left _ hv])
      · intro v hv
        exact hN v (by simp [List.mem_append_left _ hv]) (hflnt v hv)
      · intro u hu
        refine hPar u (List.mem_append_left _ hu)
    · refine snocF_WF s s2 k hKW fr2 (troot t2) hwf3
        (hnd2.2.of_append_right) ?_ ?_ ?_ ?_ hw
      · intro h2
        refine hN (troot t2) (by simp) ?_
        intro he
        exact hnd2.1 (he ▸ List.mem_append_right _
          (flast_mem fr2 (troot t2) h2))
      · intro v hv
        exact hH v (by simp [List.mem_append_right _ hv])
      · intro v hv hne
        refine hN v (by simp [List.mem_append_right _ hv]) hne
      · intro u hu
        exact hPar u (List.mem_append_right _ hu)

end JsonBuilderModel

namespace JsonBuilderModel

theorem perm_of_eq {l1 l2 : List Nat} (h : l1 = l2) : l1.Perm l2 :=
  h ▸ List.Perm.refl _

/-- Inserting the new child at the target parent yields a well-formed tree
over the updated storage: the kid's nodes join the node set, the parent set
only grows, and the walk size grows by the kid's record count. -/
theorem ins_ex_all (s s2 : Storage) (p : Nat) (front : Bool) (k : KidD)
    (prev : Nat) (hKW : KidWF s2 k)
    (hprevdef : prev = if front = true then firstChild s p else auxAt s p)
    (hauxp : podAt s2 (p + 2)
      = if front = true ∧ auxAt s p ≠ firstChild s p
        then podAt s (p + 2) else kroot k)
    (hwp : podAt s2 prev = kroot k)
    (hnewn : podAt s2 (kroot k) = podAt s prev) :
    ∀ n : Nat,
      (∀ t : PTree, ptSize t < n → TreeWF s t → p ∈ tParents t →
        troot t ∉ tnodes t →
        (tnodes t).Nodup →
        (∀ v ∈ tnodes t, podAt s2 (v + 1) = podAt s (v + 1)) →
        (∀ v ∈ tnodes t, v ≠ prev → podAt s2 v = podAt s v) →
        (∀ q ∈ tParents t, podAt s2 (q + 1) = podAt s (q + 1)) →
        (∀ q ∈ tParents t, q ≠ p → podAt s2 (q + 2) = podAt s (q + 2)) →
        ∃ t2 : PTree, TreeWF s2 t2 ∧ troot t2 = troot t ∧
          (tnodes t2).Perm (knodes k ++ tnodes t) ∧
          (∀ x ∈ tParents t, x ∈ tParents t2) ∧
          (∀ x ∈ kParents k, x ∈ tParents t2) ∧
          ptSize t2 = ptSize t + ksz k)
      ∧
      (∀ (fr : PForest) (cur : Nat), fsize fr < n → ForestWF s cur fr →
        p ∈ fParents fr →
        (fnodes fr).Nodup →
        podAt s2 cur = podAt s cur →
        (∀ v ∈ fnodes fr, podAt s2 (v + 1) = podAt s (v + 1)) →
        (∀ v ∈ fnodes fr, v ≠ prev → podAt s2 v = podAt s v) →
        (∀ q ∈ fParents fr, podAt s2 (q + 1) = podAt s (q + 1)) →
        (∀ q ∈ fParents fr, q ≠ p → podAt s2 (q + 2) = podAt s (q + 2)) →
        ∃ fr2 : PForest, ForestWF s2 cur fr2 ∧
          (fnodes fr2).Perm (knodes k ++ fnodes fr) ∧
          (∀ x ∈ fParents fr, x ∈ fParents fr2) ∧
          (∀ x ∈ kParents k, x ∈ fParents fr2) ∧
          (∀ c : Nat, flast c fr2 = flast c fr) ∧
          fsize fr2 = fsize fr + ksz k)
    := by
  intro n
  induction n with
  | zero =>
    constructor
    · intro t h
      exact absurd h (Nat.not_lt_zero _)
    · intro fr cur h
      exact absurd h (Nat.not_lt_zero _)
  | succ n ih =>
    obtain ⟨ihT, ihF⟩ := ih
    constructor
    · -- tree part
      intro t hsz hwf hp hrn hnd hH hN hParH hParA
      obtain ⟨q, c0, fr⟩ := t
      obtain ⟨hc0, hhid, haux, hfor⟩ := hwf
      simp only [tParents] at hp hParH hParA
      simp only [tnodes] at hrn hnd hH hN ⊢
      simp only [ptSize] at hsz
      simp only [troot] at hrn
      have hnd2 := List.nodup_cons.mp hnd
      have hfcp : firstChild s2 q = firstChild s q := by
        unfold firstChild cchNameAt
        rw [hParH q (by simp)]
      have hhid2 : typeAt s2 c0 = jsonHidden := by
        rw [show typeAt s2 c0 = typeAt s c0 from by
          unfold typeAt
          rw [hH c0 (by simp)]]
        exact hhid
      rcases List.mem_cons.mp hp with he | hp2
      · -- insertion at this node
        subst he
        cases front with
        | true =>
          simp only [eq_self_iff_true, if_true] at hprevdef
          have hprevc0 : prev = c0 := hprevdef.trans hc0.symm
          have hwc0 : podAt s2 c0 = kroot k := hprevc0 ▸ hwp
          by_cases hfrnil : fr = PForest.fnil
          · subst hfrnil
            have hauxw : auxAt s2 p = kroot k := by
              unfold auxAt
              rw [hauxp, if_neg (fun hcon => hcon.2 (haux.trans hc0))]
            cases k with
            | leaf Lk =>
              refine ⟨.node p c0 (.fleaf Lk .fnil),
                ⟨by rw [hfcp]; exact hc0, hhid2, hauxw, hwc0, hKW, trivial⟩,
                rfl, ?_, ?_, ?_, ?_⟩
              · simp only [tnodes, fnodes, knodes, List.cons_append,
                  List.nil_append]
                exact List.Perm.swap Lk c0 []
              · intro x hx
                simp only [tParents, fParents] at hx ⊢
                exact hx
              · intro x hx
                simp [kParents] at hx
              · simp only [ptSize, fsize, ksz]
            | comp Lk Dk =>
              obtain ⟨hkc, hkd, hkh, hka⟩ := hKW
              refine ⟨.node p c0 (.fcomp (.node Lk Dk .fnil) .fnil),
                ⟨by rw [hfcp]; exact hc0, hhid2, hauxw, hwc0, hkc,
                  ⟨hkd, hkh, hka, trivial⟩, trivial⟩,
                rfl, ?_, ?_, ?_, ?_⟩
              · simp only [tnodes, fnodes, knodes, troot, List.cons_append,
                  List.nil_append, List.append_nil]
                exact (List.Perm.swap Lk c0 [Dk]).trans
                  (List.Perm.cons Lk (List.Perm.swap Dk c0 []))
              · intro x hx
                simp only [tParents, fParents] at hx ⊢
                simp only [List.mem_cons, List.mem_append,
                  List.not_mem_nil, or_false] at hx ⊢
                tauto
              · intro x hx
                simp only [kParents, List.mem_singleton] at hx
                subst hx
                simp [tParents, fParents]
              · simp only [ptSize, fsize, ksz]
          · have hne : auxAt s p ≠ firstChild s p := by
              rw [haux, ← hc0]
              intro he
              exact hnd2.1 (he ▸ flast_mem fr c0 hfrnil)
            have hauxu : auxAt s2 p = auxAt s p := by
              unfold auxAt
              rw [hauxp, if_pos ⟨rfl, hne⟩]
            have hshift : ForestWF s2 (kroot k) fr := by
              refine (wf_frame_all s s2 (fsize fr + 1)).2 fr c0 (kroot k)
                (by omega) hfor ?_ ?_ ?_ ?_
              · intro _
                unfold nextIdx
                rw [hnewn, hprevc0]
              · intro v hv
                exact hH v (by simp [hv])
              · intro v hv
                exact hN v (by simp [hv])
                  (fun he => hnd2.1 ((hprevc0 ▸ he) ▸ hv))
              · intro u hu
                have hup : u ≠ p := by
                  intro he
                  exact hrn (he ▸ List.mem_cons_of_mem _
                    ((parents_sub_all (fsize fr + 1)).2 fr (by omega) u hu))
                exact ⟨hParH u (by simp [hu]), hParA u (by simp [hu]) hup⟩
            have hauxfl : auxAt s2 p = flast c0 fr := by
              rw [hauxu, haux]
            cases k with
            | leaf Lk =>
              refine ⟨.node p c0 (.fleaf Lk fr),
                ⟨by rw [hfcp]; exact hc0, hhid2,
                  by rw [hauxfl]; exact flast_indep fr hfrnil c0 Lk,
                  hwc0, hKW, hshift⟩,
                rfl, ?_, ?_, ?_, ?_⟩
              · simp only [tnodes, fnodes, knodes, List.cons_append,
                  List.nil_append]
                exact List.Perm.swap Lk c0 (fnodes fr)
              · intro x hx
                simp only [tParents, fParents] at hx ⊢
                exact hx
              · intro x hx
                simp [kParents] at hx
              · simp only [ptSize, fsize, ksz]
                omega
            | comp Lk Dk =>
              obtain ⟨hkc, hkd, hkh, hka⟩ := hKW
              refine ⟨.node p c0 (.fcomp (.node Lk Dk .fnil) fr),
                ⟨by rw [hfcp]; exact hc0, hhid2,
                  by rw [hauxfl]; exact flast_indep fr hfrnil c0 Lk,
                  hwc0, hkc, ⟨hkd, hkh, hka, trivial⟩, hshift⟩,
                rfl, ?_, ?_, ?_, ?_⟩
              · simp only [tnodes, fnodes, knodes, troot, List.cons_append,
                  List.nil_append]
                exact (List.Perm.swap Lk c0 (Dk :: fnodes fr)).trans
                  (List.Perm.cons Lk (List.Perm.swap Dk c0 (fnodes fr)))
              · intro x hx
                simp only [tParents, fParents] at hx ⊢
                simp only [List.mem_cons, List.mem_append] at hx ⊢
                tauto
              · intro x hx
                simp only [kParents, List.mem_singleton] at hx
                subst hx
                simp only [tParents, fParents]
                simp only [List.mem_cons, List.mem_append]
                simp [tParents]
              · simp only [ptSize, fsize, ksz]
                omega
        | false =>
          simp only [Bool.false_eq_true, if_false] at hprevdef
          have hprevfl : prev = flast c0 fr := hprevdef.trans haux
          have hauxw : auxAt s2 p = kroot k := by
            unfold auxAt
            rw [hauxp, if_neg (fun hcon => Bool.false_ne_true hcon.1)]
          refine ⟨.node p c0 (snocF fr k),
            ⟨by rw [hfcp]; exact hc0, hhid2,
              by rw [hauxw, flast_snocF k fr c0], ?_⟩,
            rfl, ?_, ?_, ?_, ?_⟩
          · refine snocF_WF s s2 k hKW fr c0 hfor hnd2.2 ?_ ?_ ?_ ?_ ?_
            · intro h2
              refine hN c0 (by simp) ?_
              intro he
              rw [hprevfl] at he
              exact hnd2.1 (he ▸ flast_mem fr c0 h2)
            · intro v hv
              exact hH v (by simp [hv])
            · intro v hv hne
              refine hN v (by simp [hv]) ?_
              rw [hprevfl]
              exact hne
            · intro u hu
              have hup : u ≠ p := by
                intro he
                exact hrn (he ▸ List.mem_cons_of_mem _
                  ((parents_sub_all (fsize fr + 1)).2 fr (by omega) u hu))
              exact ⟨hParH u (by simp [hu]), hParA u (by simp [hu]) hup⟩
            · rw [← hprevfl]
              exact hwp
          · simp only [tnodes]
            rw [fnodes_snocF]
            exact (List.Perm.cons c0 List.perm_append_comm).trans
              List.perm_middle.symm
          · intro x hx
            simp only [tParents] at hx ⊢
            rw [fParents_snocF]
            rcases List.mem_cons.mp hx with he | hx2
            · exact he ▸ List.mem_cons_self _ _
            · exact List.mem_cons_of_mem _ (List.mem_append_left _ hx2)
          · intro x hx
            simp only [tParents]
            rw [fParents_snocF]
            exact List.mem_cons_of_mem _ (List.mem_append_right _ hx)
          · simp only [ptSize]
            rw [fsize_snocF]
            omega
      · -- insertion below this node
        have hqnep : q ≠ p := by
          intro he
          exact hrn (he ▸ List.mem_cons_of_mem _
            ((parents_sub_all (fsize fr + 1)).2 fr (by omega) p hp2))
        have hprevm : prev ∈ fnodes fr := by
          rw [hprevdef]
          exact (prev_mem_all s p front (fsize fr + 1)).2 fr c0
            (by omega) hfor hp2
        obtain ⟨fr2, hwf2', hperm', hpar1', hpar2', hflast', hsz'⟩ :=
          ihF fr c0 (by omega) hfor hp2 hnd2.2
            (hN c0 (by simp) (fun he => hnd2.1 (he ▸ hprevm)))
            (fun v hv => hH v (by simp [hv]))
            (fun v hv hne => hN v (by simp [hv]) hne)
            (fun u hu => hParH u (by simp [hu]))
            (fun u hu hup => hParA u (by simp [hu]) hup)
        refine ⟨.node q c0 fr2,
          ⟨by rw [hfcp]; exact hc0, hhid2,
            by
              rw [show auxAt s2 q = auxAt s q from by
                unfold auxAt
                rw [hParA q (by simp) hqnep], haux, hflast' c0], hwf2'⟩,
          rfl, ?_, ?_, ?_, ?_⟩
        · simp only [tnodes]
          exact (List.Perm.cons c0 hperm').trans List.perm_middle.symm
        · intro x hx
          simp only [tParents] at hx ⊢
          rcases List.mem_cons.mp hx with he | hx2
          · exact he ▸ List.mem_cons_self _ _
          · exact List.mem_cons_of_mem _ (hpar1' x hx2)
        · intro x hx
          simp only [tParents]
          exact List.mem_cons_of_mem _ (hpar2' x hx)
        · simp only [ptSize]
          omega
    · -- forest part
      intro fr cur hsz hwf hp hnd hcfr hH hN hParH hParA
      cases fr with
      | fnil => simp [fParents] at hp
      | fleaf c fr3 =>
        obtain ⟨hnx, hnc, hwf3⟩ := hwf
        simp only [fParents] at hp hParH hParA
        simp only [fnodes] at hnd hH hN
        simp only [fsize] at hsz
        have hnd2 := List.nodup_cons.mp hnd
        have hprevm : prev ∈ fnodes fr3 := by
          rw [hprevdef]
          exact (prev_mem_all s p front (fsize fr3 + 1)).2 fr3 c
            (by omega) hwf3 hp
        obtain ⟨fr3', hwf3', hperm', hpar1', hpar2', hflast', hsz'⟩ :=
          ihF fr3 c (by omega) hwf3 hp hnd2.2
            (hN c (by simp) (fun he => hnd2.1 (he ▸ hprevm)))
            (fun v hv => hH v (by simp [hv]))
            (fun v hv hne => hN v (by simp [hv]) hne)
            hParH hParA
        refine ⟨.fleaf c fr3', ⟨?_, ?_, hwf3'⟩, ?_, ?_, ?_, ?_, ?_⟩
        · rw [show nextIdx s2 cur = podAt s2 cur from rfl, hcfr]
          exact hnx
        · rw [show typeAt s2 c = typeAt s c from by
            unfold typeAt
            rw [hH c (by simp)]]
          exact hnc
        · simp only [fnodes]
          exact (List.Perm.cons c hperm').trans List.perm_middle.symm
        · intro x hx
          simp only [fParents] at hx ⊢
          exact hpar1' x hx
        · intro x hx
          simp only [fParents]
          exact hpar2' x hx
        · intro cc
          simp only [flast]
          exact hflast' c
        · simp only [fsize]
          omega
      | fcomp t3 fr3 =>
        obtain ⟨hnx, hcm, hwf3, hwf4⟩ := hwf
        simp only [fParents] at hp hParH hParA
        simp only [fnodes] at hnd hH hN
        simp only [fsize] at hsz
        have hnd2 := List.nodup_cons.mp hnd
        have hdisj := List.disjoint_of_nodup_append hnd2.2
        rcases List.mem_append.mp hp with hpl | hpr
        · -- insertion inside the composite child
          have hprevm : prev ∈ tnodes t3 := by
            rw [hprevdef]
            exact (prev_mem_all s p front (ptSize t3 + 1)).1 t3
              (by omega) hwf3 hpl
          obtain ⟨t3', hwf3', htroot', hperm', hpar1', hpar2', hsz'⟩ :=
            ihT t3 (by omega) hwf3 hpl
              (fun hh => hnd2.1 (List.mem_append_left _ hh))
              (hnd2.2.of_append_left)
              (fun v hv => hH v (by simp [List.mem_append_left _ hv]))
              (fun v hv hne => hN v (by simp [List.mem_append_left _ hv]) hne)
              (fun u hu => hParH u (List.mem_append_left _ hu))
              (fun u hu hup => hParA u (List.mem_append_left _ hu) hup)
          refine ⟨.fcomp t3' fr3, ⟨?_, ?_, hwf3', ?_⟩, ?_, ?_, ?_, ?_, ?_⟩
          · rw [show nextIdx s2 cur = podAt s2 cur from rfl, hcfr, htroot']
            exact hnx
          · rw [htroot', show typeAt s2 (troot t3) = typeAt s (troot t3)
              from by
                unfold typeAt
                rw [hH (troot t3) (by simp)]]
            exact hcm
          · rw [htroot']
            refine (wf_frame_all s s2 (fsize fr3 + 1)).2 fr3 (troot t3)
              (troot t3) (by omega) hwf4 ?_ ?_ ?_ ?_
            · intro _
              unfold nextIdx
              refine hN (troot t3) (by simp) ?_
              intro he
              exact hnd2.1 (he ▸ List.mem_append_left _ hprevm)
            · intro v hv
              exact hH v (by simp [List.mem_append_right _ hv])
            · intro v hv
              refine hN v (by simp [List.mem_append_right _ hv]) ?_
              intro he
              exact hdisj (he ▸ hprevm) hv
            · intro u hu
              have hum : u ∈ fnodes fr3 :=
                (parents_sub_all (fsize fr3 + 1)).2 fr3 (by omega) u hu
              have hup : u ≠ p := by
                intro he
                rcases List.mem_cons.mp
                  ((parents_sub_all (ptSize t3 + 1)).1 t3 (by omega) p hpl)
                  with he2 | he2
                · exact hnd2.1 (he2 ▸ he ▸ List.mem_append_right _ hum)
                · exact hdisj he2 (he ▸ hum)
              exact ⟨hParH u (List.mem_append_right _ hu),
                hParA u (List.mem_append_right _ hu) hup⟩
          · simp only [fnodes]
            rw [htroot']
            refine (List.Perm.cons (troot t3)
              ((hperm'.append_right (fnodes fr3)).trans
                (perm_of_eq (List.append_assoc _ _ _)))).trans
              List.perm_middle.symm
          · intro x hx
            simp only [fParents] at hx ⊢
            rcases List.mem_append.mp hx with h1 | h2
            · exact List.mem_append_left _ (hpar1' x h1)
            · exact List.mem_append_right _ h2
          · intro x hx
            simp only [fParents]
            exact List.mem_append_left _ (hpar2' x hx)
          · intro cc
            simp only [flast]
            rw [htroot']
          · simp only [fsize]
            omega
        · -- insertion further along the sibling chain
          have hprevm : prev ∈ fnodes fr3 := by
            rw [hprevdef]
            exact (prev_mem_all s p front (fsize fr3 + 1)).2 fr3 (troot t3)
              (by omega) hwf4 hpr
          have htpre : TreeWF s2 t3 := by
            refine (wf_frame_all s s2 (ptSize t3 + 1)).1 t3 (by omega)
              hwf3 ?_ ?_ ?_
            · intro v hv
              exact hH v (by simp [List.mem_append_left _ hv])
            · intro v hv
              refine hN v (by simp [List.mem_append_left _ hv]) ?_
              intro he
              exact hdisj hv (he ▸ hprevm)
            · intro u hu
              have hum := (parents_sub_all (ptSize t3 + 1)).1 t3
                (by omega) u hu
              have hup : u ≠ p := by
                intro he
                have hpm : p ∈ fnodes fr3 :=
                  (parents_sub_all (fsize fr3 + 1)).2 fr3 (by omega) p hpr
                rcases List.mem_cons.mp hum with he2 | he2
                · refine hnd2.1 ?_
                  rw [← he2, he]
                  exact List.mem_append_right _ hpm
                · exact hdisj he2 (he ▸ hpm)
              exact ⟨hParH u (List.mem_append_left _ hu),
                hParA u (List.mem_append_left _ hu) hup⟩
          obtain ⟨fr3', hwf4', hperm', hpar1', hpar2', hflast', hsz'⟩ :=
            ihF fr3 (troot t3) (by omega) hwf4 hpr
              (hnd2.2.of_append_right)
              (hN (troot t3) (by simp)
                (fun he => hnd2.1 (he ▸ List.mem_append_right _ hprevm)))
              (fun v hv => hH v (by simp [List.mem_append_right _ hv]))
              (fun v hv hne => hN v (by simp [List.mem_append_right _ hv]) hne)
              (fun u hu => hParH u (List.mem_append_right _ hu))
              (fun u hu hup => hParA u (List.mem_append_right _ hu) hup)
          refine ⟨.fcomp t3 fr3', ⟨?_, ?_, htpre, hwf4'⟩, ?_, ?_, ?_, ?_, ?_⟩
          · rw [show nextIdx s2 cur = podAt s2 cur from rfl, hcfr]
            exact hnx
          · rw [show typeAt s2 (troot t3) = typeAt s (troot t3) from by
              unfold typeAt
              rw [hH (troot t3) (by simp)]]
            exact hcm
          · simp only [fnodes]
            refine (List.Perm.cons (troot t3)
              (((hperm'.append_left (tnodes t3)).trans
                (perm_of_eq (List.append_assoc _ _ _).symm)).trans
                (((List.perm_append_comm).append_right (fnodes fr3)).trans
                  (perm_of_eq (List.append_assoc _ _ _))))).trans
              List.perm_middle.symm
          · intro x hx
            simp only [fParents] at hx ⊢
            rcases List.mem_append.mp hx with h1 | h2
            · exact List.mem_append_left _ h1
            · exact List.mem_append_right _ (hpar1' x h2)
          · intro x hx
            simp only [fParents]
            exact List.mem_append_right _ (hpar2' x hx)
          · intro cc
            simp only [flast]
            exact hflast' (troot t3)
          · simp only [fsize]
            omega

end JsonBuilderModel

namespace JsonBuilderModel

/-! ## C1 chunk 8: iterator indices are chain members -/

theorem skipHidden_mem (s : Storage) (ns : List Nat)
    (hchain : chainLinks s ns) (h0 : 0 ∈ ns) :
    ∀ (fuel i j : Nat), i ∈ ns → skipHidden s fuel i = some j → j ∈ ns := by
  intro fuel
  induction fuel with
  | zero =>
    intro i j _ h
    exact absurd h (by simp [skipHidden])
  | succ fuel ih =>
    intro i j hi h
    unfold skipHidden at h
    by_cases ht : typeAt s i ≠ jsonHidden
    · rw [if_pos ht] at h
      obtain rfl : i = j := by simpa using h
      exact hi
    · rw [if_neg ht] at h
      refine ih (nextIdx s i) j ?_ h
      rcases chain_next_mem s ns hchain i hi with h0' | hm
      · rw [h0']
        exact h0
      · exact hm

theorem nextVisible_mem (s : Storage) (ns : List Nat)
    (hchain : chainLinks s ns) (h0 : 0 ∈ ns) :
    ∀ (fuel i j : Nat), i ∈ ns → nextVisible s fuel i = some j → j ∈ ns := by
  intro fuel
  induction fuel with
  | zero =>
    intro i j _ h
    exact absurd h (by simp [nextVisible])
  | succ fuel ih =>
    intro i j hi h
    unfold nextVisible at h
    have hnm : nextIdx s i ∈ ns := by
      rcases chain_next_mem s ns hchain i hi with h0' | hm
      · rw [h0']
        exact h0
      · exact hm
    by_cases ht : typeAt s (nextIdx s i) ≠ jsonHidden
    · rw [if_pos ht] at h
      obtain rfl : nextIdx s i = j := by simpa using h
      exact hnm
    · rw [if_neg ht] at h
      exact ih (nextIdx s i) j hnm h

theorem iterFrom_mem (s : Storage) (ns : List Nat)
    (hchain : chainLinks s ns) (h0 : 0 ∈ ns) :
    ∀ (fuel i : Nat) (l : List Nat), i ∈ ns → iterFrom s fuel i = some l →
      ∀ x ∈ l, x ∈ ns ∧ x ≠ 0 := by
  intro fuel
  induction fuel with
  | zero =>
    intro i l _ h
    exact absurd h (by simp [iterFrom])
  | succ fuel ih =>
    intro i l hi h
    unfold iterFrom at h
    by_cases hi0 : i = 0
    · rw [if_pos hi0] at h
      obtain rfl : ([] : List Nat) = l := by simpa using h
      intro x hx
      simp at hx
    · rw [if_neg hi0] at h
      rcases hnv : nextVisible s (s.length + 1) i with _ | j
      · rw [hnv] at h
        simp at h
      · rw [hnv] at h
        dsimp only at h
        rcases hit : iterFrom s fuel j with _ | l2
        · rw [hit] at h
          simp at h
        · rw [hit] at h
          obtain rfl : i :: l2 = l := by simpa using h
          have hjm : j ∈ ns :=
            nextVisible_mem s ns hchain h0 (s.length + 1) i j hi hnv
          intro x hx
          rcases List.mem_cons.mp hx with he | hx2
          · exact he ▸ ⟨hi, hi0⟩
          · exact ih j l2 hjm hit x hx2

theorem iterSeq_mem (s : Storage) (ns : List Nat)
    (hchain : chainLinks s ns) (hhead : ns.head? = some 0) (l : List Nat)
    (h : iterSeq s = some l) :
    ∀ x ∈ l, x ∈ ns ∧ x ≠ 0 := by
  have h0 : 0 ∈ ns := by
    cases ns with
    | nil => simp at hhead
    | cons a t =>
      have : a = 0 := by simpa using hhead
      simp [this]
  unfold iterSeq at h
  rcases hcb : cbeginIdx s with _ | b
  · rw [hcb] at h
    simp at h
  · rw [hcb] at h
    rw [Option.some_bind] at h
    have hbm : b ∈ ns := by
      unfold cbeginIdx at hcb
      by_cases hemp : s.isEmpty
      · rw [if_pos hemp] at hcb
        obtain rfl : (0 : Nat) = b := by simpa using hcb
        exact h0
      · rw [if_neg hemp] at hcb
        have hnm : nextIdx s 0 ∈ ns := by
          rcases chain_next_mem s ns hchain 0 h0 with h0' | hm
          · rw [h0']
            exact h0
          · exact hm
        exact skipHidden_mem s ns hchain h0 (s.length + 1) (nextIdx s 0) b
          hnm hcb
    exact iterFrom_mem s ns hchain h0 (s.length + 1) b l hbm h

/-- Every interior parent of a well-formed tree is composite (given that the
root is). -/
theorem parents_comp_all (s : Storage) :
    ∀ n : Nat,
      (∀ t : PTree, ptSize t < n → TreeWF s t →
        isCompositeType (typeAt s (troot t)) = true →
        ∀ q ∈ tParents t, isCompositeType (typeAt s q) = true)
      ∧
      (∀ (fr : PForest) (cur : Nat), fsize fr < n → ForestWF s cur fr →
        ∀ q ∈ fParents fr, isCompositeType (typeAt s q) = true)
    := by
  intro n
  induction n with
  | zero =>
    constructor
    · intro t h
      exact absurd h (Nat.not_lt_zero _)
    · intro fr cur h
      exact absurd h (Nat.not_lt_zero _)
  | succ n ih =>
    obtain ⟨ihT, ihF⟩ := ih
    constructor
    · intro t hsz hwf hroot q hq
      obtain ⟨q0, c0, fr⟩ := t
      obtain ⟨-, -, -, hfor⟩ := hwf
      simp only [tParents] at hq
      simp only [troot] at hroot
      simp only [ptSize] at hsz
      rcases List.mem_cons.mp hq with he | hq2
      · exact he ▸ hroot
      · exact ihF fr c0 (by omega) hfor q hq2
    · intro fr cur hsz hwf q hq
      cases fr with
      | fnil => simp [fParents] at hq
      | fleaf c fr2 =>
        obtain ⟨-, -, hwf2⟩ := hwf
        simp only [fParents] at hq
        simp only [fsize] at hsz
        exact ihF fr2 c (by omega) hwf2 q hq
      | fcomp t2 fr2 =>
        obtain ⟨-, hcm, hwf2, hwf3⟩ := hwf
        simp only [fParents] at hq
        simp only [fsize] at hsz
        rcases List.mem_append.mp hq with h1 | h2
        · exact ihT t2 (by omega) hwf2 hcm q h1
        · exact ihF fr2 (troot t2) (by omega) hwf3 q h2

end JsonBuilderModel

namespace JsonBuilderModel

/-! ## C1 chunk 9: the invariant survives a successful AddValue -/

theorem podAt_pair_zero (x y : Nat) : podAt [x, y] 0 = x := rfl

theorem podAt_pair_one (x y : Nat) : podAt [x, y] 1 = y := rfl

theorem pairwise_insert (s2 : Storage) (ns2 ns newL : List Nat) (Lb : Nat)
    (hperm : ns2.Perm (newL ++ ns))
    (hnd : ns2.Nodup)
    (hold : ∀ a ∈ ns, ∀ b ∈ ns, a ≠ b →
      ∀ c ∈ extentPods s2 a, c ∉ extentPods s2 b)
    (holdlt : ∀ a ∈ ns, ∀ c ∈ extentPods s2 a, c < Lb)
    (hnewge : ∀ a ∈ newL, ∀ c ∈ extentPods s2 a, Lb ≤ c)
    (hnewpw : ∀ a ∈ newL, ∀ b ∈ newL, a ≠ b →
      ∀ c ∈ extentPods s2 a, c ∉ extentPods s2 b) :
    ns2.Pairwise (fun a b => ∀ c ∈ extentPods s2 a, c ∉ extentPods s2 b) := by
  refine pairwise_of_forall_nodup _ _ hnd ?_
  intro a ha b hb hne
  rcases List.mem_append.mp (hperm.mem_iff.mp ha) with haN | haO <;>
    rcases List.mem_append.mp (hperm.mem_iff.mp hb) with hbN | hbO
  · exact hnewpw a haN b hbN hne
  · intro c hca hcb
    exact absurd (holdlt b hbO c hcb) (not_lt.mpr (hnewge a haN c hca))
  · intro c hca hcb
    exact absurd (holdlt a haO c hca) (not_lt.mpr (hnewge b hbN c hcb))
  · exact hold a haO b hbO hne

end JsonBuilderModel

namespace JsonBuilderModel

/-- A successful `AddValue` call on an invariant-satisfying builder yields an
invariant-satisfying builder (success is guaranteed by the size bounds). -/
theorem sinv_addValue_ok (b : Builder) (front : Bool) (parentIdx : Nat)
    (name : Src) (cchNm ty cb0 : Nat) (data : Option Src) (g : Nat → Nat)
    (t : PTree) (ns : List Nat)
    (htroot : troot t = 0) (hwf : TreeWF b.pods t)
    (hndt : (0 :: tnodes t).Nodup) (hsub : tnodes t ⊆ ns)
    (hhead : ns.head? = some 0) (hchain : chainLinks b.pods ns)
    (hext : ∀ v ∈ ns, ∀ c ∈ extentPods b.pods v, c < b.pods.length)
    (hnormcb : ∀ v ∈ ns, isNormalType (typeAt b.pods v) = true →
      auxAt b.pods v ≤ dataMax)
    (hpw : ns.Pairwise (fun x y => ∀ c ∈ extentPods b.pods x,
      c ∉ extentPods b.pods y))
    (hnslen : ns.length ≤ b.pods.length)
    (hsize : ptSize t + 1 ≤ b.pods.length)
    (hroot0 : cchNameAt b.pods 0 = 0)
    (hrootty : typeAt b.pods 0 = jsonObject)
    (hptp : ∀ v ∈ ns, v ≠ 0 → isCompositeType (typeAt b.pods v) = true →
      v ∈ tParents t)
    (hbits : ∀ x ∈ b.pods, x < 2 ^ 32)
    (hLcap : b.pods.length ≤ b.cap) (hcap : b.cap ≤ maxSize)
    (hcp : isCompositeType (typeAt b.pods parentIdx) = true)
    (hptm : parentIdx ∈ tParents t)
    (hname : cchNm ≤ nameMax) (hdata : cb0 ≤ dataMax)
    (hbig : b.pods.length + dataOffsetOf cchNm
        + ((if isCompositeType (ty % 2 ^ 8) = true then 8 else cb0) + 3) / 4
      ≤ maxSize) :
    ∃ b2 : Builder, addValue b front parentIdx name cchNm ty cb0 data g
        = (.ok b.pods.length, b2) ∧
      SInv b2.pods ∧ (∀ x ∈ b2.pods, x < 2 ^ 32) ∧
      b2.pods.length ≤ b2.cap ∧ b2.cap ≤ maxSize := by
  have hmax : maxSize = 4294967294 := rfl
  have hD3 : 3 ≤ dataOffsetOf cchNm := by unfold dataOffsetOf; omega
  have hcch24 : cchNm < 2 ^ 24 := by
    have hnm : nameMax = 16777215 := rfl
    omega
  have htyblt : ty % 2 ^ 8 < 2 ^ 8 := Nat.mod_lt _ (by norm_num)
  have h0ns : 0 ∈ ns := by
    cases ns with
    | nil => simp at hhead
    | cons a l =>
      have : a = 0 := by simpa using hhead
      simp [this]
  have hL0 : 0 < b.pods.length := by
    have := hext 0 h0ns 0 (extent_self _ _)
    omega
  have hL32 : b.pods.length < 2 ^ 32 := by omega
  have h320 : podAt b.pods 0 < 2 ^ 32 := podAt_lt_of_mem _ hbits 0
  have hndns : ns.Nodup := nodup_of_pairwise_ext _ _ hpw
  have hdj := pairwise_disjoint_forall _ _ hpw
  have hcpnh : typeAt b.pods parentIdx ≠ jsonHidden := composite_ne_hidden hcp
  have hpns : parentIdx ∈ ns := by
    rcases List.mem_cons.mp
      ((parents_sub_all (ptSize t + 1)).1 t (by omega) parentIdx hptm)
      with he | hm
    · rw [he, htroot]
      exact h0ns
    · exact hsub hm
  have hoffp3 : 3 ≤ dataOffsetOf (cchNameAt b.pods parentIdx) := by
    unfold dataOffsetOf
    omega
  have hpext2 : parentIdx + 2 ∈ extentPods b.pods parentIdx :=
    extent_name _ _ 2 hcpnh (by rw [List.mem_range'_1]; omega)
  have hp2 : parentIdx + 2 < b.pods.length := hext _ hpns _ hpext2
  set prev := (if front = true then firstChild b.pods parentIdx
    else auxAt b.pods parentIdx) with hprevdef
  have hprevtn : prev ∈ tnodes t := by
    rw [hprevdef]
    exact (prev_mem_all b.pods parentIdx front (ptSize t + 1)).1 t
      (by omega) hwf hptm
  have hprevns : prev ∈ ns := hsub hprevtn
  have hprevlt : prev < b.pods.length := hext _ hprevns _ (extent_self _ _)
  have hprev00 : prev ≠ 0 := fun he => (List.nodup_cons.mp hndt).1
    (he ▸ hprevtn)
  have hprev0 : 0 < prev := Nat.pos_of_ne_zero hprev00
  have hprevne : prev ≠ parentIdx + 2 := by
    by_cases hpe : prev = parentIdx
    · omega
    · intro he
      exact hdj prev hprevns parentIdx hpns hpe prev (extent_self _ _)
        (he ▸ hpext2)
  have hpv : podAt b.pods prev < 2 ^ 32 := podAt_lt_of_mem _ hbits prev
  obtain ⟨c, nmP, dbP, heqadd, hnml, hdbl2, hdbc, hnmb, hdbb, hge, hle⟩ :=
    addValue_runs b front parentIdx name cchNm ty cb0 data g prev hname hdata
      hL0 hLcap hcap h320 hbig hcp hp2 hprevdef hprev0 hprevlt hprevne hpv
  set S0 : Storage := (if isCompositeType (ty % 2 ^ 8) = true
    then b.pods.set 0 (b.pods.length + dataOffsetOf cchNm)
    else b.pods) with hS0d
  set M : Storage := (if front = true
      ∧ ¬ firstChild b.pods parentIdx = auxAt b.pods parentIdx
    then S0 else setPod S0 (parentIdx + 2) b.pods.length) with hMd
  set blk : List Nat := podAt b.pods prev ::
    (cchNm + ty % 2 ^ 8 * 2 ^ 24) ::
    (if isCompositeType (ty % 2 ^ 8) = true
     then b.pods.length + dataOffsetOf cchNm
     else cb0) :: (nmP ++ dbP) with hblkd
  set S2 : Storage := setPod M prev b.pods.length ++ blk with hS2d
  have hS0len : S0.length = b.pods.length := by
    rw [hS0d]
    cases h : isCompositeType (ty % 2 ^ 8) <;> simp
  have hMlen : M.length = b.pods.length := by
    rw [hMd]
    by_cases hwa : front = true
        ∧ ¬ firstChild b.pods parentIdx = auxAt b.pods parentIdx
    · rw [if_pos hwa]
      exact hS0len
    · rw [if_neg hwa]
      simp only [setPod, List.length_set]
      exact hS0len
  have hB2len : (setPod M prev b.pods.length).length = b.pods.length := by
    simp only [setPod, List.length_set]
    exact hMlen
  have hMpod : ∀ j, j ≠ parentIdx + 2 → podAt M j = podAt S0 j := by
    intro j hj
    rw [hMd]
    by_cases hwa : front = true
        ∧ ¬ firstChild b.pods parentIdx = auxAt b.pods parentIdx
    · rw [if_pos hwa]
    · rw [if_neg hwa]
      exact getD_set_ne _ _ _ _ hj
  have hMp2 : podAt M (parentIdx + 2)
      = if front = true
          ∧ ¬ firstChild b.pods parentIdx = auxAt b.pods parentIdx
        then podAt S0 (parentIdx + 2) else b.pods.length := by
    rw [hMd]
    by_cases hwa : front = true
        ∧ ¬ firstChild b.pods parentIdx = auxAt b.pods parentIdx
    · rw [if_pos hwa, if_pos hwa]
    · rw [if_neg hwa, if_neg hwa]
      exact getD_set_eq _ _ _ (by rw [hS0len]; exact hp2)
  have hS0p2 : podAt S0 (parentIdx + 2) = podAt b.pods (parentIdx + 2) := by
    cases hco2 : isCompositeType (ty % 2 ^ 8)
    · rw [hS0d, if_neg (by rw [hco2]; exact Bool.false_ne_true)]
    · rw [hS0d, if_pos hco2]
      exact getD_set_ne _ _ _ _ (by omega)
  have hfrv : ∀ j, j < b.pods.length → j ≠ prev → j ≠ parentIdx + 2 →
      (isCompositeType (ty % 2 ^ 8) = true → j ≠ 0) →
      podAt S2 j = podAt b.pods j := by
    intro j h1 h2 h3 h4
    rw [hS2d, podAt_append_left _ _ j (by rw [hB2len]; exact h1),
      show podAt (setPod M prev b.pods.length) j = podAt M j
        from getD_set_ne _ _ _ _ h2,
      hMpod j h3]
    cases hco2 : isCompositeType (ty % 2 ^ 8)
    · rw [hS0d, if_neg (by rw [hco2]; exact Bool.false_ne_true)]
    · rw [hS0d, if_pos hco2]
      exact getD_set_ne _ _ _ _ (h4 hco2)
  have hfrp2 : podAt S2 (parentIdx + 2)
      = if front = true
          ∧ ¬ firstChild b.pods parentIdx = auxAt b.pods parentIdx
        then podAt b.pods (parentIdx + 2) else b.pods.length := by
    rw [hS2d, podAt_append_left _ _ _ (by rw [hB2len]; exact hp2),
      show podAt (setPod M prev b.pods.length) (parentIdx + 2)
          = podAt M (parentIdx + 2)
        from getD_set_ne _ _ _ _ (fun he => hprevne he.symm),
      hMp2, hS0p2]
  have hfrprev : podAt S2 prev = b.pods.length := by
    rw [hS2d, podAt_append_left _ _ _ (by rw [hB2len]; exact hprevlt)]
    exact getD_set_eq _ _ _ (by rw [hMlen]; exact hprevlt)
  have hfr0c : isCompositeType (ty % 2 ^ 8) = true →
      podAt S2 0 = b.pods.length + dataOffsetOf cchNm := by
    intro hco2
    rw [hS2d, podAt_append_left _ _ _ (by rw [hB2len]; exact hL0),
      show podAt (setPod M prev b.pods.length) 0 = podAt M 0
        from getD_set_ne _ _ _ _ (fun he => hprev00 he.symm),
      hMpod 0 (by omega), hS0d, if_pos hco2]
    exact getD_set_eq _ _ _ hL0
  have hfr00 : isCompositeType (ty % 2 ^ 8) = false →
      podAt S2 0 = podAt b.pods 0 := by
    intro hco2
    exact hfrv 0 hL0 (fun he => hprev00 he.symm) (by omega)
      (fun hc => absurd hc (by rw [hco2]; exact Bool.false_ne_true))
  have hnb : ∀ j, podAt S2 (b.pods.length + j) = podAt blk j := by
    intro j
    rw [hS2d,
      show b.pods.length + j = (setPod M prev b.pods.length).length + j
        from by rw [hB2len],
      podAt_append_right]
  have hpodLL : podAt S2 b.pods.length = podAt b.pods prev := by
    have h := hnb 0
    rw [Nat.add_zero] at h
    rw [h, hblkd]
    rfl
  have hpodL1 : podAt S2 (b.pods.length + 1)
      = cchNm + ty % 2 ^ 8 * 2 ^ 24 := by
    rw [hnb 1, hblkd]
    rfl
  have hpodL2 : podAt S2 (b.pods.length + 2)
      = (if isCompositeType (ty % 2 ^ 8) = true
         then b.pods.length + dataOffsetOf cchNm else cb0) := by
    rw [hnb 2, hblkd]
    rfl
  have hS2e2 : S2 = (setPod M prev b.pods.length ++
      (podAt b.pods prev :: (cchNm + ty % 2 ^ 8 * 2 ^ 24) ::
        (if isCompositeType (ty % 2 ^ 8) = true
         then b.pods.length + dataOffsetOf cchNm else cb0) :: nmP)) ++ dbP := by
    rw [hS2d, hblkd]
    simp only [List.append_assoc, List.cons_append]
  have hpreflen : (setPod M prev b.pods.length ++
      (podAt b.pods prev :: (cchNm + ty % 2 ^ 8 * 2 ^ 24) ::
        (if isCompositeType (ty % 2 ^ 8) = true
         then b.pods.length + dataOffsetOf cchNm else cb0) :: nmP)).length
      = b.pods.length + dataOffsetOf cchNm := by
    simp only [List.length_append, List.length_cons, hnml]
    rw [hB2len]
    unfold dataOffsetOf
    omega
  have hpodDj : ∀ j,
      podAt S2 (b.pods.length + dataOffsetOf cchNm + j) = podAt dbP j := by
    intro j
    rw [hS2e2, show b.pods.length + dataOffsetOf cchNm + j
      = (setPod M prev b.pods.length ++
        (podAt b.pods prev :: (cchNm + ty % 2 ^ 8 * 2 ^ 24) ::
          (if isCompositeType (ty % 2 ^ 8) = true
           then b.pods.length + dataOffsetOf cchNm else cb0) :: nmP)).length
        + j from by rw [hpreflen]]
    exact podAt_append_right _ _ j
  have hS2len : S2.length = b.pods.length + dataOffsetOf cchNm
      + ((if isCompositeType (ty % 2 ^ 8) = true then 8 else cb0) + 3) / 4
      := by
    rw [hS2d, hblkd]
    simp only [List.length_append, List.length_cons, hnml, hdbl2]
    rw [hB2len]
    unfold dataOffsetOf
    omega
  have hlenle : b.pods.length ≤ S2.length := by
    rw [hS2len]
    omega
  have hcchL : cchNameAt S2 b.pods.length = cchNm := by
    unfold cchNameAt
    rw [hpodL1]
    omega
  have htyL : typeAt S2 b.pods.length = ty % 2 ^ 8 := by
    unfold typeAt
    rw [hpodL1]
    omega
  have hauxL : auxAt S2 b.pods.length
      = (if isCompositeType (ty % 2 ^ 8) = true
         then b.pods.length + dataOffsetOf cchNm else cb0) := by
    unfold auxAt
    exact hpodL2
  have hvlt : ∀ v ∈ ns, v < b.pods.length := fun v hv =>
    hext v hv v (extent_self _ _)
  have hp2ne : ∀ v ∈ ns, v ≠ parentIdx + 2 := by
    intro v hv
    by_cases hvp : v = parentIdx
    · omega
    · intro he
      exact hdj v hv parentIdx hpns hvp v (extent_self _ _) (he ▸ hpext2)
  have hHn : ∀ v ∈ ns, podAt S2 (v + 1) = podAt b.pods (v + 1) := by
    intro v hv
    refine hfrv (v + 1) (hext v hv (v + 1) (extent_self1 _ _)) ?_ ?_
      (fun _ => by omega)
    · by_cases hvp : v = prev
      · omega
      · intro he
        exact hdj v hv prev hprevns hvp (v + 1) (extent_self1 _ _)
          (he ▸ extent_self _ _)
    · by_cases hvp : v = parentIdx
      · omega
      · intro he
        exact hdj v hv parentIdx hpns hvp (v + 1) (extent_self1 _ _)
          (he ▸ hpext2)
  have htypec : ∀ v ∈ ns, typeAt S2 v = typeAt b.pods v := by
    intro v hv
    unfold typeAt
    rw [hHn v hv]
  have hcchc : ∀ v ∈ ns, cchNameAt S2 v = cchNameAt b.pods v := by
    intro v hv
    unfold cchNameAt
    rw [hHn v hv]
  have hv2ext : ∀ v ∈ ns, typeAt b.pods v ≠ jsonHidden →
      v + 2 ∈ extentPods b.pods v := by
    intro v hv hvh
    refine extent_name _ _ 2 hvh ?_
    rw [List.mem_range'_1]
    have h3 : 3 ≤ dataOffsetOf (cchNameAt b.pods v) := by
      unfold dataOffsetOf
      omega
    omega
  have hAn : ∀ v ∈ ns, v ≠ parentIdx → typeAt b.pods v ≠ jsonHidden →
      podAt S2 (v + 2) = podAt b.pods (v + 2) := by
    intro v hv hvp hvh
    refine hfrv (v + 2) (hext v hv _ (hv2ext v hv hvh)) ?_ (by omega)
      (fun _ => by omega)
    by_cases hvpr : v = prev
    · omega
    · intro he
      exact hdj v hv prev hprevns hvpr (v + 2) (hv2ext v hv hvh)
        (he ▸ extent_self _ _)
  have hextc : ∀ v ∈ ns, extentPods S2 v = extentPods b.pods v := by
    intro v hv
    refine extent_congr _ _ v (hHn v hv) ?_
    intro hnorm
    have hlt253 : typeAt b.pods v < 253 := by
      simpa [isNormalType] using hnorm
    have hvh : typeAt b.pods v ≠ jsonHidden := by
      unfold jsonHidden
      omega
    have hvp : v ≠ parentIdx := by
      intro he
      have h2 : 254 ≤ typeAt b.pods parentIdx := by
        simpa [isCompositeType] using hcp
      rw [he] at hlt253
      omega
    exact hAn v hv hvp hvh
  have hauxcn : ∀ v ∈ ns, isNormalType (typeAt b.pods v) = true →
      auxAt S2 v = auxAt b.pods v := by
    intro v hv hnorm
    have hlt253 : typeAt b.pods v < 253 := by
      simpa [isNormalType] using hnorm
    have hvh : typeAt b.pods v ≠ jsonHidden := by
      unfold jsonHidden
      omega
    have hvp : v ≠ parentIdx := by
      intro he
      have h2 : 254 ≤ typeAt b.pods parentIdx := by
        simpa [isCompositeType] using hcp
      rw [he] at hlt253
      omega
    unfold auxAt
    exact hAn v hv hvp hvh
  have hptns : ∀ q ∈ tParents t, q ∈ ns := by
    intro q hq
    rcases List.mem_cons.mp
      ((parents_sub_all (ptSize t + 1)).1 t (by omega) q hq) with he | hm
    · rw [he, htroot]
      exact h0ns
    · exact hsub hm
  have hpcomp : ∀ q ∈ tParents t, isCompositeType (typeAt b.pods q) = true :=
    (parents_comp_all b.pods (ptSize t + 1)).1 t (by omega) hwf
      (by rw [htroot, hrootty]; decide)
  have hParHt : ∀ q ∈ tParents t, podAt S2 (q + 1) = podAt b.pods (q + 1) :=
    fun q hq => hHn q (hptns q hq)
  have hParAt : ∀ q ∈ tParents t, q ≠ parentIdx →
      podAt S2 (q + 2) = podAt b.pods (q + 2) :=
    fun q hq hqp => hAn q (hptns q hq) hqp
      (composite_ne_hidden (hpcomp q hq))
  have hauxp' : podAt S2 (parentIdx + 2)
      = if front = true ∧ auxAt b.pods parentIdx ≠ firstChild b.pods parentIdx
        then podAt b.pods (parentIdx + 2) else b.pods.length := by
    rw [hfrp2]
    by_cases hfe : firstChild b.pods parentIdx = auxAt b.pods parentIdx
    · rw [if_neg (fun hcon => hcon.2 hfe),
        if_neg (fun hcon => hcon.2 hfe.symm)]
    · cases front with
      | true =>
        rw [if_pos ⟨rfl, hfe⟩, if_pos ⟨rfl, fun he => hfe he.symm⟩]
      | false =>
        rw [if_neg (fun hcon => Bool.false_ne_true hcon.1),
          if_neg (fun hcon => Bool.false_ne_true hcon.1)]
  have hndt2 := List.nodup_cons.mp hndt
  have hbitsS2 : ∀ x ∈ S2, x < 2 ^ 32 := by
    intro x hx
    rw [hS2d] at hx
    rcases List.mem_append.mp hx with hx1 | hx2
    · rcases List.mem_or_eq_of_mem_set hx1 with hx1 | hx1
      · have hxM : x ∈ S0 ∨ x = b.pods.length := by
          rw [hMd] at hx1
          by_cases hwa : front = true
              ∧ ¬ firstChild b.pods parentIdx = auxAt b.pods parentIdx
          · rw [if_pos hwa] at hx1
            exact Or.inl hx1
          · rw [if_neg hwa] at hx1
            exact List.mem_or_eq_of_mem_set hx1
        rcases hxM with hx1 | hx1
        · have hxS0 : x ∈ b.pods ∨
              x = b.pods.length + dataOffsetOf cchNm := by
            rw [hS0d] at hx1
            cases hco2 : isCompositeType (ty % 2 ^ 8)
            · rw [hco2] at hx1
              simp only [Bool.false_eq_true, if_false] at hx1
              exact Or.inl hx1
            · rw [hco2] at hx1
              simp only [eq_self_iff_true, if_true] at hx1
              exact List.mem_or_eq_of_mem_set hx1
          rcases hxS0 with hx1 | hx1
          · exact hbits x hx1
          · omega
        · omega
      · omega
    · rw [hblkd] at hx2
      rcases List.mem_cons.mp hx2 with he | hx2
      · rw [he]
        exact hpv
      · rcases List.mem_cons.mp hx2 with he | hx2
        · rw [he]
          omega
        · rcases List.mem_cons.mp hx2 with he | hx2
          · rw [he]
            by_cases hco2 : isCompositeType (ty % 2 ^ 8) = true
            · rw [if_pos hco2]
              omega
            · rw [if_neg hco2]
              have hdm : dataMax = 4026531840 := rfl
              omega
          · rcases List.mem_append.mp hx2 with hx3 | hx3
            · exact hnmb x hx3
            · exact hdbb x hx3
  obtain ⟨A, B, hnsAB⟩ := List.append_of_mem hprevns
  cases A with
  | nil =>
    exfalso
    rw [hnsAB] at hhead
    have : prev = 0 := by simpa using hhead
    exact hprev00 this
  | cons a A2 =>
  have ha0 : a = 0 := by
    rw [hnsAB] at hhead
    simpa using hhead
  subst ha0
  have hns2 : ns = 0 :: (A2 ++ prev :: B) := hnsAB
  have hmemA2 : ∀ v ∈ A2, v ∈ ns := by
    intro v hv
    rw [hns2]
    simp [hv]
  have hmemB : ∀ v ∈ B, v ∈ ns := by
    intro v hv
    rw [hns2]
    simp [hv]
  have hndns2 : (0 :: (A2 ++ prev :: B)).Nodup := hns2 ▸ hndns
  have hnd0 := List.nodup_cons.mp hndns2
  have hndapp := List.nodup_append.mp hnd0.2
  have hprevnB : prev ∉ B := (List.nodup_cons.mp hndapp.2.1).1
  have hA2prev : ∀ v ∈ A2, v ≠ prev := by
    intro v hv he
    exact hndapp.2.2 hv (by rw [he]; simp)
  have hfrchain : ∀ v ∈ ns, v ≠ prev → v ≠ 0 →
      nextIdx S2 v = nextIdx b.pods v := by
    intro v hv hne h0
    unfold nextIdx
    exact hfrv v (hvlt v hv) hne (hp2ne v hv) (fun _ => h0)
  have hchainold : chainLinks b.pods (A2 ++ prev :: B) :=
    ((chainLinks_cons _ _ _).mp (hns2 ▸ hchain)).2
  have hchain0 : nextIdx b.pods 0 = (A2 ++ prev :: B).headD 0 :=
    ((chainLinks_cons _ _ _).mp (hns2 ▸ hchain)).1
  have hfrA2 : ∀ v ∈ A2, nextIdx S2 v = nextIdx b.pods v := by
    intro v hv
    exact hfrchain v (hmemA2 v hv) (hA2prev v hv)
      (fun he => hnd0.1 (he ▸ List.mem_append_left _ hv))
  have hfrB : ∀ v ∈ B, nextIdx S2 v = nextIdx b.pods v := by
    intro v hv
    exact hfrchain v (hmemB v hv) (fun he => hprevnB (he ▸ hv))
      (fun he => hnd0.1
        (he ▸ List.mem_append_right _ (List.mem_cons_of_mem _ hv)))
  have hinner : (A2 ++ prev :: b.pods.length :: B).Perm
      (b.pods.length :: (A2 ++ prev :: B)) := by
    have hE1 : A2 ++ prev :: b.pods.length :: B
        = (A2 ++ [prev]) ++ b.pods.length :: B := by simp
    have hE2 : b.pods.length :: ((A2 ++ [prev]) ++ B)
        = b.pods.length :: (A2 ++ prev :: B) := by simp
    exact (perm_of_eq hE1).trans
      ((@List.perm_middle ℕ b.pods.length (A2 ++ [prev]) B).trans
        (perm_of_eq hE2))
  have hLnotns : ∀ v ∈ ns, v ≠ b.pods.length := by
    intro v hv he
    have := hvlt v hv
    omega
  -- the SInv for the new storage
  have hsinv : SInv S2 := by
    cases hco : isCompositeType (ty % 2 ^ 8) with
    | true =>
      have hdbPval : dbP = [podAt b.pods 0, jsonHidden * 2 ^ 24] := hdbc hco
      have hpodD0 : podAt S2 (b.pods.length + dataOffsetOf cchNm)
          = podAt b.pods 0 := by
        have h := hpodDj 0
        rw [Nat.add_zero] at h
        rw [h, hdbPval]
        exact podAt_pair_zero _ _
      have hpodD1 : podAt S2 (b.pods.length + dataOffsetOf cchNm + 1)
          = jsonHidden * 2 ^ 24 := by
        rw [hpodDj 1, hdbPval]
        exact podAt_pair_one _ _
      have htyD : typeAt S2 (b.pods.length + dataOffsetOf cchNm)
          = jsonHidden := by
        unfold typeAt
        rw [hpodD1]
        norm_num [jsonHidden]
      have hnf : isNormalType (ty % 2 ^ 8) = false := by
        have h254 : 254 ≤ ty % 2 ^ 8 := by simpa [isCompositeType] using hco
        simp [isNormalType]
        omega
      have hKW : KidWF S2 (KidD.comp b.pods.length
          (b.pods.length + dataOffsetOf cchNm)) := by
        refine ⟨by rw [htyL]; exact hco, ?_, htyD, ?_⟩
        · unfold firstChild
          rw [hcchL]
        · rw [hauxL, if_pos hco]
      obtain ⟨t2, hwf2, htr2, hperm2, hpar1, hpar2, hptsz⟩ :=
        (ins_ex_all b.pods S2 parentIdx front
          (KidD.comp b.pods.length (b.pods.length + dataOffsetOf cchNm))
          prev hKW hprevdef hauxp' hfrprev hpodLL (ptSize t + 1)).1 t
          (by omega) hwf hptm
          (by rw [htroot]; exact hndt2.1)
          hndt2.2
          (fun v hv => hHn v (hsub hv))
          (fun v hv hne => hfrv v (hvlt v (hsub hv)) hne
            (hp2ne v (hsub hv))
            (fun _ he => hndt2.1 (he ▸ hv)))
          hParHt
          hParAt
      have hextLc : ∀ c2 ∈ extentPods S2 b.pods.length,
          c2 < b.pods.length + dataOffsetOf cchNm := by
        intro c2 hc2
        have h := extent_lt S2 b.pods.length c2 hc2
        rw [hcchL, htyL, hnf] at h
        simpa using h
      have hextD : ∀ c2 ∈ extentPods S2
          (b.pods.length + dataOffsetOf cchNm),
          b.pods.length + dataOffsetOf cchNm ≤ c2 ∧ c2 < S2.length := by
        intro c2 hc2
        rw [extent_hidden S2 _ htyD] at hc2
        rw [hS2len, if_pos hco]
        rcases List.mem_cons.mp hc2 with he | hc2
        · omega
        · rcases List.mem_singleton.mp hc2 with he
          omega
      have hchainnew : chainLinks S2
          (0 :: (b.pods.length + dataOffsetOf cchNm) ::
            (A2 ++ prev :: b.pods.length :: B)) := by
        rw [chainLinks_cons]
        refine ⟨?_, ?_⟩
        · show nextIdx S2 0 = _
          unfold nextIdx
          rw [hfr0c hco]
          rfl
        · rw [chainLinks_cons]
          refine ⟨?_, ?_⟩
          · show nextIdx S2 (b.pods.length + dataOffsetOf cchNm) = _
            unfold nextIdx
            rw [hpodD0,
              headD_append_cons A2 prev (b.pods.length :: B) B]
            exact hchain0
          · exact chainLinks_splice b.pods S2 A2 B prev b.pods.length
              hchainold hfrA2 hfrB
              (by unfold nextIdx; exact hfrprev)
              (by unfold nextIdx; exact hpodLL)
      have hpermns : (0 :: (b.pods.length + dataOffsetOf cchNm) ::
          (A2 ++ prev :: b.pods.length :: B)).Perm
          ([b.pods.length, b.pods.length + dataOffsetOf cchNm] ++ ns) := by
        rw [hns2]
        simp only [List.cons_append, List.nil_append]
        refine (List.Perm.cons 0 (List.Perm.cons _ hinner)).trans ?_
        exact (List.Perm.swap (b.pods.length + dataOffsetOf cchNm) 0 _).trans
          ((List.Perm.cons (b.pods.length + dataOffsetOf cchNm)
            (List.Perm.swap b.pods.length 0 _)).trans
            (List.Perm.swap b.pods.length
              (b.pods.length + dataOffsetOf cchNm) _))
      have hndns' : (0 :: (b.pods.length + dataOffsetOf cchNm) ::
          (A2 ++ prev :: b.pods.length :: B)).Nodup := by
        refine (hpermns.nodup_iff).mpr ?_
        simp only [List.cons_append, List.nil_append]
        refine List.nodup_cons.mpr ⟨?_, List.nodup_cons.mpr ⟨?_, hndns⟩⟩
        · intro hm
          rcases List.mem_cons.mp hm with he | hm2
          · omega
          · have := hvlt _ hm2
            omega
        · intro hm
          have := hvlt _ hm
          omega
      have hmemns' : ∀ v, v ∈ (0 :: (b.pods.length + dataOffsetOf cchNm) ::
          (A2 ++ prev :: b.pods.length :: B)) ↔
          (v = b.pods.length ∨
            v = b.pods.length + dataOffsetOf cchNm ∨ v ∈ ns) := by
        intro v
        rw [hpermns.mem_iff]
        simp only [List.cons_append, List.nil_append, List.mem_cons]
      refine SInv.mk t2 (0 :: (b.pods.length + dataOffsetOf cchNm) ::
        (A2 ++ prev :: b.pods.length :: B))
        (htr2.trans htroot) hwf2 ?_ ?_ rfl hchainnew ?_ ?_ ?_ ?_ ?_ ?_ ?_ ?_ ?_
      · -- (0 :: tnodes t2).Nodup
        refine List.nodup_cons.mpr ⟨?_, ?_⟩
        · intro hm
          rcases List.mem_append.mp (hperm2.mem_iff.mp hm) with hk | ho
          · simp only [knodes, List.mem_cons, List.mem_singleton, List.not_mem_nil, or_false] at hk
            rcases hk with he | he
            · omega
            · rcases he with he
              omega
          · exact hndt2.1 ho
        · refine (hperm2.nodup_iff).mpr ?_
          refine List.nodup_append.mpr ⟨?_, hndt2.2, ?_⟩
          · simp only [knodes]
            refine List.nodup_cons.mpr ⟨?_, List.nodup_singleton _⟩
            intro hm
            rcases List.mem_singleton.mp hm with he
            omega
          · intro x hxk hxt
            have hlt := hvlt x (hsub hxt)
            simp only [knodes, List.mem_cons, List.mem_singleton, List.not_mem_nil, or_false] at hxk
            rcases hxk with he | he
            · omega
            · rcases he with he
              omega
      · -- tnodes t2 ⊆ ns'
        intro x hx
        rw [hmemns' x]
        rcases List.mem_append.mp (hperm2.mem_iff.mp hx) with hk | ho
        · simp only [knodes, List.mem_cons, List.mem_singleton, List.not_mem_nil, or_false] at hk
          rcases hk with he | he
          · exact Or.inl he
          · rcases he with he
            exact Or.inr (Or.inl he)
        · exact Or.inr (Or.inr (hsub ho))
      · -- tail nonzero
        intro v hv he
        subst he
        exact (List.nodup_cons.mp hndns').1 hv
      · -- extents in bounds
        intro v hv c2 hc2
        rcases (hmemns' v).mp hv with he | he | hvn
        · subst he
          have := hextLc c2 hc2
          rw [hS2len, if_pos hco]
          omega
        · subst he
          exact (hextD c2 hc2).2
        · rw [hextc v hvn] at hc2
          have := hext v hvn c2 hc2
          omega
      · -- normal payload sizes
        intro v hv hn
        rcases (hmemns' v).mp hv with he | he | hvn
        · subst he
          rw [htyL, hnf] at hn
          exact absurd hn Bool.false_ne_true
        · subst he
          rw [htyD] at hn
          simp [isNormalType, jsonHidden] at hn
        · rw [htypec v hvn] at hn
          rw [hauxcn v hvn hn]
          exact hnormcb v hvn hn
      · -- pairwise disjoint extents
        refine pairwise_insert S2 _ ns
          [b.pods.length, b.pods.length + dataOffsetOf cchNm]
          b.pods.length hpermns hndns' ?_ ?_ ?_ ?_
        · intro x hx y hy hne c2 hcx
          rw [hextc x hx] at hcx
          rw [hextc y hy]
          exact hdj x hx y hy hne c2 hcx
        · intro x hx c2 hcx
          rw [hextc x hx] at hcx
          exact hext x hx c2 hcx
        · intro x hxm c2 hcx
          rcases List.mem_cons.mp hxm with he | hxm2
          · subst he
            exact extent_ge _ _ _ hcx
          · rcases List.mem_singleton.mp hxm2 with he
            subst he
            have := extent_ge _ _ _ hcx
            omega
        · intro x hxm y hym hne c2 hcx hcy
          rcases List.mem_cons.mp hxm with hex | hxm2 <;>
            rcases List.mem_cons.mp hym with hey | hym2
          · subst hex
            subst hey
            exact hne rfl
          · rcases List.mem_singleton.mp hym2 with hey
            subst hex
            subst hey
            have h1 := hextLc c2 hcx
            have h2 := (hextD c2 hcy).1
            omega
          · rcases List.mem_singleton.mp hxm2 with hex
            subst hex
            subst hey
            have h1 := hextLc c2 hcy
            have h2 := (hextD c2 hcx).1
            omega
          · rcases List.mem_singleton.mp hxm2 with hex
            rcases List.mem_singleton.mp hym2 with hey
            subst hex
            subst hey
            exact hne rfl
      · -- chain length bound
        have hl := hpermns.length_eq
        simp only [List.length_cons, List.cons_append, List.nil_append,
          List.length_append] at hl ⊢
        rw [hS2len, if_pos hco]
        rw [hns2] at hnslen
        simp only [List.length_cons, List.length_append] at hnslen
        omega
      · -- tree size bound
        rw [hptsz, hS2len, if_pos hco]
        simp only [ksz]
        omega
      · -- root name empty
        rw [hcchc 0 h0ns]
        exact hroot0
      · -- root type object
        rw [htypec 0 h0ns]
        exact hrootty
      · -- composite chain members are parents
        intro v hv hv0 hcv
        rcases (hmemns' v).mp hv with he | he | hvn
        · subst he
          exact hpar2 b.pods.length (by simp [kParents])
        · subst he
          rw [htyD] at hcv
          simp [isCompositeType, jsonHidden] at hcv
        · rw [htypec v hvn] at hcv
          exact hpar1 v (hptp v hvn hv0 hcv)
    | false =>
      have hKW : KidWF S2 (KidD.leaf b.pods.length) := by
        show isCompositeType (typeAt S2 b.pods.length) = false
        rw [htyL]
        exact hco
      obtain ⟨t2, hwf2, htr2, hperm2, hpar1, hpar2, hptsz⟩ :=
        (ins_ex_all b.pods S2 parentIdx front (KidD.leaf b.pods.length)
          prev hKW hprevdef hauxp' hfrprev hpodLL (ptSize t + 1)).1 t
          (by omega) hwf hptm
          (by rw [htroot]; exact hndt2.1)
          hndt2.2
          (fun v hv => hHn v (hsub hv))
          (fun v hv hne => hfrv v (hvlt v (hsub hv)) hne
            (hp2ne v (hsub hv))
            (fun _ he => hndt2.1 (he ▸ hv)))
          hParHt
          hParAt
      have hextLc : ∀ c2 ∈ extentPods S2 b.pods.length,
          b.pods.length ≤ c2 ∧ c2 < S2.length := by
        intro c2 hc2
        refine ⟨extent_ge _ _ _ hc2, ?_⟩
        have h := extent_lt S2 b.pods.length c2 hc2
        rw [hcchL, htyL] at h
        rw [hS2len, if_neg (by rw [hco]; exact Bool.false_ne_true)]
        by_cases hn2 : isNormalType (ty % 2 ^ 8) = true
        · rw [if_pos hn2] at h
          rw [show auxAt S2 b.pods.length = cb0 from by
            rw [hauxL, if_neg (by rw [hco]; exact Bool.false_ne_true)]] at h
          omega
        · rw [if_neg hn2] at h
          omega
      have hchainnew : chainLinks S2
          (0 :: (A2 ++ prev :: b.pods.length :: B)) := by
        have h := chainLinks_splice b.pods S2 (0 :: A2) B prev
          b.pods.length (hnsAB ▸ hchain) ?_ hfrB
          (by unfold nextIdx; exact hfrprev)
          (by unfold nextIdx; exact hpodLL)
        · simpa using h
        · intro v hv
          rcases List.mem_cons.mp hv with he | hv2
          · subst he
            unfold nextIdx
            exact hfr00 hco
          · exact hfrA2 v hv2
      have hpermns : (0 :: (A2 ++ prev :: b.pods.length :: B)).Perm
          ([b.pods.length] ++ ns) := by
        rw [hns2]
        simp only [List.cons_append, List.nil_append]
        exact (List.Perm.cons 0 hinner).trans
          (List.Perm.swap b.pods.length 0 _)
      have hndns' : (0 :: (A2 ++ prev :: b.pods.length :: B)).Nodup := by
        refine (hpermns.nodup_iff).mpr ?_
        simp only [List.cons_append, List.nil_append]
        refine List.nodup_cons.mpr ⟨?_, hndns⟩
        intro hm
        have := hvlt _ hm
        omega
      have hmemns' : ∀ v, v ∈ (0 :: (A2 ++ prev :: b.pods.length :: B)) ↔
          (v = b.pods.length ∨ v ∈ ns) := by
        intro v
        rw [hpermns.mem_iff]
        simp only [List.cons_append, List.nil_append, List.mem_cons]
      refine SInv.mk t2 (0 :: (A2 ++ prev :: b.pods.length :: B))
        (htr2.trans htroot) hwf2 ?_ ?_ rfl hchainnew ?_ ?_ ?_ ?_ ?_ ?_ ?_ ?_ ?_
      · refine List.nodup_cons.mpr ⟨?_, ?_⟩
        · intro hm
          rcases List.mem_append.mp (hperm2.mem_iff.mp hm) with hk | ho
          · simp only [knodes, List.mem_singleton] at hk
            omega
          · exact hndt2.1 ho
        · refine (hperm2.nodup_iff).mpr ?_
          refine List.nodup_append.mpr
            ⟨List.nodup_singleton _, hndt2.2, ?_⟩
          intro x hxk hxt
          have hlt := hvlt x (hsub hxt)
          simp only [knodes, List.mem_singleton] at hxk
          omega
      · intro x hx
        rw [hmemns' x]
        rcases List.mem_append.mp (hperm2.mem_iff.mp hx) with hk | ho
        · simp only [knodes, List.mem_singleton] at hk
          exact Or.inl hk
        · exact Or.inr (hsub ho)
      · intro v hv he
        subst he
        exact (List.nodup_cons.mp hndns').1 hv
      · intro v hv c2 hc2
        rcases (hmemns' v).mp hv with he | hvn
        · subst he
          exact (hextLc c2 hc2).2
        · rw [hextc v hvn] at hc2
          have := hext v hvn c2 hc2
          omega
      · intro v hv hn
        rcases (hmemns' v).mp hv with he | hvn
        · subst he
          rw [show auxAt S2 b.pods.length = cb0 from by
            rw [hauxL, if_neg (by rw [hco]; exact Bool.false_ne_true)]]
          exact hdata
        · rw [htypec v hvn] at hn
          rw [hauxcn v hvn hn]
          exact hnormcb v hvn hn
      · refine pairwise_insert S2 _ ns [b.pods.length] b.pods.length
          hpermns hndns' ?_ ?_ ?_ ?_
        · intro x hx y hy hne c2 hcx
          rw [hextc x hx] at hcx
          rw [hextc y hy]
          exact hdj x hx y hy hne c2 hcx
        · intro x hx c2 hcx
          rw [hextc x hx] at hcx
          exact hext x hx c2 hcx
        · intro x hxm c2 hcx
          rcases List.mem_singleton.mp hxm with he
          subst he
          exact extent_ge _ _ _ hcx
        · intro x hxm y hym hne c2 hcx hcy
          rcases List.mem_singleton.mp hxm with hex
          rcases List.mem_singleton.mp hym with hey
          subst hex
          subst hey
          exact hne rfl
      · have hl := hpermns.length_eq
        simp only [List.length_cons, List.cons_append, List.nil_append,
          List.length_append] at hl ⊢
        rw [hS2len, if_neg (by rw [hco]; exact Bool.false_ne_true)]
        rw [hns2] at hnslen
        simp only [List.length_cons, List.length_append] at hnslen
        omega
      · rw [hptsz, hS2len, if_neg (by rw [hco]; exact Bool.false_ne_true)]
        simp only [ksz]
        omega
      · rw [hcchc 0 h0ns]
        exact hroot0
      · rw [htypec 0 h0ns]
        exact hrootty
      · intro v hv hv0 hcv
        rcases (hmemns' v).mp hv with he | hvn
        · subst he
          rw [htyL] at hcv
          rw [hco] at hcv
          exact absurd hcv Bool.false_ne_true
        · rw [htypec v hvn] at hcv
          exact hpar1 v (hptp v hvn hv0 hcv)
  refine ⟨{ pods := S2, cap := c }, heqadd, hsinv, hbitsS2, ?_, hle⟩
  show S2.length ≤ c
  rw [hS2len]
  exact hge

end JsonBuilderModel

namespace JsonBuilderModel

theorem troot_mem_tParents (t : PTree) : troot t ∈ tParents t := by
  obtain ⟨q, c0, fr⟩ := t
  simp [troot, tParents]

/-- Public `AddValue` (with a parent index the caller can legitimately
hold: the root, or any index produced by iteration) preserves the storage
invariant — also on every throwing path, which leaves the builder
untouched. -/
theorem sinv_addValue (b : Builder) (front : Bool) (parentIdx : Nat)
    (name : Src) (cchNm ty cb0 : Nat) (data : Option Src) (g : Nat → Nat)
    (hI : SInv b.pods) (hbits : ∀ x ∈ b.pods, x < 2 ^ 32)
    (hLcap : b.pods.length ≤ b.cap) (hcap : b.cap ≤ maxSize)
    (hpar : parentIdx = 0 ∨ ∃ l, iterSeq b.pods = some l ∧ parentIdx ∈ l)
    (r : Except Err Nat) (b2 : Builder)
    (heq : addValue b front parentIdx name cchNm ty cb0 data g = (r, b2)) :
    SInv b2.pods ∧ (∀ x ∈ b2.pods, x < 2 ^ 32) ∧
      b2.pods.length ≤ b2.cap ∧ b2.cap ≤ maxSize := by
  obtain ⟨t, ns, htroot, hwf, hndt, hsub, hhead, hchain, htail0, hext,
    hnormcb, hpw, hnslen, hsize, hroot0, hrootty, hptp⟩ := hI
  have hIpack : SInv b.pods := SInv.mk t ns htroot hwf hndt hsub hhead hchain
    htail0 hext hnormcb hpw hnslen hsize hroot0 hrootty hptp
  have h0ns : 0 ∈ ns := by
    cases ns with
    | nil => simp at hhead
    | cons a l =>
      have : a = 0 := by simpa using hhead
      simp [this]
  have hL0 : 0 < b.pods.length := by
    have := hext 0 h0ns 0 (extent_self _ _)
    omega
  have hne0 : b.pods ≠ [] := by
    intro he
    rw [he] at hL0
    exact absurd hL0 (by simp)
  have hmax : maxSize = 4294967294 := rfl
  by_cases hcp : isCompositeType (typeAt b.pods parentIdx) = true
  · -- parent is composite
    have hptm : parentIdx ∈ tParents t := by
      rcases hpar with he | ⟨l, hl, hm⟩
      · rw [he, ← htroot]
        exact troot_mem_tParents t
      · obtain ⟨hmem, hne⟩ := iterSeq_mem b.pods ns hchain hhead l hl
          parentIdx hm
        exact hptp parentIdx hmem hne hcp
    by_cases hname : cchNm ≤ nameMax
    · by_cases hdata : cb0 ≤ dataMax
      · by_cases hbig : b.pods.length + dataOffsetOf cchNm
            + ((if isCompositeType (ty % 2 ^ 8) = true then 8 else cb0) + 3)
              / 4 ≤ maxSize
        · -- success
          obtain ⟨b2', heq', hsinv, hb, hl1, hl2⟩ :=
            sinv_addValue_ok b front parentIdx name cchNm ty cb0 data g t ns
              htroot hwf hndt hsub hhead hchain hext hnormcb hpw hnslen hsize
              hroot0 hrootty hptp hbits hLcap hcap hcp hptm hname hdata hbig
          rw [heq'] at heq
          injection heq with h1 h2
          subst h2
          exact ⟨hsinv, hb, hl1, hl2⟩
        · -- the requested record does not fit
          have hD3 : 3 ≤ dataOffsetOf cchNm := by unfold dataOffsetOf; omega
          have hoffb : dataOffsetOf cchNm < 2 ^ 23 := by
            have hnm : nameMax = 16777215 := rfl
            unfold dataOffsetOf
            omega
          have hcbD : (if isCompositeType (ty % 2 ^ 8) = true then 8 else cb0)
              ≤ dataMax := by
            have hdm : dataMax = 4026531840 := rfl
            by_cases hco : isCompositeType (ty % 2 ^ 8) = true
            · rw [if_pos hco]
              omega
            · rw [if_neg hco]
              exact hdata
          by_cases hle2 : ((b.pods.length + dataOffsetOf cchNm) % 2 ^ 32
              + ((if isCompositeType (ty % 2 ^ 8) = true then 8 else cb0) + 3)
                / 4) % 2 ^ 32 ≤ b.pods.length
          · have hstep : addValue b front parentIdx name cchNm ty cb0 data g
                = (.error .tooMuchData, b) := by
              unfold addValue
              rw [ensureRoot_nonempty b g hne0]
              dsimp only
              rw [if_neg (not_not_intro hcp)]
              unfold createValue
              rw [if_neg (not_lt.mpr hname), if_neg (not_lt.mpr hdata)]
              dsimp only
              rw [if_pos hle2]
            rw [hstep] at heq
            injection heq with h1 h2
            subst h2
            exact ⟨hIpack, hbits, hLcap, hcap⟩
          · have hkey : maxSize
                < ((b.pods.length + dataOffsetOf cchNm) % 2 ^ 32
                  + ((if isCompositeType (ty % 2 ^ 8) = true then 8 else cb0)
                    + 3) / 4) % 2 ^ 32
              ∧ ((b.pods.length + dataOffsetOf cchNm) % 2 ^ 32
                  + ((if isCompositeType (ty % 2 ^ 8) = true then 8 else cb0)
                    + 3) / 4) % 2 ^ 32 ≤ 2 ^ 32 := by
              have hdm : dataMax = 4026531840 := rfl
              omega
            have hstep : addValue b front parentIdx name cchNm ty cb0 data g
                = (.error .lengthError, b) := by
              unfold addValue
              rw [ensureRoot_nonempty b g hne0]
              dsimp only
              rw [if_neg (not_not_intro hcp)]
              unfold createValue
              rw [if_neg (not_lt.mpr hname), if_neg (not_lt.mpr hdata)]
              dsimp only
              rw [if_neg hle2]
              rw [vecResize_err b _ hcap hkey.1 hkey.2]
            rw [hstep] at heq
            injection heq with h1 h2
            subst h2
            exact ⟨hIpack, hbits, hLcap, hcap⟩
      · -- payload too large
        have hstep : addValue b front parentIdx name cchNm ty cb0 data g
            = (.error .valueTooLarge, b) := by
          unfold addValue
          rw [ensureRoot_nonempty b g hne0]
          dsimp only
          rw [if_neg (not_not_intro hcp)]
          unfold createValue
          rw [if_neg (not_lt.mpr hname), if_pos (not_le.mp hdata)]
        rw [hstep] at heq
        injection heq with h1 h2
        subst h2
        exact ⟨hIpack, hbits, hLcap, hcap⟩
    · -- name too large
      have hstep : addValue b front parentIdx name cchNm ty cb0 data g
          = (.error .nameTooLarge, b) := by
        unfold addValue
        rw [ensureRoot_nonempty b g hne0]
        dsimp only
        rw [if_neg (not_not_intro hcp)]
        unfold createValue
        rw [if_pos (not_le.mp hname)]
      rw [hstep] at heq
      injection heq with h1 h2
      subst h2
      exact ⟨hIpack, hbits, hLcap, hcap⟩
  · -- non-composite parent: contract violation, state untouched
    have hstep : addValue b front parentIdx name cchNm ty cb0 data g
        = (.error .fatalContract, b) := by
      unfold addValue
      rw [ensureRoot_nonempty b g hne0]
      dsimp only
      rw [if_pos hcp]
    rw [hstep] at heq
    injection heq with h1 h2
    subst h2
    exact ⟨hIpack, hbits, hLcap, hcap⟩

end JsonBuilderModel

namespace JsonBuilderModel

/-! ## C1 chunk 10: builders reachable by public inserts, and the round trip -/

/-- The builders reachable from `JsonBuilder()` by public insert calls
(`AddValue` / `push_front` / `push_back`).  The parent index is one the
caller can hold: `root()`/`end()` (index 0) or any iterator obtained by
traversal.  Failing calls are included — they throw and leave the builder
usable. -/
inductive Built : Builder → Prop where
  | empty : Built emptyBuilder
  | add (b : Builder) (front : Bool) (parentIdx : Nat) (name : Src)
      (cchNm ty cb0 : Nat) (data : Option Src) (g : Nat → Nat)
      (r : Except Err Nat) (b2 : Builder) :
      Built b →
      (parentIdx = 0 ∨ ∃ l, iterSeq b.pods = some l ∧ parentIdx ∈ l) →
      addValue b front parentIdx name cchNm ty cb0 data g = (r, b2) →
      Built b2

/-- The invariant carried through every insert: the storage is empty or
satisfies `SInv`, all pods are 32-bit values, and the capacity bounds hold. -/
def BInv (b : Builder) : Prop :=
  (b.pods = [] ∨ SInv b.pods) ∧ (∀ x ∈ b.pods, x < 2 ^ 32) ∧
    b.pods.length ≤ b.cap ∧ b.cap ≤ maxSize

theorem rootPods_bits : ∀ x ∈ rootPods, x < 2 ^ 32 := by decide

theorem built_BInv (b : Builder) (h : Built b) : BInv b := by
  induction h with
  | empty =>
    refine ⟨Or.inl rfl, by simp [emptyBuilder], ?_, ?_⟩
    · simp [emptyBuilder]
    · simp [emptyBuilder, maxSize]
  | add b front parentIdx name cchNm ty cb0 data g r b2 hb hpar heq ih =>
    obtain ⟨hIor, hbits, hLcap, hcap⟩ := ih
    rcases hIor with hemp | hI
    · -- first insert: the lazily created root takes over
      have hbeq : b = (⟨[], b.cap⟩ : Builder) := by
        rw [← hemp]
      have hpar0 : parentIdx = 0 := by
        rcases hpar with he | ⟨l, hl, hm⟩
        · exact he
        · rw [hemp] at hl
          have hempiter : iterSeq ([] : Storage) = some [] := rfl
          rw [hempiter] at hl
          obtain rfl : ([] : List Nat) = l := by simpa using hl
          simp at hm
      have hstep : addValue b front parentIdx name cchNm ty cb0 data g
          = addValue ⟨rootPods, if b.cap < 5 then 15 else b.cap⟩ front
            parentIdx name cchNm ty cb0 data g := by
        unfold addValue
        rw [hbeq, ensureRoot_empty b.cap g,
          ensureRoot_nonempty ⟨rootPods, if b.cap < 5 then 15 else b.cap⟩ g
            (by simp [rootPods])]
      rw [hstep] at heq
      have hcap2 : (if b.cap < 5 then 15 else b.cap) ≤ maxSize := by
        have hmax : maxSize = 4294967294 := rfl
        by_cases hc : b.cap < 5
        · rw [if_pos hc]
          omega
        · rw [if_neg hc]
          exact hcap
      have hLcap2 : (rootPods : Storage).length
          ≤ (if b.cap < 5 then 15 else b.cap) := by
        by_cases hc : b.cap < 5
        · rw [if_pos hc]
          simp [rootPods]
        · rw [if_neg hc]
          simp only [rootPods, List.length_cons, List.length_nil]
          omega
      obtain ⟨hsinv, hb2, hl1, hl2⟩ :=
        sinv_addValue ⟨rootPods, if b.cap < 5 then 15 else b.cap⟩ front
          parentIdx name cchNm ty cb0 data g sinv_root rootPods_bits
          hLcap2 hcap2 (Or.inl hpar0) r b2 heq
      exact ⟨Or.inr hsinv, hb2, hl1, hl2⟩
    · obtain ⟨hsinv, hb2, hl1, hl2⟩ :=
        sinv_addValue b front parentIdx name cchNm ty cb0 data g hI hbits
          hLcap hcap hpar r b2 heq
      exact ⟨Or.inr hsinv, hb2, hl1, hl2⟩

/-- C1: for every tree built from an empty `JsonBuilder` by any sequence of
public insert operations (`AddValue`/`push_front`/`push_back`, with any
parent iterator the caller can hold), constructing a new `JsonBuilder` from
the tree's serialized buffer (`buffer_data()`, `buffer_size()`) with
validation enabled succeeds, and the resulting tree is iteration-equivalent
to the original: the same visible nodes in the same order, with equal
names, equal types, and equal payload bytes. -/
theorem roundtrip_spec (b : Builder) (hb : Built b) :
    ∃ b2 : Builder, fromRawData b.pods true = .ok b2 ∧
      b2.pods = b.pods ∧
      iterSeq b2.pods = iterSeq b.pods ∧
      (∀ i, typeAt b2.pods i = typeAt b.pods i) ∧
      (∀ i, nameBytes b2.pods i = nameBytes b.pods i) ∧
      (∀ i, dataBytes b2.pods i = dataBytes b.pods i) := by
  obtain ⟨hIor, hbits, hLcap, hcap⟩ := built_BInv b hb
  have hmax : maxSize = 4294967294 := rfl
  have hlen : ¬ b.pods.length > maxSize := by omega
  refine ⟨⟨b.pods, b.pods.length⟩, ?_, rfl, rfl, fun i => rfl, fun i => rfl,
    fun i => rfl⟩
  unfold fromRawData
  rw [if_neg hlen, if_pos rfl]
  have hval : validateData b.pods = .ok () := by
    unfold validateData
    rcases hIor with hemp | hI
    · rw [if_pos (by rw [hemp]; rfl)]
    · rw [if_neg (by
        rw [List.isEmpty_iff]
        intro he
        obtain ⟨t2, ns2, -, -, -, -, hhead2, -, -, hext2, -, -, -, -, -,
          -, -⟩ := hI
        have h0ns : 0 ∈ ns2 := by
          cases ns2 with
          | nil => simp at hhead2
          | cons a l =>
            have : a = 0 := by simpa using hhead2
            simp [this]
        have := hext2 0 h0ns 0 (extent_self _ _)
        rw [he] at this
        simp at this)]
      exact validate_of_SInv b.pods hI
  rw [hval]

end JsonBuilderModel

namespace JsonBuilderModel

theorem roundtrip_spec_witness :
    ∃ b2 : Builder,
      fromRawData (Builder.mk
          [3, 4278190080, 5, 5, 4244635648, 0, 16777217, 1, 97, 42] 15).pods
          true = .ok b2 ∧
      b2.pods = (Builder.mk
          [3, 4278190080, 5, 5, 4244635648, 0, 16777217, 1, 97, 42] 15).pods ∧
      iterSeq b2.pods = iterSeq (Builder.mk
          [3, 4278190080, 5, 5, 4244635648, 0, 16777217, 1, 97, 42] 15).pods ∧
      (∀ i, typeAt b2.pods i = typeAt (Builder.mk
          [3, 4278190080, 5, 5, 4244635648, 0, 16777217, 1, 97, 42] 15).pods
          i) ∧
      (∀ i, nameBytes b2.pods i = nameBytes (Builder.mk
          [3, 4278190080, 5, 5, 4244635648, 0, 16777217, 1, 97, 42] 15).pods
          i) ∧
      (∀ i, dataBytes b2.pods i = dataBytes (Builder.mk
          [3, 4278190080, 5, 5, 4244635648, 0, 16777217, 1, 97, 42] 15).pods
          i) :=
  roundtrip_spec
    ⟨[3, 4278190080, 5, 5, 4244635648, 0, 16777217, 1, 97, 42], 15⟩
    (Built.add emptyBuilder false 0 (.ext [97]) 1 1 1 (some (.ext [42]))
      (fun _ => 0) (.ok 5) _ Built.empty (Or.inl rfl) (by rfl))

end JsonBuilderModel

namespace JsonBuilderModel

/-- Side conditions under which `CreateValue` reads a caller-supplied source
faithfully: external bytes are bytes, and an arena-aliasing pointer lies
strictly inside the pre-call buffer (the open interval of the C++ re-base
check) with the whole read in bounds. -/
def SrcOk (B : Storage) (len : Nat) : Src → Prop
  | .ext bs => ∀ x ∈ bs, x < 256
  | .arena off => 0 < off ∧ off < 4 * B.length ∧ off + len ≤ 4 * B.length

theorem padTo_lt256 (len : Nat) (bs : List Nat) (h : ∀ x ∈ bs, x < 256) :
    ∀ x ∈ padTo len bs, x < 256 := by
  intro x hx
  unfold padTo at hx
  rcases List.mem_append.mp hx with hx | hx
  · exact h x (List.mem_of_mem_take hx)
  · rw [List.eq_of_mem_replicate hx]; norm_num

/-- The bytes a well-formed source resolves to before the call (reading the
pre-call buffer with no relocation) are bytes. -/
theorem resolveSrc_mem_lt256 (B : Storage) (g : Nat → Nat) (len : Nat)
    (src : Src) (hok : SrcOk B len src) :
    ∀ x ∈ resolveSrc B 0 false g len src, x < 256 := by
  cases src with
  | ext bs => exact padTo_lt256 len bs hok
  | arena off =>
    show ∀ x ∈ padTo len (byteSlice B off len), x < 256
    exact padTo_lt256 _ _ (byteSlice_lt256 B off len)

/-- Reading a well-formed source out of the grown buffer `B ++ X` is the
same as reading it out of the pre-growth buffer `B` with no relocation: an
arena pointer strictly inside the old extent is re-based (or the buffer did
not move), and external bytes are copied as given — for every relocation
outcome and every content of freed memory. -/
theorem resolveSrc_pre (B X : Storage) (rel : Bool) (g : Nat → Nat)
    (len : Nat) (src : Src) (hok : SrcOk B len src) :
    resolveSrc (B ++ X) (4 * B.length) rel g len src
      = resolveSrc B 0 false g len src := by
  cases src with
  | ext bs => rfl
  | arena off =>
    obtain ⟨h0, hlt, hle⟩ := hok
    show (if rel = true then
            if 0 < off ∧ off < 4 * B.length then
              padTo len (byteSlice (B ++ X) off len)
            else (List.range len).map fun k => g (off + k)
          else padTo len (byteSlice (B ++ X) off len))
        = padTo len (byteSlice B off len)
    cases rel
    · rw [if_neg Bool.false_ne_true, byteSlice_append_low _ _ _ _ hle]
    · rw [if_pos rfl, if_pos ⟨h0, hlt⟩, byteSlice_append_low _ _ _ _ hle]

theorem overwrite_tail_layout (hdr cb : Nat) (pN R pD : List Nat)
    (hR : R.length = pD.length) :
    overwriteAt (0 :: hdr :: cb :: (pN ++ R)) (3 + pN.length) pD
      = 0 :: hdr :: cb :: (pN ++ pD) := by
  unfold overwriteAt
  have htake : (0 :: hdr :: cb :: (pN ++ R)).take (3 + pN.length)
      = 0 :: hdr :: cb :: pN := by
    rw [show (3 : Nat) + pN.length = pN.length + 3 from by omega]
    show 0 :: hdr :: cb :: ((pN ++ R).take pN.length) = _
    rw [List.take_left]
  have hdrop : (0 :: hdr :: cb :: (pN ++ R)).drop
      (3 + pN.length + pD.length) = [] := by
    apply List.drop_eq_nil_of_le
    simp only [List.length_cons, List.length_append]
    omega
  rw [htake, hdrop, List.append_nil]
  simp

/-- Reading the committed name back out of the canonical node layout, for an
arbitrary pod tail after the packed name. -/
theorem nameBytes_layout_any (A : Storage) (h0 cchNm tyb cb : Nat)
    (NM : List Nat) (PD : List Nat) (hNM : NM.length = cchNm)
    (hNM256 : ∀ x ∈ NM, x < 256) (hcch : cchNm < 2 ^ 24) :
    nameBytes (A ++ (h0 :: (cchNm + tyb * 2 ^ 24) :: cb ::
        (podsOfBytes NM ++ PD))) A.length = NM := by
  unfold nameBytes
  rw [cchNameAt_layout A h0 cchNm tyb cb _ hcch]
  rw [byteSlice_append_offset A _ 12 cchNm]
  have h12 : byteSlice (h0 :: (cchNm + tyb * 2 ^ 24) :: cb ::
      (podsOfBytes NM ++ PD)) 12 cchNm
      = (bytesOfPods (podsOfBytes NM ++ PD)).take cchNm := rfl
  rw [h12, bytesOfPods_append, List.take_append_eq_append_take]
  rw [show cchNm - (bytesOfPods (podsOfBytes NM)).length = 0 from by
    rw [length_bytesOfPods, length_podsOfBytes, hNM]; omega]
  rw [List.take_zero, List.append_nil, ← hNM]
  exact take_bytesOfPods_podsOfBytes NM hNM256

/-- The full storage effect of the non-composite branch of `CreateValue`
after a resize by `DATA_OFFSET(cchName) + (cbData+3)/4` pods, for arbitrary
well-formed name and payload sources: independent of whether the buffer
relocated (`rel`) and of what dangling reads would return (`g`), the new
node's region is the header followed by the packed pre-growth bytes of each
source. -/
theorem commitPodsGen (B rep : Storage) (cchNm tyb cb : Nat) (name : Src)
    (data : Option Src) (rel : Bool) (g : Nat → Nat)
    (hrep : rep.length = dataOffsetOf cchNm + (cb + 3) / 4)
    (hnameOk : SrcOk B cchNm name)
    (hdataOk : ∀ d, data = some d → SrcOk B cb d)
    (hcch : cchNm < 2 ^ 24) (htyb : tyb < 2 ^ 8) (hcb : cb < 2 ^ 32) :
    ∃ PD : List Nat,
      (let valueIndex := B.length
       let s1 := setNameType (setNext (B ++ rep) valueIndex 0) valueIndex
         cchNm tyb
       let nm := resolveSrc s1 (4 * valueIndex) rel g cchNm name
       let s2 := overwriteAt s1 (valueIndex + 3) (podsOfBytes nm)
       let s3 := setAux s2 valueIndex cb
       match data with
       | none => s3
       | some d =>
         let db := resolveSrc s3 (4 * valueIndex) rel g cb d
         overwriteAt s3 (valueIndex + dataOffsetOf cchNm) (podsOfBytes db))
      = B ++ (0 :: (cchNm + tyb * 2 ^ 24) :: cb ::
          (podsOfBytes (resolveSrc B 0 false g cchNm name) ++ PD))
      ∧ ∀ d, data = some d →
          PD = podsOfBytes (resolveSrc B 0 false g cb d) := by
  have hD3 : 3 ≤ dataOffsetOf cchNm := by unfold dataOffsetOf; omega
  have hDsplit : dataOffsetOf cchNm = 3 + (cchNm + 3) / 4 := by
    unfold dataOffsetOf; omega
  rcases rep with _ | ⟨x0, _ | ⟨x1, _ | ⟨x2, rest⟩⟩⟩
  · exfalso; simp only [List.length_nil] at hrep; omega
  · exfalso; simp only [List.length_cons, List.length_nil] at hrep; omega
  · exfalso; simp only [List.length_cons, List.length_nil] at hrep; omega
  simp only [List.length_cons] at hrep
  dsimp only
  have hmod1 : cchNm % 2 ^ 24 = cchNm := Nat.mod_eq_of_lt hcch
  have hmod2 : tyb % 2 ^ 8 = tyb := Nat.mod_eq_of_lt htyb
  have hmod3 : cb % 2 ^ 32 = cb := Nat.mod_eq_of_lt hcb
  have hs1 : setNameType (setNext (B ++ x0 :: x1 :: x2 :: rest) B.length 0)
      B.length cchNm tyb
      = B ++ 0 :: (cchNm + tyb * 2 ^ 24) :: x2 :: rest := by
    unfold setNext setNameType
    rw [Nat.zero_mod, hmod1, hmod2]
    rw [setPod_append_right B (x0 :: x1 :: x2 :: rest) B.length 0 (le_refl _),
      Nat.sub_self]
    rw [setPod_append_right B _ (B.length + 1) _ (by omega),
      show B.length + 1 - B.length = 1 from by omega]
    rfl
  rw [hs1]
  rw [resolveSrc_pre B _ rel g cchNm name hnameOk]
  have hNMlen : (resolveSrc B 0 false g cchNm name).length = cchNm :=
    length_resolveSrc _ _ _ _ _ _
  have hpNlen : (podsOfBytes (resolveSrc B 0 false g cchNm name)).length
      = (cchNm + 3) / 4 := by
    rw [length_podsOfBytes, hNMlen]
  have hs2 : overwriteAt (B ++ 0 :: (cchNm + tyb * 2 ^ 24) :: x2 :: rest)
      (B.length + 3) (podsOfBytes (resolveSrc B 0 false g cchNm name))
      = B ++ (0 :: (cchNm + tyb * 2 ^ 24) :: x2 ::
          (podsOfBytes (resolveSrc B 0 false g cchNm name)
            ++ rest.drop
              (podsOfBytes (resolveSrc B 0 false g cchNm name)).length)) := by
    rw [overwriteAt_append_right B _ (B.length + 3) _ (by omega),
      show B.length + 3 - B.length = 3 from by omega]
    congr 1
    unfold overwriteAt
    rw [show (3 : Nat)
        + (podsOfBytes (resolveSrc B 0 false g cchNm name)).length
        = (podsOfBytes (resolveSrc B 0 false g cchNm name)).length + 3 from by
      omega]
    rfl
  rw [hs2]
  have hs3 : setAux (B ++ (0 :: (cchNm + tyb * 2 ^ 24) :: x2 ::
        (podsOfBytes (resolveSrc B 0 false g cchNm name)
          ++ rest.drop
            (podsOfBytes (resolveSrc B 0 false g cchNm name)).length)))
      B.length cb
      = B ++ (0 :: (cchNm + tyb * 2 ^ 24) :: cb ::
          (podsOfBytes (resolveSrc B 0 false g cchNm name)
            ++ rest.drop
              (podsOfBytes (resolveSrc B 0 false g cchNm name)).length)) := by
    unfold setAux
    rw [hmod3]
    rw [setPod_append_right B _ (B.length + 2) _ (by omega),
      show B.length + 2 - B.length = 2 from by omega]
    rfl
  rw [hs3]
  cases data with
  | none =>
    refine ⟨rest.drop
      (podsOfBytes (resolveSrc B 0 false g cchNm name)).length, rfl, ?_⟩
    intro d hd
    exact absurd hd (by simp)
  | some d =>
    have hdOk : SrcOk B cb d := hdataOk d rfl
    dsimp only
    rw [resolveSrc_pre B _ rel g cb d hdOk]
    have hDBlen : (resolveSrc B 0 false g cb d).length = cb :=
      length_resolveSrc _ _ _ _ _ _
    have hpDlen : (podsOfBytes (resolveSrc B 0 false g cb d)).length
        = (cb + 3) / 4 := by
      rw [length_podsOfBytes, hDBlen]
    refine ⟨podsOfBytes (resolveSrc B 0 false g cb d), ?_, ?_⟩
    · rw [overwriteAt_append_right B _ (B.length + dataOffsetOf cchNm) _
        (by omega),
        show B.length + dataOffsetOf cchNm - B.length = dataOffsetOf cchNm
          from by omega]
      congr 1
      rw [show dataOffsetOf cchNm
          = 3 + (podsOfBytes (resolveSrc B 0 false g cchNm name)).length
          from by rw [hpNlen]; omega]
      exact overwrite_tail_layout _ _ _ _ _
        (by rw [List.length_drop, hpNlen, hpDlen]; omega)
    · intro d2 hd2
      injection hd2 with hd2
      subst hd2
      rfl

/-- The non-composite branch of `CreateValue` with arbitrary well-formed
name and payload sources and in-range sizes: it succeeds and appends exactly
the header plus the packed pre-growth bytes of each source, for every
relocation outcome and every content of freed memory. -/
theorem createValue_canonical (b : Builder) (name : Src) (data : Option Src)
    (cchNm ty cb : Nat) (g : Nat → Nat)
    (hnameOk : SrcOk b.pods cchNm name)
    (hdataOk : ∀ d, data = some d → SrcOk b.pods cb d)
    (hname : cchNm ≤ nameMax) (hdata : cb ≤ dataMax)
    (hty : isCompositeType (ty % 2 ^ 8) = false)
    (hsz : b.pods.length + dataOffsetOf cchNm + (cb + 3) / 4 ≤ maxSize) :
    ∃ (c : Nat) (PD : List Nat),
      createValue b name cchNm ty cb data g
        = (.ok b.pods.length,
           { pods := b.pods ++ (0 :: (cchNm + ty % 2 ^ 8 * 2 ^ 24) :: cb ::
               (podsOfBytes (resolveSrc b.pods 0 false g cchNm name) ++ PD)),
             cap := c })
      ∧ ∀ d, data = some d →
          PD = podsOfBytes (resolveSrc b.pods 0 false g cb d) := by
  have hD3 : 3 ≤ dataOffsetOf cchNm := by unfold dataOffsetOf; omega
  have hmax : maxSize = 4294967294 := rfl
  have h32 : (2 : Nat) ^ 32 = 4294967296 := by norm_num
  have hcch : cchNm < 2 ^ 24 := lt_of_le_of_lt hname (by norm_num [nameMax])
  have hcb : cb < 2 ^ 32 := lt_of_le_of_lt hdata (by norm_num [dataMax])
  have htyb : ty % 2 ^ 8 < 2 ^ 8 := Nat.mod_lt _ (by norm_num)
  unfold createValue
  rw [if_neg (not_lt.mpr hname), if_neg (not_lt.mpr hdata)]
  dsimp only
  simp only [hty, Bool.false_eq_true, if_false]
  have e1 : (b.pods.length + dataOffsetOf cchNm) % 2 ^ 32
      = b.pods.length + dataOffsetOf cchNm := Nat.mod_eq_of_lt (by omega)
  rw [e1]
  have e2 : (b.pods.length + dataOffsetOf cchNm + (cb + 3) / 4) % 2 ^ 32
      = b.pods.length + dataOffsetOf cchNm + (cb + 3) / 4 :=
    Nat.mod_eq_of_lt (by omega)
  rw [e2]
  rw [if_neg (by omega :
    ¬ b.pods.length + dataOffsetOf cchNm + (cb + 3) / 4 ≤ b.pods.length)]
  have hrep : (List.replicate
      (b.pods.length + dataOffsetOf cchNm + (cb + 3) / 4 - b.pods.length)
      (0 : Nat)).length = dataOffsetOf cchNm + (cb + 3) / 4 := by
    rw [List.length_replicate]; omega
  by_cases hgrow : b.cap < b.pods.length + dataOffsetOf cchNm + (cb + 3) / 4
  · obtain ⟨cN, hgc⟩ : ∃ cN,
        getNewCapacity (b.pods.length + dataOffsetOf cchNm + (cb + 3) / 4)
          maxSize = .ok cN := by
      unfold getNewCapacity
      dsimp only
      split_ifs
      all_goals first
        | exact ⟨_, rfl⟩
        | exact absurd hsz (by omega)
    have hvr : vecResize b
        (b.pods.length + dataOffsetOf cchNm + (cb + 3) / 4)
        = .ok ({ pods := b.pods ++
                  List.replicate
                    (b.pods.length + dataOffsetOf cchNm + (cb + 3) / 4
                      - b.pods.length) 0,
                 cap := cN }, true) := by
      unfold vecResize
      rw [if_pos hgrow, hgc]
    rw [hvr]
    obtain ⟨PD, hpods, hPD⟩ := commitPodsGen b.pods
      (List.replicate
        (b.pods.length + dataOffsetOf cchNm + (cb + 3) / 4 - b.pods.length) 0)
      cchNm (ty % 2 ^ 8) cb name data true g hrep hnameOk hdataOk
      hcch htyb hcb
    refine ⟨cN, PD, ?_, hPD⟩
    dsimp only at hpods ⊢
    cases data with
    | none =>
      dsimp only at hpods ⊢
      rw [hpods]
    | some d =>
      dsimp only at hpods ⊢
      rw [hpods]
  · have hvr : vecResize b
        (b.pods.length + dataOffsetOf cchNm + (cb + 3) / 4)
        = .ok ({ pods := b.pods ++
                  List.replicate
                    (b.pods.length + dataOffsetOf cchNm + (cb + 3) / 4
                      - b.pods.length) 0,
                 cap := b.cap }, false) := by
      unfold vecResize
      rw [if_neg hgrow]
    rw [hvr]
    obtain ⟨PD, hpods, hPD⟩ := commitPodsGen b.pods
      (List.replicate
        (b.pods.length + dataOffsetOf cchNm + (cb + 3) / 4 - b.pods.length) 0)
      cchNm (ty % 2 ^ 8) cb name data false g hrep hnameOk hdataOk
      hcch htyb hcb
    refine ⟨b.cap, PD, ?_, hPD⟩
    dsimp only at hpods ⊢
    cases data with
    | none =>
      dsimp only at hpods ⊢
      rw [hpods]
    | some d =>
      dsimp only at hpods ⊢
      rw [hpods]

/-- C5 (amended): every `AddValue` — `push_front` or `push_back`, any
composite parent — whose name pointer or payload pointer aliases strictly
inside the builder's own arena (byte offset `> 0`, start within the old
extent, matching the open-interval re-base check `pOldStorageData < p &&
p < pOldStorageData + valueIndex*StorageSize`), with the other source either
also aliasing or external bytes, commits exactly the bytes each source
referred to before the call: the stored name and payload equal the
pre-growth reads, for every relocation outcome and every content of the
freed buffer (`g`).  In particular an arena-aliasing name or payload pointer
commits exactly the original `byteSlice` it pointed at.  The strict lower
bound means a pointer at byte offset 0 (the arena base, e.g.
`buffer_data()`) is NOT re-based — see the counterexample. -/
theorem addValue_alias_rebase (b : Builder) (front : Bool)
    (parentIdx : Nat) (name : Src) (cchNm ty cb : Nat) (data : Option Src)
    (g : Nat → Nat)
    (hroot : b.pods ≠ [])
    (hpar : isCompositeType (typeAt b.pods parentIdx) = true)
    (hpar3 : parentIdx + 3 ≤ b.pods.length)
    (hlast : auxAt b.pods parentIdx < b.pods.length)
    (hfirst : firstChild b.pods parentIdx < b.pods.length)
    (hnameOk : SrcOk b.pods cchNm name)
    (hdataOk : ∀ d, data = some d → SrcOk b.pods cb d)
    (hname : cchNm ≤ nameMax) (hdata : cb ≤ dataMax)
    (hty : isCompositeType (ty % 2 ^ 8) = false)
    (hsz : b.pods.length + dataOffsetOf cchNm + (cb + 3) / 4 ≤ maxSize) :
    (addValue b front parentIdx name cchNm ty cb data g).1
        = .ok b.pods.length
      ∧ nameBytes (addValue b front parentIdx name cchNm ty cb data g).2.pods
          b.pods.length
        = resolveSrc b.pods 0 false g cchNm name
      ∧ (∀ d, data = some d →
          dataBytes (addValue b front parentIdx name cchNm ty cb
              data g).2.pods b.pods.length
            = resolveSrc b.pods 0 false g cb d)
      ∧ (∀ offN, name = .arena offN →
          nameBytes (addValue b front parentIdx name cchNm ty cb
              data g).2.pods b.pods.length
            = byteSlice b.pods offN cchNm)
      ∧ (∀ offD, data = some (.arena offD) →
          dataBytes (addValue b front parentIdx name cchNm ty cb
              data g).2.pods b.pods.length
            = byteSlice b.pods offD cb) := by
  obtain ⟨c, PD, hc, hPD⟩ := createValue_canonical b name data cchNm ty cb g
    hnameOk hdataOk hname hdata hty hsz
  have hcch : cchNm < 2 ^ 24 := lt_of_le_of_lt hname (by norm_num [nameMax])
  have key : ∃ (A : Storage) (h0 : Nat), A.length = b.pods.length ∧
      addValue b front parentIdx name cchNm ty cb data g
        = (.ok b.pods.length,
           { pods := A ++ (h0 :: (cchNm + ty % 2 ^ 8 * 2 ^ 24) :: cb ::
               (podsOfBytes (resolveSrc b.pods 0 false g cchNm name) ++ PD)),
             cap := c }) := by
    unfold addValue
    rw [ensureRoot_nonempty b g hroot]
    dsimp only
    rw [if_neg (not_not_intro hpar)]
    rw [hc]
    dsimp only
    have hfc : firstChild (b.pods ++ (0 :: (cchNm + ty % 2 ^ 8 * 2 ^ 24) ::
        cb :: (podsOfBytes (resolveSrc b.pods 0 false g cchNm name) ++ PD)))
        parentIdx = firstChild b.pods parentIdx := by
      unfold firstChild cchNameAt
      rw [podAt_append_left _ _ (parentIdx + 1) (by omega)]
    have hax : auxAt (b.pods ++ (0 :: (cchNm + ty % 2 ^ 8 * 2 ^ 24) ::
        cb :: (podsOfBytes (resolveSrc b.pods 0 false g cchNm name) ++ PD)))
        parentIdx = auxAt b.pods parentIdx :=
      auxAt_append_left _ _ parentIdx (by omega)
    cases front with
    | false =>
      simp only [Bool.false_eq_true, if_false]
      rw [hax]
      unfold setAux setNext
      rw [setPod_append_left b.pods _ (parentIdx + 2) _ (by omega)]
      rw [setPod_append_right (setPod b.pods (parentIdx + 2)
          (b.pods.length % 2 ^ 32)) _ b.pods.length _ (by simp [setPod]),
        show b.pods.length - (setPod b.pods (parentIdx + 2)
          (b.pods.length % 2 ^ 32)).length = 0 from by simp [setPod]]
      rw [setPod_cons_zero]
      rw [setPod_append_left _ _ (auxAt b.pods parentIdx) _
        (by simp only [setPod, List.length_set]; omega)]
      refine ⟨_, _, ?_, rfl⟩
      simp [setPod]
    | true =>
      simp only [if_true]
      rw [hfc, hax]
      by_cases hfl : firstChild b.pods parentIdx = auxAt b.pods parentIdx
      · rw [if_pos hfl]
        unfold setAux setNext
        rw [setPod_append_left b.pods _ (parentIdx + 2) _ (by omega)]
        rw [setPod_append_right (setPod b.pods (parentIdx + 2)
            (b.pods.length % 2 ^ 32)) _ b.pods.length _ (by simp [setPod]),
          show b.pods.length - (setPod b.pods (parentIdx + 2)
            (b.pods.length % 2 ^ 32)).length = 0 from by simp [setPod]]
        rw [setPod_cons_zero]
        rw [setPod_append_left _ _ (firstChild b.pods parentIdx) _
          (by simp only [setPod, List.length_set]; omega)]
        refine ⟨_, _, ?_, rfl⟩
        simp [setPod]
      · rw [if_neg hfl]
        unfold setNext
        rw [setPod_append_right b.pods _ b.pods.length _ (le_refl _),
          Nat.sub_self]
        rw [setPod_cons_zero]
        rw [setPod_append_left _ _ (firstChild b.pods parentIdx) _ (by omega)]
        refine ⟨_, _, ?_, rfl⟩
        simp [setPod]
  obtain ⟨A, h0, hA, heq⟩ := key
  have hNMlen : (resolveSrc b.pods 0 false g cchNm name).length = cchNm :=
    length_resolveSrc _ _ _ _ _ _
  have hNM256 := resolveSrc_mem_lt256 b.pods g cchNm name hnameOk
  have hnm : nameBytes (addValue b front parentIdx name cchNm ty cb
      data g).2.pods b.pods.length
      = resolveSrc b.pods 0 false g cchNm name := by
    rw [heq]
    have h := nameBytes_layout_any A h0 cchNm (ty % 2 ^ 8) cb _ PD hNMlen
      hNM256 hcch
    rw [hA] at h
    exact h
  have hdb : ∀ d, data = some d →
      dataBytes (addValue b front parentIdx name cchNm ty cb
        data g).2.pods b.pods.length
      = resolveSrc b.pods 0 false g cb d := by
    intro d hd
    rw [heq, hPD d hd]
    have h := dataBytes_layout A h0 cchNm (ty % 2 ^ 8) cb _ _ hNMlen
      (length_resolveSrc _ _ _ _ _ _)
      (resolveSrc_mem_lt256 b.pods g cb d (hdataOk d hd)) hcch
    rw [hA] at h
    exact h
  refine ⟨by rw [heq], hnm, hdb, ?_, ?_⟩
  · intro offN hN
    subst hN
    obtain ⟨k1, k2, k3⟩ := hnameOk
    rw [hnm]
    show padTo cchNm (byteSlice b.pods offN cchNm)
      = byteSlice b.pods offN cchNm
    exact padTo_eq_self _ _ (length_byteSlice_of_le _ _ _ k3)
  · intro offD hD
    obtain ⟨k1, k2, k3⟩ := hdataOk (.arena offD) hD
    rw [hdb (.arena offD) hD]
    show padTo cb (byteSlice b.pods offD cb) = byteSlice b.pods offD cb
    exact padTo_eq_self _ _ (length_byteSlice_of_le _ _ _ k3)

/-- Witness for C5 at a concrete input: on `exYBuilder`, a `push_front`
insertion whose name aliases the stored name of node 5 (byte offset 32) and
whose payload aliases its stored payload (byte offset 36) commits exactly
those bytes. -/
theorem addValue_alias_rebase_witness :
    (exYBuilder.pods ≠ [] ∧ 0 < 32 ∧ 32 + 1 ≤ 4 * exYBuilder.pods.length
      ∧ 0 < 36 ∧ 36 + 2 ≤ 4 * exYBuilder.pods.length) ∧
    ((addValue exYBuilder true 0 (.arena 32) 1 jsonUtf8 2
        (some (.arena 36)) gzero).1 = .ok exYBuilder.pods.length
      ∧ nameBytes (addValue exYBuilder true 0 (.arena 32) 1 jsonUtf8 2
          (some (.arena 36)) gzero).2.pods exYBuilder.pods.length
        = byteSlice exYBuilder.pods 32 1
      ∧ dataBytes (addValue exYBuilder true 0 (.arena 32) 1 jsonUtf8 2
          (some (.arena 36)) gzero).2.pods exYBuilder.pods.length
        = byteSlice exYBuilder.pods 36 2) :=
  have h := addValue_alias_rebase exYBuilder true 0 (.arena 32) 1 jsonUtf8 2
    (some (.arena 36)) gzero
    (by decide) (by decide) (by decide) (by decide) (by decide)
    ⟨by decide, by decide, by decide⟩
    (fun d hd => by
      injection hd with hd
      subst hd
      exact ⟨by decide, by decide, by decide⟩)
    (by decide) (by decide) (by decide) (by decide)
  ⟨⟨by decide, by decide, by decide, by decide, by decide⟩,
   h.1, h.2.2.2.1 32 rfl, h.2.2.2.2 36 rfl⟩

end JsonBuilderModel
